import Mathlib

/-!
Imger: verification of the resampling engine

A shallow embedding of `resize/resize.go`, `threshold/threshold.go`,
`padding/padding.go`, `blend/blend.go`, the neighbour functions of `thin/thin.go`
and `utils/helpers.go`.

Modelling conventions.

* `float64` arithmetic is embedded twice.  The definitions in the namespace
  `Machine`, and `AddGrayWeighted`, use IEEE 754 binary64 arithmetic: every
  operation returns its exact result rounded to nearest, ties to even
  (`F64.round`), with overflow to the infinities and NaN; operations are not
  fused, and `int(f)` of a value outside the range of `int` is `-2^63`, as on
  amd64.  `Machine.NewGray` and `Machine.NewRGBA` keep the panic of the standard
  library on a buffer whose byte count does not fit an `int`.  Claims about
  sizes, window bounds, stored values and constant images are stated on these
  definitions.
  The definitions outside `Machine` (`ResizeGray`, `newLength`, `sourceCoord`,
  `windowStart`, `windowStop`, `quantize`, ...) take the same code with exact
  rational arithmetic; they carry the relational properties (identity scale,
  channel independence, origin independence, transposition), which do not
  depend on the rounding of single operations.
* `int` is modelled by `Int` (no overflow); `uint8` samples are natural
  numbers, produced by explicit conversions.  The one place where the code
  adds a caller-supplied `int` to a sample (`blend.AddScalarToGray`) keeps the
  64-bit wrap-around, through `wrapInt`.
* `image.Gray` and `image.RGBA` (standard library) are modelled by their
  bounds and a sample function on absolute coordinates; `GrayAt`/`SetGray`
  keep the standard library's bounds check.
* Loops that mutate the result image are folds that pass the image along.
-/

namespace Imger

/-! ## Standard-library geometry -/

/-- Go `image.Point`. -/
structure Point where
  X : Int
  Y : Int
deriving DecidableEq, Repr

/-- Go `image.Rectangle`: the points with `Min.X ≤ x < Max.X`, `Min.Y ≤ y < Max.Y`. -/
structure Rectangle where
  Min : Point
  Max : Point
deriving DecidableEq, Repr

/-- Go `image.Rect`: the rectangle with the given corners, made well formed by swapping. -/
def Rect (x0 y0 x1 y1 : Int) : Rectangle :=
  let (x0, x1) := if x0 > x1 then (x1, x0) else (x0, x1)
  let (y0, y1) := if y0 > y1 then (y1, y0) else (y0, y1)
  ⟨⟨x0, y0⟩, ⟨x1, y1⟩⟩

/-- Go `Rectangle.Size`. -/
def Rectangle.Size (r : Rectangle) : Point :=
  ⟨r.Max.X - r.Min.X, r.Max.Y - r.Min.Y⟩

/-- Go `Point.In`: membership of the point `(x, y)` in a rectangle. -/
def Rectangle.Contains (r : Rectangle) (x y : Int) : Prop :=
  r.Min.X ≤ x ∧ x < r.Max.X ∧ r.Min.Y ≤ y ∧ y < r.Max.Y

instance (r : Rectangle) (x y : Int) : Decidable (r.Contains x y) := by
  unfold Rectangle.Contains; infer_instance

/-- A rectangle is well formed when `Min ≤ Max` on both axes. -/
def Rectangle.WellFormed (r : Rectangle) : Prop :=
  r.Min.X ≤ r.Max.X ∧ r.Min.Y ≤ r.Max.Y

instance (r : Rectangle) : Decidable r.WellFormed := by
  unfold Rectangle.WellFormed; infer_instance

/-! ## Single-channel images -/

/-- Go `image.Gray`: bounds and 8-bit samples addressed by absolute coordinates. -/
structure Gray where
  Pix : Int → Int → Nat
  Rect : Rectangle

/-- Go `image.NewGray`: a zero-filled image with the given bounds, when the buffer is
allocated (`Machine.NewGray` adds the panic on a size that does not fit an `int`). -/
def NewGray (r : Rectangle) : Gray := ⟨fun _ _ => 0, r⟩

/-- Go `(*Gray).Bounds`. -/
def Gray.Bounds (img : Gray) : Rectangle := img.Rect

/-- Go `(*Gray).GrayAt`: the sample at `(x, y)`, or the zero colour outside the bounds. -/
def Gray.GrayAt (img : Gray) (x y : Int) : Nat :=
  if img.Rect.Contains x y then img.Pix x y else 0

/-- Go `(*Gray).SetGray`: stores a sample; a point outside the bounds is ignored. -/
def Gray.SetGray (img : Gray) (x y : Int) (c : Nat) : Gray :=
  if img.Rect.Contains x y then
    ⟨fun x1 y1 => if x1 = x ∧ y1 = y then c else img.Pix x1 y1, img.Rect⟩
  else img

/-- Every stored sample fits in 8 bits. -/
def Gray.Valid (img : Gray) : Prop := ∀ x y, img.Pix x y ≤ 255

/-- The image with origin `(0,0)` whose rows are the given lists of equal length `w`. -/
def Gray.ofRows (w : Nat) (rows : List (List Nat)) : Gray :=
  ⟨fun x y => (rows.getD y.toNat []).getD x.toNat 0, Imger.Rect 0 0 w rows.length⟩

/-- The samples of an image, row by row, read through `GrayAt`. -/
def Gray.rows (img : Gray) : List (List Nat) :=
  (List.range img.Rect.Size.Y.toNat).map fun j =>
    (List.range img.Rect.Size.X.toNat).map fun i =>
      img.GrayAt (img.Rect.Min.X + i) (img.Rect.Min.Y + j)

/-! ## Four-channel images -/

/-- Go `color.RGBA`. -/
structure ColorRGBA where
  R : Nat
  G : Nat
  B : Nat
  A : Nat
deriving DecidableEq, Repr

/-- Go `image.RGBA`: bounds and 8-bit R, G, B, A samples addressed by absolute coordinates. -/
structure RGBA where
  Pix : Int → Int → ColorRGBA
  Rect : Rectangle

/-- Go `image.NewRGBA`: a zero-filled image with the given bounds, when the buffer is
allocated (`Machine.NewRGBA` adds the panic on a size that does not fit an `int`). -/
def NewRGBA (r : Rectangle) : RGBA := ⟨fun _ _ => ⟨0, 0, 0, 0⟩, r⟩

/-- Go `(*RGBA).Bounds`. -/
def RGBA.Bounds (img : RGBA) : Rectangle := img.Rect

/-- Go `(*RGBA).RGBAAt`: the pixel at `(x, y)`, or the zero colour outside the bounds. -/
def RGBA.RGBAAt (img : RGBA) (x y : Int) : ColorRGBA :=
  if img.Rect.Contains x y then img.Pix x y else ⟨0, 0, 0, 0⟩

/-- Go `(*RGBA).SetRGBA`: stores a pixel; a point outside the bounds is ignored. -/
def RGBA.SetRGBA (img : RGBA) (x y : Int) (c : ColorRGBA) : RGBA :=
  if img.Rect.Contains x y then
    ⟨fun x1 y1 => if x1 = x ∧ y1 = y then c else img.Pix x1 y1, img.Rect⟩
  else img

/-- Every stored channel value fits in 8 bits. -/
def RGBA.Valid (img : RGBA) : Prop :=
  ∀ x y, (img.Pix x y).R ≤ 255 ∧ (img.Pix x y).G ≤ 255 ∧ (img.Pix x y).B ≤ 255 ∧ (img.Pix x y).A ≤ 255

/-- The four channels of a pixel. -/
inductive Channel where
  | R
  | G
  | B
  | A
deriving DecidableEq, Repr

/-- The value of one channel of a colour. -/
def ColorRGBA.get (c : ColorRGBA) : Channel → Nat
  | .R => c.R
  | .G => c.G
  | .B => c.B
  | .A => c.A

/-- The single-channel image made of one channel of a four-channel image. -/
def RGBA.channel (img : RGBA) (ch : Channel) : Gray :=
  ⟨fun x y => (img.Pix x y).get ch, img.Rect⟩

/-- The four-channel image with origin `(0,0)` whose rows are the given lists of equal length `w`. -/
def RGBA.ofRows (w : Nat) (rows : List (List ColorRGBA)) : RGBA :=
  ⟨fun x y => (rows.getD y.toNat []).getD x.toNat ⟨0, 0, 0, 0⟩, Imger.Rect 0 0 w rows.length⟩

/-- The pixels of a four-channel image, row by row, read through `RGBAAt`. -/
def RGBA.rows (img : RGBA) : List (List ColorRGBA) :=
  (List.range img.Rect.Size.Y.toNat).map fun j =>
    (List.range img.Rect.Size.X.toNat).map fun i =>
      img.RGBAAt (img.Rect.Min.X + i) (img.Rect.Min.Y + j)

/-- A 3x2 single-channel view with origin `(5,7)`, used as a concrete input. -/
def exampleGray : Gray := ⟨fun x y => ((x + 2 * y) % 256).toNat, ⟨⟨5, 7⟩, ⟨8, 9⟩⟩⟩

/-- A 3x2 four-channel view with origin `(-1,2)`, used as a concrete input. -/
def exampleRGBA : RGBA :=
  ⟨fun x y => ⟨(x % 256).toNat, (y % 256).toNat, 7, 255⟩, ⟨⟨-1, 2⟩, ⟨2, 4⟩⟩⟩

/-! ## utils/helpers.go -/

/-- Go `utils.ClampInt`. -/
def ClampInt (value min max : Int) : Int :=
  if value < min then min
  else if value > max then max
  else value

/-- A `for i := 0; i < n; i++` loop passing its state along. -/
def forRange {σ : Type} (n : Int) (body : Int → σ → σ) (s : σ) : σ :=
  (List.range n.toNat).foldl (fun s (i : Nat) => body (i : Int) s) s

/-- A `for i := start; i < stop; i++` loop passing its state along. -/
def forFromTo {σ : Type} (start stop : Int) (body : Int → σ → σ) (s : σ) : σ :=
  (List.range (stop - start).toNat).foldl (fun s (k : Nat) => body (start + (k : Int)) s) s

/-- Go `utils.IteratePixels` (sequential version): rows outermost. -/
def IteratePixels {σ : Type} (size : Point) (f : Int → Int → σ → σ) (s : σ) : σ :=
  forRange size.Y (fun y s => forRange size.X (fun x s => f x y s) s) s

/-! ## Conversions of floating-point values -/

/-- Go `int(f)` for a finite `f`: truncation toward zero. -/
def toInt (q : ℚ) : Int := if 0 ≤ q then ⌊q⌋ else ⌈q⌉

/-- Go `math.Round`: nearest integer, halves away from zero. -/
def mathRound (q : ℚ) : ℚ := if 0 ≤ q then ((⌊q + 1/2⌋ : Int) : ℚ) else ((⌈q - 1/2⌉ : Int) : ℚ)

/-- Go `math.Ceil`. -/
def mathCeil (q : ℚ) : ℚ := ((⌈q⌉ : Int) : ℚ)

/-! ## Floating-point quotient, clamp and conversion to a sample -/

/-- Results of a `float64` division: a finite value or an IEEE special value. -/
inductive F64 where
  | fin (q : ℚ)
  | posInf
  | negInf
  | nan
deriving DecidableEq

/-- Go `a / b` on finite `float64` operands, the quotient taken exactly (`F64.fdiv` rounds
it); the divisor, when zero, is `+0` (an accumulator that starts at `+0` never becomes
`-0`). -/
def F64.div (a b : ℚ) : F64 :=
  if b = 0 then
    if a = 0 then .nan else if 0 < a then .posInf else .negInf
  else .fin (a / b)

/-- Go `a + b` with a finite `b`, the sum taken exactly (`F64.fadd` rounds it). -/
def F64.add (a : F64) (b : ℚ) : F64 :=
  match a with
  | .fin q => .fin (q + b)
  | .posInf => .posInf
  | .negInf => .negInf
  | .nan => .nan

/-- Go `value < bound` with a finite `bound`; false on NaN. -/
def F64.ltQ (value : F64) (bound : ℚ) : Bool :=
  match value with
  | .fin q => decide (q < bound)
  | .posInf => false
  | .negInf => true
  | .nan => false

/-- Go `value > bound` with a finite `bound`; false on NaN. -/
def F64.gtQ (value : F64) (bound : ℚ) : Bool :=
  match value with
  | .fin q => decide (q > bound)
  | .posInf => true
  | .negInf => false
  | .nan => false

/-- Go `utils.ClampF64`. -/
def ClampF64 (value : F64) (min max : ℚ) : F64 :=
  if value.ltQ min then .fin min
  else if value.gtQ max then .fin max
  else value

/-- Go `uint8(f)`: truncation toward zero, kept to 8 bits.  Go leaves the result
for a value that `uint8` cannot represent implementation-dependent; the special
values are sent to 0, as the amd64 and arm64 compilers do. -/
def toUint8 (f : F64) : Nat :=
  match f with
  | .fin q => (toInt q % 256).toNat
  | .posInf => 0
  | .negInf => 0
  | .nan => 0

/-! ## Rounded `float64` arithmetic

IEEE 754 binary64 with round-to-nearest, ties-to-even: a finite value is an integer
multiple `m * 2^e` with `|m| < 2^53` and `-1074 ≤ e`, below `2^1024` in magnitude.  Each
operation returns the rounding of its exact result, none is fused with another (as the
compiler does for the baseline amd64 target).  The sign of zero is not tracked: with
positive scale factors no operation of the embedded code depends on it. -/

/-- The power `2^e` for an integer exponent. -/
def pow2 (e : Int) : ℚ :=
  if 0 ≤ e then ((2 ^ e.toNat : Nat) : ℚ) else 1 / ((2 ^ (-e).toNat : Nat) : ℚ)

/-- Worker of `ilog2`: the number of halvings that bring `n` below 2. -/
def log2Aux : Nat → Nat → Nat
  | 0, _ => 0
  | fuel + 1, n => if n < 2 then 0 else log2Aux fuel (n / 2) + 1

/-- The integer binary logarithm `⌊log2 n⌋` of `n ≥ 1` (and 0 for `n = 0`). -/
def ilog2 (n : Nat) : Nat := log2Aux n n

/-- The binary exponent `⌊log2 |q|⌋` of a non-zero rational. -/
def binExp (q : ℚ) : Int :=
  let e0 : Int := (ilog2 q.num.natAbs : Int) - (ilog2 q.den : Int)
  if pow2 e0 ≤ |q| then e0 else e0 - 1

/-- The nearest integer, a tie going to the even neighbour. -/
def roundHalfEven (m : ℚ) : Int :=
  let f := ⌊m⌋
  if m - f < 1 / 2 then f
  else if 1 / 2 < m - f then f + 1
  else if f % 2 = 0 then f else f + 1

/-- The distance between neighbouring binary64 values around `q`: `2^(e-52)` for the
binary exponent `e` of `q`, and `2^(-1074)` in the subnormal range. -/
def ulp (q : ℚ) : ℚ := pow2 (max (binExp q) (-1022) - 52)

/-- The binary64 value nearest to the exact result `q` (ties to even); a result that
rounds to `2^1024` or beyond in magnitude overflows to an infinity. -/
def F64.round (q : ℚ) : F64 :=
  if q = 0 then .fin 0
  else
    let r := (roundHalfEven (q / ulp q) : ℚ) * ulp q
    if pow2 1024 ≤ r then .posInf
    else if r ≤ -pow2 1024 then .negInf
    else .fin r

/-- The value nearest to `q` on the grid of spacing `ulp q`, a tie going to the even
multiple: the rounding of `q` before the overflow test of `F64.round`. -/
def nearest (q : ℚ) : ℚ := (roundHalfEven (q / ulp q) : ℚ) * ulp q

/-- Go unary `-x`. -/
def F64.neg (a : F64) : F64 :=
  match a with
  | .fin x => .fin (-x)
  | .posInf => .negInf
  | .negInf => .posInf
  | .nan => .nan

/-- Go `math.Abs`. -/
def F64.abs (a : F64) : F64 :=
  match a with
  | .fin x => .fin |x|
  | .posInf => .posInf
  | .negInf => .posInf
  | .nan => .nan

/-- Go `x + y` on `float64` operands. -/
def F64.fadd (a b : F64) : F64 :=
  match a, b with
  | .fin x, .fin y => F64.round (x + y)
  | .nan, _ => .nan
  | _, .nan => .nan
  | .posInf, .negInf => .nan
  | .negInf, .posInf => .nan
  | .posInf, _ => .posInf
  | _, .posInf => .posInf
  | .negInf, _ => .negInf
  | _, .negInf => .negInf

/-- Go `x - y` on `float64` operands. -/
def F64.fsub (a b : F64) : F64 := F64.fadd a (F64.neg b)

/-- The infinity with the sign of `x * y` for a finite non-zero `x` and an infinite `y`
of sign `s` (`true` for positive); NaN for `x = 0`. -/
def F64.signedInf (x : ℚ) (s : Bool) : F64 :=
  if x = 0 then .nan
  else if (decide (0 < x)) = s then .posInf else .negInf

/-- Go `x * y` on `float64` operands. -/
def F64.fmul (a b : F64) : F64 :=
  match a, b with
  | .fin x, .fin y => F64.round (x * y)
  | .nan, _ => .nan
  | _, .nan => .nan
  | .fin x, .posInf => F64.signedInf x true
  | .fin x, .negInf => F64.signedInf x false
  | .posInf, .fin y => F64.signedInf y true
  | .negInf, .fin y => F64.signedInf y false
  | .posInf, .posInf => .posInf
  | .posInf, .negInf => .negInf
  | .negInf, .posInf => .negInf
  | .negInf, .negInf => .posInf

/-- Go `x / y` on `float64` operands; a zero divisor is `+0`. -/
def F64.fdiv (a b : F64) : F64 :=
  match a, b with
  | .fin x, .fin y =>
    if y = 0 then
      if x = 0 then .nan else if 0 < x then .posInf else .negInf
    else F64.round (x / y)
  | .nan, _ => .nan
  | _, .nan => .nan
  | .fin _, .posInf => .fin 0
  | .fin _, .negInf => .fin 0
  | .posInf, .fin y => if 0 ≤ y then .posInf else .negInf
  | .negInf, .fin y => if 0 ≤ y then .negInf else .posInf
  | .posInf, .posInf => .nan
  | .posInf, .negInf => .nan
  | .negInf, .posInf => .nan
  | .negInf, .negInf => .nan

/-- Go `x < y` on `float64` operands; false when an operand is NaN. -/
def F64.lt (a b : F64) : Bool :=
  match a, b with
  | .fin x, .fin y => decide (x < y)
  | .nan, _ => false
  | _, .nan => false
  | .negInf, .negInf => false
  | .negInf, _ => true
  | _, .negInf => false
  | .posInf, _ => false
  | _, .posInf => true

/-- Go `math.Max`: NaN if an operand is NaN. -/
def F64.max (a b : F64) : F64 :=
  match a, b with
  | .nan, _ => .nan
  | _, .nan => .nan
  | .posInf, _ => .posInf
  | _, .posInf => .posInf
  | .negInf, y => y
  | x, .negInf => x
  | .fin x, .fin y => .fin (Max.max x y)

/-- Go `float64(n)` for an integer `n`: the nearest binary64 value. -/
def F64.ofInt (n : Int) : F64 := F64.round (n : ℚ)

/-- Go `int(f)` on a 64-bit platform.  Go leaves the result for a value outside the range
of `int` implementation-dependent; the amd64 conversion instruction returns `-2^63`. -/
def F64.toInt (f : F64) : Int :=
  match f with
  | .fin q => if -(2 : ℚ) ^ 63 ≤ q ∧ q < (2 : ℚ) ^ 63 then Imger.toInt q else -(2 ^ 63)
  | .posInf => -(2 ^ 63)
  | .negInf => -(2 ^ 63)
  | .nan => -(2 ^ 63)

/-- Go `math.Ceil` on a `float64`: exact, the special values are returned unchanged. -/
def F64.ceil (f : F64) : F64 :=
  match f with
  | .fin q => .fin (mathCeil q)
  | .posInf => .posInf
  | .negInf => .negInf
  | .nan => .nan

/-- Go `math.Round` on a `float64`: exact, the special values are returned unchanged. -/
def F64.mathRound (f : F64) : F64 :=
  match f with
  | .fin q => .fin (Imger.mathRound q)
  | .posInf => .posInf
  | .negInf => .negInf
  | .nan => .nan

/-! ## resize/filters.go (not part of the sources at hand) -/

/-- Go interface `Filter`: a weight function and a support radius. -/
structure Filter where
  Interpolate : ℚ → ℚ
  GetS : ℚ

/-- Modelled from the spec: `NewLinear()` of `resize/filters.go`, which is missing here.
"Linear: triangular weight, weight(d) = max(0, 1 - |d|); support radius 1.0." -/
def NewLinear : Filter := ⟨fun d => max 0 (1 - |d|), 1⟩

/-! ## resize/resize.go -/

/-- Go type `Interpolation` (an `int`). -/
abbrev Interpolation := Int

/-- Go constant `InterNearest`. -/
def InterNearest : Interpolation := 0
/-- Go constant `InterLinear`. -/
def InterLinear : Interpolation := 1
/-- Go constant `InterCatmullRom`. -/
def InterCatmullRom : Interpolation := 2
/-- Go constant `InterLanczos`. -/
def InterLanczos : Interpolation := 3

/-- Go `resizeNearestGray`. -/
def resizeNearestGray (img : Gray) (fx fy : ℚ) : Except String Gray :=
  let oldSize := img.Bounds.Size
  let oldOffset := img.Bounds.Min
  let newSize : Point := ⟨toInt ((oldSize.X : ℚ) * fx), toInt ((oldSize.Y : ℚ) * fy)⟩
  let res := NewGray (Rect 0 0 newSize.X newSize.Y)
  let res := IteratePixels newSize (fun x y res =>
    let oldX := toInt (mathRound ((x : ℚ) / fx)) + oldOffset.X
    let oldY := toInt (mathRound ((y : ℚ) / fy)) + oldOffset.Y
    res.SetGray x y (img.GrayAt oldX oldY)) res
  .ok res

/-- Go `resizeHorizontalGray`. -/
def resizeHorizontalGray (img : Gray) (fx : ℚ) (filter : Filter) : Except String Gray :=
  let originalSize := img.Bounds.Size
  let offset := img.Bounds.Min
  let newWidth := toInt ((originalSize.X : ℚ) * fx)
  let res := NewGray (Rect 0 0 newWidth originalSize.Y)
  let dfx := 1 / fx
  let radius := mathCeil (fx * filter.GetS)
  let res := forRange originalSize.Y (fun y res =>
    forRange newWidth (fun x res =>
      let ix := ((x : ℚ) + 1/2) * dfx - 1/2
      let start := ClampInt (toInt (ix - radius + 1/2)) 0 originalSize.X
      let stop := ClampInt (toInt (ix + radius)) 0 originalSize.X
      let acc := forFromTo start stop (fun i (acc : ℚ × ℚ) =>
        let filterValue := filter.Interpolate ((i : ℚ) - ix) / fx
        let pix := img.GrayAt (i + offset.X) (y + offset.Y)
        (acc.1 + (pix : ℚ) * filterValue, acc.2 + filterValue)) (0, 0)
      res.SetGray x y (toUint8 (ClampF64 (F64.add (F64.div acc.1 acc.2) (1/2)) 0 255))) res) res
  .ok res

/-- Go `resizeVerticalGray`. -/
def resizeVerticalGray (img : Gray) (fy : ℚ) (filter : Filter) : Except String Gray :=
  let originalSize := img.Bounds.Size
  let offset := img.Bounds.Min
  let newHeight := toInt ((originalSize.Y : ℚ) * fy)
  let res := NewGray (Rect 0 0 originalSize.X newHeight)
  let dfy := 1 / fy
  let radius := mathCeil (fy * filter.GetS)
  let res := forRange newHeight (fun y res =>
    let iy := ((y : ℚ) + 1/2) * dfy - 1/2
    let start := ClampInt (toInt (iy - radius + 1/2)) 0 originalSize.Y
    let stop := ClampInt (toInt (iy + radius)) 0 originalSize.Y
    forRange originalSize.X (fun x res =>
      let acc := forFromTo start stop (fun i (acc : ℚ × ℚ) =>
        let filterValue := filter.Interpolate ((i : ℚ) - iy) / fy
        let pix := img.GrayAt (x + offset.X) (i + offset.Y)
        (acc.1 + (pix : ℚ) * filterValue, acc.2 + filterValue)) (0, 0)
      res.SetGray x y (toUint8 (ClampF64 (F64.add (F64.div acc.1 acc.2) (1/2)) 0 255))) res) res
  .ok res

/-- Go `resizeLinearGray`. -/
def resizeLinearGray (img : Gray) (fx fy : ℚ) : Except String Gray :=
  match resizeHorizontalGray img fx NewLinear with
  | .error err => .error err
  | .ok res =>
    match resizeVerticalGray res fy NewLinear with
    | .error err => .error err
    | .ok res => .ok res

/-- Go `resizeCatmullRomGray`; the filter `NewCatmullRom()` is a parameter. -/
def resizeCatmullRomGray (NewCatmullRom : Filter) (img : Gray) (fx fy : ℚ) : Except String Gray :=
  match resizeHorizontalGray img fx NewCatmullRom with
  | .error err => .error err
  | .ok res =>
    match resizeVerticalGray res fy NewCatmullRom with
    | .error err => .error err
    | .ok res => .ok res

/-- Go `resizeLanczosGray`; the filter `NewLanczos()` is a parameter. -/
def resizeLanczosGray (NewLanczos : Filter) (img : Gray) (fx fy : ℚ) : Except String Gray :=
  match resizeHorizontalGray img fx NewLanczos with
  | .error err => .error err
  | .ok res =>
    match resizeVerticalGray res fy NewLanczos with
    | .error err => .error err
    | .ok res => .ok res

/-- Go `resizeNearestRGBA`. -/
def resizeNearestRGBA (img : RGBA) (fx fy : ℚ) : Except String RGBA :=
  let oldSize := img.Bounds.Size
  let oldOffset := img.Bounds.Min
  let newSize : Point := ⟨toInt ((oldSize.X : ℚ) * fx), toInt ((oldSize.Y : ℚ) * fy)⟩
  let res := NewRGBA (Rect 0 0 newSize.X newSize.Y)
  let res := IteratePixels newSize (fun x y res =>
    let oldX := toInt (mathRound ((x : ℚ) / fx)) + oldOffset.X
    let oldY := toInt (mathRound ((y : ℚ) / fy)) + oldOffset.Y
    res.SetRGBA x y (img.RGBAAt oldX oldY)) res
  .ok res

/-- The accumulators `fPixR, fPixG, fPixB, fPixA, sum` of the four-channel passes. -/
structure AccRGBA where
  fPixR : ℚ
  fPixG : ℚ
  fPixB : ℚ
  fPixA : ℚ
  sum : ℚ

/-- Go `resizeHorizontalRGBA`. -/
def resizeHorizontalRGBA (img : RGBA) (fx : ℚ) (filter : Filter) : Except String RGBA :=
  let originalSize := img.Bounds.Size
  let offset := img.Bounds.Min
  let newWidth := toInt ((originalSize.X : ℚ) * fx)
  let res := NewRGBA (Rect 0 0 newWidth originalSize.Y)
  let dfx := 1 / fx
  let radius := mathCeil (fx * filter.GetS)
  let res := forRange originalSize.Y (fun y res =>
    forRange newWidth (fun x res =>
      let ix := ((x : ℚ) + 1/2) * dfx - 1/2
      let start := ClampInt (toInt (ix - radius + 1/2)) 0 originalSize.X
      let stop := ClampInt (toInt (ix + radius)) 0 originalSize.X
      let acc := forFromTo start stop (fun i (acc : AccRGBA) =>
        let filterValue := filter.Interpolate ((i : ℚ) - ix) / fx
        let pix := img.RGBAAt (i + offset.X) (y + offset.Y)
        { fPixR := acc.fPixR + (pix.R : ℚ) * filterValue
          fPixG := acc.fPixG + (pix.G : ℚ) * filterValue
          fPixB := acc.fPixB + (pix.B : ℚ) * filterValue
          fPixA := acc.fPixA + (pix.A : ℚ) * filterValue
          sum := acc.sum + filterValue }) ⟨0, 0, 0, 0, 0⟩
      res.SetRGBA x y
        { R := toUint8 (ClampF64 (F64.add (F64.div acc.fPixR acc.sum) (1/2)) 0 255)
          G := toUint8 (ClampF64 (F64.add (F64.div acc.fPixG acc.sum) (1/2)) 0 255)
          B := toUint8 (ClampF64 (F64.add (F64.div acc.fPixB acc.sum) (1/2)) 0 255)
          A := toUint8 (ClampF64 (F64.add (F64.div acc.fPixA acc.sum) (1/2)) 0 255) }) res) res
  .ok res

/-- Go `resizeVerticalRGBA`. -/
def resizeVerticalRGBA (img : RGBA) (fy : ℚ) (filter : Filter) : Except String RGBA :=
  let originalSize := img.Bounds.Size
  let offset := img.Bounds.Min
  let newHeight := toInt ((originalSize.Y : ℚ) * fy)
  let res := NewRGBA (Rect 0 0 originalSize.X newHeight)
  let dfy := 1 / fy
  let radius := mathCeil (fy * filter.GetS)
  let res := forRange newHeight (fun y res =>
    let iy := ((y : ℚ) + 1/2) * dfy - 1/2
    let start := ClampInt (toInt (iy - radius + 1/2)) 0 originalSize.Y
    let stop := ClampInt (toInt (iy + radius)) 0 originalSize.Y
    forRange originalSize.X (fun x res =>
      let acc := forFromTo start stop (fun i (acc : AccRGBA) =>
        let filterValue := filter.Interpolate ((i : ℚ) - iy) / fy
        let pix := img.RGBAAt (x + offset.X) (i + offset.Y)
        { fPixR := acc.fPixR + (pix.R : ℚ) * filterValue
          fPixG := acc.fPixG + (pix.G : ℚ) * filterValue
          fPixB := acc.fPixB + (pix.B : ℚ) * filterValue
          fPixA := acc.fPixA + (pix.A : ℚ) * filterValue
          sum := acc.sum + filterValue }) ⟨0, 0, 0, 0, 0⟩
      res.SetRGBA x y
        { R := toUint8 (ClampF64 (F64.add (F64.div acc.fPixR acc.sum) (1/2)) 0 255)
          G := toUint8 (ClampF64 (F64.add (F64.div acc.fPixG acc.sum) (1/2)) 0 255)
          B := toUint8 (ClampF64 (F64.add (F64.div acc.fPixB acc.sum) (1/2)) 0 255)
          A := toUint8 (ClampF64 (F64.add (F64.div acc.fPixA acc.sum) (1/2)) 0 255) }) res) res
  .ok res

/-- Go `resizeLinearRGBA`. -/
def resizeLinearRGBA (img : RGBA) (fx fy : ℚ) : Except String RGBA :=
  match resizeHorizontalRGBA img fx NewLinear with
  | .error err => .error err
  | .ok res =>
    match resizeVerticalRGBA res fy NewLinear with
    | .error err => .error err
    | .ok res => .ok res

/-- Go `resizeCatmullRomRGBA`; the filter `NewCatmullRom()` is a parameter. -/
def resizeCatmullRomRGBA (NewCatmullRom : Filter) (img : RGBA) (fx fy : ℚ) : Except String RGBA :=
  match resizeHorizontalRGBA img fx NewCatmullRom with
  | .error err => .error err
  | .ok res =>
    match resizeVerticalRGBA res fy NewCatmullRom with
    | .error err => .error err
    | .ok res => .ok res

/-- Go `resizeLanczosRGBA`; the filter `NewLanczos()` is a parameter. -/
def resizeLanczosRGBA (NewLanczos : Filter) (img : RGBA) (fx fy : ℚ) : Except String RGBA :=
  match resizeHorizontalRGBA img fx NewLanczos with
  | .error err => .error err
  | .ok res =>
    match resizeVerticalRGBA res fy NewLanczos with
    | .error err => .error err
    | .ok res => .ok res

/-- Go `ResizeGray`.  The filters `NewCatmullRom()` and `NewLanczos()` of the
missing `resize/filters.go` are parameters. -/
def ResizeGray (NewCatmullRom NewLanczos : Filter) (img : Gray) (fx fy : ℚ)
    (interpolation : Interpolation) : Except String Gray :=
  if fx < 0 ∨ fy < 0 then .error "scale value should be greater then 0"
  else if interpolation = InterNearest then resizeNearestGray img fx fy
  else if interpolation = InterLinear then resizeLinearGray img fx fy
  else if interpolation = InterCatmullRom then resizeCatmullRomGray NewCatmullRom img fx fy
  else if interpolation = InterLanczos then resizeLanczosGray NewLanczos img fx fy
  else .error "invalid interpolation method"

/-- Go `ResizeRGBA`.  The filters `NewCatmullRom()` and `NewLanczos()` of the
missing `resize/filters.go` are parameters. -/
def ResizeRGBA (NewCatmullRom NewLanczos : Filter) (img : RGBA) (fx fy : ℚ)
    (interpolation : Interpolation) : Except String RGBA :=
  if fx < 0 ∨ fy < 0 then .error "scale value should be greater then 0"
  else if interpolation = InterNearest then resizeNearestRGBA img fx fy
  else if interpolation = InterLinear then resizeLinearRGBA img fx fy
  else if interpolation = InterCatmullRom then resizeCatmullRomRGBA NewCatmullRom img fx fy
  else if interpolation = InterLanczos then resizeLanczosRGBA NewLanczos img fx fy
  else .error "invalid interpolation method"

/-! ## The value of one output sample

The four separable passes run the same window loop; these definitions name its
parts so that the passes can be described sample by sample. -/

/-- The accumulators `(fPix, sum)` after the window loop `for i := start; i < stop; i++`
over the line of samples `pix`, for scale `f` and ideal coordinate `ix`. -/
def accumulate (filter : Filter) (f ix : ℚ) (start stop : Int) (pix : Int → Nat) : ℚ × ℚ :=
  forFromTo start stop (fun i (acc : ℚ × ℚ) =>
    let filterValue := filter.Interpolate ((i : ℚ) - ix) / f
    (acc.1 + (pix i : ℚ) * filterValue, acc.2 + filterValue)) (0, 0)

/-- The stored sample `uint8(utils.ClampF64(fPix/sum+0.5, 0, 255))`. -/
def quantize (fPix sum : ℚ) : Nat :=
  toUint8 (ClampF64 (F64.add (F64.div fPix sum) (1/2)) 0 255)

/-- The ideal source coordinate `(float64(x)+0.5)*(1/f) - 0.5` of output index `x`, in exact
arithmetic (`Machine.sourceCoord` rounds every operation). -/
def sourceCoord (f : ℚ) (x : Int) : ℚ := ((x : ℚ) + 1/2) * (1 / f) - 1/2

/-- The first source index of the window of output index `x` on an axis of length `n`, in
exact arithmetic (`Machine.windowStart` rounds every operation). -/
def windowStart (filter : Filter) (f : ℚ) (n x : Int) : Int :=
  ClampInt (toInt (sourceCoord f x - mathCeil (f * filter.GetS) + 1/2)) 0 n

/-- The exclusive last source index of the window of output index `x` on an axis of length
`n`, in exact arithmetic (`Machine.windowStop` rounds every operation). -/
def windowStop (filter : Filter) (f : ℚ) (n x : Int) : Int :=
  ClampInt (toInt (sourceCoord f x + mathCeil (f * filter.GetS))) 0 n

/-- The output sample at index `x` of a pass with scale `f` along a line `pix` of `n` samples. -/
def resample (filter : Filter) (f : ℚ) (n : Int) (pix : Int → Nat) (x : Int) : Nat :=
  let acc := accumulate filter f (sourceCoord f x)
    (windowStart filter f n x) (windowStop filter f n x) pix
  quantize acc.1 acc.2

/-- The output width or height `int(float64(n) * f)` of an axis of length `n`, in exact
arithmetic (`Machine.newLength` rounds the product). -/
def newLength (n : Int) (f : ℚ) : Int := toInt ((n : ℚ) * f)

/-- The accumulators of a four-channel pass after the window loop over the line `pix`. -/
def accumulateRGBA (filter : Filter) (f ix : ℚ) (start stop : Int) (pix : Int → ColorRGBA) :
    AccRGBA :=
  forFromTo start stop (fun i (acc : AccRGBA) =>
    let filterValue := filter.Interpolate ((i : ℚ) - ix) / f
    { fPixR := acc.fPixR + ((pix i).R : ℚ) * filterValue
      fPixG := acc.fPixG + ((pix i).G : ℚ) * filterValue
      fPixB := acc.fPixB + ((pix i).B : ℚ) * filterValue
      fPixA := acc.fPixA + ((pix i).A : ℚ) * filterValue
      sum := acc.sum + filterValue }) ⟨0, 0, 0, 0, 0⟩

/-- The accumulator `fPixR`, `fPixG`, `fPixB` or `fPixA` of one channel. -/
def AccRGBA.get (acc : AccRGBA) : Channel → ℚ
  | .R => acc.fPixR
  | .G => acc.fPixG
  | .B => acc.fPixB
  | .A => acc.fPixA

/-- The output pixel at index `x` of a four-channel pass along a line `pix` of `n` pixels. -/
def resampleRGBA (filter : Filter) (f : ℚ) (n : Int) (pix : Int → ColorRGBA) (x : Int) :
    ColorRGBA :=
  let acc := accumulateRGBA filter f (sourceCoord f x)
    (windowStart filter f n x) (windowStop filter f n x) pix
  { R := quantize acc.fPixR acc.sum
    G := quantize acc.fPixG acc.sum
    B := quantize acc.fPixB acc.sum
    A := quantize acc.fPixA acc.sum }

/-! ## Closed forms of the result images

Each loop nest stores one sample per point of the zero-filled result; these
definitions give the resulting image directly.  The theorems `*_eq` below show
that the embedded functions return exactly these images. -/

/-- The image built by `resizeNearestGray`. -/
def nearestGray (img : Gray) (fx fy : ℚ) : Gray :=
  ⟨fun x y =>
    if 0 ≤ x ∧ x < newLength img.Rect.Size.X fx ∧ 0 ≤ y ∧ y < newLength img.Rect.Size.Y fy ∧
        (Rect 0 0 (newLength img.Rect.Size.X fx) (newLength img.Rect.Size.Y fy)).Contains x y
    then img.GrayAt (toInt (mathRound ((x : ℚ) / fx)) + img.Rect.Min.X)
      (toInt (mathRound ((y : ℚ) / fy)) + img.Rect.Min.Y)
    else 0,
   Rect 0 0 (newLength img.Rect.Size.X fx) (newLength img.Rect.Size.Y fy)⟩

/-- The image built by `resizeHorizontalGray`. -/
def horizontalGray (img : Gray) (fx : ℚ) (filter : Filter) : Gray :=
  ⟨fun x y =>
    if 0 ≤ x ∧ x < newLength img.Rect.Size.X fx ∧ 0 ≤ y ∧ y < img.Rect.Size.Y ∧
        (Rect 0 0 (newLength img.Rect.Size.X fx) img.Rect.Size.Y).Contains x y
    then resample filter fx img.Rect.Size.X
      (fun i => img.GrayAt (i + img.Rect.Min.X) (y + img.Rect.Min.Y)) x
    else 0,
   Rect 0 0 (newLength img.Rect.Size.X fx) img.Rect.Size.Y⟩

/-- The image built by `resizeVerticalGray`. -/
def verticalGray (img : Gray) (fy : ℚ) (filter : Filter) : Gray :=
  ⟨fun x y =>
    if 0 ≤ x ∧ x < img.Rect.Size.X ∧ 0 ≤ y ∧ y < newLength img.Rect.Size.Y fy ∧
        (Rect 0 0 img.Rect.Size.X (newLength img.Rect.Size.Y fy)).Contains x y
    then resample filter fy img.Rect.Size.Y
      (fun i => img.GrayAt (x + img.Rect.Min.X) (i + img.Rect.Min.Y)) y
    else 0,
   Rect 0 0 img.Rect.Size.X (newLength img.Rect.Size.Y fy)⟩

/-- The image built by `resizeNearestRGBA`. -/
def nearestRGBA (img : RGBA) (fx fy : ℚ) : RGBA :=
  ⟨fun x y =>
    if 0 ≤ x ∧ x < newLength img.Rect.Size.X fx ∧ 0 ≤ y ∧ y < newLength img.Rect.Size.Y fy ∧
        (Rect 0 0 (newLength img.Rect.Size.X fx) (newLength img.Rect.Size.Y fy)).Contains x y
    then img.RGBAAt (toInt (mathRound ((x : ℚ) / fx)) + img.Rect.Min.X)
      (toInt (mathRound ((y : ℚ) / fy)) + img.Rect.Min.Y)
    else ⟨0, 0, 0, 0⟩,
   Rect 0 0 (newLength img.Rect.Size.X fx) (newLength img.Rect.Size.Y fy)⟩

/-- The image built by `resizeHorizontalRGBA`. -/
def horizontalRGBA (img : RGBA) (fx : ℚ) (filter : Filter) : RGBA :=
  ⟨fun x y =>
    if 0 ≤ x ∧ x < newLength img.Rect.Size.X fx ∧ 0 ≤ y ∧ y < img.Rect.Size.Y ∧
        (Rect 0 0 (newLength img.Rect.Size.X fx) img.Rect.Size.Y).Contains x y
    then resampleRGBA filter fx img.Rect.Size.X
      (fun i => img.RGBAAt (i + img.Rect.Min.X) (y + img.Rect.Min.Y)) x
    else ⟨0, 0, 0, 0⟩,
   Rect 0 0 (newLength img.Rect.Size.X fx) img.Rect.Size.Y⟩

/-- The image built by `resizeVerticalRGBA`. -/
def verticalRGBA (img : RGBA) (fy : ℚ) (filter : Filter) : RGBA :=
  ⟨fun x y =>
    if 0 ≤ x ∧ x < img.Rect.Size.X ∧ 0 ≤ y ∧ y < newLength img.Rect.Size.Y fy ∧
        (Rect 0 0 img.Rect.Size.X (newLength img.Rect.Size.Y fy)).Contains x y
    then resampleRGBA filter fy img.Rect.Size.Y
      (fun i => img.RGBAAt (x + img.Rect.Min.X) (i + img.Rect.Min.Y)) y
    else ⟨0, 0, 0, 0⟩,
   Rect 0 0 img.Rect.Size.X (newLength img.Rect.Size.Y fy)⟩

/-- The filter that the dispatch of `ResizeGray` / `ResizeRGBA` hands to the two
passes for a selector other than `InterNearest`. -/
def kernelFilter (NewCatmullRom NewLanczos : Filter) (interpolation : Interpolation) : Filter :=
  if interpolation = InterLinear then NewLinear
  else if interpolation = InterCatmullRom then NewCatmullRom
  else NewLanczos

/-- The four selectors that `ResizeGray` / `ResizeRGBA` know. -/
def KnownKernel (interpolation : Interpolation) : Prop :=
  interpolation = InterNearest ∨ interpolation = InterLinear ∨
    interpolation = InterCatmullRom ∨ interpolation = InterLanczos

instance (k : Interpolation) : Decidable (KnownKernel k) := by
  unfold KnownKernel; infer_instance

/-- The three selectors served by the two separable passes. -/
def SeparableKernel (interpolation : Interpolation) : Prop :=
  interpolation = InterLinear ∨ interpolation = InterCatmullRom ∨ interpolation = InterLanczos

instance (k : Interpolation) : Decidable (SeparableKernel k) := by
  unfold SeparableKernel; infer_instance

/-! ## Windows, transposition and re-basing -/

/-- The divisor `sum` of the quotient `fPix/sum` of output index `x`: the sum of the
weights accumulated over the window. -/
def weightSum (filter : Filter) (f : ℚ) (n : Int) (pix : Int → Nat) (x : Int) : ℚ :=
  (accumulate filter f (sourceCoord f x)
    (windowStart filter f n x) (windowStop filter f n x) pix).2

/-- A filter all of whose weights are zero, with support radius 1. -/
def zeroFilter : Filter := ⟨fun _ => 0, 1⟩

/-- The image with the two axes exchanged. -/
def Gray.transpose (img : Gray) : Gray :=
  ⟨fun x y => img.Pix y x,
   ⟨⟨img.Rect.Min.Y, img.Rect.Min.X⟩, ⟨img.Rect.Max.Y, img.Rect.Max.X⟩⟩⟩

/-- The four-channel image with the two axes exchanged. -/
def RGBA.transpose (img : RGBA) : RGBA :=
  ⟨fun x y => img.Pix y x,
   ⟨⟨img.Rect.Min.Y, img.Rect.Min.X⟩, ⟨img.Rect.Max.Y, img.Rect.Max.X⟩⟩⟩

/-- The pixel grid of a view moved to origin `(0,0)`. -/
def Gray.rebase (img : Gray) : Gray :=
  ⟨fun x y => img.Pix (x + img.Rect.Min.X) (y + img.Rect.Min.Y), ⟨⟨0, 0⟩, img.Rect.Size⟩⟩

/-- The pixel grid of a four-channel view moved to origin `(0,0)`. -/
def RGBA.rebase (img : RGBA) : RGBA :=
  ⟨fun x y => img.Pix (x + img.Rect.Min.X) (y + img.Rect.Min.Y), ⟨⟨0, 0⟩, img.Rect.Size⟩⟩

/-! ## utils: pixel iteration and constants used by threshold and padding -/

/-- Go `(*Gray).Set` with a `color.Gray` argument: the conversion through
`color.GrayModel` leaves a gray colour unchanged, so `Set` is `SetGray`. -/
def Gray.Set (img : Gray) (x y : Int) (c : Nat) : Gray := img.SetGray x y c

/-- Go `utils.ForEachGrayPixel` (and `utils.ForEachPixel` on a `*image.Gray`): calls `f`
with each pixel and its offset-compensated position. -/
def ForEachGrayPixel {σ : Type} (img : Gray) (f : Nat → Int → Int → σ → σ) (s : σ) : σ :=
  let offset := img.Bounds.Min
  IteratePixels img.Bounds.Size (fun x y s =>
    f (img.GrayAt (x + offset.X) (y + offset.Y)) x y s) s

/-- Modelled from the spec: the constant `utils.MinUint8`, declared in a file of `utils`
that is missing here; the smallest 8-bit value. -/
def MinUint8 : Nat := 0

/-- Modelled from the spec: the constant `utils.MaxUint8`, declared in a file of `utils`
that is missing here; the largest 8-bit value, the `maxVal` of the threshold methods. -/
def MaxUint8 : Nat := 255

/-! ## threshold/threshold.go -/

/-- Go type `Method` (an `int`). -/
abbrev Method := Int

/-- Go constant `ThreshBinary`. -/
def ThreshBinary : Method := 0
/-- Go constant `ThreshBinaryInv`. -/
def ThreshBinaryInv : Method := 1
/-- Go constant `ThreshTrunc`. -/
def ThreshTrunc : Method := 2
/-- Go constant `ThreshToZero`. -/
def ThreshToZero : Method := 3
/-- Go constant `ThreshToZeroInv`. -/
def ThreshToZeroInv : Method := 4

/-- Go `threshold`. -/
def threshold (img : Gray) (transform : Nat → Nat) : Gray :=
  let size := img.Bounds.Size
  let res := NewGray (Rect 0 0 size.X size.Y)
  ForEachGrayPixel img (fun pixel x y res => res.Set x y (transform pixel)) res

/-- Go `Threshold`; `t` is a `uint8`. -/
def Threshold (img : Gray) (t : Nat) (method : Method) : Except String Gray :=
  if method = ThreshBinary then
    .ok (threshold img (fun pixel => if pixel < t then MinUint8 else MaxUint8))
  else if method = ThreshBinaryInv then
    .ok (threshold img (fun pixel => if pixel < t then MaxUint8 else MinUint8))
  else if method = ThreshTrunc then
    .ok (threshold img (fun pixel => if pixel < t then pixel else t))
  else if method = ThreshToZero then
    .ok (threshold img (fun pixel => if pixel < t then MinUint8 else pixel))
  else if method = ThreshToZeroInv then
    .ok (threshold img (fun pixel => if pixel < t then pixel else MinUint8))
  else .error "invalid threshold method"

/-- The image built by `threshold`. -/
def thresholdImage (img : Gray) (transform : Nat → Nat) : Gray :=
  ⟨fun x y =>
    if 0 ≤ x ∧ x < img.Rect.Size.X ∧ 0 ≤ y ∧ y < img.Rect.Size.Y ∧
        (Rect 0 0 img.Rect.Size.X img.Rect.Size.Y).Contains x y
    then transform (img.GrayAt (x + img.Rect.Min.X) (y + img.Rect.Min.Y))
    else 0,
   Rect 0 0 img.Rect.Size.X img.Rect.Size.Y⟩

/-! ## padding/padding.go (single-channel images)

The functions take `image.Image` values and a `setPixel` callback; on a
`*image.Gray`, `At` is `GrayAt` and the callback of `PaddingGray` is `padded.Set`.
The padded image is the state passed along; `padded.At` reads the current state. -/

/-- Go type `Border` (an `int`). -/
abbrev Border := Int

/-- Go constant `BorderConstant`. -/
def BorderConstant : Border := 0
/-- Go constant `BorderReplicate`. -/
def BorderReplicate : Border := 1
/-- Go constant `BorderReflect`. -/
def BorderReflect : Border := 2

/-- Go struct `Paddings`. -/
structure Paddings where
  PaddingLeft : Int
  PaddingRight : Int
  PaddingTop : Int
  PaddingBottom : Int
deriving DecidableEq, Repr

/-- Go `topPaddingReplicate`. -/
def topPaddingReplicate (img : Gray) (p : Paddings)
    (setPixel : Int → Int → Nat → Gray → Gray) (padded : Gray) : Gray :=
  let originalSize := img.Bounds.Size
  let offset := img.Bounds.Min
  forFromTo p.PaddingLeft (originalSize.X + p.PaddingLeft) (fun x padded =>
    let firstPixel := img.GrayAt (x - p.PaddingLeft + offset.X) (p.PaddingTop + offset.Y)
    forFromTo 0 p.PaddingTop (fun y padded => setPixel x y firstPixel padded) padded) padded

/-- Go `bottomPaddingReplicate`. -/
def bottomPaddingReplicate (img : Gray) (p : Paddings)
    (setPixel : Int → Int → Nat → Gray → Gray) (padded : Gray) : Gray :=
  let originalSize := img.Bounds.Size
  let offset := img.Bounds.Min
  forFromTo p.PaddingLeft (originalSize.X + p.PaddingLeft) (fun x padded =>
    let lastPixel := img.GrayAt (x - p.PaddingLeft + offset.X) (originalSize.Y - 1 + offset.Y)
    forFromTo (p.PaddingTop + originalSize.Y)
      (originalSize.Y + p.PaddingTop + p.PaddingBottom)
      (fun y padded => setPixel x y lastPixel padded) padded) padded

/-- Go `leftPaddingReplicate`. -/
def leftPaddingReplicate (img : Gray) (p : Paddings)
    (setPixel : Int → Int → Nat → Gray → Gray) (padded : Gray) : Gray :=
  let originalSize := img.Bounds.Size
  forFromTo 0 (originalSize.Y + p.PaddingBottom + p.PaddingTop) (fun y padded =>
    let firstPixel := padded.GrayAt p.PaddingLeft y
    forFromTo 0 p.PaddingLeft (fun x padded => setPixel x y firstPixel padded) padded) padded

/-- Go `rightPaddingReplicate`. -/
def rightPaddingReplicate (img : Gray) (p : Paddings)
    (setPixel : Int → Int → Nat → Gray → Gray) (padded : Gray) : Gray :=
  let originalSize := img.Bounds.Size
  forFromTo 0 (originalSize.Y + p.PaddingBottom + p.PaddingTop) (fun y padded =>
    let lastPixel := padded.GrayAt (originalSize.X + p.PaddingLeft - 1) y
    forFromTo (originalSize.X + p.PaddingLeft)
      (originalSize.X + p.PaddingLeft + p.PaddingRight)
      (fun x padded => setPixel x y lastPixel padded) padded) padded

/-- Go `topPaddingReflect`. -/
def topPaddingReflect (img : Gray) (p : Paddings)
    (setPixel : Int → Int → Nat → Gray → Gray) (padded : Gray) : Gray :=
  let originalSize := img.Bounds.Size
  let offset := img.Bounds.Min
  forFromTo p.PaddingLeft (originalSize.X + p.PaddingLeft) (fun x padded =>
    forFromTo 0 p.PaddingTop (fun y padded =>
      let pixel := img.GrayAt (x - p.PaddingLeft + offset.X) (p.PaddingTop - y + offset.Y)
      setPixel x y pixel padded) padded) padded

/-- Go `bottomPaddingReflect`. -/
def bottomPaddingReflect (img : Gray) (p : Paddings)
    (setPixel : Int → Int → Nat → Gray → Gray) (padded : Gray) : Gray :=
  let originalSize := img.Bounds.Size
  let offset := img.Bounds.Min
  forFromTo p.PaddingLeft (originalSize.X + p.PaddingLeft) (fun x padded =>
    forFromTo (p.PaddingTop + originalSize.Y)
      (originalSize.Y + p.PaddingTop + p.PaddingBottom) (fun y padded =>
      let pixel := img.GrayAt (x - p.PaddingLeft + offset.X)
        (originalSize.Y - (y - p.PaddingTop - originalSize.Y) - 2 + offset.Y)
      setPixel x y pixel padded) padded) padded

/-- Go `leftPaddingReflect`. -/
def leftPaddingReflect (img : Gray) (p : Paddings)
    (setPixel : Int → Int → Nat → Gray → Gray) (padded : Gray) : Gray :=
  let originalSize := img.Bounds.Size
  forFromTo 0 (originalSize.Y + p.PaddingBottom + p.PaddingTop) (fun y padded =>
    forFromTo 0 p.PaddingLeft (fun x padded =>
      let pixel := padded.GrayAt (2 * p.PaddingLeft - x) y
      setPixel x y pixel padded) padded) padded

/-- Go `rightPaddingReflect`. -/
def rightPaddingReflect (img : Gray) (p : Paddings)
    (setPixel : Int → Int → Nat → Gray → Gray) (padded : Gray) : Gray :=
  let originalSize := img.Bounds.Size
  forFromTo 0 (originalSize.Y + p.PaddingBottom + p.PaddingTop) (fun y padded =>
    forFromTo (originalSize.X + p.PaddingLeft)
      (originalSize.X + p.PaddingLeft + p.PaddingRight) (fun x padded =>
      let pixel := padded.GrayAt
        (originalSize.X + p.PaddingLeft - (x - originalSize.X - p.PaddingLeft) - 2) y
      setPixel x y pixel padded) padded) padded

/-- Go `blankPaddingGray`. -/
def blankPaddingGray (img : Gray) (padding : Paddings) : Gray :=
  let origSize := img.Bounds.Size
  let res := NewGray (Rect 0 0
    (origSize.X + padding.PaddingLeft + padding.PaddingRight)
    (origSize.Y + padding.PaddingTop + padding.PaddingBottom))
  ForEachGrayPixel img (fun pixel x y res =>
    res.Set (x + padding.PaddingLeft) (y + padding.PaddingTop) pixel) res

/-- Go `calculatePaddings`. -/
def calculatePaddings (kernelSize anchor : Point) : Except String Paddings :=
  if kernelSize.X < 0 ∨ kernelSize.Y < 0 then .error "negative size"
  else if anchor.X < 0 ∨ anchor.Y < 0 then .error "negative anchor value"
  else if anchor.X > kernelSize.X ∨ anchor.Y > kernelSize.Y then
    .error "anchor value outside of the kernel"
  else .ok
    { PaddingLeft := anchor.X
      PaddingRight := kernelSize.X - anchor.X - 1
      PaddingTop := anchor.Y
      PaddingBottom := kernelSize.Y - anchor.Y - 1 }

/-- Go `PaddingGray`. -/
def PaddingGray (img : Gray) (kernelSize anchor : Point) (border : Border) :
    Except String Gray :=
  match calculatePaddings kernelSize anchor with
  | .error err => .error err
  | .ok p =>
    let padded := blankPaddingGray img p
    if border = BorderConstant then .ok padded
    else if border = BorderReplicate then
      let padded := topPaddingReplicate img p (fun x y pixel padded => padded.Set x y pixel) padded
      let padded := bottomPaddingReplicate img p
        (fun x y pixel padded => padded.Set x y pixel) padded
      let padded := leftPaddingReplicate img p (fun x y pixel padded => padded.Set x y pixel) padded
      let padded := rightPaddingReplicate img p (fun x y pixel padded => padded.Set x y pixel) padded
      .ok padded
    else if border = BorderReflect then
      let padded := topPaddingReflect img p (fun x y pixel padded => padded.Set x y pixel) padded
      let padded := bottomPaddingReflect img p (fun x y pixel padded => padded.Set x y pixel) padded
      let padded := leftPaddingReflect img p (fun x y pixel padded => padded.Set x y pixel) padded
      let padded := rightPaddingReflect img p (fun x y pixel padded => padded.Set x y pixel) padded
      .ok padded
    else .error "unknown border type"

/-! ## padding/padding.go (four-channel images)

The helper functions of `padding.go` take `image.Image` values, so the same Go code
serves both pixel formats; here they are repeated for `*image.RGBA`. -/

/-- Go `(*RGBA).Set` with a `color.RGBA` argument: the conversion through
`color.RGBAModel` leaves such a colour unchanged, so `Set` is `SetRGBA`. -/
def RGBA.Set (img : RGBA) (x y : Int) (c : ColorRGBA) : RGBA := img.SetRGBA x y c

/-- Go `utils.ForEachRGBAPixel` (and `utils.ForEachPixel` on a `*image.RGBA`). -/
def ForEachRGBAPixel {σ : Type} (img : RGBA) (f : ColorRGBA → Int → Int → σ → σ) (s : σ) : σ :=
  let offset := img.Bounds.Min
  IteratePixels img.Bounds.Size (fun x y s =>
    f (img.RGBAAt (x + offset.X) (y + offset.Y)) x y s) s

/-- Go `topPaddingReplicate`, on a `*image.RGBA`. -/
def topPaddingReplicateRGBA (img : RGBA) (p : Paddings)
    (setPixel : Int → Int → ColorRGBA → RGBA → RGBA) (padded : RGBA) : RGBA :=
  let originalSize := img.Bounds.Size
  let offset := img.Bounds.Min
  forFromTo p.PaddingLeft (originalSize.X + p.PaddingLeft) (fun x padded =>
    let firstPixel := img.RGBAAt (x - p.PaddingLeft + offset.X) (p.PaddingTop + offset.Y)
    forFromTo 0 p.PaddingTop (fun y padded => setPixel x y firstPixel padded) padded) padded

/-- Go `bottomPaddingReplicate`, on a `*image.RGBA`. -/
def bottomPaddingReplicateRGBA (img : RGBA) (p : Paddings)
    (setPixel : Int → Int → ColorRGBA → RGBA → RGBA) (padded : RGBA) : RGBA :=
  let originalSize := img.Bounds.Size
  let offset := img.Bounds.Min
  forFromTo p.PaddingLeft (originalSize.X + p.PaddingLeft) (fun x padded =>
    let lastPixel := img.RGBAAt (x - p.PaddingLeft + offset.X) (originalSize.Y - 1 + offset.Y)
    forFromTo (p.PaddingTop + originalSize.Y)
      (originalSize.Y + p.PaddingTop + p.PaddingBottom)
      (fun y padded => setPixel x y lastPixel padded) padded) padded

/-- Go `leftPaddingReplicate`, on a `*image.RGBA`. -/
def leftPaddingReplicateRGBA (img : RGBA) (p : Paddings)
    (setPixel : Int → Int → ColorRGBA → RGBA → RGBA) (padded : RGBA) : RGBA :=
  let originalSize := img.Bounds.Size
  forFromTo 0 (originalSize.Y + p.PaddingBottom + p.PaddingTop) (fun y padded =>
    let firstPixel := padded.RGBAAt p.PaddingLeft y
    forFromTo 0 p.PaddingLeft (fun x padded => setPixel x y firstPixel padded) padded) padded

/-- Go `rightPaddingReplicate`, on a `*image.RGBA`. -/
def rightPaddingReplicateRGBA (img : RGBA) (p : Paddings)
    (setPixel : Int → Int → ColorRGBA → RGBA → RGBA) (padded : RGBA) : RGBA :=
  let originalSize := img.Bounds.Size
  forFromTo 0 (originalSize.Y + p.PaddingBottom + p.PaddingTop) (fun y padded =>
    let lastPixel := padded.RGBAAt (originalSize.X + p.PaddingLeft - 1) y
    forFromTo (originalSize.X + p.PaddingLeft)
      (originalSize.X + p.PaddingLeft + p.PaddingRight)
      (fun x padded => setPixel x y lastPixel padded) padded) padded

/-- Go `topPaddingReflect`, on a `*image.RGBA`. -/
def topPaddingReflectRGBA (img : RGBA) (p : Paddings)
    (setPixel : Int → Int → ColorRGBA → RGBA → RGBA) (padded : RGBA) : RGBA :=
  let originalSize := img.Bounds.Size
  let offset := img.Bounds.Min
  forFromTo p.PaddingLeft (originalSize.X + p.PaddingLeft) (fun x padded =>
    forFromTo 0 p.PaddingTop (fun y padded =>
      let pixel := img.RGBAAt (x - p.PaddingLeft + offset.X) (p.PaddingTop - y + offset.Y)
      setPixel x y pixel padded) padded) padded

/-- Go `bottomPaddingReflect`, on a `*image.RGBA`. -/
def bottomPaddingReflectRGBA (img : RGBA) (p : Paddings)
    (setPixel : Int → Int → ColorRGBA → RGBA → RGBA) (padded : RGBA) : RGBA :=
  let originalSize := img.Bounds.Size
  let offset := img.Bounds.Min
  forFromTo p.PaddingLeft (originalSize.X + p.PaddingLeft) (fun x padded =>
    forFromTo (p.PaddingTop + originalSize.Y)
      (originalSize.Y + p.PaddingTop + p.PaddingBottom) (fun y padded =>
      let pixel := img.RGBAAt (x - p.PaddingLeft + offset.X)
        (originalSize.Y - (y - p.PaddingTop - originalSize.Y) - 2 + offset.Y)
      setPixel x y pixel padded) padded) padded

/-- Go `leftPaddingReflect`, on a `*image.RGBA`. -/
def leftPaddingReflectRGBA (img : RGBA) (p : Paddings)
    (setPixel : Int → Int → ColorRGBA → RGBA → RGBA) (padded : RGBA) : RGBA :=
  let originalSize := img.Bounds.Size
  forFromTo 0 (originalSize.Y + p.PaddingBottom + p.PaddingTop) (fun y padded =>
    forFromTo 0 p.PaddingLeft (fun x padded =>
      let pixel := padded.RGBAAt (2 * p.PaddingLeft - x) y
      setPixel x y pixel padded) padded) padded

/-- Go `rightPaddingReflect`, on a `*image.RGBA`. -/
def rightPaddingReflectRGBA (img : RGBA) (p : Paddings)
    (setPixel : Int → Int → ColorRGBA → RGBA → RGBA) (padded : RGBA) : RGBA :=
  let originalSize := img.Bounds.Size
  forFromTo 0 (originalSize.Y + p.PaddingBottom + p.PaddingTop) (fun y padded =>
    forFromTo (originalSize.X + p.PaddingLeft)
      (originalSize.X + p.PaddingLeft + p.PaddingRight) (fun x padded =>
      let pixel := padded.RGBAAt
        (originalSize.X + p.PaddingLeft - (x - originalSize.X - p.PaddingLeft) - 2) y
      setPixel x y pixel padded) padded) padded

/-- Go `blankPaddingRGBA`. -/
def blankPaddingRGBA (img : RGBA) (padding : Paddings) : RGBA :=
  let origSize := img.Bounds.Size
  let res := NewRGBA (Rect 0 0
    (origSize.X + padding.PaddingLeft + padding.PaddingRight)
    (origSize.Y + padding.PaddingTop + padding.PaddingBottom))
  ForEachRGBAPixel img (fun pixel x y res =>
    res.Set (x + padding.PaddingLeft) (y + padding.PaddingTop) pixel) res

/-- Go `PaddingRGBA`. -/
def PaddingRGBA (img : RGBA) (kernelSize anchor : Point) (border : Border) :
    Except String RGBA :=
  match calculatePaddings kernelSize anchor with
  | .error err => .error err
  | .ok p =>
    let padded := blankPaddingRGBA img p
    if border = BorderConstant then .ok padded
    else if border = BorderReplicate then
      let padded := topPaddingReplicateRGBA img p (fun x y pixel padded => padded.Set x y pixel) padded
      let padded := bottomPaddingReplicateRGBA img p
        (fun x y pixel padded => padded.Set x y pixel) padded
      let padded := leftPaddingReplicateRGBA img p (fun x y pixel padded => padded.Set x y pixel) padded
      let padded := rightPaddingReplicateRGBA img p (fun x y pixel padded => padded.Set x y pixel) padded
      .ok padded
    else if border = BorderReflect then
      let padded := topPaddingReflectRGBA img p (fun x y pixel padded => padded.Set x y pixel) padded
      let padded := bottomPaddingReflectRGBA img p (fun x y pixel padded => padded.Set x y pixel) padded
      let padded := leftPaddingReflectRGBA img p (fun x y pixel padded => padded.Set x y pixel) padded
      let padded := rightPaddingReflectRGBA img p (fun x y pixel padded => padded.Set x y pixel) padded
      .ok padded
    else .error "unknown border type"

/-! ## blend/blend.go -/

/-- Go `int` arithmetic on a 64-bit platform: the result of an operation wraps around
into `[-2^63, 2^63)`. -/
def wrapInt (a : Int) : Int := (a + 2 ^ 63) % 2 ^ 64 - 2 ^ 63

/-- The values of the Go type `int` on a 64-bit platform. -/
def IsInt (a : Int) : Prop := -(2 ^ 63) ≤ a ∧ a < 2 ^ 63

instance (a : Int) : Decidable (IsInt a) := by
  unfold IsInt; infer_instance

/-- Go `uint8(n)` for an `int`: the low 8 bits. -/
def intToUint8 (n : Int) : Nat := (n % 256).toNat

/-- Go `AddScalarToGray`. -/
def AddScalarToGray (img : Gray) (value : Int) : Gray :=
  let size := img.Bounds.Size
  let res := NewGray (Rect 0 0 size.X size.Y)
  ForEachGrayPixel img (fun pixel x y res =>
    let updatedPixel := wrapInt ((pixel : Int) + value)
    res.SetGray x y (intToUint8 (ClampInt updatedPixel MinUint8 (MaxUint8 : Int)))) res

/-- Go `AddGray`. -/
def AddGray (img1 img2 : Gray) : Except String Gray :=
  let size1 := img1.Bounds.Size
  let size2 := img2.Bounds.Size
  if size1.X ≠ size2.X ∨ size1.Y ≠ size2.Y then
    .error "the size of the two image does not match"
  else
    let o1 := img1.Bounds.Min
    let o2 := img2.Bounds.Min
    let res := NewGray (Rect 0 0 size1.X size1.Y)
    .ok (IteratePixels size1 (fun x y res =>
      let p1 := img1.GrayAt (x + o1.X) (y + o1.Y)
      let p2 := img2.GrayAt (x + o2.X) (y + o2.Y)
      let sum := ClampInt (wrapInt ((p1 : Int) + (p2 : Int))) MinUint8 (MaxUint8 : Int)
      res.SetGray x y (intToUint8 sum)) res)

/-- Go `AddGrayWeighted`; the weights are finite `float64` values, and the two products and
their sum are each rounded to `float64`. -/
def AddGrayWeighted (img1 : Gray) (w1 : ℚ) (img2 : Gray) (w2 : ℚ) : Except String Gray :=
  let size1 := img1.Bounds.Size
  let size2 := img2.Bounds.Size
  if size1.X ≠ size2.X ∨ size1.Y ≠ size2.Y then
    .error "the size of the two image does not match"
  else
    let o1 := img1.Bounds.Min
    let o2 := img2.Bounds.Min
    let res := NewGray (Rect 0 0 size1.X size1.Y)
    .ok (IteratePixels size1 (fun x y res =>
      let p1 := img1.GrayAt (x + o1.X) (y + o1.Y)
      let p2 := img2.GrayAt (x + o2.X) (y + o2.Y)
      let sum := ClampF64 (F64.fadd (F64.fmul (F64.ofInt (p1 : Int)) (.fin w1))
        (F64.fmul (F64.ofInt (p2 : Int)) (.fin w2))) (MinUint8 : ℚ) (MaxUint8 : ℚ)
      res.SetGray x y (toUint8 sum)) res)

/-- The image built by the pixel loops of `blend.go`: the sample `v x y` at every point
of a `w x h` grid at origin `(0,0)`. -/
def gridImage (w h : Int) (v : Int → Int → Nat) : Gray :=
  ⟨fun x y =>
    if 0 ≤ x ∧ x < w ∧ 0 ≤ y ∧ y < h ∧ (Rect 0 0 w h).Contains x y then v x y else 0,
   Rect 0 0 w h⟩

/-! ## thin/thin.go: neighbours of a point -/

/-- Go `White`, the gray colour `color.GrayModel.Convert(color.White)`, of value 255. -/
def White : Nat := 255

/-- Go `Black`, the gray colour `color.GrayModel.Convert(color.Black)`, of value 0. -/
def Black : Nat := 0

/-- Go `Rectangle.Dx`. -/
def Rectangle.Dx (r : Rectangle) : Int := r.Max.X - r.Min.X

/-- Go `Rectangle.Dy`. -/
def Rectangle.Dy (r : Rectangle) : Int := r.Max.Y - r.Min.Y

/-- Go `neighbor`: the colour of neighbour `p` of `(x, y)` and whether it exists; `none`
stands for the panic on an invalid `p`. -/
def neighbor (img : Gray) (x y p : Int) : Option (Nat × Bool) :=
  if p = 1 then some (img.GrayAt x y, true)
  else if p = 2 then
    if y > 0 then some (img.GrayAt x (y - 1), true) else some (White, false)
  else if p = 3 then
    if y > 0 ∧ x < img.Bounds.Dx - 1 then some (img.GrayAt (x + 1) (y - 1), true)
    else some (White, false)
  else if p = 4 then
    if x < img.Bounds.Dx - 1 then some (img.GrayAt (x + 1) y, true) else some (White, false)
  else if p = 5 then
    if x < img.Bounds.Dx - 1 ∧ y < img.Bounds.Dy - 1 then
      some (img.GrayAt (x + 1) (y + 1), true)
    else some (White, false)
  else if p = 6 then
    if y < img.Bounds.Dy - 1 then some (img.GrayAt x (y + 1), true) else some (White, false)
  else if p = 7 then
    if x > 0 ∧ y < img.Bounds.Dy - 1 then some (img.GrayAt (x - 1) (y + 1), true)
    else some (White, false)
  else if p = 8 then
    if x > 0 then some (img.GrayAt (x - 1) y, true) else some (White, false)
  else if p = 9 then
    if x > 0 ∧ y > 0 then some (img.GrayAt (x - 1) (y - 1), true) else some (White, false)
  else none

/-- The position that the layout `9|2|3 / 8|1|4 / 7|6|5` designates as neighbour `p`
of `(x, y)`. -/
def neighborPos (x y p : Int) : Int × Int :=
  if p = 2 then (x, y - 1)
  else if p = 3 then (x + 1, y - 1)
  else if p = 4 then (x + 1, y)
  else if p = 5 then (x + 1, y + 1)
  else if p = 6 then (x, y + 1)
  else if p = 7 then (x - 1, y + 1)
  else if p = 8 then (x - 1, y)
  else if p = 9 then (x - 1, y - 1)
  else (x, y)

/-- Go `countNeighbors`: the number of filled neighbours and the number of overall
neighbours of `(x, y)`; `none` stands for a panic of `neighbor`. -/
def countNeighbors (img : Gray) (x y : Int) : Option (Int × Int) :=
  forFromTo 2 10 (fun p st =>
    st.bind fun counts =>
      (neighbor img x y p).map fun r =>
        (if r.1 = Black then counts.1 + 1 else counts.1,
          if r.2 = true then counts.2 + 1 else counts.2)) (some (0, 0))

/-- Go `countZeroOnePatterns`. The slice `set` of colours starts as 8 nil values (`none`);
`none` as a result stands for a panic of `neighbor`. -/
def countZeroOnePatterns (img : Gray) (x y : Int) : Option Int :=
  let set : List (Option Nat) := List.replicate 8 none
  let set := forFromTo 2 10 (fun p st =>
    st.bind fun set =>
      (neighbor img x y p).map fun r => set.set (p - 2).toNat (some r.1)) (some set)
  set.map fun set =>
    (List.range set.length).foldl (fun (res : Int) (i : Nat) =>
      let c := set.getD i none
      if i + 1 < set.length then
        if c = some White ∧ set.getD (i + 1) none = some Black then res + 1 else res
      else
        if c = some White ∧ set.getD 0 none = some Black then res + 1 else res) 0

/-- The 8 positions adjacent to `(x, y)`, in the order P2, P3, ..., P9 of the layout. -/
def adjacentPositions (x y : Int) : List (Int × Int) :=
  [2, 3, 4, 5, 6, 7, 8, 9].map (neighborPos x y)

/-- The point `(x, y)` lies on the border of the rectangle. -/
def Rectangle.OnBorder (r : Rectangle) (x y : Int) : Prop :=
  x = r.Min.X ∨ x = r.Max.X - 1 ∨ y = r.Min.Y ∨ y = r.Max.Y - 1

/-- The colour P_p of neighbour `p` of `(x, y)`: the pixel at the adjacent position, and
White when that position is off the image. -/
def neighborColor (img : Gray) (x y p : Int) : Nat :=
  if img.Bounds.Contains (neighborPos x y p).1 (neighborPos x y p).2 then
    img.GrayAt (neighborPos x y p).1 (neighborPos x y p).2
  else White

/-- The number of positions `k` of the cyclic sequence `P` at which `P k` is White and its
successor (the first element after the last) is Black. -/
def cyclicZeroOne (P : List Nat) : Nat :=
  (List.range P.length).countP fun k =>
    P.getD k 0 = White ∧ P.getD ((k + 1) % P.length) 0 = Black

/-! ## resize/resize.go with rounded arithmetic and the allocation check

A second embedding of `resize.go`, line by line as the first, in which every `float64`
operation is rounded (`F64.fadd`, `F64.fmul`, ...) and `image.NewGray` / `image.NewRGBA`
keep the panic of the standard library on sizes whose byte count does not fit an `int`
(`none` stands for a panic).  The scale factors are `float64` values. -/

/-- Go standard library `mul3NonNeg` (package `image`): the product `x*y*z` if all are
non-negative and it does not overflow an `int`, otherwise -1. -/
def mul3NonNeg (x y z : Int) : Int :=
  if x < 0 ∨ y < 0 ∨ z < 0 then -1
  else if 2 ^ 64 ≤ x * y then -1
  else if 2 ^ 64 ≤ x * y * z then -1
  else if 2 ^ 63 ≤ x * y * z then -1
  else x * y * z

/-- Go standard library `pixelBufferLength` (package `image`); `none` stands for the panic
"Rectangle has huge or negative dimensions". `Dx()` and `Dy()` are `int` subtractions. -/
def pixelBufferLength (bytesPerPixel : Int) (r : Rectangle) : Option Int :=
  let totalLength := mul3NonNeg bytesPerPixel (wrapInt r.Dx) (wrapInt r.Dy)
  if totalLength < 0 then none else some totalLength

/-- Go `image.NewGray` with its panic; the allocation of an accepted length succeeds. -/
def Machine.NewGray (r : Rectangle) : Option Gray :=
  match pixelBufferLength 1 r with
  | none => none
  | some _ => some (Imger.NewGray r)

/-- Go `image.NewRGBA` with its panic; the allocation of an accepted length succeeds. -/
def Machine.NewRGBA (r : Rectangle) : Option RGBA :=
  match pixelBufferLength 4 r with
  | none => none
  | some _ => some (Imger.NewRGBA r)

/-- Go interface `Filter` on `float64` values. -/
structure Machine.Filter where
  Interpolate : F64 → F64
  GetS : F64

/-- Modelled from the spec: `NewLinear()` of the missing `resize/filters.go`, "triangular
weight, weight(d) = max(0, 1 - |d|); support radius 1.0", evaluated in `float64`. -/
def Machine.NewLinear : Machine.Filter :=
  ⟨fun d => F64.max (.fin 0) (F64.fsub (.fin 1) (F64.abs d)), .fin 1⟩

/-- Go `resizeNearestGray`. -/
def Machine.resizeNearestGray (img : Gray) (fx fy : F64) : Option (Except String Gray) :=
  let oldSize := img.Bounds.Size
  let oldOffset := img.Bounds.Min
  let newSize : Point := ⟨F64.toInt (F64.fmul (F64.ofInt oldSize.X) fx),
    F64.toInt (F64.fmul (F64.ofInt oldSize.Y) fy)⟩
  match Machine.NewGray (Rect 0 0 newSize.X newSize.Y) with
  | none => none
  | some res =>
    let res := IteratePixels newSize (fun x y res =>
      let oldX := F64.toInt (F64.mathRound (F64.fdiv (F64.ofInt x) fx)) + oldOffset.X
      let oldY := F64.toInt (F64.mathRound (F64.fdiv (F64.ofInt y) fy)) + oldOffset.Y
      res.SetGray x y (img.GrayAt oldX oldY)) res
    some (.ok res)

/-- Go `resizeHorizontalGray`. -/
def Machine.resizeHorizontalGray (img : Gray) (fx : F64) (filter : Machine.Filter) :
    Option (Except String Gray) :=
  let originalSize := img.Bounds.Size
  let offset := img.Bounds.Min
  let newWidth := F64.toInt (F64.fmul (F64.ofInt originalSize.X) fx)
  match Machine.NewGray (Rect 0 0 newWidth originalSize.Y) with
  | none => none
  | some res =>
    let dfx := F64.fdiv (.fin 1) fx
    let radius := F64.ceil (F64.fmul fx filter.GetS)
    let res := forRange originalSize.Y (fun y res =>
      forRange newWidth (fun x res =>
        let ix := F64.fsub (F64.fmul (F64.fadd (F64.ofInt x) (.fin (1 / 2))) dfx) (.fin (1 / 2))
        let start := ClampInt (F64.toInt (F64.fadd (F64.fsub ix radius) (.fin (1 / 2)))) 0
          originalSize.X
        let stop := ClampInt (F64.toInt (F64.fadd ix radius)) 0 originalSize.X
        let acc := forFromTo start stop (fun i (acc : F64 × F64) =>
          let filterValue := F64.fdiv (filter.Interpolate (F64.fsub (F64.ofInt i) ix)) fx
          let pix := img.GrayAt (i + offset.X) (y + offset.Y)
          (F64.fadd acc.1 (F64.fmul (F64.ofInt (pix : Int)) filterValue),
            F64.fadd acc.2 filterValue)) (.fin 0, .fin 0)
        res.SetGray x y
          (toUint8 (ClampF64 (F64.fadd (F64.fdiv acc.1 acc.2) (.fin (1 / 2))) 0 255))) res) res
    some (.ok res)

/-- Go `resizeVerticalGray`. -/
def Machine.resizeVerticalGray (img : Gray) (fy : F64) (filter : Machine.Filter) :
    Option (Except String Gray) :=
  let originalSize := img.Bounds.Size
  let offset := img.Bounds.Min
  let newHeight := F64.toInt (F64.fmul (F64.ofInt originalSize.Y) fy)
  match Machine.NewGray (Rect 0 0 originalSize.X newHeight) with
  | none => none
  | some res =>
    let dfy := F64.fdiv (.fin 1) fy
    let radius := F64.ceil (F64.fmul fy filter.GetS)
    let res := forRange newHeight (fun y res =>
      let iy := F64.fsub (F64.fmul (F64.fadd (F64.ofInt y) (.fin (1 / 2))) dfy) (.fin (1 / 2))
      let start := ClampInt (F64.toInt (F64.fadd (F64.fsub iy radius) (.fin (1 / 2)))) 0
        originalSize.Y
      let stop := ClampInt (F64.toInt (F64.fadd iy radius)) 0 originalSize.Y
      forRange originalSize.X (fun x res =>
        let acc := forFromTo start stop (fun i (acc : F64 × F64) =>
          let filterValue := F64.fdiv (filter.Interpolate (F64.fsub (F64.ofInt i) iy)) fy
          let pix := img.GrayAt (x + offset.X) (i + offset.Y)
          (F64.fadd acc.1 (F64.fmul (F64.ofInt (pix : Int)) filterValue),
            F64.fadd acc.2 filterValue)) (.fin 0, .fin 0)
        res.SetGray x y
          (toUint8 (ClampF64 (F64.fadd (F64.fdiv acc.1 acc.2) (.fin (1 / 2))) 0 255))) res) res
    some (.ok res)

/-- Go `resizeLinearGray`. -/
def Machine.resizeLinearGray (img : Gray) (fx fy : F64) : Option (Except String Gray) :=
  match Machine.resizeHorizontalGray img fx Machine.NewLinear with
  | none => none
  | some (.error err) => some (.error err)
  | some (.ok res) =>
    match Machine.resizeVerticalGray res fy Machine.NewLinear with
    | none => none
    | some (.error err) => some (.error err)
    | some (.ok res) => some (.ok res)

/-- Go `resizeCatmullRomGray`; the filter `NewCatmullRom()` is a parameter. -/
def Machine.resizeCatmullRomGray (NewCatmullRom : Machine.Filter) (img : Gray) (fx fy : F64) :
    Option (Except String Gray) :=
  match Machine.resizeHorizontalGray img fx NewCatmullRom with
  | none => none
  | some (.error err) => some (.error err)
  | some (.ok res) =>
    match Machine.resizeVerticalGray res fy NewCatmullRom with
    | none => none
    | some (.error err) => some (.error err)
    | some (.ok res) => some (.ok res)

/-- Go `resizeLanczosGray`; the filter `NewLanczos()` is a parameter. -/
def Machine.resizeLanczosGray (NewLanczos : Machine.Filter) (img : Gray) (fx fy : F64) :
    Option (Except String Gray) :=
  match Machine.resizeHorizontalGray img fx NewLanczos with
  | none => none
  | some (.error err) => some (.error err)
  | some (.ok res) =>
    match Machine.resizeVerticalGray res fy NewLanczos with
    | none => none
    | some (.error err) => some (.error err)
    | some (.ok res) => some (.ok res)

/-- Go `resizeNearestRGBA`. -/
def Machine.resizeNearestRGBA (img : RGBA) (fx fy : F64) : Option (Except String RGBA) :=
  let oldSize := img.Bounds.Size
  let oldOffset := img.Bounds.Min
  let newSize : Point := ⟨F64.toInt (F64.fmul (F64.ofInt oldSize.X) fx),
    F64.toInt (F64.fmul (F64.ofInt oldSize.Y) fy)⟩
  match Machine.NewRGBA (Rect 0 0 newSize.X newSize.Y) with
  | none => none
  | some res =>
    let res := IteratePixels newSize (fun x y res =>
      let oldX := F64.toInt (F64.mathRound (F64.fdiv (F64.ofInt x) fx)) + oldOffset.X
      let oldY := F64.toInt (F64.mathRound (F64.fdiv (F64.ofInt y) fy)) + oldOffset.Y
      res.SetRGBA x y (img.RGBAAt oldX oldY)) res
    some (.ok res)

/-- The accumulators `fPixR, fPixG, fPixB, fPixA, sum` of the four-channel passes. -/
structure Machine.AccRGBA where
  fPixR : F64
  fPixG : F64
  fPixB : F64
  fPixA : F64
  sum : F64

/-- Go `resizeHorizontalRGBA`. -/
def Machine.resizeHorizontalRGBA (img : RGBA) (fx : F64) (filter : Machine.Filter) :
    Option (Except String RGBA) :=
  let originalSize := img.Bounds.Size
  let offset := img.Bounds.Min
  let newWidth := F64.toInt (F64.fmul (F64.ofInt originalSize.X) fx)
  match Machine.NewRGBA (Rect 0 0 newWidth originalSize.Y) with
  | none => none
  | some res =>
    let dfx := F64.fdiv (.fin 1) fx
    let radius := F64.ceil (F64.fmul fx filter.GetS)
    let res := forRange originalSize.Y (fun y res =>
      forRange newWidth (fun x res =>
        let ix := F64.fsub (F64.fmul (F64.fadd (F64.ofInt x) (.fin (1 / 2))) dfx) (.fin (1 / 2))
        let start := ClampInt (F64.toInt (F64.fadd (F64.fsub ix radius) (.fin (1 / 2)))) 0
          originalSize.X
        let stop := ClampInt (F64.toInt (F64.fadd ix radius)) 0 originalSize.X
        let acc := forFromTo start stop (fun i (acc : Machine.AccRGBA) =>
          let filterValue := F64.fdiv (filter.Interpolate (F64.fsub (F64.ofInt i) ix)) fx
          let pix := img.RGBAAt (i + offset.X) (y + offset.Y)
          { fPixR := F64.fadd acc.fPixR (F64.fmul (F64.ofInt (pix.R : Int)) filterValue)
            fPixG := F64.fadd acc.fPixG (F64.fmul (F64.ofInt (pix.G : Int)) filterValue)
            fPixB := F64.fadd acc.fPixB (F64.fmul (F64.ofInt (pix.B : Int)) filterValue)
            fPixA := F64.fadd acc.fPixA (F64.fmul (F64.ofInt (pix.A : Int)) filterValue)
            sum := F64.fadd acc.sum filterValue }) ⟨.fin 0, .fin 0, .fin 0, .fin 0, .fin 0⟩
        res.SetRGBA x y
          { R := toUint8 (ClampF64 (F64.fadd (F64.fdiv acc.fPixR acc.sum) (.fin (1 / 2))) 0 255)
            G := toUint8 (ClampF64 (F64.fadd (F64.fdiv acc.fPixG acc.sum) (.fin (1 / 2))) 0 255)
            B := toUint8 (ClampF64 (F64.fadd (F64.fdiv acc.fPixB acc.sum) (.fin (1 / 2))) 0 255)
            A := toUint8 (ClampF64 (F64.fadd (F64.fdiv acc.fPixA acc.sum) (.fin (1 / 2))) 0 255) })
        res) res
    some (.ok res)

/-- Go `resizeVerticalRGBA`. -/
def Machine.resizeVerticalRGBA (img : RGBA) (fy : F64) (filter : Machine.Filter) :
    Option (Except String RGBA) :=
  let originalSize := img.Bounds.Size
  let offset := img.Bounds.Min
  let newHeight := F64.toInt (F64.fmul (F64.ofInt originalSize.Y) fy)
  match Machine.NewRGBA (Rect 0 0 originalSize.X newHeight) with
  | none => none
  | some res =>
    let dfy := F64.fdiv (.fin 1) fy
    let radius := F64.ceil (F64.fmul fy filter.GetS)
    let res := forRange newHeight (fun y res =>
      let iy := F64.fsub (F64.fmul (F64.fadd (F64.ofInt y) (.fin (1 / 2))) dfy) (.fin (1 / 2))
      let start := ClampInt (F64.toInt (F64.fadd (F64.fsub iy radius) (.fin (1 / 2)))) 0
        originalSize.Y
      let stop := ClampInt (F64.toInt (F64.fadd iy radius)) 0 originalSize.Y
      forRange originalSize.X (fun x res =>
        let acc := forFromTo start stop (fun i (acc : Machine.AccRGBA) =>
          let filterValue := F64.fdiv (filter.Interpolate (F64.fsub (F64.ofInt i) iy)) fy
          let pix := img.RGBAAt (x + offset.X) (i + offset.Y)
          { fPixR := F64.fadd acc.fPixR (F64.fmul (F64.ofInt (pix.R : Int)) filterValue)
            fPixG := F64.fadd acc.fPixG (F64.fmul (F64.ofInt (pix.G : Int)) filterValue)
            fPixB := F64.fadd acc.fPixB (F64.fmul (F64.ofInt (pix.B : Int)) filterValue)
            fPixA := F64.fadd acc.fPixA (F64.fmul (F64.ofInt (pix.A : Int)) filterValue)
            sum := F64.fadd acc.sum filterValue }) ⟨.fin 0, .fin 0, .fin 0, .fin 0, .fin 0⟩
        res.SetRGBA x y
          { R := toUint8 (ClampF64 (F64.fadd (F64.fdiv acc.fPixR acc.sum) (.fin (1 / 2))) 0 255)
            G := toUint8 (ClampF64 (F64.fadd (F64.fdiv acc.fPixG acc.sum) (.fin (1 / 2))) 0 255)
            B := toUint8 (ClampF64 (F64.fadd (F64.fdiv acc.fPixB acc.sum) (.fin (1 / 2))) 0 255)
            A := toUint8 (ClampF64 (F64.fadd (F64.fdiv acc.fPixA acc.sum) (.fin (1 / 2))) 0 255) })
        res) res
    some (.ok res)

/-- Go `resizeLinearRGBA`. -/
def Machine.resizeLinearRGBA (img : RGBA) (fx fy : F64) : Option (Except String RGBA) :=
  match Machine.resizeHorizontalRGBA img fx Machine.NewLinear with
  | none => none
  | some (.error err) => some (.error err)
  | some (.ok res) =>
    match Machine.resizeVerticalRGBA res fy Machine.NewLinear with
    | none => none
    | some (.error err) => some (.error err)
    | some (.ok res) => some (.ok res)

/-- Go `resizeCatmullRomRGBA`; the filter `NewCatmullRom()` is a parameter. -/
def Machine.resizeCatmullRomRGBA (NewCatmullRom : Machine.Filter) (img : RGBA) (fx fy : F64) :
    Option (Except String RGBA) :=
  match Machine.resizeHorizontalRGBA img fx NewCatmullRom with
  | none => none
  | some (.error err) => some (.error err)
  | some (.ok res) =>
    match Machine.resizeVerticalRGBA res fy NewCatmullRom with
    | none => none
    | some (.error err) => some (.error err)
    | some (.ok res) => some (.ok res)

/-- Go `resizeLanczosRGBA`; the filter `NewLanczos()` is a parameter. -/
def Machine.resizeLanczosRGBA (NewLanczos : Machine.Filter) (img : RGBA) (fx fy : F64) :
    Option (Except String RGBA) :=
  match Machine.resizeHorizontalRGBA img fx NewLanczos with
  | none => none
  | some (.error err) => some (.error err)
  | some (.ok res) =>
    match Machine.resizeVerticalRGBA res fy NewLanczos with
    | none => none
    | some (.error err) => some (.error err)
    | some (.ok res) => some (.ok res)

/-- Go `ResizeGray`.  The filters `NewCatmullRom()` and `NewLanczos()` of the missing
`resize/filters.go` are parameters. -/
def Machine.ResizeGray (NewCatmullRom NewLanczos : Machine.Filter) (img : Gray) (fx fy : F64)
    (interpolation : Interpolation) : Option (Except String Gray) :=
  if F64.lt fx (.fin 0) = true ∨ F64.lt fy (.fin 0) = true then
    some (.error "scale value should be greater then 0")
  else if interpolation = InterNearest then Machine.resizeNearestGray img fx fy
  else if interpolation = InterLinear then Machine.resizeLinearGray img fx fy
  else if interpolation = InterCatmullRom then
    Machine.resizeCatmullRomGray NewCatmullRom img fx fy
  else if interpolation = InterLanczos then Machine.resizeLanczosGray NewLanczos img fx fy
  else some (.error "invalid interpolation method")

/-- Go `ResizeRGBA`.  The filters `NewCatmullRom()` and `NewLanczos()` of the missing
`resize/filters.go` are parameters. -/
def Machine.ResizeRGBA (NewCatmullRom NewLanczos : Machine.Filter) (img : RGBA) (fx fy : F64)
    (interpolation : Interpolation) : Option (Except String RGBA) :=
  if F64.lt fx (.fin 0) = true ∨ F64.lt fy (.fin 0) = true then
    some (.error "scale value should be greater then 0")
  else if interpolation = InterNearest then Machine.resizeNearestRGBA img fx fy
  else if interpolation = InterLinear then Machine.resizeLinearRGBA img fx fy
  else if interpolation = InterCatmullRom then
    Machine.resizeCatmullRomRGBA NewCatmullRom img fx fy
  else if interpolation = InterLanczos then Machine.resizeLanczosRGBA NewLanczos img fx fy
  else some (.error "invalid interpolation method")

/-! ### The value of one output sample, with rounded arithmetic -/

/-- The output width or height `int(float64(n) * f)` of an axis of length `n`. -/
def Machine.newLength (n : Int) (f : F64) : Int := F64.toInt (F64.fmul (F64.ofInt n) f)

/-- The ideal source coordinate `(float64(x)+0.5)*(1/f) - 0.5` of output index `x`. -/
def Machine.sourceCoord (f : F64) (x : Int) : F64 :=
  F64.fsub (F64.fmul (F64.fadd (F64.ofInt x) (.fin (1 / 2))) (F64.fdiv (.fin 1) f)) (.fin (1 / 2))

/-- The radius `math.Ceil(f * filter.GetS())` of a pass. -/
def Machine.radius (filter : Machine.Filter) (f : F64) : F64 := F64.ceil (F64.fmul f filter.GetS)

/-- The `float64` value `ix-radius+0.5` that the code converts to the first source index. -/
def Machine.startValue (filter : Machine.Filter) (f : F64) (x : Int) : F64 :=
  F64.fadd (F64.fsub (Machine.sourceCoord f x) (Machine.radius filter f)) (.fin (1 / 2))

/-- The `float64` value `ix+radius` that the code converts to the end of the window. -/
def Machine.stopValue (filter : Machine.Filter) (f : F64) (x : Int) : F64 :=
  F64.fadd (Machine.sourceCoord f x) (Machine.radius filter f)

/-- The first source index of the window of output index `x` on an axis of length `n`. -/
def Machine.windowStart (filter : Machine.Filter) (f : F64) (n x : Int) : Int :=
  ClampInt (F64.toInt (Machine.startValue filter f x)) 0 n

/-- The exclusive last source index of the window of output index `x` on an axis of
length `n`. -/
def Machine.windowStop (filter : Machine.Filter) (f : F64) (n x : Int) : Int :=
  ClampInt (F64.toInt (Machine.stopValue filter f x)) 0 n

/-- The accumulators `(fPix, sum)` after the window loop over the line of samples `pix`. -/
def Machine.accumulate (filter : Machine.Filter) (f ix : F64) (start stop : Int)
    (pix : Int → Nat) : F64 × F64 :=
  forFromTo start stop (fun i (acc : F64 × F64) =>
    let filterValue := F64.fdiv (filter.Interpolate (F64.fsub (F64.ofInt i) ix)) f
    (F64.fadd acc.1 (F64.fmul (F64.ofInt (pix i : Int)) filterValue),
      F64.fadd acc.2 filterValue)) (.fin 0, .fin 0)

/-- The stored sample `uint8(utils.ClampF64(fPix/sum+0.5, 0, 255))`. -/
def Machine.quantize (fPix sum : F64) : Nat :=
  toUint8 (ClampF64 (F64.fadd (F64.fdiv fPix sum) (.fin (1 / 2))) 0 255)

/-- The output sample at index `x` of a pass with scale `f` along a line `pix` of `n`
samples. -/
def Machine.resample (filter : Machine.Filter) (f : F64) (n : Int) (pix : Int → Nat) (x : Int) :
    Nat :=
  let acc := Machine.accumulate filter f (Machine.sourceCoord f x)
    (Machine.windowStart filter f n x) (Machine.windowStop filter f n x) pix
  Machine.quantize acc.1 acc.2

/-- The accumulators of a four-channel pass after the window loop over the line `pix`. -/
def Machine.accumulateRGBA (filter : Machine.Filter) (f ix : F64) (start stop : Int)
    (pix : Int → ColorRGBA) : Machine.AccRGBA :=
  forFromTo start stop (fun i (acc : Machine.AccRGBA) =>
    let filterValue := F64.fdiv (filter.Interpolate (F64.fsub (F64.ofInt i) ix)) f
    { fPixR := F64.fadd acc.fPixR (F64.fmul (F64.ofInt ((pix i).R : Int)) filterValue)
      fPixG := F64.fadd acc.fPixG (F64.fmul (F64.ofInt ((pix i).G : Int)) filterValue)
      fPixB := F64.fadd acc.fPixB (F64.fmul (F64.ofInt ((pix i).B : Int)) filterValue)
      fPixA := F64.fadd acc.fPixA (F64.fmul (F64.ofInt ((pix i).A : Int)) filterValue)
      sum := F64.fadd acc.sum filterValue }) ⟨.fin 0, .fin 0, .fin 0, .fin 0, .fin 0⟩

/-- The output pixel at index `x` of a four-channel pass along a line `pix` of `n` pixels. -/
def Machine.resampleRGBA (filter : Machine.Filter) (f : F64) (n : Int) (pix : Int → ColorRGBA)
    (x : Int) : ColorRGBA :=
  let acc := Machine.accumulateRGBA filter f (Machine.sourceCoord f x)
    (Machine.windowStart filter f n x) (Machine.windowStop filter f n x) pix
  { R := Machine.quantize acc.fPixR acc.sum
    G := Machine.quantize acc.fPixG acc.sum
    B := Machine.quantize acc.fPixB acc.sum
    A := Machine.quantize acc.fPixA acc.sum }

/-! ### Closed forms of the result images, with rounded arithmetic -/

/-- The image built by `resizeNearestGray` when the buffer is allocated. -/
def Machine.nearestGray (img : Gray) (fx fy : F64) : Gray :=
  ⟨fun x y =>
    if 0 ≤ x ∧ x < Machine.newLength img.Rect.Size.X fx ∧
        0 ≤ y ∧ y < Machine.newLength img.Rect.Size.Y fy ∧
        (Rect 0 0 (Machine.newLength img.Rect.Size.X fx)
          (Machine.newLength img.Rect.Size.Y fy)).Contains x y
    then img.GrayAt (F64.toInt (F64.mathRound (F64.fdiv (F64.ofInt x) fx)) + img.Rect.Min.X)
      (F64.toInt (F64.mathRound (F64.fdiv (F64.ofInt y) fy)) + img.Rect.Min.Y)
    else 0,
   Rect 0 0 (Machine.newLength img.Rect.Size.X fx) (Machine.newLength img.Rect.Size.Y fy)⟩

/-- The image built by `resizeHorizontalGray` when the buffer is allocated. -/
def Machine.horizontalGray (img : Gray) (fx : F64) (filter : Machine.Filter) : Gray :=
  ⟨fun x y =>
    if 0 ≤ x ∧ x < Machine.newLength img.Rect.Size.X fx ∧ 0 ≤ y ∧ y < img.Rect.Size.Y ∧
        (Rect 0 0 (Machine.newLength img.Rect.Size.X fx) img.Rect.Size.Y).Contains x y
    then Machine.resample filter fx img.Rect.Size.X
      (fun i => img.GrayAt (i + img.Rect.Min.X) (y + img.Rect.Min.Y)) x
    else 0,
   Rect 0 0 (Machine.newLength img.Rect.Size.X fx) img.Rect.Size.Y⟩

/-- The image built by `resizeVerticalGray` when the buffer is allocated. -/
def Machine.verticalGray (img : Gray) (fy : F64) (filter : Machine.Filter) : Gray :=
  ⟨fun x y =>
    if 0 ≤ x ∧ x < img.Rect.Size.X ∧ 0 ≤ y ∧ y < Machine.newLength img.Rect.Size.Y fy ∧
        (Rect 0 0 img.Rect.Size.X (Machine.newLength img.Rect.Size.Y fy)).Contains x y
    then Machine.resample filter fy img.Rect.Size.Y
      (fun i => img.GrayAt (x + img.Rect.Min.X) (i + img.Rect.Min.Y)) y
    else 0,
   Rect 0 0 img.Rect.Size.X (Machine.newLength img.Rect.Size.Y fy)⟩

/-- The image built by `resizeNearestRGBA` when the buffer is allocated. -/
def Machine.nearestRGBA (img : RGBA) (fx fy : F64) : RGBA :=
  ⟨fun x y =>
    if 0 ≤ x ∧ x < Machine.newLength img.Rect.Size.X fx ∧
        0 ≤ y ∧ y < Machine.newLength img.Rect.Size.Y fy ∧
        (Rect 0 0 (Machine.newLength img.Rect.Size.X fx)
          (Machine.newLength img.Rect.Size.Y fy)).Contains x y
    then img.RGBAAt (F64.toInt (F64.mathRound (F64.fdiv (F64.ofInt x) fx)) + img.Rect.Min.X)
      (F64.toInt (F64.mathRound (F64.fdiv (F64.ofInt y) fy)) + img.Rect.Min.Y)
    else ⟨0, 0, 0, 0⟩,
   Rect 0 0 (Machine.newLength img.Rect.Size.X fx) (Machine.newLength img.Rect.Size.Y fy)⟩

/-- The image built by `resizeHorizontalRGBA` when the buffer is allocated. -/
def Machine.horizontalRGBA (img : RGBA) (fx : F64) (filter : Machine.Filter) : RGBA :=
  ⟨fun x y =>
    if 0 ≤ x ∧ x < Machine.newLength img.Rect.Size.X fx ∧ 0 ≤ y ∧ y < img.Rect.Size.Y ∧
        (Rect 0 0 (Machine.newLength img.Rect.Size.X fx) img.Rect.Size.Y).Contains x y
    then Machine.resampleRGBA filter fx img.Rect.Size.X
      (fun i => img.RGBAAt (i + img.Rect.Min.X) (y + img.Rect.Min.Y)) x
    else ⟨0, 0, 0, 0⟩,
   Rect 0 0 (Machine.newLength img.Rect.Size.X fx) img.Rect.Size.Y⟩

/-- The image built by `resizeVerticalRGBA` when the buffer is allocated. -/
def Machine.verticalRGBA (img : RGBA) (fy : F64) (filter : Machine.Filter) : RGBA :=
  ⟨fun x y =>
    if 0 ≤ x ∧ x < img.Rect.Size.X ∧ 0 ≤ y ∧ y < Machine.newLength img.Rect.Size.Y fy ∧
        (Rect 0 0 img.Rect.Size.X (Machine.newLength img.Rect.Size.Y fy)).Contains x y
    then Machine.resampleRGBA filter fy img.Rect.Size.Y
      (fun i => img.RGBAAt (x + img.Rect.Min.X) (i + img.Rect.Min.Y)) y
    else ⟨0, 0, 0, 0⟩,
   Rect 0 0 img.Rect.Size.X (Machine.newLength img.Rect.Size.Y fy)⟩

/-- The filter that the dispatch of `ResizeGray` / `ResizeRGBA` hands to the two passes
for a selector other than `InterNearest`. -/
def Machine.kernelFilter (NewCatmullRom NewLanczos : Machine.Filter)
    (interpolation : Interpolation) : Machine.Filter :=
  if interpolation = InterLinear then Machine.NewLinear
  else if interpolation = InterCatmullRom then NewCatmullRom
  else NewLanczos

/-! ## Specifications of pixel loops -/

/-- The image `s` has the bounds of `s0` and the samples of `s0` outside the region `U`. -/
def Gray.SameOutside (U : Int → Int → Prop) (s0 s : Gray) : Prop :=
  s.Rect = s0.Rect ∧ ∀ x y, ¬ U x y → s.Pix x y = s0.Pix x y

/-- The image `r` is `s` with the points of the region `R` that lie inside the bounds set
to the values `V`. -/
def Gray.Filled (R : Int → Int → Prop) (V : Int → Int → Nat) (s r : Gray) : Prop :=
  r.Rect = s.Rect ∧ (∀ x y, R x y → s.Rect.Contains x y → r.Pix x y = V x y) ∧
    (∀ x y, ¬ R x y → r.Pix x y = s.Pix x y)

/-- The four-channel image `s` has the bounds of `s0` and the pixels of `s0` outside `U`. -/
def RGBA.SameOutside (U : Int → Int → Prop) (s0 s : RGBA) : Prop :=
  s.Rect = s0.Rect ∧ ∀ x y, ¬ U x y → s.Pix x y = s0.Pix x y

/-- The four-channel image `r` is `s` with the points of the region `R` that lie inside
the bounds set to the values `V`. -/
def RGBA.Filled (R : Int → Int → Prop) (V : Int → Int → ColorRGBA) (s r : RGBA) : Prop :=
  r.Rect = s.Rect ∧ (∀ x y, R x y → s.Rect.Contains x y → r.Pix x y = V x y) ∧
    (∀ x y, ¬ R x y → r.Pix x y = s.Pix x y)

/-- The points outside the copy of a `w x h` original embedded at `(left, top)`. -/
def padRegion (w h : Int) (p : Paddings) (x y : Int) : Prop :=
  ¬ (p.PaddingLeft ≤ x ∧ x < w + p.PaddingLeft ∧ p.PaddingTop ≤ y ∧
    y < p.PaddingTop + h)

/-- The reflection `m(i, n)` of an index into `[0, n)`: `-i` below 0, `2(n-1) - i` from `n` on. -/
def reflectIndex (i n : Int) : Int :=
  if i < 0 then -i else if i < n then i else 2 * (n - 1) - i

/-- The value that reflection assigns to the point `(x, y)` of the padded image: the sample
of the original at the reflected indices, read at the origin offset of the original. -/
def reflectTarget (img : Gray) (p : Paddings) (x y : Int) : Nat :=
  img.GrayAt (reflectIndex (x - p.PaddingLeft) img.Rect.Size.X + img.Rect.Min.X)
    (reflectIndex (y - p.PaddingTop) img.Rect.Size.Y + img.Rect.Min.Y)

/-! ## Loop lemmas -/

theorem gray_ext_iff_fields (a b : Gray) : a = b ↔ a.Pix = b.Pix ∧ a.Rect = b.Rect := by
  cases a; cases b; simp

theorem foldl_range_setGray (v : Int → Nat) (y : Int) (k : Nat) (res0 : Gray) :
    (List.range k).foldl (fun s (i : Nat) => s.SetGray (i : Int) y (v i)) res0
      = ⟨fun x1 y1 => if 0 ≤ x1 ∧ x1 < (k : Int) ∧ y1 = y ∧ res0.Rect.Contains x1 y1
          then v x1 else res0.Pix x1 y1, res0.Rect⟩ := by
  induction k with
  | zero =>
    simp only [List.range_zero, List.foldl_nil]
    rw [gray_ext_iff_fields]
    refine ⟨?_, rfl⟩
    funext x1 y1
    show res0.Pix x1 y1 = if 0 ≤ x1 ∧ x1 < ((0 : Nat) : Int) ∧ y1 = y ∧ res0.Rect.Contains x1 y1
      then v x1 else res0.Pix x1 y1
    split_ifs with h
    · have := h.1; have := h.2.1; omega
    · rfl
  | succ k ih =>
    rw [List.range_succ, List.foldl_append, ih]
    simp only [List.foldl_cons, List.foldl_nil, Gray.SetGray]
    by_cases hc : res0.Rect.Contains (k : Int) y
    · simp only [hc, if_true]
      rw [gray_ext_iff_fields]
      refine ⟨?_, rfl⟩
      funext x1 y1
      by_cases h1 : x1 = (k : Int) ∧ y1 = y
      · obtain ⟨hx, hy⟩ := h1
        subst hx; subst hy
        have : (0 : Int) ≤ (k : Int) ∧ (k : Int) < ((k + 1 : Nat) : Int) := by omega
        simp [this, hc]
      · simp only [h1, if_false]
        by_cases hy : y1 = y
        · have hx : x1 ≠ (k : Int) := fun h => h1 ⟨h, hy⟩
          have : (x1 < ((k + 1 : Nat) : Int)) ↔ (x1 < (k : Int)) := by omega
          simp only [this]
        · simp [hy]
    · simp only [hc, if_false]
      rw [gray_ext_iff_fields]
      refine ⟨?_, rfl⟩
      funext x1 y1
      by_cases h1 : x1 = (k : Int) ∧ y1 = y
      · obtain ⟨hx, hy⟩ := h1
        subst hx; subst hy
        simp [hc]
      · by_cases hy : y1 = y
        · have hx : x1 ≠ (k : Int) := fun h => h1 ⟨h, hy⟩
          have : (x1 < ((k + 1 : Nat) : Int)) ↔ (x1 < (k : Int)) := by omega
          simp only [this]
        · simp [hy]

theorem forRange_setGray (v : Int → Nat) (y w : Int) (res0 : Gray) :
    forRange w (fun x res => res.SetGray x y (v x)) res0
      = ⟨fun x1 y1 => if 0 ≤ x1 ∧ x1 < w ∧ y1 = y ∧ res0.Rect.Contains x1 y1
          then v x1 else res0.Pix x1 y1, res0.Rect⟩ := by
  unfold forRange
  rw [foldl_range_setGray, gray_ext_iff_fields]
  refine ⟨?_, rfl⟩
  funext x1 y1
  have : (0 ≤ x1 ∧ x1 < ((w.toNat : Nat) : Int)) ↔ (0 ≤ x1 ∧ x1 < w) := by omega
  by_cases h : 0 ≤ x1 ∧ x1 < w
  · have h2 := this.2 h
    simp only [h.1, h.2, h2.2, true_and]
  · have h2 : ¬ (0 ≤ x1 ∧ x1 < ((w.toNat : Nat) : Int)) := fun hh => h (this.1 hh)
    have e1 : ¬ (0 ≤ x1 ∧ x1 < w ∧ y1 = y ∧ res0.Rect.Contains x1 y1) :=
      fun hh => h ⟨hh.1, hh.2.1⟩
    have e2 : ¬ (0 ≤ x1 ∧ x1 < ((w.toNat : Nat) : Int) ∧ y1 = y ∧ res0.Rect.Contains x1 y1) :=
      fun hh => h2 ⟨hh.1, hh.2.1⟩
    simp only [if_neg e1, if_neg e2]

theorem foldl_range_rows_setGray (v : Int → Int → Nat) (w : Int) (k : Nat) (res0 : Gray) :
    (List.range k).foldl
        (fun s (j : Nat) => forRange w (fun x res => res.SetGray x (j : Int) (v x j)) s) res0
      = ⟨fun x1 y1 => if 0 ≤ x1 ∧ x1 < w ∧ 0 ≤ y1 ∧ y1 < (k : Int) ∧ res0.Rect.Contains x1 y1
          then v x1 y1 else res0.Pix x1 y1, res0.Rect⟩ := by
  induction k with
  | zero =>
    simp only [List.range_zero, List.foldl_nil]
    rw [gray_ext_iff_fields]
    refine ⟨?_, rfl⟩
    funext x1 y1
    show res0.Pix x1 y1 = if 0 ≤ x1 ∧ x1 < w ∧ 0 ≤ y1 ∧ y1 < ((0 : Nat) : Int) ∧
      res0.Rect.Contains x1 y1 then v x1 y1 else res0.Pix x1 y1
    split_ifs with h
    · have := h.2.2.1; have := h.2.2.2.1; omega
    · rfl
  | succ k ih =>
    rw [List.range_succ, List.foldl_append, ih]
    simp only [List.foldl_cons, List.foldl_nil]
    rw [forRange_setGray, gray_ext_iff_fields]
    refine ⟨?_, rfl⟩
    funext x1 y1
    show (if 0 ≤ x1 ∧ x1 < w ∧ y1 = (k : Int) ∧ res0.Rect.Contains x1 y1 then v x1 k
      else if 0 ≤ x1 ∧ x1 < w ∧ 0 ≤ y1 ∧ y1 < (k : Int) ∧ res0.Rect.Contains x1 y1
        then v x1 y1 else res0.Pix x1 y1)
      = if 0 ≤ x1 ∧ x1 < w ∧ 0 ≤ y1 ∧ y1 < ((k + 1 : Nat) : Int) ∧ res0.Rect.Contains x1 y1
        then v x1 y1 else res0.Pix x1 y1
    by_cases hy : y1 = (k : Int)
    · subst hy
      have a1 : (0 : Int) ≤ (k : Int) := by omega
      have a2 : (k : Int) < ((k + 1 : Nat) : Int) := by omega
      have a3 : ¬ ((k : Int) < (k : Int)) := by omega
      simp only [a1, a2, a3, true_and, false_and, and_false, if_false]
    · have a1 : (y1 < ((k + 1 : Nat) : Int)) ↔ (y1 < (k : Int)) := by omega
      simp only [hy, a1, false_and, and_false, if_false]

theorem forRange_rows_setGray (v : Int → Int → Nat) (w h : Int) (res0 : Gray) :
    forRange h (fun y res => forRange w (fun x res => res.SetGray x y (v x y)) res) res0
      = ⟨fun x1 y1 => if 0 ≤ x1 ∧ x1 < w ∧ 0 ≤ y1 ∧ y1 < h ∧ res0.Rect.Contains x1 y1
          then v x1 y1 else res0.Pix x1 y1, res0.Rect⟩ := by
  unfold forRange
  have e := foldl_range_rows_setGray v w h.toNat res0
  unfold forRange at e
  rw [e, gray_ext_iff_fields]
  refine ⟨?_, rfl⟩
  funext x1 y1
  have : (0 ≤ y1 ∧ y1 < ((h.toNat : Nat) : Int)) ↔ (0 ≤ y1 ∧ y1 < h) := by omega
  by_cases hh : 0 ≤ y1 ∧ y1 < h
  · have h2 := this.2 hh
    simp only [hh.1, hh.2, h2.2, true_and]
  · have h2 : ¬ (0 ≤ y1 ∧ y1 < ((h.toNat : Nat) : Int)) := fun h3 => hh (this.1 h3)
    have e1 : ¬ (0 ≤ x1 ∧ x1 < w ∧ 0 ≤ y1 ∧ y1 < h ∧ res0.Rect.Contains x1 y1) :=
      fun h3 => hh ⟨h3.2.2.1, h3.2.2.2.1⟩
    have e2 : ¬ (0 ≤ x1 ∧ x1 < w ∧ 0 ≤ y1 ∧ y1 < ((h.toNat : Nat) : Int) ∧
        res0.Rect.Contains x1 y1) :=
      fun h3 => h2 ⟨h3.2.2.1, h3.2.2.2.1⟩
    simp only [if_neg e1, if_neg e2]


theorem rgba_ext_iff_fields (a b : RGBA) : a = b ↔ a.Pix = b.Pix ∧ a.Rect = b.Rect := by
  cases a; cases b; simp

theorem foldl_range_setRGBA (v : Int → ColorRGBA) (y : Int) (k : Nat) (res0 : RGBA) :
    (List.range k).foldl (fun s (i : Nat) => s.SetRGBA (i : Int) y (v i)) res0
      = ⟨fun x1 y1 => if 0 ≤ x1 ∧ x1 < (k : Int) ∧ y1 = y ∧ res0.Rect.Contains x1 y1
          then v x1 else res0.Pix x1 y1, res0.Rect⟩ := by
  induction k with
  | zero =>
    simp only [List.range_zero, List.foldl_nil]
    rw [rgba_ext_iff_fields]
    refine ⟨?_, rfl⟩
    funext x1 y1
    show res0.Pix x1 y1 = if 0 ≤ x1 ∧ x1 < ((0 : Nat) : Int) ∧ y1 = y ∧ res0.Rect.Contains x1 y1
      then v x1 else res0.Pix x1 y1
    split_ifs with h
    · have := h.1; have := h.2.1; omega
    · rfl
  | succ k ih =>
    rw [List.range_succ, List.foldl_append, ih]
    simp only [List.foldl_cons, List.foldl_nil, RGBA.SetRGBA]
    by_cases hc : res0.Rect.Contains (k : Int) y
    · simp only [hc, if_true]
      rw [rgba_ext_iff_fields]
      refine ⟨?_, rfl⟩
      funext x1 y1
      by_cases h1 : x1 = (k : Int) ∧ y1 = y
      · obtain ⟨hx, hy⟩ := h1
        subst hx; subst hy
        have : (0 : Int) ≤ (k : Int) ∧ (k : Int) < ((k + 1 : Nat) : Int) := by omega
        simp [this, hc]
      · simp only [h1, if_false]
        by_cases hy : y1 = y
        · have hx : x1 ≠ (k : Int) := fun h => h1 ⟨h, hy⟩
          have : (x1 < ((k + 1 : Nat) : Int)) ↔ (x1 < (k : Int)) := by omega
          simp only [this]
        · simp [hy]
    · simp only [hc, if_false]
      rw [rgba_ext_iff_fields]
      refine ⟨?_, rfl⟩
      funext x1 y1
      by_cases h1 : x1 = (k : Int) ∧ y1 = y
      · obtain ⟨hx, hy⟩ := h1
        subst hx; subst hy
        simp [hc]
      · by_cases hy : y1 = y
        · have hx : x1 ≠ (k : Int) := fun h => h1 ⟨h, hy⟩
          have : (x1 < ((k + 1 : Nat) : Int)) ↔ (x1 < (k : Int)) := by omega
          simp only [this]
        · simp [hy]

theorem forRange_setRGBA (v : Int → ColorRGBA) (y w : Int) (res0 : RGBA) :
    forRange w (fun x res => res.SetRGBA x y (v x)) res0
      = ⟨fun x1 y1 => if 0 ≤ x1 ∧ x1 < w ∧ y1 = y ∧ res0.Rect.Contains x1 y1
          then v x1 else res0.Pix x1 y1, res0.Rect⟩ := by
  unfold forRange
  rw [foldl_range_setRGBA, rgba_ext_iff_fields]
  refine ⟨?_, rfl⟩
  funext x1 y1
  have : (0 ≤ x1 ∧ x1 < ((w.toNat : Nat) : Int)) ↔ (0 ≤ x1 ∧ x1 < w) := by omega
  by_cases h : 0 ≤ x1 ∧ x1 < w
  · have h2 := this.2 h
    simp only [h.1, h.2, h2.2, true_and]
  · have h2 : ¬ (0 ≤ x1 ∧ x1 < ((w.toNat : Nat) : Int)) := fun hh => h (this.1 hh)
    have e1 : ¬ (0 ≤ x1 ∧ x1 < w ∧ y1 = y ∧ res0.Rect.Contains x1 y1) :=
      fun hh => h ⟨hh.1, hh.2.1⟩
    have e2 : ¬ (0 ≤ x1 ∧ x1 < ((w.toNat : Nat) : Int) ∧ y1 = y ∧ res0.Rect.Contains x1 y1) :=
      fun hh => h2 ⟨hh.1, hh.2.1⟩
    simp only [if_neg e1, if_neg e2]

theorem foldl_range_rows_setRGBA (v : Int → Int → ColorRGBA) (w : Int) (k : Nat) (res0 : RGBA) :
    (List.range k).foldl
        (fun s (j : Nat) => forRange w (fun x res => res.SetRGBA x (j : Int) (v x j)) s) res0
      = ⟨fun x1 y1 => if 0 ≤ x1 ∧ x1 < w ∧ 0 ≤ y1 ∧ y1 < (k : Int) ∧ res0.Rect.Contains x1 y1
          then v x1 y1 else res0.Pix x1 y1, res0.Rect⟩ := by
  induction k with
  | zero =>
    simp only [List.range_zero, List.foldl_nil]
    rw [rgba_ext_iff_fields]
    refine ⟨?_, rfl⟩
    funext x1 y1
    show res0.Pix x1 y1 = if 0 ≤ x1 ∧ x1 < w ∧ 0 ≤ y1 ∧ y1 < ((0 : Nat) : Int) ∧
      res0.Rect.Contains x1 y1 then v x1 y1 else res0.Pix x1 y1
    split_ifs with h
    · have := h.2.2.1; have := h.2.2.2.1; omega
    · rfl
  | succ k ih =>
    rw [List.range_succ, List.foldl_append, ih]
    simp only [List.foldl_cons, List.foldl_nil]
    rw [forRange_setRGBA, rgba_ext_iff_fields]
    refine ⟨?_, rfl⟩
    funext x1 y1
    show (if 0 ≤ x1 ∧ x1 < w ∧ y1 = (k : Int) ∧ res0.Rect.Contains x1 y1 then v x1 k
      else if 0 ≤ x1 ∧ x1 < w ∧ 0 ≤ y1 ∧ y1 < (k : Int) ∧ res0.Rect.Contains x1 y1
        then v x1 y1 else res0.Pix x1 y1)
      = if 0 ≤ x1 ∧ x1 < w ∧ 0 ≤ y1 ∧ y1 < ((k + 1 : Nat) : Int) ∧ res0.Rect.Contains x1 y1
        then v x1 y1 else res0.Pix x1 y1
    by_cases hy : y1 = (k : Int)
    · subst hy
      have a1 : (0 : Int) ≤ (k : Int) := by omega
      have a2 : (k : Int) < ((k + 1 : Nat) : Int) := by omega
      have a3 : ¬ ((k : Int) < (k : Int)) := by omega
      simp only [a1, a2, a3, true_and, false_and, and_false, if_false]
    · have a1 : (y1 < ((k + 1 : Nat) : Int)) ↔ (y1 < (k : Int)) := by omega
      simp only [hy, a1, false_and, and_false, if_false]

theorem forRange_rows_setRGBA (v : Int → Int → ColorRGBA) (w h : Int) (res0 : RGBA) :
    forRange h (fun y res => forRange w (fun x res => res.SetRGBA x y (v x y)) res) res0
      = ⟨fun x1 y1 => if 0 ≤ x1 ∧ x1 < w ∧ 0 ≤ y1 ∧ y1 < h ∧ res0.Rect.Contains x1 y1
          then v x1 y1 else res0.Pix x1 y1, res0.Rect⟩ := by
  unfold forRange
  have e := foldl_range_rows_setRGBA v w h.toNat res0
  unfold forRange at e
  rw [e, rgba_ext_iff_fields]
  refine ⟨?_, rfl⟩
  funext x1 y1
  have : (0 ≤ y1 ∧ y1 < ((h.toNat : Nat) : Int)) ↔ (0 ≤ y1 ∧ y1 < h) := by omega
  by_cases hh : 0 ≤ y1 ∧ y1 < h
  · have h2 := this.2 hh
    simp only [hh.1, hh.2, h2.2, true_and]
  · have h2 : ¬ (0 ≤ y1 ∧ y1 < ((h.toNat : Nat) : Int)) := fun h3 => hh (this.1 h3)
    have e1 : ¬ (0 ≤ x1 ∧ x1 < w ∧ 0 ≤ y1 ∧ y1 < h ∧ res0.Rect.Contains x1 y1) :=
      fun h3 => hh ⟨h3.2.2.1, h3.2.2.2.1⟩
    have e2 : ¬ (0 ≤ x1 ∧ x1 < w ∧ 0 ≤ y1 ∧ y1 < ((h.toNat : Nat) : Int) ∧
        res0.Rect.Contains x1 y1) :=
      fun h3 => h2 ⟨h3.2.2.1, h3.2.2.2.1⟩
    simp only [if_neg e1, if_neg e2]



/-! ## The passes, sample by sample -/

theorem resizeNearestGray_eq (img : Gray) (fx fy : ℚ) :
    resizeNearestGray img fx fy = .ok (nearestGray img fx fy) := by
  unfold resizeNearestGray IteratePixels nearestGray
  simp only []
  rw [forRange_rows_setGray]
  rfl

theorem resizeHorizontalGray_eq (img : Gray) (fx : ℚ) (filter : Filter) :
    resizeHorizontalGray img fx filter = .ok (horizontalGray img fx filter) := by
  unfold resizeHorizontalGray horizontalGray
  simp only []
  rw [forRange_rows_setGray]
  rfl

theorem resizeVerticalGray_eq (img : Gray) (fy : ℚ) (filter : Filter) :
    resizeVerticalGray img fy filter = .ok (verticalGray img fy filter) := by
  unfold resizeVerticalGray verticalGray
  simp only []
  rw [forRange_rows_setGray]
  rfl

theorem resizeNearestRGBA_eq (img : RGBA) (fx fy : ℚ) :
    resizeNearestRGBA img fx fy = .ok (nearestRGBA img fx fy) := by
  unfold resizeNearestRGBA IteratePixels nearestRGBA
  simp only []
  rw [forRange_rows_setRGBA]
  rfl

theorem resizeHorizontalRGBA_eq (img : RGBA) (fx : ℚ) (filter : Filter) :
    resizeHorizontalRGBA img fx filter = .ok (horizontalRGBA img fx filter) := by
  unfold resizeHorizontalRGBA horizontalRGBA
  simp only []
  rw [forRange_rows_setRGBA]
  rfl

theorem resizeVerticalRGBA_eq (img : RGBA) (fy : ℚ) (filter : Filter) :
    resizeVerticalRGBA img fy filter = .ok (verticalRGBA img fy filter) := by
  unfold resizeVerticalRGBA verticalRGBA
  simp only []
  rw [forRange_rows_setRGBA]
  rfl

theorem resizeLinearGray_eq (img : Gray) (fx fy : ℚ) :
    resizeLinearGray img fx fy
      = .ok (verticalGray (horizontalGray img fx NewLinear) fy NewLinear) := by
  unfold resizeLinearGray
  rw [resizeHorizontalGray_eq]
  simp only [resizeVerticalGray_eq]

theorem resizeCatmullRomGray_eq (c : Filter) (img : Gray) (fx fy : ℚ) :
    resizeCatmullRomGray c img fx fy = .ok (verticalGray (horizontalGray img fx c) fy c) := by
  unfold resizeCatmullRomGray
  rw [resizeHorizontalGray_eq]
  simp only [resizeVerticalGray_eq]

theorem resizeLanczosGray_eq (l : Filter) (img : Gray) (fx fy : ℚ) :
    resizeLanczosGray l img fx fy = .ok (verticalGray (horizontalGray img fx l) fy l) := by
  unfold resizeLanczosGray
  rw [resizeHorizontalGray_eq]
  simp only [resizeVerticalGray_eq]

theorem resizeLinearRGBA_eq (img : RGBA) (fx fy : ℚ) :
    resizeLinearRGBA img fx fy
      = .ok (verticalRGBA (horizontalRGBA img fx NewLinear) fy NewLinear) := by
  unfold resizeLinearRGBA
  rw [resizeHorizontalRGBA_eq]
  simp only [resizeVerticalRGBA_eq]

theorem resizeCatmullRomRGBA_eq (c : Filter) (img : RGBA) (fx fy : ℚ) :
    resizeCatmullRomRGBA c img fx fy = .ok (verticalRGBA (horizontalRGBA img fx c) fy c) := by
  unfold resizeCatmullRomRGBA
  rw [resizeHorizontalRGBA_eq]
  simp only [resizeVerticalRGBA_eq]

theorem resizeLanczosRGBA_eq (l : Filter) (img : RGBA) (fx fy : ℚ) :
    resizeLanczosRGBA l img fx fy = .ok (verticalRGBA (horizontalRGBA img fx l) fy l) := by
  unfold resizeLanczosRGBA
  rw [resizeHorizontalRGBA_eq]
  simp only [resizeVerticalRGBA_eq]

/-! ## Geometry lemmas -/

theorem toInt_nonneg (q : ℚ) (h : 0 ≤ q) : 0 ≤ toInt q := by
  unfold toInt
  rw [if_pos h]
  exact Int.floor_nonneg.mpr h

theorem toInt_of_nonneg (q : ℚ) (h : 0 ≤ q) : toInt q = ⌊q⌋ := by
  unfold toInt
  rw [if_pos h]

theorem newLength_nonneg (n : Int) (f : ℚ) (hn : 0 ≤ n) (hf : 0 ≤ f) : 0 ≤ newLength n f := by
  unfold newLength
  apply toInt_nonneg
  have : (0 : ℚ) ≤ (n : ℚ) := by exact_mod_cast hn
  positivity

theorem newLength_eq_floor (n : Int) (f : ℚ) (hn : 0 ≤ n) (hf : 0 ≤ f) :
    newLength n f = ⌊(n : ℚ) * f⌋ := by
  unfold newLength
  apply toInt_of_nonneg
  have : (0 : ℚ) ≤ (n : ℚ) := by exact_mod_cast hn
  positivity

theorem Rect_origin (w h : Int) (hw : 0 ≤ w) (hh : 0 ≤ h) :
    Rect 0 0 w h = ⟨⟨0, 0⟩, ⟨w, h⟩⟩ := by
  unfold Rect
  have a : ¬ ((0 : Int) > w) := by omega
  have b : ¬ ((0 : Int) > h) := by omega
  simp only [a, b, if_false]

theorem Rect_origin_contains (w h x y : Int) (hw : 0 ≤ w) (hh : 0 ≤ h) :
    (Rect 0 0 w h).Contains x y ↔ 0 ≤ x ∧ x < w ∧ 0 ≤ y ∧ y < h := by
  rw [Rect_origin w h hw hh]
  rfl

theorem Size_nonneg (r : Rectangle) (h : r.WellFormed) : 0 ≤ r.Size.X ∧ 0 ≤ r.Size.Y := by
  unfold Rectangle.WellFormed at h
  unfold Rectangle.Size
  simp only
  omega

/-! ## The entry points -/

theorem ResizeGray_nearest (c l : Filter) (img : Gray) (fx fy : ℚ) (hx : 0 ≤ fx) (hy : 0 ≤ fy) :
    ResizeGray c l img fx fy InterNearest = .ok (nearestGray img fx fy) := by
  unfold ResizeGray
  have h : ¬ (fx < 0 ∨ fy < 0) := by
    rintro (h | h)
    · exact absurd h (not_lt.mpr hx)
    · exact absurd h (not_lt.mpr hy)
  rw [if_neg h, if_pos rfl, resizeNearestGray_eq]

theorem ResizeGray_separable (c l : Filter) (img : Gray) (fx fy : ℚ) (k : Interpolation)
    (hx : 0 ≤ fx) (hy : 0 ≤ fy) (hk : SeparableKernel k) :
    ResizeGray c l img fx fy k
      = .ok (verticalGray (horizontalGray img fx (kernelFilter c l k)) fy (kernelFilter c l k)) := by
  unfold ResizeGray
  have h : ¬ (fx < 0 ∨ fy < 0) := by
    rintro (h | h)
    · exact absurd h (not_lt.mpr hx)
    · exact absurd h (not_lt.mpr hy)
  rw [if_neg h]
  rcases hk with hk | hk | hk
  · subst hk
    rw [if_neg (by decide), if_pos rfl, resizeLinearGray_eq]
    rfl
  · subst hk
    rw [if_neg (by decide), if_neg (by decide), if_pos rfl, resizeCatmullRomGray_eq]
    rfl
  · subst hk
    rw [if_neg (by decide), if_neg (by decide), if_neg (by decide), if_pos rfl,
      resizeLanczosGray_eq]
    rfl

theorem ResizeRGBA_nearest (c l : Filter) (img : RGBA) (fx fy : ℚ) (hx : 0 ≤ fx) (hy : 0 ≤ fy) :
    ResizeRGBA c l img fx fy InterNearest = .ok (nearestRGBA img fx fy) := by
  unfold ResizeRGBA
  have h : ¬ (fx < 0 ∨ fy < 0) := by
    rintro (h | h)
    · exact absurd h (not_lt.mpr hx)
    · exact absurd h (not_lt.mpr hy)
  rw [if_neg h, if_pos rfl, resizeNearestRGBA_eq]

theorem ResizeRGBA_separable (c l : Filter) (img : RGBA) (fx fy : ℚ) (k : Interpolation)
    (hx : 0 ≤ fx) (hy : 0 ≤ fy) (hk : SeparableKernel k) :
    ResizeRGBA c l img fx fy k
      = .ok (verticalRGBA (horizontalRGBA img fx (kernelFilter c l k)) fy (kernelFilter c l k)) := by
  unfold ResizeRGBA
  have h : ¬ (fx < 0 ∨ fy < 0) := by
    rintro (h | h)
    · exact absurd h (not_lt.mpr hx)
    · exact absurd h (not_lt.mpr hy)
  rw [if_neg h]
  rcases hk with hk | hk | hk
  · subst hk
    rw [if_neg (by decide), if_pos rfl, resizeLinearRGBA_eq]
    rfl
  · subst hk
    rw [if_neg (by decide), if_neg (by decide), if_pos rfl, resizeCatmullRomRGBA_eq]
    rfl
  · subst hk
    rw [if_neg (by decide), if_neg (by decide), if_neg (by decide), if_pos rfl,
      resizeLanczosRGBA_eq]
    rfl

theorem KnownKernel_cases (k : Interpolation) (hk : KnownKernel k) :
    k = InterNearest ∨ SeparableKernel k := hk

/-! ## Bounds of the result images -/

theorem nearestGray_Rect (img : Gray) (fx fy : ℚ) (hw : img.Rect.WellFormed)
    (hx : 0 ≤ fx) (hy : 0 ≤ fy) :
    (nearestGray img fx fy).Rect
      = ⟨⟨0, 0⟩, ⟨newLength img.Rect.Size.X fx, newLength img.Rect.Size.Y fy⟩⟩ := by
  have hs := Size_nonneg img.Rect hw
  exact Rect_origin _ _ (newLength_nonneg _ _ hs.1 hx) (newLength_nonneg _ _ hs.2 hy)

theorem horizontalGray_Rect (img : Gray) (fx : ℚ) (filter : Filter) (hw : img.Rect.WellFormed)
    (hx : 0 ≤ fx) :
    (horizontalGray img fx filter).Rect
      = ⟨⟨0, 0⟩, ⟨newLength img.Rect.Size.X fx, img.Rect.Size.Y⟩⟩ := by
  have hs := Size_nonneg img.Rect hw
  exact Rect_origin _ _ (newLength_nonneg _ _ hs.1 hx) hs.2

theorem verticalGray_Rect (img : Gray) (fy : ℚ) (filter : Filter) (hw : img.Rect.WellFormed)
    (hy : 0 ≤ fy) :
    (verticalGray img fy filter).Rect
      = ⟨⟨0, 0⟩, ⟨img.Rect.Size.X, newLength img.Rect.Size.Y fy⟩⟩ := by
  have hs := Size_nonneg img.Rect hw
  exact Rect_origin _ _ hs.1 (newLength_nonneg _ _ hs.2 hy)

theorem twoPassGray_Rect (img : Gray) (fx fy : ℚ) (f g : Filter) (hw : img.Rect.WellFormed)
    (hx : 0 ≤ fx) (hy : 0 ≤ fy) :
    (verticalGray (horizontalGray img fx f) fy g).Rect
      = ⟨⟨0, 0⟩, ⟨newLength img.Rect.Size.X fx, newLength img.Rect.Size.Y fy⟩⟩ := by
  have hs := Size_nonneg img.Rect hw
  have hr := horizontalGray_Rect img fx f hw hx
  have hwf : (horizontalGray img fx f).Rect.WellFormed := by
    rw [hr]
    exact ⟨newLength_nonneg _ _ hs.1 hx, hs.2⟩
  rw [verticalGray_Rect _ fy g hwf hy, hr]
  simp [Rectangle.Size]

theorem nearestRGBA_Rect (img : RGBA) (fx fy : ℚ) (hw : img.Rect.WellFormed)
    (hx : 0 ≤ fx) (hy : 0 ≤ fy) :
    (nearestRGBA img fx fy).Rect
      = ⟨⟨0, 0⟩, ⟨newLength img.Rect.Size.X fx, newLength img.Rect.Size.Y fy⟩⟩ := by
  have hs := Size_nonneg img.Rect hw
  exact Rect_origin _ _ (newLength_nonneg _ _ hs.1 hx) (newLength_nonneg _ _ hs.2 hy)

theorem horizontalRGBA_Rect (img : RGBA) (fx : ℚ) (filter : Filter) (hw : img.Rect.WellFormed)
    (hx : 0 ≤ fx) :
    (horizontalRGBA img fx filter).Rect
      = ⟨⟨0, 0⟩, ⟨newLength img.Rect.Size.X fx, img.Rect.Size.Y⟩⟩ := by
  have hs := Size_nonneg img.Rect hw
  exact Rect_origin _ _ (newLength_nonneg _ _ hs.1 hx) hs.2

theorem verticalRGBA_Rect (img : RGBA) (fy : ℚ) (filter : Filter) (hw : img.Rect.WellFormed)
    (hy : 0 ≤ fy) :
    (verticalRGBA img fy filter).Rect
      = ⟨⟨0, 0⟩, ⟨img.Rect.Size.X, newLength img.Rect.Size.Y fy⟩⟩ := by
  have hs := Size_nonneg img.Rect hw
  exact Rect_origin _ _ hs.1 (newLength_nonneg _ _ hs.2 hy)

theorem twoPassRGBA_Rect (img : RGBA) (fx fy : ℚ) (f g : Filter) (hw : img.Rect.WellFormed)
    (hx : 0 ≤ fx) (hy : 0 ≤ fy) :
    (verticalRGBA (horizontalRGBA img fx f) fy g).Rect
      = ⟨⟨0, 0⟩, ⟨newLength img.Rect.Size.X fx, newLength img.Rect.Size.Y fy⟩⟩ := by
  have hs := Size_nonneg img.Rect hw
  have hr := horizontalRGBA_Rect img fx f hw hx
  have hwf : (horizontalRGBA img fx f).Rect.WellFormed := by
    rw [hr]
    exact ⟨newLength_nonneg _ _ hs.1 hx, hs.2⟩
  rw [verticalRGBA_Rect _ fy g hwf hy, hr]
  simp [Rectangle.Size]

/-- For a well-formed image, non-negative scales and a known selector, `ResizeGray`
returns an image with bounds `(0,0)-(int(W*fx), int(H*fy))`. -/
theorem ResizeGray_ok_Rect (c l : Filter) (img : Gray) (fx fy : ℚ) (k : Interpolation)
    (hw : img.Rect.WellFormed) (hx : 0 ≤ fx) (hy : 0 ≤ fy) (hk : KnownKernel k) :
    ∃ res, ResizeGray c l img fx fy k = .ok res ∧
      res.Rect = ⟨⟨0, 0⟩, ⟨newLength img.Rect.Size.X fx, newLength img.Rect.Size.Y fy⟩⟩ := by
  rcases KnownKernel_cases k hk with h | h
  · subst h
    exact ⟨_, ResizeGray_nearest c l img fx fy hx hy, nearestGray_Rect img fx fy hw hx hy⟩
  · exact ⟨_, ResizeGray_separable c l img fx fy k hx hy h,
      twoPassGray_Rect img fx fy _ _ hw hx hy⟩

/-- For a well-formed image, non-negative scales and a known selector, `ResizeRGBA`
returns an image with bounds `(0,0)-(int(W*fx), int(H*fy))`. -/
theorem ResizeRGBA_ok_Rect (c l : Filter) (img : RGBA) (fx fy : ℚ) (k : Interpolation)
    (hw : img.Rect.WellFormed) (hx : 0 ≤ fx) (hy : 0 ≤ fy) (hk : KnownKernel k) :
    ∃ res, ResizeRGBA c l img fx fy k = .ok res ∧
      res.Rect = ⟨⟨0, 0⟩, ⟨newLength img.Rect.Size.X fx, newLength img.Rect.Size.Y fy⟩⟩ := by
  rcases KnownKernel_cases k hk with h | h
  · subst h
    exact ⟨_, ResizeRGBA_nearest c l img fx fy hx hy, nearestRGBA_Rect img fx fy hw hx hy⟩
  · exact ⟨_, ResizeRGBA_separable c l img fx fy k hx hy h,
      twoPassRGBA_Rect img fx fy _ _ hw hx hy⟩

/-! ## Claims C1 to C4: entry points -/

theorem Resize_negative_scale (c l : Filter) (g : Gray) (r : RGBA) (fx fy : ℚ)
    (k : Interpolation) (h : fx < 0 ∨ fy < 0) :
    ResizeGray c l g fx fy k = .error "scale value should be greater then 0" ∧
    ResizeRGBA c l r fx fy k = .error "scale value should be greater then 0" := by
  constructor
  · unfold ResizeGray
    rw [if_pos h]
  · unfold ResizeRGBA
    rw [if_pos h]

/-- C2 (evaluation at the failing input): a scale factor equal to 0 passes the guard
`fx < 0 || fy < 0`; ResizeGray and ResizeRGBA return a buffer and no error. -/
theorem C2_zero_scale_accepted (c l : Filter) (g : Gray) (r : RGBA) :
    ResizeGray c l g 0 1 InterNearest = .ok (nearestGray g 0 1) ∧
    ResizeRGBA c l r 0 1 InterNearest = .ok (nearestRGBA r 0 1) ∧
    ResizeGray c l g 1 0 InterLinear
      = .ok (verticalGray (horizontalGray g 1 NewLinear) 0 NewLinear) ∧
    ResizeRGBA c l r 1 0 InterLinear
      = .ok (verticalRGBA (horizontalRGBA r 1 NewLinear) 0 NewLinear) :=
  ⟨ResizeGray_nearest c l g 0 1 le_rfl zero_le_one,
   ResizeRGBA_nearest c l r 0 1 le_rfl zero_le_one,
   ResizeGray_separable c l g 1 0 InterLinear zero_le_one le_rfl (Or.inl rfl),
   ResizeRGBA_separable c l r 1 0 InterLinear zero_le_one le_rfl (Or.inl rfl)⟩

/-- C3: for every image and every fx > 0, fy > 0, a kernel selector that is not one of
InterNearest, InterLinear, InterCatmullRom, InterLanczos makes ResizeGray and ResizeRGBA
return the error "invalid interpolation method" and no buffer. -/
theorem C3_unknown_kernel (c l : Filter) (g : Gray) (r : RGBA) (fx fy : ℚ) (k : Interpolation)
    (hfx : 0 < fx) (hfy : 0 < fy) (hk : ¬ KnownKernel k) :
    ResizeGray c l g fx fy k = .error "invalid interpolation method" ∧
    ResizeRGBA c l r fx fy k = .error "invalid interpolation method" := by
  have h : ¬ (fx < 0 ∨ fy < 0) := by
    rintro (h | h)
    · exact absurd h (not_lt.mpr hfx.le)
    · exact absurd h (not_lt.mpr hfy.le)
  have h0 : ¬ k = InterNearest := fun e => hk (Or.inl e)
  have h1 : ¬ k = InterLinear := fun e => hk (Or.inr (Or.inl e))
  have h2 : ¬ k = InterCatmullRom := fun e => hk (Or.inr (Or.inr (Or.inl e)))
  have h3 : ¬ k = InterLanczos := fun e => hk (Or.inr (Or.inr (Or.inr e)))
  constructor
  · unfold ResizeGray
    rw [if_neg h, if_neg h0, if_neg h1, if_neg h2, if_neg h3]
  · unfold ResizeRGBA
    rw [if_neg h, if_neg h0, if_neg h1, if_neg h2, if_neg h3]

/-- Witness of C3: selector 4 on a 2x1 image with fx = 2, fy = 1/2. -/
theorem C3_unknown_kernel_witness :
    (0 : ℚ) < 2 ∧ (0 : ℚ) < 1 / 2 ∧ ¬ KnownKernel 4 ∧
    ResizeGray NewLinear NewLinear (Gray.ofRows 2 [[10, 20]]) 2 (1 / 2) 4
      = .error "invalid interpolation method" ∧
    ResizeRGBA NewLinear NewLinear (NewRGBA (Rect 0 0 2 1)) 2 (1 / 2) 4
      = .error "invalid interpolation method" :=
  ⟨by norm_num, by norm_num, by decide,
    C3_unknown_kernel NewLinear NewLinear (Gray.ofRows 2 [[10, 20]]) (NewRGBA (Rect 0 0 2 1))
      2 (1 / 2) 4 (by norm_num) (by norm_num) (by decide)⟩

/-! ## Conversions at integer values -/

theorem toInt_intCast (n : Int) : toInt (n : ℚ) = n := by
  unfold toInt
  split_ifs
  · exact Int.floor_intCast n
  · exact Int.ceil_intCast n

theorem mathRound_intCast (n : Int) : mathRound (n : ℚ) = (n : ℚ) := by
  unfold mathRound
  split_ifs
  · have : ⌊(n : ℚ) + 1 / 2⌋ = n := by
      rw [Int.floor_eq_iff]
      constructor <;> norm_num
    rw [this]
  · have : ⌈(n : ℚ) - 1 / 2⌉ = n := by
      rw [Int.ceil_eq_iff]
      constructor <;> norm_num
    rw [this]

theorem newLength_one (n : Int) : newLength n 1 = n := by
  unfold newLength
  rw [mul_one, toInt_intCast]

/-! ## Claim C5: identity law of the nearest path -/

/-- C5: for every well-formed Gray or RGBA image (any size, any origin), resizing with
fx = 1, fy = 1 and InterNearest returns a buffer at origin (0,0) of the same width and
height whose sample at (x, y) is the source sample at (x + originX, y + originY). -/
theorem C5_nearest_identity (c l : Filter) (g : Gray) (r : RGBA)
    (hg : g.Bounds.WellFormed) (hr : r.Bounds.WellFormed) :
    (∃ res, ResizeGray c l g 1 1 InterNearest = .ok res ∧ res.Bounds.Min = ⟨0, 0⟩ ∧
      res.Bounds.Size = g.Bounds.Size ∧
      ∀ x y, 0 ≤ x → x < g.Bounds.Size.X → 0 ≤ y → y < g.Bounds.Size.Y →
        res.GrayAt x y = g.GrayAt (x + g.Bounds.Min.X) (y + g.Bounds.Min.Y)) ∧
    (∃ res, ResizeRGBA c l r 1 1 InterNearest = .ok res ∧ res.Bounds.Min = ⟨0, 0⟩ ∧
      res.Bounds.Size = r.Bounds.Size ∧
      ∀ x y, 0 ≤ x → x < r.Bounds.Size.X → 0 ≤ y → y < r.Bounds.Size.Y →
        res.RGBAAt x y = r.RGBAAt (x + r.Bounds.Min.X) (y + r.Bounds.Min.Y)) := by
  have sg := Size_nonneg g.Rect hg
  have sr := Size_nonneg r.Rect hr
  constructor
  · refine ⟨nearestGray g 1 1, ResizeGray_nearest c l g 1 1 zero_le_one zero_le_one, ?_, ?_, ?_⟩
    · show (nearestGray g 1 1).Rect.Min = _
      rw [nearestGray_Rect g 1 1 hg zero_le_one zero_le_one]
    · show (nearestGray g 1 1).Rect.Size = g.Rect.Size
      rw [nearestGray_Rect g 1 1 hg zero_le_one zero_le_one, newLength_one, newLength_one]
      simp [Rectangle.Size]
    · intro x y hx0 hx1 hy0 hy1
      have hx1 : x < g.Rect.Size.X := hx1
      have hy1 : y < g.Rect.Size.Y := hy1
      have hin : (Rect 0 0 g.Rect.Size.X g.Rect.Size.Y).Contains x y :=
        (Rect_origin_contains _ _ x y sg.1 sg.2).mpr ⟨hx0, hx1, hy0, hy1⟩
      unfold Gray.GrayAt
      simp only [nearestGray, newLength_one, hin, if_true, hx0, hx1, hy0, hy1, true_and,
        div_one, mathRound_intCast, toInt_intCast, Gray.GrayAt, Gray.Bounds]
  · refine ⟨nearestRGBA r 1 1, ResizeRGBA_nearest c l r 1 1 zero_le_one zero_le_one, ?_, ?_, ?_⟩
    · show (nearestRGBA r 1 1).Rect.Min = _
      rw [nearestRGBA_Rect r 1 1 hr zero_le_one zero_le_one]
    · show (nearestRGBA r 1 1).Rect.Size = r.Rect.Size
      rw [nearestRGBA_Rect r 1 1 hr zero_le_one zero_le_one, newLength_one, newLength_one]
      simp [Rectangle.Size]
    · intro x y hx0 hx1 hy0 hy1
      have hx1 : x < r.Rect.Size.X := hx1
      have hy1 : y < r.Rect.Size.Y := hy1
      have hin : (Rect 0 0 r.Rect.Size.X r.Rect.Size.Y).Contains x y :=
        (Rect_origin_contains _ _ x y sr.1 sr.2).mpr ⟨hx0, hx1, hy0, hy1⟩
      unfold RGBA.RGBAAt
      simp only [nearestRGBA, newLength_one, hin, if_true, hx0, hx1, hy0, hy1, true_and,
        div_one, mathRound_intCast, toInt_intCast, RGBA.RGBAAt, RGBA.Bounds]

/-- Witness of C5: a 3x2 Gray view at origin (5,7) and a 3x2 RGBA view at origin (-1,2). -/
theorem C5_nearest_identity_witness :
    exampleGray.Bounds.WellFormed ∧ exampleRGBA.Bounds.WellFormed ∧
    ((∃ res, ResizeGray NewLinear NewLinear exampleGray 1 1 InterNearest = .ok res ∧
      res.Bounds.Min = ⟨0, 0⟩ ∧ res.Bounds.Size = exampleGray.Bounds.Size ∧
      ∀ x y, 0 ≤ x → x < exampleGray.Bounds.Size.X → 0 ≤ y → y < exampleGray.Bounds.Size.Y →
        res.GrayAt x y = exampleGray.GrayAt (x + exampleGray.Bounds.Min.X)
          (y + exampleGray.Bounds.Min.Y)) ∧
    (∃ res, ResizeRGBA NewLinear NewLinear exampleRGBA 1 1 InterNearest = .ok res ∧
      res.Bounds.Min = ⟨0, 0⟩ ∧ res.Bounds.Size = exampleRGBA.Bounds.Size ∧
      ∀ x y, 0 ≤ x → x < exampleRGBA.Bounds.Size.X → 0 ≤ y → y < exampleRGBA.Bounds.Size.Y →
        res.RGBAAt x y = exampleRGBA.RGBAAt (x + exampleRGBA.Bounds.Min.X)
          (y + exampleRGBA.Bounds.Min.Y))) :=
  ⟨by decide, by decide,
    C5_nearest_identity NewLinear NewLinear exampleGray exampleRGBA (by decide) (by decide)⟩

/-! ## Claim C6: the nearest path at the far edge -/

/-- C6 (evaluation): on the 4x1 buffer [0, 85, 170, 255] with fx = 1/2, fy = 1 the
nearest path yields [0, 170]; on the 1x1 buffer [7] with fx = 2, fy = 1 it yields
[7, 0]: output column 1 reads source column round(1/2) = 1, which is outside the
source, and stores the zero colour, which is the value of no source pixel. -/
theorem C6_nearest_reads_outside :
    (ResizeGray NewLinear NewLinear (Gray.ofRows 4 [[0, 85, 170, 255]]) (1 / 2) 1
        InterNearest).toOption.map Gray.rows = some [[0, 170]] ∧
    (ResizeGray NewLinear NewLinear (Gray.ofRows 1 [[7]]) 2 1
        InterNearest).toOption.map Gray.rows = some [[7, 0]] ∧
    toInt (mathRound ((1 : Int) / (2 : ℚ))) = 1 ∧
    ¬ (Gray.ofRows 1 [[7]]).Bounds.Contains 1 0 := by
  refine ⟨by decide!, by decide!, by decide!, by decide⟩

/-! ## Claim C9: rounding and saturation of a stored sample -/

theorem toUint8_fin_of_range (q : ℚ) (h0 : 0 ≤ q) (h1 : q ≤ 255) :
    toUint8 (.fin q) = ⌊q⌋.toNat := by
  unfold toUint8
  simp only
  rw [toInt_of_nonneg q h0]
  have a : 0 ≤ ⌊q⌋ := Int.floor_nonneg.mpr h0
  have b : ⌊q⌋ ≤ 255 := by
    have : ⌊q⌋ ≤ ⌊(255 : ℚ)⌋ := Int.floor_le_floor h1
    have e : ⌊(255 : ℚ)⌋ = 255 := by
      rw [Int.floor_eq_iff]; constructor <;> norm_num
    omega
  rw [Int.emod_eq_of_lt a (by omega)]

theorem quantize_fin (q : ℚ) :
    toUint8 (ClampF64 (F64.add (.fin q) (1 / 2)) 0 255)
      = (min 255 (max 0 (toInt (mathRound q)))).toNat := by
  unfold ClampF64 F64.add F64.ltQ F64.gtQ
  simp only
  by_cases h1 : q + 1 / 2 < 0
  · simp only [h1, decide_True, if_true]
    rw [toUint8_fin_of_range 0 le_rfl (by norm_num)]
    have hq : ¬ (0 ≤ q) := by intro h; linarith
    have hr : mathRound q = ((⌈q - 1 / 2⌉ : Int) : ℚ) := by
      unfold mathRound; rw [if_neg hq]
    rw [hr, toInt_intCast]
    have : ⌈q - 1 / 2⌉ ≤ 0 := by
      rw [Int.ceil_le]; push_cast; linarith
    rw [Int.floor_zero, max_eq_left this]
    simp
  · simp only [h1, decide_False, Bool.false_eq_true, if_false]
    by_cases h2 : q + 1 / 2 > 255
    · simp only [h2, decide_True, if_true]
      rw [toUint8_fin_of_range 255 (by norm_num) le_rfl]
      have hq : 0 ≤ q := by linarith
      have hr : mathRound q = ((⌊q + 1 / 2⌋ : Int) : ℚ) := by
        unfold mathRound; rw [if_pos hq]
      rw [hr, toInt_intCast]
      have : (255 : Int) ≤ ⌊q + 1 / 2⌋ := by
        rw [Int.le_floor]; push_cast; linarith
      have e : ⌊(255 : ℚ)⌋ = 255 := by
        rw [Int.floor_eq_iff]; constructor <;> norm_num
      rw [e, max_eq_right (by omega), min_eq_left this]
    · simp only [h2, decide_False, Bool.false_eq_true, if_false]
      have a0 : 0 ≤ q + 1 / 2 := not_lt.mp h1
      have a1 : q + 1 / 2 ≤ 255 := not_lt.mp h2
      rw [toUint8_fin_of_range _ a0 a1]
      have f0 : 0 ≤ ⌊q + 1 / 2⌋ := Int.floor_nonneg.mpr a0
      have f1 : ⌊q + 1 / 2⌋ ≤ 255 := by
        have : ⌊q + 1 / 2⌋ ≤ ⌊(255 : ℚ)⌋ := Int.floor_le_floor a1
        have e : ⌊(255 : ℚ)⌋ = 255 := by
          rw [Int.floor_eq_iff]; constructor <;> norm_num
        omega
      by_cases hq : 0 ≤ q
      · have hr : mathRound q = ((⌊q + 1 / 2⌋ : Int) : ℚ) := by
          unfold mathRound; rw [if_pos hq]
        rw [hr, toInt_intCast, max_eq_right f0, min_eq_right f1]
      · have hq2 : q < 0 := not_le.mp hq
        have hr : mathRound q = ((⌈q - 1 / 2⌉ : Int) : ℚ) := by
          unfold mathRound; rw [if_neg hq]
        rw [hr, toInt_intCast]
        have c0 : ⌈q - 1 / 2⌉ ≤ 0 := by
          rw [Int.ceil_le]; push_cast; linarith
        have fl : ⌊q + 1 / 2⌋ = 0 := by
          rw [Int.floor_eq_iff]; constructor
          · push_cast; linarith
          · push_cast; linarith
        rw [fl, max_eq_left c0]
        simp

/-! ## Claim C10: saturation invariant -/

theorem toUint8_le (f : F64) : toUint8 f ≤ 255 := by
  unfold toUint8
  cases f with
  | fin q =>
    simp only
    have h1 : 0 ≤ toInt q % 256 := Int.emod_nonneg _ (by norm_num)
    have h2 : toInt q % 256 < 256 := Int.emod_lt_of_pos _ (by norm_num)
    omega
  | posInf => simp
  | negInf => simp
  | nan => simp

theorem quantize_le (fPix sum : ℚ) : quantize fPix sum ≤ 255 := toUint8_le _

theorem resample_le (filter : Filter) (f : ℚ) (n : Int) (pix : Int → Nat) (x : Int) :
    resample filter f n pix x ≤ 255 := quantize_le _ _

theorem resampleRGBA_le (filter : Filter) (f : ℚ) (n : Int) (pix : Int → ColorRGBA) (x : Int)
    (ch : Channel) : (resampleRGBA filter f n pix x).get ch ≤ 255 := by
  cases ch <;> exact quantize_le _ _

theorem GrayAt_le (img : Gray) (hv : img.Valid) (x y : Int) : img.GrayAt x y ≤ 255 := by
  unfold Gray.GrayAt
  split_ifs
  · exact hv x y
  · exact Nat.zero_le _

theorem RGBAAt_le (img : RGBA) (hv : img.Valid) (x y : Int) (ch : Channel) :
    (img.RGBAAt x y).get ch ≤ 255 := by
  unfold RGBA.RGBAAt
  split_ifs
  · have h := hv x y
    cases ch
    · exact h.1
    · exact h.2.1
    · exact h.2.2.1
    · exact h.2.2.2
  · cases ch <;> exact Nat.zero_le _

theorem RGBA_Valid_of_get (img : RGBA) (h : ∀ x y ch, (img.Pix x y).get ch ≤ 255) : img.Valid :=
  fun x y => ⟨h x y .R, h x y .G, h x y .B, h x y .A⟩

theorem nearestGray_Valid (img : Gray) (fx fy : ℚ) (hv : img.Valid) :
    (nearestGray img fx fy).Valid := by
  intro x y
  show (if _ then _ else _) ≤ 255
  split_ifs
  · exact GrayAt_le img hv _ _
  · exact Nat.zero_le _

theorem verticalGray_Valid (img : Gray) (fy : ℚ) (filter : Filter) :
    (verticalGray img fy filter).Valid := by
  intro x y
  show (if _ then _ else _) ≤ 255
  split_ifs
  · exact resample_le _ _ _ _ _
  · exact Nat.zero_le _

theorem horizontalGray_Valid (img : Gray) (fx : ℚ) (filter : Filter) :
    (horizontalGray img fx filter).Valid := by
  intro x y
  show (if _ then _ else _) ≤ 255
  split_ifs
  · exact resample_le _ _ _ _ _
  · exact Nat.zero_le _

theorem nearestRGBA_Valid (img : RGBA) (fx fy : ℚ) (hv : img.Valid) :
    (nearestRGBA img fx fy).Valid := by
  apply RGBA_Valid_of_get
  intro x y ch
  show ColorRGBA.get (if _ then _ else _) ch ≤ 255
  split_ifs
  · exact RGBAAt_le img hv _ _ ch
  · cases ch <;> exact Nat.zero_le _

theorem verticalRGBA_Valid (img : RGBA) (fy : ℚ) (filter : Filter) :
    (verticalRGBA img fy filter).Valid := by
  apply RGBA_Valid_of_get
  intro x y ch
  show ColorRGBA.get (if _ then _ else _) ch ≤ 255
  split_ifs
  · exact resampleRGBA_le _ _ _ _ _ ch
  · cases ch <;> exact Nat.zero_le _

theorem horizontalRGBA_Valid (img : RGBA) (fx : ℚ) (filter : Filter) :
    (horizontalRGBA img fx filter).Valid := by
  apply RGBA_Valid_of_get
  intro x y ch
  show ColorRGBA.get (if _ then _ else _) ch ≤ 255
  split_ifs
  · exact resampleRGBA_le _ _ _ _ _ ch
  · cases ch <;> exact Nat.zero_le _

/-- C10: for every input image (its samples being 8-bit values), every fx > 0, fy > 0 and
every known kernel, every channel value of the buffer returned by ResizeGray / ResizeRGBA
lies in [0, 255]. -/
theorem C10_saturation (c l : Filter) (g : Gray) (r : RGBA) (fx fy : ℚ) (k : Interpolation)
    (hg : g.Valid) (hr : r.Valid) (hfx : 0 < fx) (hfy : 0 < fy) (hk : KnownKernel k) :
    (∃ res, ResizeGray c l g fx fy k = .ok res ∧ res.Valid ∧ ∀ x y, res.GrayAt x y ≤ 255) ∧
    (∃ res, ResizeRGBA c l r fx fy k = .ok res ∧ res.Valid ∧
      ∀ x y ch, (res.RGBAAt x y).get ch ≤ 255) := by
  rcases KnownKernel_cases k hk with h | h
  · subst h
    exact ⟨⟨_, ResizeGray_nearest c l g fx fy hfx.le hfy.le, nearestGray_Valid g fx fy hg,
        GrayAt_le _ (nearestGray_Valid g fx fy hg)⟩,
      ⟨_, ResizeRGBA_nearest c l r fx fy hfx.le hfy.le, nearestRGBA_Valid r fx fy hr,
        RGBAAt_le _ (nearestRGBA_Valid r fx fy hr)⟩⟩
  · exact ⟨⟨_, ResizeGray_separable c l g fx fy k hfx.le hfy.le h, verticalGray_Valid _ _ _,
        GrayAt_le _ (verticalGray_Valid _ _ _)⟩,
      ⟨_, ResizeRGBA_separable c l r fx fy k hfx.le hfy.le h, verticalRGBA_Valid _ _ _,
        RGBAAt_le _ (verticalRGBA_Valid _ _ _)⟩⟩

theorem exampleGray_Valid : exampleGray.Valid := by
  intro x y
  show ((x + 2 * y) % 256).toNat ≤ 255
  have h1 : 0 ≤ (x + 2 * y) % 256 := Int.emod_nonneg _ (by norm_num)
  have h2 : (x + 2 * y) % 256 < 256 := Int.emod_lt_of_pos _ (by norm_num)
  omega

theorem exampleRGBA_Valid : exampleRGBA.Valid := by
  intro x y
  show (x % 256).toNat ≤ 255 ∧ (y % 256).toNat ≤ 255 ∧ 7 ≤ 255 ∧ 255 ≤ 255
  have h1 : 0 ≤ x % 256 := Int.emod_nonneg _ (by norm_num)
  have h2 : x % 256 < 256 := Int.emod_lt_of_pos _ (by norm_num)
  have h3 : 0 ≤ y % 256 := Int.emod_nonneg _ (by norm_num)
  have h4 : y % 256 < 256 := Int.emod_lt_of_pos _ (by norm_num)
  refine ⟨by omega, by omega, by norm_num, by norm_num⟩

/-- Witness of C10: the example views scaled by fx = 3/2, fy = 5/2 with the Linear kernel. -/
theorem C10_saturation_witness :
    exampleGray.Valid ∧ exampleRGBA.Valid ∧ (0 : ℚ) < 3 / 2 ∧ (0 : ℚ) < 5 / 2 ∧
    KnownKernel InterLinear ∧
    ((∃ res, ResizeGray NewLinear NewLinear exampleGray (3 / 2) (5 / 2) InterLinear = .ok res ∧
      res.Valid ∧ ∀ x y, res.GrayAt x y ≤ 255) ∧
    (∃ res, ResizeRGBA NewLinear NewLinear exampleRGBA (3 / 2) (5 / 2) InterLinear = .ok res ∧
      res.Valid ∧ ∀ x y ch, (res.RGBAAt x y).get ch ≤ 255)) :=
  ⟨exampleGray_Valid, exampleRGBA_Valid, by norm_num, by norm_num, by decide,
    C10_saturation NewLinear NewLinear exampleGray exampleRGBA (3 / 2) (5 / 2) InterLinear
      exampleGray_Valid exampleRGBA_Valid (by norm_num) (by norm_num) (by decide)⟩

/-! ## Claim C8: channel independence -/

theorem RGBAAt_get (img : RGBA) (ch : Channel) (x y : Int) :
    (img.RGBAAt x y).get ch = (img.channel ch).GrayAt x y := by
  unfold RGBA.RGBAAt Gray.GrayAt RGBA.channel
  simp only
  split_ifs
  · rfl
  · cases ch <;> rfl

theorem foldl_accRGBA_get (filter : Filter) (f ix : ℚ) (start : Int) (pix : Int → ColorRGBA)
    (ch : Channel) (L : List Nat) (a : AccRGBA) (p : ℚ × ℚ)
    (h1 : a.get ch = p.1) (h2 : a.sum = p.2) :
    (L.foldl (fun s (k : Nat) =>
        (fun (i : Int) (acc : AccRGBA) =>
          let filterValue := filter.Interpolate ((i : ℚ) - ix) / f
          ({ fPixR := acc.fPixR + ((pix i).R : ℚ) * filterValue
             fPixG := acc.fPixG + ((pix i).G : ℚ) * filterValue
             fPixB := acc.fPixB + ((pix i).B : ℚ) * filterValue
             fPixA := acc.fPixA + ((pix i).A : ℚ) * filterValue
             sum := acc.sum + filterValue } : AccRGBA)) (start + (k : Int)) s) a).get ch
      = (L.foldl (fun s (k : Nat) =>
        (fun (i : Int) (acc : ℚ × ℚ) =>
          let filterValue := filter.Interpolate ((i : ℚ) - ix) / f
          (acc.1 + (((pix i).get ch : Nat) : ℚ) * filterValue, acc.2 + filterValue))
          (start + (k : Int)) s) p).1 ∧
    (L.foldl (fun s (k : Nat) =>
        (fun (i : Int) (acc : AccRGBA) =>
          let filterValue := filter.Interpolate ((i : ℚ) - ix) / f
          ({ fPixR := acc.fPixR + ((pix i).R : ℚ) * filterValue
             fPixG := acc.fPixG + ((pix i).G : ℚ) * filterValue
             fPixB := acc.fPixB + ((pix i).B : ℚ) * filterValue
             fPixA := acc.fPixA + ((pix i).A : ℚ) * filterValue
             sum := acc.sum + filterValue } : AccRGBA)) (start + (k : Int)) s) a).sum
      = (L.foldl (fun s (k : Nat) =>
        (fun (i : Int) (acc : ℚ × ℚ) =>
          let filterValue := filter.Interpolate ((i : ℚ) - ix) / f
          (acc.1 + (((pix i).get ch : Nat) : ℚ) * filterValue, acc.2 + filterValue))
          (start + (k : Int)) s) p).2 := by
  induction L generalizing a p with
  | nil => exact ⟨h1, h2⟩
  | cons k L ih =>
    simp only [List.foldl_cons]
    apply ih
    · cases ch <;> simp only [AccRGBA.get, ColorRGBA.get] at h1 ⊢ <;> rw [h1]
    · simp only [h2]

theorem accumulateRGBA_get (filter : Filter) (f ix : ℚ) (start stop : Int)
    (pix : Int → ColorRGBA) (ch : Channel) :
    (accumulateRGBA filter f ix start stop pix).get ch
      = (accumulate filter f ix start stop (fun i => (pix i).get ch)).1 ∧
    (accumulateRGBA filter f ix start stop pix).sum
      = (accumulate filter f ix start stop (fun i => (pix i).get ch)).2 := by
  unfold accumulateRGBA accumulate forFromTo
  apply foldl_accRGBA_get
  · cases ch <;> rfl
  · rfl

theorem resampleRGBA_get (filter : Filter) (f : ℚ) (n : Int) (pix : Int → ColorRGBA) (x : Int)
    (ch : Channel) :
    (resampleRGBA filter f n pix x).get ch = resample filter f n (fun i => (pix i).get ch) x := by
  unfold resampleRGBA resample
  simp only
  have h := accumulateRGBA_get filter f (sourceCoord f x) (windowStart filter f n x)
    (windowStop filter f n x) pix ch
  rw [← h.1, ← h.2]
  cases ch <;> rfl

theorem ite_get (p : Prop) [Decidable p] (a : ColorRGBA) (ch : Channel) :
    (if p then a else (⟨0, 0, 0, 0⟩ : ColorRGBA)).get ch = if p then a.get ch else 0 := by
  split_ifs
  · rfl
  · cases ch <;> rfl

theorem nearestRGBA_channel (img : RGBA) (fx fy : ℚ) (ch : Channel) :
    (nearestRGBA img fx fy).channel ch = nearestGray (img.channel ch) fx fy := by
  rw [gray_ext_iff_fields]
  refine ⟨?_, rfl⟩
  funext x y
  unfold nearestRGBA nearestGray
  simp only [RGBA.channel, ite_get, RGBAAt_get]

theorem horizontalRGBA_channel (img : RGBA) (fx : ℚ) (filter : Filter) (ch : Channel) :
    (horizontalRGBA img fx filter).channel ch = horizontalGray (img.channel ch) fx filter := by
  rw [gray_ext_iff_fields]
  refine ⟨?_, rfl⟩
  funext x y
  unfold horizontalRGBA horizontalGray
  simp only [RGBA.channel, ite_get, resampleRGBA_get, RGBAAt_get]

theorem verticalRGBA_channel (img : RGBA) (fy : ℚ) (filter : Filter) (ch : Channel) :
    (verticalRGBA img fy filter).channel ch = verticalGray (img.channel ch) fy filter := by
  rw [gray_ext_iff_fields]
  refine ⟨?_, rfl⟩
  funext x y
  unfold verticalRGBA verticalGray
  simp only [RGBA.channel, ite_get, resampleRGBA_get, RGBAAt_get]

/-- C8: for every RGBA image, every fx > 0, fy > 0 and each of the four kernels, each
channel (R, G, B, A) of ResizeRGBA(img, fx, fy, k) is the image that ResizeGray returns,
with the same fx, fy, k, on the single-channel image made of that channel of img. -/
theorem C8_channel_independence (c l : Filter) (r : RGBA) (fx fy : ℚ) (k : Interpolation)
    (ch : Channel) (hfx : 0 < fx) (hfy : 0 < fy) (hk : KnownKernel k) :
    ∃ res gray, ResizeRGBA c l r fx fy k = .ok res ∧
      ResizeGray c l (r.channel ch) fx fy k = .ok gray ∧ res.channel ch = gray := by
  rcases KnownKernel_cases k hk with h | h
  · subst h
    exact ⟨_, _, ResizeRGBA_nearest c l r fx fy hfx.le hfy.le,
      ResizeGray_nearest c l (r.channel ch) fx fy hfx.le hfy.le, nearestRGBA_channel r fx fy ch⟩
  · refine ⟨_, _, ResizeRGBA_separable c l r fx fy k hfx.le hfy.le h,
      ResizeGray_separable c l (r.channel ch) fx fy k hfx.le hfy.le h, ?_⟩
    rw [verticalRGBA_channel, horizontalRGBA_channel]

/-- Witness of C8: the green channel of the example view, fx = 3/2, fy = 5/2, Linear. -/
theorem C8_channel_independence_witness :
    (0 : ℚ) < 3 / 2 ∧ (0 : ℚ) < 5 / 2 ∧ KnownKernel InterLinear ∧
    ∃ res gray, ResizeRGBA NewLinear NewLinear exampleRGBA (3 / 2) (5 / 2) InterLinear = .ok res ∧
      ResizeGray NewLinear NewLinear (exampleRGBA.channel .G) (3 / 2) (5 / 2) InterLinear
        = .ok gray ∧ res.channel .G = gray :=
  ⟨by norm_num, by norm_num, by decide,
    C8_channel_independence NewLinear NewLinear exampleRGBA (3 / 2) (5 / 2) InterLinear .G
      (by norm_num) (by norm_num) (by decide)⟩

/-! ## A constant image under the Linear kernel, in exact arithmetic -/

theorem accumulate_eq_foldl (filter : Filter) (f ix : ℚ) (start stop : Int) (pix : Int → Nat) :
    accumulate filter f ix start stop pix
      = (List.range (stop - start).toNat).foldl (fun (s : ℚ × ℚ) (k : Nat) =>
          (s.1 + (pix (start + (k : Int)) : ℚ) *
              (filter.Interpolate (((start + (k : Int) : Int) : ℚ) - ix) / f),
            s.2 + filter.Interpolate (((start + (k : Int) : Int) : ℚ) - ix) / f)) (0, 0) := rfl

theorem foldl_weighted_const (pix : Int → Nat) (w : Int → ℚ) (start : Int) (v : Nat)
    (L : List Nat) (a : ℚ × ℚ) (hp : ∀ k ∈ L, pix (start + (k : Int)) = v)
    (ha : a.1 = (v : ℚ) * a.2) :
    (L.foldl (fun (s : ℚ × ℚ) (k : Nat) =>
        (s.1 + (pix (start + (k : Int)) : ℚ) * w (start + (k : Int)),
          s.2 + w (start + (k : Int)))) a).1
      = (v : ℚ) * (L.foldl (fun (s : ℚ × ℚ) (k : Nat) =>
        (s.1 + (pix (start + (k : Int)) : ℚ) * w (start + (k : Int)),
          s.2 + w (start + (k : Int)))) a).2 := by
  induction L generalizing a with
  | nil => exact ha
  | cons k L ih =>
    simp only [List.foldl_cons]
    apply ih
    · intro j hj
      exact hp j (List.mem_cons_of_mem _ hj)
    · simp only
      rw [hp k (List.mem_cons_self _ _), ha]
      ring

theorem foldl_weight_mono (pix : Int → Nat) (w : Int → ℚ) (start : Int)
    (L : List Nat) (a : ℚ × ℚ) (hw : ∀ k ∈ L, 0 ≤ w (start + (k : Int))) :
    a.2 ≤ (L.foldl (fun (s : ℚ × ℚ) (k : Nat) =>
        (s.1 + (pix (start + (k : Int)) : ℚ) * w (start + (k : Int)),
          s.2 + w (start + (k : Int)))) a).2 := by
  induction L generalizing a with
  | nil => exact le_rfl
  | cons k L ih =>
    simp only [List.foldl_cons]
    have h1 := hw k (List.mem_cons_self _ _)
    have h2 := ih (a.1 + (pix (start + (k : Int)) : ℚ) * w (start + (k : Int)),
      a.2 + w (start + (k : Int))) (fun j hj => hw j (List.mem_cons_of_mem _ hj))
    simp only at h2
    linarith

theorem foldl_weight_pos (pix : Int → Nat) (w : Int → ℚ) (start : Int)
    (L : List Nat) (a : ℚ × ℚ) (hw : ∀ k ∈ L, 0 ≤ w (start + (k : Int))) (ha : 0 ≤ a.2)
    (hpos : ∃ k ∈ L, 0 < w (start + (k : Int))) :
    0 < (L.foldl (fun (s : ℚ × ℚ) (k : Nat) =>
        (s.1 + (pix (start + (k : Int)) : ℚ) * w (start + (k : Int)),
          s.2 + w (start + (k : Int)))) a).2 := by
  induction L generalizing a with
  | nil =>
    obtain ⟨k, hk, _⟩ := hpos
    exact absurd hk (List.not_mem_nil k)
  | cons k L ih =>
    simp only [List.foldl_cons]
    have h1 := hw k (List.mem_cons_self _ _)
    obtain ⟨j, hj, hjpos⟩ := hpos
    rcases List.mem_cons.mp hj with e | e
    · subst e
      have h2 := foldl_weight_mono pix w start L
        (a.1 + (pix (start + (j : Int)) : ℚ) * w (start + (j : Int)),
          a.2 + w (start + (j : Int))) (fun i hi => hw i (List.mem_cons_of_mem _ hi))
      simp only at h2
      linarith
    · apply ih
      · exact fun i hi => hw i (List.mem_cons_of_mem _ hi)
      · simp only
        linarith
      · exact ⟨j, e, hjpos⟩

theorem ClampInt_bounds (v n : Int) (hn : 0 ≤ n) :
    0 ≤ ClampInt v 0 n ∧ ClampInt v 0 n ≤ n := by
  unfold ClampInt
  split_ifs <;> omega

theorem ClampInt_le_of_le (v n i : Int) (h : v ≤ i) (hi : 0 ≤ i) : ClampInt v 0 n ≤ i := by
  unfold ClampInt
  split_ifs <;> omega

theorem lt_ClampInt_of_lt (v n i : Int) (h : i < v) (hn : i < n) (hi : 0 ≤ i) :
    i < ClampInt v 0 n := by
  unfold ClampInt
  split_ifs <;> omega

theorem quantize_const (v : Nat) (s : ℚ) (hv : v ≤ 255) (hs : s ≠ 0) :
    quantize ((v : ℚ) * s) s = v := by
  unfold quantize
  have : F64.div ((v : ℚ) * s) s = .fin (((v : Int) : ℚ)) := by
    unfold F64.div
    rw [if_neg hs, mul_div_assoc, div_self hs, mul_one]
    simp
  rw [this, quantize_fin, mathRound_intCast, toInt_intCast]
  omega

theorem toInt_nonpos (q : ℚ) (h : q ≤ 0) : toInt q ≤ 0 := by
  unfold toInt
  split_ifs
  · exact Int.floor_nonpos h
  · rw [Int.ceil_le]
    exact_mod_cast h

theorem newLength_pos_length (n x : Int) (f : ℚ) (hf : 0 < f) (hx0 : 0 ≤ x)
    (hx1 : x < newLength n f) : 1 ≤ n ∧ ((x : ℚ) + 1) ≤ (n : ℚ) * f := by
  have hn : 1 ≤ n := by
    by_contra hc
    have hn0 : n ≤ 0 := by omega
    have : (n : ℚ) * f ≤ 0 := mul_nonpos_of_nonpos_of_nonneg (by exact_mod_cast hn0) hf.le
    have := toInt_nonpos _ this
    unfold newLength at hx1
    omega
  refine ⟨hn, ?_⟩
  rw [newLength_eq_floor n f (by omega) hf.le] at hx1
  have h1 : x + 1 ≤ ⌊(n : ℚ) * f⌋ := by omega
  have h2 := Int.le_floor.mp h1
  push_cast at h2
  exact h2

theorem sourceCoord_bounds (n x : Int) (f : ℚ) (hf : 0 < f) (hx0 : 0 ≤ x)
    (hx1 : x < newLength n f) :
    -(1 / 2) < sourceCoord f x ∧ sourceCoord f x < (n : ℚ) - 1 / 2 ∧
      (sourceCoord f x + 1 / 2) * f = (x : ℚ) + 1 / 2 := by
  obtain ⟨_, h⟩ := newLength_pos_length n x f hf hx0 hx1
  have hx : (0 : ℚ) ≤ (x : ℚ) := by exact_mod_cast hx0
  have e : (sourceCoord f x + 1 / 2) * f = (x : ℚ) + 1 / 2 := by
    unfold sourceCoord
    field_simp
    ring
  have hpos : 0 < sourceCoord f x + 1 / 2 := by
    by_contra hc
    have : (sourceCoord f x + 1 / 2) * f ≤ 0 :=
      mul_nonpos_of_nonpos_of_nonneg (not_lt.mp hc) hf.le
    linarith
  have hlt : sourceCoord f x + 1 / 2 < (n : ℚ) := by
    by_contra hc
    have : (n : ℚ) * f ≤ (sourceCoord f x + 1 / 2) * f :=
      mul_le_mul_of_nonneg_right (not_lt.mp hc) hf.le
    linarith
  refine ⟨by linarith, by linarith, e⟩

theorem linear_window (f : ℚ) (n x : Int) (hf : 0 < f) (hx0 : 0 ≤ x)
    (hx1 : x < newLength n f) :
    ∃ i0 : Int, windowStart NewLinear f n x ≤ i0 ∧ i0 < windowStop NewLinear f n x ∧
      0 < NewLinear.Interpolate ((i0 : ℚ) - sourceCoord f x) / f := by
  obtain ⟨hn, hxn⟩ := newLength_pos_length n x f hf hx0 hx1
  obtain ⟨b1, b2, b3⟩ := sourceCoord_bounds n x f hf hx0 hx1
  have hx : (0 : ℚ) ≤ (x : ℚ) := by exact_mod_cast hx0
  have hR1 : 1 ≤ ⌈f⌉ := by
    have : 0 < ⌈f⌉ := Int.ceil_pos.mpr hf
    omega
  have hRf : f ≤ ((⌈f⌉ : Int) : ℚ) := Int.le_ceil f
  have hRq : (1 : ℚ) ≤ ((⌈f⌉ : Int) : ℚ) := by exact_mod_cast hR1
  have hr : mathCeil (f * NewLinear.GetS) = ((⌈f⌉ : Int) : ℚ) := by
    unfold mathCeil NewLinear
    simp only [mul_one]
  unfold windowStart windowStop
  rw [hr]
  by_cases hix : 0 ≤ sourceCoord f x
  · refine ⟨⌊sourceCoord f x⌋, ?_, ?_, ?_⟩
    · apply ClampInt_le_of_le _ _ _ _ (Int.floor_nonneg.mpr hix)
      unfold toInt
      split_ifs with h
      · exact Int.floor_le_floor (by linarith)
      · rw [Int.ceil_le]
        have : (0 : ℚ) ≤ ((⌊sourceCoord f x⌋ : Int) : ℚ) := by
          exact_mod_cast Int.floor_nonneg.mpr hix
        linarith [not_le.mp h]
    · apply lt_ClampInt_of_lt _ _ _ _ _ (Int.floor_nonneg.mpr hix)
      · rw [toInt_of_nonneg _ (by linarith), Int.floor_add_int]
        omega
      · rw [Int.floor_lt]
        linarith
    · apply div_pos _ hf
      show 0 < max 0 (1 - |((⌊sourceCoord f x⌋ : Int) : ℚ) - sourceCoord f x|)
      have h1 : ((⌊sourceCoord f x⌋ : Int) : ℚ) ≤ sourceCoord f x := Int.floor_le _
      have h2 : sourceCoord f x < ((⌊sourceCoord f x⌋ : Int) : ℚ) + 1 := Int.lt_floor_add_one _
      have h3 : |((⌊sourceCoord f x⌋ : Int) : ℚ) - sourceCoord f x| < 1 := by
        rw [abs_lt]
        constructor <;> linarith
      exact lt_max_of_lt_right (by linarith)
  · have hneg : sourceCoord f x < 0 := not_le.mp hix
    have hf1 : 1 < f := by
      by_contra hc
      have hle : f ≤ 1 := not_lt.mp hc
      have hq : 0 < sourceCoord f x + 1 / 2 := by linarith
      have : (sourceCoord f x + 1 / 2) * f ≤ (sourceCoord f x + 1 / 2) * 1 :=
        mul_le_mul_of_nonneg_left hle hq.le
      linarith
    have hR2 : 2 ≤ ⌈f⌉ := by
      have : 1 < ⌈f⌉ := by
        rw [Int.lt_ceil]
        exact_mod_cast hf1
      omega
    have hR2q : (2 : ℚ) ≤ ((⌈f⌉ : Int) : ℚ) := by exact_mod_cast hR2
    refine ⟨0, ?_, ?_, ?_⟩
    · apply ClampInt_le_of_le _ _ _ _ le_rfl
      apply toInt_nonpos
      linarith
    · apply lt_ClampInt_of_lt _ _ _ _ (by omega) le_rfl
      rw [toInt_of_nonneg _ (by linarith)]
      have : (1 : Int) ≤ ⌊sourceCoord f x + ((⌈f⌉ : Int) : ℚ)⌋ := by
        rw [Int.le_floor]
        push_cast
        linarith
      omega
    · apply div_pos _ hf
      show 0 < max 0 (1 - |((0 : Int) : ℚ) - sourceCoord f x|)
      have h3 : |((0 : Int) : ℚ) - sourceCoord f x| < 1 := by
        rw [abs_lt]
        constructor <;> (push_cast; linarith)
      exact lt_max_of_lt_right (by linarith)

theorem resample_linear_const (f : ℚ) (n x : Int) (pix : Int → Nat) (v : Nat) (hf : 0 < f)
    (hx0 : 0 ≤ x) (hx1 : x < newLength n f) (hv : v ≤ 255)
    (hp : ∀ i, 0 ≤ i → i < n → pix i = v) :
    resample NewLinear f n pix x = v := by
  obtain ⟨hn, _⟩ := newLength_pos_length n x f hf hx0 hx1
  obtain ⟨i0, hi1, hi2, hi3⟩ := linear_window f n x hf hx0 hx1
  have hs := ClampInt_bounds
    (toInt (sourceCoord f x - mathCeil (f * NewLinear.GetS) + 1 / 2)) n (by omega)
  have ht := ClampInt_bounds
    (toInt (sourceCoord f x + mathCeil (f * NewLinear.GetS))) n (by omega)
  have hs0 : 0 ≤ windowStart NewLinear f n x := hs.1
  have ht1 : windowStop NewLinear f n x ≤ n := ht.2
  unfold resample
  simp only
  rw [accumulate_eq_foldl]
  have hmem : ∀ k ∈ List.range (windowStop NewLinear f n x - windowStart NewLinear f n x).toNat,
      pix (windowStart NewLinear f n x + (k : Int)) = v := by
    intro k hk
    rw [List.mem_range] at hk
    apply hp <;> omega
  have hw : ∀ k ∈ List.range (windowStop NewLinear f n x - windowStart NewLinear f n x).toNat,
      0 ≤ (fun i : Int => NewLinear.Interpolate ((i : ℚ) - sourceCoord f x) / f)
        (windowStart NewLinear f n x + (k : Int)) := by
    intro k _
    exact div_nonneg (le_max_left _ _) hf.le
  have hc := foldl_weighted_const pix
    (fun i : Int => NewLinear.Interpolate ((i : ℚ) - sourceCoord f x) / f)
    (windowStart NewLinear f n x) v _ (0, 0) hmem (by simp)
  have hpos := foldl_weight_pos pix
    (fun i : Int => NewLinear.Interpolate ((i : ℚ) - sourceCoord f x) / f)
    (windowStart NewLinear f n x) _ (0, 0) hw le_rfl
    ⟨(i0 - windowStart NewLinear f n x).toNat, by rw [List.mem_range]; omega, by
      have e : windowStart NewLinear f n x + (((i0 - windowStart NewLinear f n x).toNat : Nat) : Int)
          = i0 := by omega
      rw [e]
      exact hi3⟩
  simp only at hc hpos
  rw [hc]
  exact quantize_const v _ hv (ne_of_gt hpos)

theorem horizontalGray_GrayAt (img : Gray) (fx : ℚ) (filter : Filter)
    (hw : img.Rect.WellFormed) (hf : 0 ≤ fx) (x y : Int) (hx0 : 0 ≤ x)
    (hx1 : x < newLength img.Rect.Size.X fx) (hy0 : 0 ≤ y) (hy1 : y < img.Rect.Size.Y) :
    (horizontalGray img fx filter).GrayAt x y
      = resample filter fx img.Rect.Size.X
          (fun i => img.GrayAt (i + img.Rect.Min.X) (y + img.Rect.Min.Y)) x := by
  have hs := Size_nonneg img.Rect hw
  have hin : (Rect 0 0 (newLength img.Rect.Size.X fx) img.Rect.Size.Y).Contains x y :=
    (Rect_origin_contains _ _ x y (newLength_nonneg _ _ hs.1 hf) hs.2).mpr ⟨hx0, hx1, hy0, hy1⟩
  unfold Gray.GrayAt
  have hin2 : (horizontalGray img fx filter).Rect.Contains x y := hin
  rw [if_pos hin2]
  show (if _ then _ else _) = _
  rw [if_pos ⟨hx0, hx1, hy0, hy1, hin⟩]
  rfl

theorem verticalGray_GrayAt (img : Gray) (fy : ℚ) (filter : Filter)
    (hw : img.Rect.WellFormed) (hf : 0 ≤ fy) (x y : Int) (hx0 : 0 ≤ x)
    (hx1 : x < img.Rect.Size.X) (hy0 : 0 ≤ y) (hy1 : y < newLength img.Rect.Size.Y fy) :
    (verticalGray img fy filter).GrayAt x y
      = resample filter fy img.Rect.Size.Y
          (fun i => img.GrayAt (x + img.Rect.Min.X) (i + img.Rect.Min.Y)) y := by
  have hs := Size_nonneg img.Rect hw
  have hin : (Rect 0 0 img.Rect.Size.X (newLength img.Rect.Size.Y fy)).Contains x y :=
    (Rect_origin_contains _ _ x y hs.1 (newLength_nonneg _ _ hs.2 hf)).mpr ⟨hx0, hx1, hy0, hy1⟩
  unfold Gray.GrayAt
  have hin2 : (verticalGray img fy filter).Rect.Contains x y := hin
  rw [if_pos hin2]
  show (if _ then _ else _) = _
  rw [if_pos ⟨hx0, hx1, hy0, hy1, hin⟩]
  rfl

theorem horizontalGray_linear_const (g : Gray) (v : Nat) (fx : ℚ) (hg : g.Rect.WellFormed)
    (hv : v ≤ 255) (hconst : ∀ x y, g.Rect.Contains x y → g.GrayAt x y = v) (hfx : 0 < fx)
    (x y : Int) (hx0 : 0 ≤ x) (hx1 : x < newLength g.Rect.Size.X fx) (hy0 : 0 ≤ y)
    (hy1 : y < g.Rect.Size.Y) :
    (horizontalGray g fx NewLinear).GrayAt x y = v := by
  rw [horizontalGray_GrayAt g fx NewLinear hg hfx.le x y hx0 hx1 hy0 hy1]
  apply resample_linear_const fx _ x _ v hfx hx0 hx1 hv
  intro i hi0 hi1
  apply hconst
  unfold Rectangle.Size at hi1 hy1
  simp only at hi1 hy1
  unfold Rectangle.Contains
  omega

/-- In exact arithmetic, ResizeGray with InterLinear maps a well-formed image all of whose
samples equal v (0 <= v <= 255) to an image all of whose samples equal v. -/
theorem ResizeGray_linear_const (c l : Filter) (g : Gray) (v : Nat) (fx fy : ℚ)
    (hg : g.Bounds.WellFormed) (hv : v ≤ 255)
    (hconst : ∀ x y, g.Bounds.Contains x y → g.GrayAt x y = v)
    (hfx : 0 < fx) (hfy : 0 < fy) :
    ∃ res, ResizeGray c l g fx fy InterLinear = .ok res ∧
      ∀ x y, res.Bounds.Contains x y → res.GrayAt x y = v := by
  have hgr : g.Rect.WellFormed := hg
  have hs := Size_nonneg g.Rect hgr
  have hM := horizontalGray_Rect g fx NewLinear hgr hfx.le
  have hMwf : (horizontalGray g fx NewLinear).Rect.WellFormed := by
    rw [hM]
    exact ⟨newLength_nonneg _ _ hs.1 hfx.le, hs.2⟩
  have hV := twoPassGray_Rect g fx fy NewLinear NewLinear hgr hfx.le hfy.le
  have hMX : (horizontalGray g fx NewLinear).Rect.Size.X = newLength g.Rect.Size.X fx := by
    rw [hM]; simp [Rectangle.Size]
  have hMY : (horizontalGray g fx NewLinear).Rect.Size.Y = g.Rect.Size.Y := by
    rw [hM]; simp [Rectangle.Size]
  have hMmin : (horizontalGray g fx NewLinear).Rect.Min = ⟨0, 0⟩ := by rw [hM]
  refine ⟨verticalGray (horizontalGray g fx NewLinear) fy NewLinear,
    ResizeGray_separable c l g fx fy InterLinear hfx.le hfy.le (Or.inl rfl), ?_⟩
  intro x y hc
  have hc2 : (verticalGray (horizontalGray g fx NewLinear) fy NewLinear).Rect.Contains x y := hc
  rw [hV] at hc2
  obtain ⟨hx0, hx1, hy0, hy1⟩ := hc2
  simp only at hx0 hx1 hy0 hy1
  rw [verticalGray_GrayAt _ fy NewLinear hMwf hfy.le x y hx0 (by rw [hMX]; exact hx1) hy0
    (by rw [hMY]; exact hy1)]
  apply resample_linear_const fy _ y _ v hfy hy0 (by rw [hMY]; exact hy1) hv
  intro i hi0 hi1
  rw [hMY] at hi1
  rw [hMmin]
  simp only [add_zero]
  exact horizontalGray_linear_const g v fx hgr hv hconst hfx x i hx0 hx1 hi0 hi1

theorem ofRows_const_2x2 :
    ∀ x y, (Gray.ofRows 2 [[100, 100], [100, 100]]).Bounds.Contains x y →
      (Gray.ofRows 2 [[100, 100], [100, 100]]).GrayAt x y = 100 := by
  intro x y h
  have h2 : 0 ≤ x ∧ x < 2 ∧ 0 ≤ y ∧ y < 2 := h
  have hx : x = 0 ∨ x = 1 := by omega
  have hy : y = 0 ∨ y = 1 := by omega
  rcases hx with rfl | rfl <;> rcases hy with rfl | rfl <;> rfl

/-! ## Claim C13: the window of an output sample -/

theorem ClampInt_eq_max_min (v n : Int) (hn : 0 ≤ n) : ClampInt v 0 n = max 0 (min v n) := by
  unfold ClampInt
  split_ifs with h1 h2
  · rw [min_eq_left (by omega), max_eq_left (by omega)]
  · rw [min_eq_right (by omega), max_eq_right hn]
  · rw [min_eq_left (by omega), max_eq_right (by omega)]

theorem ClampInt_toInt (q : ℚ) (n : Int) (hn : 0 ≤ n) :
    ClampInt (toInt q) 0 n = max 0 (min ⌊q⌋ n) := by
  rw [ClampInt_eq_max_min _ _ hn]
  unfold toInt
  split_ifs with h
  · rfl
  · have hq : q < 0 := not_le.mp h
    have h1 : ⌈q⌉ ≤ 0 := by
      rw [Int.ceil_le]
      exact_mod_cast hq.le
    have h2 : ⌊q⌋ ≤ 0 := Int.floor_nonpos hq.le
    rw [max_eq_left (le_trans (min_le_left _ _) h1),
      max_eq_left (le_trans (min_le_left _ _) h2)]

theorem window_index (filter : Filter) (hS : 1 ≤ filter.GetS) (f : ℚ) (n x : Int)
    (hf : 0 < f) (hx0 : 0 ≤ x) (hx1 : x < newLength n f) :
    ∃ i0 : Int, windowStart filter f n x ≤ i0 ∧ i0 < windowStop filter f n x ∧
      |(i0 : ℚ) - sourceCoord f x| < 1 := by
  obtain ⟨hn, hxn⟩ := newLength_pos_length n x f hf hx0 hx1
  obtain ⟨b1, b2, b3⟩ := sourceCoord_bounds n x f hf hx0 hx1
  have hx : (0 : ℚ) ≤ (x : ℚ) := by exact_mod_cast hx0
  have hfS : f ≤ f * filter.GetS := le_mul_of_one_le_right hf.le hS
  have hR1 : 1 ≤ ⌈f * filter.GetS⌉ := by
    have : 0 < ⌈f * filter.GetS⌉ := Int.ceil_pos.mpr (lt_of_lt_of_le hf hfS)
    omega
  have hRq : (1 : ℚ) ≤ ((⌈f * filter.GetS⌉ : Int) : ℚ) := by exact_mod_cast hR1
  have hr : mathCeil (f * filter.GetS) = ((⌈f * filter.GetS⌉ : Int) : ℚ) := rfl
  unfold windowStart windowStop
  rw [hr]
  by_cases hix : 0 ≤ sourceCoord f x
  · refine ⟨⌊sourceCoord f x⌋, ?_, ?_, ?_⟩
    · apply ClampInt_le_of_le _ _ _ _ (Int.floor_nonneg.mpr hix)
      unfold toInt
      split_ifs with h
      · exact Int.floor_le_floor (by linarith)
      · rw [Int.ceil_le]
        have : (0 : ℚ) ≤ ((⌊sourceCoord f x⌋ : Int) : ℚ) := by
          exact_mod_cast Int.floor_nonneg.mpr hix
        linarith [not_le.mp h]
    · apply lt_ClampInt_of_lt _ _ _ _ _ (Int.floor_nonneg.mpr hix)
      · rw [toInt_of_nonneg _ (by linarith), Int.floor_add_int]
        omega
      · rw [Int.floor_lt]
        linarith
    · have h1 : ((⌊sourceCoord f x⌋ : Int) : ℚ) ≤ sourceCoord f x := Int.floor_le _
      have h2 : sourceCoord f x < ((⌊sourceCoord f x⌋ : Int) : ℚ) + 1 := Int.lt_floor_add_one _
      rw [abs_lt]
      constructor <;> linarith
  · have hneg : sourceCoord f x < 0 := not_le.mp hix
    have hf1 : 1 < f := by
      by_contra hc
      have hle : f ≤ 1 := not_lt.mp hc
      have hq : 0 < sourceCoord f x + 1 / 2 := by linarith
      have : (sourceCoord f x + 1 / 2) * f ≤ (sourceCoord f x + 1 / 2) * 1 :=
        mul_le_mul_of_nonneg_left hle hq.le
      linarith
    have hR2 : 2 ≤ ⌈f * filter.GetS⌉ := by
      have : 1 < ⌈f * filter.GetS⌉ := by
        rw [Int.lt_ceil]
        push_cast
        linarith
      omega
    have hR2q : (2 : ℚ) ≤ ((⌈f * filter.GetS⌉ : Int) : ℚ) := by exact_mod_cast hR2
    refine ⟨0, ?_, ?_, ?_⟩
    · apply ClampInt_le_of_le _ _ _ _ le_rfl
      apply toInt_nonpos
      linarith
    · apply lt_ClampInt_of_lt _ _ _ _ (by omega) le_rfl
      rw [toInt_of_nonneg _ (by linarith)]
      have : (1 : Int) ≤ ⌊sourceCoord f x + ((⌈f * filter.GetS⌉ : Int) : ℚ)⌋ := by
        rw [Int.le_floor]
        push_cast
        linarith
      omega
    · rw [abs_lt]
      constructor <;> (push_cast; linarith)

/-- C13: for every axis length W >= 1, every fx > 0, every kernel with support radius >= 1
and every output index x in [0, floor(W*fx)) (so that floor(W*fx) >= 1), the window of the
horizontal/vertical pass satisfies 0 <= start < end <= W. -/
theorem C13_window_nonempty (filter : Filter) (f : ℚ) (n x : Int) (hS : 1 ≤ filter.GetS)
    (hn : 1 ≤ n) (hf : 0 < f) (hx0 : 0 ≤ x) (hx1 : x < ⌊(n : ℚ) * f⌋) :
    0 ≤ windowStart filter f n x ∧ windowStart filter f n x < windowStop filter f n x ∧
      windowStop filter f n x ≤ n := by
  have hx1n : x < newLength n f := by
    rw [newLength_eq_floor n f (by omega) hf.le]
    exact hx1
  obtain ⟨i0, h1, h2, _⟩ := window_index filter hS f n x hf hx0 hx1n
  have hs := ClampInt_bounds
    (toInt (sourceCoord f x - mathCeil (f * filter.GetS) + 1 / 2)) n (by omega)
  have ht := ClampInt_bounds (toInt (sourceCoord f x + mathCeil (f * filter.GetS))) n (by omega)
  exact ⟨hs.1, lt_of_le_of_lt h1 h2, ht.2⟩

/-- Witness of C13: Linear kernel, W = 4, fx = 1/2, output index 1: the window is [2, 3). -/
theorem C13_window_nonempty_witness :
    (1 : ℚ) ≤ NewLinear.GetS ∧ (1 : Int) ≤ 4 ∧ (0 : ℚ) < 1 / 2 ∧
    (1 : Int) ≤ ⌊((4 : Int) : ℚ) * (1 / 2)⌋ ∧ (0 : Int) ≤ 1 ∧
    (1 : Int) < ⌊((4 : Int) : ℚ) * (1 / 2)⌋ ∧
    (0 ≤ windowStart NewLinear (1 / 2) 4 1 ∧
      windowStart NewLinear (1 / 2) 4 1 < windowStop NewLinear (1 / 2) 4 1 ∧
      windowStop NewLinear (1 / 2) 4 1 ≤ 4) ∧
    windowStart NewLinear (1 / 2) 4 1 = 2 ∧ windowStop NewLinear (1 / 2) 4 1 = 3 :=
  ⟨le_rfl, by decide, by norm_num, by decide!, by decide, by decide!,
    C13_window_nonempty NewLinear (1 / 2) 4 1 le_rfl (by decide) (by norm_num)
      (by decide) (by decide!),
    by decide!, by decide!⟩

/-! ## Claim C14: the divisor of the quotient -/

theorem resample_eq_quantize (filter : Filter) (f : ℚ) (n : Int) (pix : Int → Nat) (x : Int) :
    resample filter f n pix x
      = quantize (accumulate filter f (sourceCoord f x) (windowStart filter f n x)
          (windowStop filter f n x) pix).1 (weightSum filter f n pix x) := rfl

/-- C14 (counterexample): with a filter whose weights are all zero, on the 1x1 image [7]
with fx = 1, the horizontal pass accumulates a weight sum of 0 for output sample (0, 0)
and stores the sample computed from the quotient 0/0, which is NaN: nothing guards the
division. -/
theorem C14_zero_sum_counterexample :
    ((0 : ℚ) < 1 ∧ (0 : Int) ≤ 0 ∧ (0 : Int) < newLength (Gray.ofRows 1 [[7]]).Rect.Size.X 1) ∧
    weightSum zeroFilter 1 (Gray.ofRows 1 [[7]]).Rect.Size.X
      (fun i => (Gray.ofRows 1 [[7]]).GrayAt (i + 0) (0 + 0)) 0 = 0 ∧
    (horizontalGray (Gray.ofRows 1 [[7]]) 1 zeroFilter).GrayAt 0 0
      = toUint8 (ClampF64 (F64.add (F64.div 0 0) (1 / 2)) 0 255) ∧
    F64.div 0 0 = F64.nan ∧
    ¬ (∀ (filter : Filter) (f : ℚ) (n : Int) (pix : Int → Nat) (x : Int),
        0 < f → 0 ≤ x → x < newLength n f → weightSum filter f n pix x ≠ 0) := by
  refine ⟨⟨by norm_num, by decide, by decide!⟩, by decide!, by decide!, by decide!, ?_⟩
  intro h
  exact h zeroFilter 1 1 (fun _ => 7) 0 (by norm_num) (by decide) (by decide!) (by decide!)

theorem weightSum_eq_foldl (filter : Filter) (f : ℚ) (n : Int) (pix : Int → Nat) (x : Int) :
    weightSum filter f n pix x
      = ((List.range (windowStop filter f n x - windowStart filter f n x).toNat).foldl
          (fun (s : ℚ × ℚ) (k : Nat) =>
            (s.1 + (pix (windowStart filter f n x + (k : Int)) : ℚ) *
                (filter.Interpolate (((windowStart filter f n x + (k : Int) : Int) : ℚ)
                  - sourceCoord f x) / f),
              s.2 + filter.Interpolate (((windowStart filter f n x + (k : Int) : Int) : ℚ)
                  - sourceCoord f x) / f)) (0, 0)).2 := rfl

/-- C14 (amended): the passes contain no guard and always evaluate fPix/sum; the divisor is
positive, so that no sample is computed by a division by zero, for every filter with
support radius >= 1 whose weights are non-negative and positive at distances below 1 (such
as Linear), every fx > 0 and every output index x in [0, int(W*fx)). -/
theorem C14_weight_sum_pos (filter : Filter) (f : ℚ) (n x : Int) (pix : Int → Nat)
    (hS : 1 ≤ filter.GetS) (hnn : ∀ d, 0 ≤ filter.Interpolate d)
    (hpos : ∀ d, |d| < 1 → 0 < filter.Interpolate d)
    (hf : 0 < f) (hx0 : 0 ≤ x) (hx1 : x < newLength n f) :
    0 < weightSum filter f n pix x ∧
    resample filter f n pix x
      = toUint8 (ClampF64 (F64.add (F64.fin
          ((accumulate filter f (sourceCoord f x) (windowStart filter f n x)
            (windowStop filter f n x) pix).1 / weightSum filter f n pix x)) (1 / 2)) 0 255) := by
  obtain ⟨i0, hi1, hi2, hi3⟩ := window_index filter hS f n x hf hx0 hx1
  have hw : ∀ k ∈ List.range (windowStop filter f n x - windowStart filter f n x).toNat,
      0 ≤ (fun i : Int => filter.Interpolate ((i : ℚ) - sourceCoord f x) / f)
        (windowStart filter f n x + (k : Int)) := by
    intro k _
    exact div_nonneg (hnn _) hf.le
  have hsum := foldl_weight_pos pix
    (fun i : Int => filter.Interpolate ((i : ℚ) - sourceCoord f x) / f)
    (windowStart filter f n x) _ (0, 0) hw le_rfl
    ⟨(i0 - windowStart filter f n x).toNat, by rw [List.mem_range]; omega, by
      have e : windowStart filter f n x + (((i0 - windowStart filter f n x).toNat : Nat) : Int)
          = i0 := by omega
      rw [e]
      exact div_pos (hpos _ hi3) hf⟩
  have hp : 0 < weightSum filter f n pix x := by
    rw [weightSum_eq_foldl]
    exact hsum
  refine ⟨hp, ?_⟩
  rw [resample_eq_quantize]
  unfold quantize F64.div
  rw [if_neg (ne_of_gt hp)]

theorem NewLinear_nonneg (d : ℚ) : 0 ≤ NewLinear.Interpolate d := le_max_left _ _

theorem NewLinear_pos (d : ℚ) (h : |d| < 1) : 0 < NewLinear.Interpolate d :=
  lt_max_of_lt_right (by linarith)

/-- Witness of the amended C14: Linear kernel, W = 4, fx = 1/2, output index 1, on the
line of samples [0, 85, 170, 255]. -/
theorem C14_weight_sum_pos_witness :
    (1 : ℚ) ≤ NewLinear.GetS ∧ (∀ d, 0 ≤ NewLinear.Interpolate d) ∧
    (∀ d, |d| < 1 → 0 < NewLinear.Interpolate d) ∧ (0 : ℚ) < 1 / 2 ∧ (0 : Int) ≤ 1 ∧
    (1 : Int) < newLength 4 (1 / 2) ∧
    (0 < weightSum NewLinear (1 / 2) 4 (fun i => [0, 85, 170, 255].getD i.toNat 0) 1 ∧
    resample NewLinear (1 / 2) 4 (fun i => [0, 85, 170, 255].getD i.toNat 0) 1
      = toUint8 (ClampF64 (F64.add (F64.fin
          ((accumulate NewLinear (1 / 2) (sourceCoord (1 / 2) 1)
            (windowStart NewLinear (1 / 2) 4 1) (windowStop NewLinear (1 / 2) 4 1)
            (fun i => [0, 85, 170, 255].getD i.toNat 0)).1
            / weightSum NewLinear (1 / 2) 4 (fun i => [0, 85, 170, 255].getD i.toNat 0) 1))
          (1 / 2)) 0 255)) :=
  ⟨le_rfl, NewLinear_nonneg, NewLinear_pos, by norm_num, by decide, by decide!,
    C14_weight_sum_pos NewLinear (1 / 2) 4 1 (fun i => [0, 85, 170, 255].getD i.toNat 0)
      le_rfl NewLinear_nonneg NewLinear_pos (by norm_num) (by decide) (by decide!)⟩

/-! ## Claim C15: the vertical pass is the transposed horizontal pass -/

theorem Rect_transpose (a b : Int) :
    (⟨⟨(Rect 0 0 a b).Min.Y, (Rect 0 0 a b).Min.X⟩,
      ⟨(Rect 0 0 a b).Max.Y, (Rect 0 0 a b).Max.X⟩⟩ : Rectangle) = Rect 0 0 b a := by
  unfold Rect
  split_ifs <;> rfl

theorem Rect_contains_swap (a b x y : Int) :
    (Rect 0 0 a b).Contains y x ↔ (Rect 0 0 b a).Contains x y := by
  rw [← Rect_transpose a b]
  unfold Rectangle.Contains
  simp only
  constructor <;> (intro h; omega)

theorem Gray_transpose_GrayAt (img : Gray) (x y : Int) :
    img.transpose.GrayAt x y = img.GrayAt y x := by
  unfold Gray.GrayAt Gray.transpose Rectangle.Contains
  simp only
  by_cases h : img.Rect.Min.X ≤ y ∧ y < img.Rect.Max.X ∧ img.Rect.Min.Y ≤ x ∧ x < img.Rect.Max.Y
  · have h2 : img.Rect.Min.Y ≤ x ∧ x < img.Rect.Max.Y ∧ img.Rect.Min.X ≤ y ∧ y < img.Rect.Max.X :=
      ⟨h.2.2.1, h.2.2.2, h.1, h.2.1⟩
    rw [if_pos h, if_pos h2]
  · have h2 : ¬ (img.Rect.Min.Y ≤ x ∧ x < img.Rect.Max.Y ∧ img.Rect.Min.X ≤ y ∧
        y < img.Rect.Max.X) := fun h3 => h ⟨h3.2.2.1, h3.2.2.2, h3.1, h3.2.1⟩
    rw [if_neg h, if_neg h2]

theorem RGBA_transpose_RGBAAt (img : RGBA) (x y : Int) :
    img.transpose.RGBAAt x y = img.RGBAAt y x := by
  unfold RGBA.RGBAAt RGBA.transpose Rectangle.Contains
  simp only
  by_cases h : img.Rect.Min.X ≤ y ∧ y < img.Rect.Max.X ∧ img.Rect.Min.Y ≤ x ∧ x < img.Rect.Max.Y
  · have h2 : img.Rect.Min.Y ≤ x ∧ x < img.Rect.Max.Y ∧ img.Rect.Min.X ≤ y ∧ y < img.Rect.Max.X :=
      ⟨h.2.2.1, h.2.2.2, h.1, h.2.1⟩
    rw [if_pos h, if_pos h2]
  · have h2 : ¬ (img.Rect.Min.Y ≤ x ∧ x < img.Rect.Max.Y ∧ img.Rect.Min.X ≤ y ∧
        y < img.Rect.Max.X) := fun h3 => h ⟨h3.2.2.1, h3.2.2.2, h3.1, h3.2.1⟩
    rw [if_neg h, if_neg h2]

theorem verticalGray_eq_transpose (img : Gray) (f : ℚ) (filter : Filter) :
    verticalGray img f filter = (horizontalGray img.transpose f filter).transpose := by
  rw [gray_ext_iff_fields]
  constructor
  · funext x y
    show (if _ then _ else _) = (if _ then _ else _)
    simp only [Gray_transpose_GrayAt]
    have hc : (0 ≤ x ∧ x < img.Rect.Size.X ∧ 0 ≤ y ∧ y < newLength img.Rect.Size.Y f ∧
          (Rect 0 0 img.Rect.Size.X (newLength img.Rect.Size.Y f)).Contains x y)
        ↔ (0 ≤ y ∧ y < newLength img.transpose.Rect.Size.X f ∧ 0 ≤ x ∧
          x < img.transpose.Rect.Size.Y ∧
          (Rect 0 0 (newLength img.transpose.Rect.Size.X f)
            img.transpose.Rect.Size.Y).Contains y x) := by
      rw [Rect_contains_swap]
      constructor
      · intro h
        exact ⟨h.2.2.1, h.2.2.2.1, h.1, h.2.1, h.2.2.2.2⟩
      · intro h
        exact ⟨h.2.2.1, h.2.2.2.1, h.1, h.2.1, h.2.2.2.2⟩
    by_cases h : 0 ≤ x ∧ x < img.Rect.Size.X ∧ 0 ≤ y ∧ y < newLength img.Rect.Size.Y f ∧
        (Rect 0 0 img.Rect.Size.X (newLength img.Rect.Size.Y f)).Contains x y
    · rw [if_pos h, if_pos (hc.mp h)]
      rfl
    · rw [if_neg h, if_neg (fun h2 => h (hc.mpr h2))]
  · exact (Rect_transpose _ _).symm

theorem verticalRGBA_eq_transpose (img : RGBA) (f : ℚ) (filter : Filter) :
    verticalRGBA img f filter = (horizontalRGBA img.transpose f filter).transpose := by
  rw [rgba_ext_iff_fields]
  constructor
  · funext x y
    show (if _ then _ else _) = (if _ then _ else _)
    simp only [RGBA_transpose_RGBAAt]
    have hc : (0 ≤ x ∧ x < img.Rect.Size.X ∧ 0 ≤ y ∧ y < newLength img.Rect.Size.Y f ∧
          (Rect 0 0 img.Rect.Size.X (newLength img.Rect.Size.Y f)).Contains x y)
        ↔ (0 ≤ y ∧ y < newLength img.transpose.Rect.Size.X f ∧ 0 ≤ x ∧
          x < img.transpose.Rect.Size.Y ∧
          (Rect 0 0 (newLength img.transpose.Rect.Size.X f)
            img.transpose.Rect.Size.Y).Contains y x) := by
      rw [Rect_contains_swap]
      constructor
      · intro h
        exact ⟨h.2.2.1, h.2.2.2.1, h.1, h.2.1, h.2.2.2.2⟩
      · intro h
        exact ⟨h.2.2.1, h.2.2.2.1, h.1, h.2.1, h.2.2.2.2⟩
    by_cases h : 0 ≤ x ∧ x < img.Rect.Size.X ∧ 0 ≤ y ∧ y < newLength img.Rect.Size.Y f ∧
        (Rect 0 0 img.Rect.Size.X (newLength img.Rect.Size.Y f)).Contains x y
    · rw [if_pos h, if_pos (hc.mp h)]
      rfl
    · rw [if_neg h, if_neg (fun h2 => h (hc.mpr h2))]
  · exact (Rect_transpose _ _).symm

/-- C15: for every image, every scale f (in particular f > 0) and every filter K,
resizeVerticalGray(img, f, K) returns the transpose of the image that
resizeHorizontalGray(transpose(img), f, K) returns, and likewise for the RGBA pair. -/
theorem C15_vertical_is_transposed_horizontal (g : Gray) (r : RGBA) (f : ℚ) (filter : Filter) :
    resizeVerticalGray g f filter
      = (resizeHorizontalGray g.transpose f filter).map Gray.transpose ∧
    resizeVerticalRGBA r f filter
      = (resizeHorizontalRGBA r.transpose f filter).map RGBA.transpose := by
  rw [resizeVerticalGray_eq, resizeHorizontalGray_eq, resizeVerticalRGBA_eq,
    resizeHorizontalRGBA_eq, verticalGray_eq_transpose, verticalRGBA_eq_transpose]
  exact ⟨rfl, rfl⟩

/-! ## Claim C16: independence of the origin of a view -/

theorem view_GrayAt (g g0 : Gray) (hR : g0.Rect = ⟨⟨0, 0⟩, g.Rect.Size⟩)
    (hP : ∀ x y, g.Rect.Contains (x + g.Rect.Min.X) (y + g.Rect.Min.Y) →
      g0.Pix x y = g.Pix (x + g.Rect.Min.X) (y + g.Rect.Min.Y)) (x y : Int) :
    g0.GrayAt x y = g.GrayAt (x + g.Rect.Min.X) (y + g.Rect.Min.Y) := by
  unfold Gray.GrayAt
  have hc : g0.Rect.Contains x y ↔ g.Rect.Contains (x + g.Rect.Min.X) (y + g.Rect.Min.Y) := by
    rw [hR]
    unfold Rectangle.Contains Rectangle.Size
    simp only
    constructor <;> (intro h; omega)
  by_cases h : g0.Rect.Contains x y
  · rw [if_pos h, if_pos (hc.mp h)]
    exact hP x y (hc.mp h)
  · rw [if_neg h, if_neg (fun h2 => h (hc.mpr h2))]

theorem view_Rect (r0 r : Rectangle) (hR : r0 = ⟨⟨0, 0⟩, r.Size⟩) :
    r0.Size = r.Size ∧ r0.Min.X = 0 ∧ r0.Min.Y = 0 := by
  subst hR
  refine ⟨?_, rfl, rfl⟩
  simp [Rectangle.Size]

theorem nearestGray_view (g g0 : Gray) (fx fy : ℚ) (hR : g0.Rect = ⟨⟨0, 0⟩, g.Rect.Size⟩)
    (hP : ∀ x y, g.Rect.Contains (x + g.Rect.Min.X) (y + g.Rect.Min.Y) →
      g0.Pix x y = g.Pix (x + g.Rect.Min.X) (y + g.Rect.Min.Y)) :
    nearestGray g0 fx fy = nearestGray g fx fy := by
  obtain ⟨hS, hX, hY⟩ := view_Rect g0.Rect g.Rect hR
  unfold nearestGray
  simp only [hS, hX, hY, add_zero, view_GrayAt g g0 hR hP]

theorem horizontalGray_view (g g0 : Gray) (fx : ℚ) (filter : Filter)
    (hR : g0.Rect = ⟨⟨0, 0⟩, g.Rect.Size⟩)
    (hP : ∀ x y, g.Rect.Contains (x + g.Rect.Min.X) (y + g.Rect.Min.Y) →
      g0.Pix x y = g.Pix (x + g.Rect.Min.X) (y + g.Rect.Min.Y)) :
    horizontalGray g0 fx filter = horizontalGray g fx filter := by
  obtain ⟨hS, hX, hY⟩ := view_Rect g0.Rect g.Rect hR
  unfold horizontalGray
  simp only [hS, hX, hY, add_zero, view_GrayAt g g0 hR hP]

theorem ResizeGray_view (c l : Filter) (g g0 : Gray) (fx fy : ℚ) (k : Interpolation)
    (hR : g0.Rect = ⟨⟨0, 0⟩, g.Rect.Size⟩)
    (hP : ∀ x y, g.Rect.Contains (x + g.Rect.Min.X) (y + g.Rect.Min.Y) →
      g0.Pix x y = g.Pix (x + g.Rect.Min.X) (y + g.Rect.Min.Y)) :
    ResizeGray c l g0 fx fy k = ResizeGray c l g fx fy k := by
  simp only [ResizeGray, resizeNearestGray_eq, resizeLinearGray_eq, resizeCatmullRomGray_eq,
    resizeLanczosGray_eq, nearestGray_view g g0 fx fy hR hP, horizontalGray_view g g0 fx _ hR hP]

theorem Gray_rebase_view (g : Gray) :
    g.rebase.Rect = ⟨⟨0, 0⟩, g.Rect.Size⟩ ∧
    ∀ x y, g.Rect.Contains (x + g.Rect.Min.X) (y + g.Rect.Min.Y) →
      g.rebase.Pix x y = g.Pix (x + g.Rect.Min.X) (y + g.Rect.Min.Y) :=
  ⟨rfl, fun _ _ _ => rfl⟩

theorem view_RGBAAt (g g0 : RGBA) (hR : g0.Rect = ⟨⟨0, 0⟩, g.Rect.Size⟩)
    (hP : ∀ x y, g.Rect.Contains (x + g.Rect.Min.X) (y + g.Rect.Min.Y) →
      g0.Pix x y = g.Pix (x + g.Rect.Min.X) (y + g.Rect.Min.Y)) (x y : Int) :
    g0.RGBAAt x y = g.RGBAAt (x + g.Rect.Min.X) (y + g.Rect.Min.Y) := by
  unfold RGBA.RGBAAt
  have hc : g0.Rect.Contains x y ↔ g.Rect.Contains (x + g.Rect.Min.X) (y + g.Rect.Min.Y) := by
    rw [hR]
    unfold Rectangle.Contains Rectangle.Size
    simp only
    constructor <;> (intro h; omega)
  by_cases h : g0.Rect.Contains x y
  · rw [if_pos h, if_pos (hc.mp h)]
    exact hP x y (hc.mp h)
  · rw [if_neg h, if_neg (fun h2 => h (hc.mpr h2))]

theorem nearestRGBA_view (g g0 : RGBA) (fx fy : ℚ) (hR : g0.Rect = ⟨⟨0, 0⟩, g.Rect.Size⟩)
    (hP : ∀ x y, g.Rect.Contains (x + g.Rect.Min.X) (y + g.Rect.Min.Y) →
      g0.Pix x y = g.Pix (x + g.Rect.Min.X) (y + g.Rect.Min.Y)) :
    nearestRGBA g0 fx fy = nearestRGBA g fx fy := by
  obtain ⟨hS, hX, hY⟩ := view_Rect g0.Rect g.Rect hR
  unfold nearestRGBA
  simp only [hS, hX, hY, add_zero, view_RGBAAt g g0 hR hP]

theorem horizontalRGBA_view (g g0 : RGBA) (fx : ℚ) (filter : Filter)
    (hR : g0.Rect = ⟨⟨0, 0⟩, g.Rect.Size⟩)
    (hP : ∀ x y, g.Rect.Contains (x + g.Rect.Min.X) (y + g.Rect.Min.Y) →
      g0.Pix x y = g.Pix (x + g.Rect.Min.X) (y + g.Rect.Min.Y)) :
    horizontalRGBA g0 fx filter = horizontalRGBA g fx filter := by
  obtain ⟨hS, hX, hY⟩ := view_Rect g0.Rect g.Rect hR
  unfold horizontalRGBA
  simp only [hS, hX, hY, add_zero, view_RGBAAt g g0 hR hP]

theorem ResizeRGBA_view (c l : Filter) (g g0 : RGBA) (fx fy : ℚ) (k : Interpolation)
    (hR : g0.Rect = ⟨⟨0, 0⟩, g.Rect.Size⟩)
    (hP : ∀ x y, g.Rect.Contains (x + g.Rect.Min.X) (y + g.Rect.Min.Y) →
      g0.Pix x y = g.Pix (x + g.Rect.Min.X) (y + g.Rect.Min.Y)) :
    ResizeRGBA c l g0 fx fy k = ResizeRGBA c l g fx fy k := by
  simp only [ResizeRGBA, resizeNearestRGBA_eq, resizeLinearRGBA_eq, resizeCatmullRomRGBA_eq,
    resizeLanczosRGBA_eq, nearestRGBA_view g g0 fx fy hR hP, horizontalRGBA_view g g0 fx _ hR hP]

theorem RGBA_rebase_view (g : RGBA) :
    g.rebase.Rect = ⟨⟨0, 0⟩, g.Rect.Size⟩ ∧
    ∀ x y, g.Rect.Contains (x + g.Rect.Min.X) (y + g.Rect.Min.Y) →
      g.rebase.Pix x y = g.Pix (x + g.Rect.Min.X) (y + g.Rect.Min.Y) :=
  ⟨rfl, fun _ _ _ => rfl⟩

/-- C16: for every view g with origin (ox, oy), ResizeGray / ResizeRGBA of the view equals
the resize of any image g0 with bounds (0,0)-(W,H) whose sample at (x, y) is the sample of
the view at (x + ox, y + oy) for the points inside the view's bounds; in particular it
equals the resize of the view re-based at (0,0), for every fx, fy and every selector. -/
theorem C16_origin_independence (c l : Filter) (g g0 : Gray) (r r0 : RGBA) (fx fy : ℚ)
    (k : Interpolation)
    (hgR : g0.Rect = ⟨⟨0, 0⟩, g.Rect.Size⟩)
    (hgP : ∀ x y, g.Rect.Contains (x + g.Rect.Min.X) (y + g.Rect.Min.Y) →
      g0.Pix x y = g.Pix (x + g.Rect.Min.X) (y + g.Rect.Min.Y))
    (hrR : r0.Rect = ⟨⟨0, 0⟩, r.Rect.Size⟩)
    (hrP : ∀ x y, r.Rect.Contains (x + r.Rect.Min.X) (y + r.Rect.Min.Y) →
      r0.Pix x y = r.Pix (x + r.Rect.Min.X) (y + r.Rect.Min.Y)) :
    ResizeGray c l g0 fx fy k = ResizeGray c l g fx fy k ∧
    ResizeRGBA c l r0 fx fy k = ResizeRGBA c l r fx fy k ∧
    ResizeGray c l g.rebase fx fy k = ResizeGray c l g fx fy k ∧
    ResizeRGBA c l r.rebase fx fy k = ResizeRGBA c l r fx fy k :=
  ⟨ResizeGray_view c l g g0 fx fy k hgR hgP, ResizeRGBA_view c l r r0 fx fy k hrR hrP,
    ResizeGray_view c l g g.rebase fx fy k (Gray_rebase_view g).1 (Gray_rebase_view g).2,
    ResizeRGBA_view c l r r.rebase fx fy k (RGBA_rebase_view r).1 (RGBA_rebase_view r).2⟩

/-- Witness of C16: the example views at origins (5,7) and (-1,2) against their re-based
grids, fx = 3/2, fy = 5/2, Linear. -/
theorem C16_origin_independence_witness :
    exampleGray.rebase.Rect = ⟨⟨0, 0⟩, exampleGray.Rect.Size⟩ ∧
    (∀ x y, exampleGray.Rect.Contains (x + exampleGray.Rect.Min.X) (y + exampleGray.Rect.Min.Y) →
      exampleGray.rebase.Pix x y
        = exampleGray.Pix (x + exampleGray.Rect.Min.X) (y + exampleGray.Rect.Min.Y)) ∧
    exampleRGBA.rebase.Rect = ⟨⟨0, 0⟩, exampleRGBA.Rect.Size⟩ ∧
    (∀ x y, exampleRGBA.Rect.Contains (x + exampleRGBA.Rect.Min.X) (y + exampleRGBA.Rect.Min.Y) →
      exampleRGBA.rebase.Pix x y
        = exampleRGBA.Pix (x + exampleRGBA.Rect.Min.X) (y + exampleRGBA.Rect.Min.Y)) ∧
    (ResizeGray NewLinear NewLinear exampleGray.rebase (3 / 2) (5 / 2) InterLinear
        = ResizeGray NewLinear NewLinear exampleGray (3 / 2) (5 / 2) InterLinear ∧
      ResizeRGBA NewLinear NewLinear exampleRGBA.rebase (3 / 2) (5 / 2) InterLinear
        = ResizeRGBA NewLinear NewLinear exampleRGBA (3 / 2) (5 / 2) InterLinear ∧
      ResizeGray NewLinear NewLinear exampleGray.rebase (3 / 2) (5 / 2) InterLinear
        = ResizeGray NewLinear NewLinear exampleGray (3 / 2) (5 / 2) InterLinear ∧
      ResizeRGBA NewLinear NewLinear exampleRGBA.rebase (3 / 2) (5 / 2) InterLinear
        = ResizeRGBA NewLinear NewLinear exampleRGBA (3 / 2) (5 / 2) InterLinear) :=
  ⟨rfl, fun _ _ _ => rfl, rfl, fun _ _ _ => rfl,
    C16_origin_independence NewLinear NewLinear exampleGray exampleGray.rebase exampleRGBA
      exampleRGBA.rebase (3 / 2) (5 / 2) InterLinear rfl (fun _ _ _ => rfl) rfl
      (fun _ _ _ => rfl)⟩

/-! ## Claims C17 to C19: global threshold methods -/

theorem threshold_eq (img : Gray) (transform : Nat → Nat) :
    threshold img transform = thresholdImage img transform := by
  unfold threshold ForEachGrayPixel IteratePixels thresholdImage
  simp only [Gray.Set]
  rw [forRange_rows_setGray]
  rfl

theorem thresholdImage_Rect (img : Gray) (transform : Nat → Nat) (hw : img.Rect.WellFormed) :
    (thresholdImage img transform).Rect = ⟨⟨0, 0⟩, img.Rect.Size⟩ := by
  have hs := Size_nonneg img.Rect hw
  exact Rect_origin _ _ hs.1 hs.2

theorem thresholdImage_GrayAt (img : Gray) (transform : Nat → Nat) (hw : img.Rect.WellFormed)
    (x y : Int) (hx0 : 0 ≤ x) (hx1 : x < img.Rect.Size.X) (hy0 : 0 ≤ y)
    (hy1 : y < img.Rect.Size.Y) :
    (thresholdImage img transform).GrayAt x y
      = transform (img.GrayAt (x + img.Rect.Min.X) (y + img.Rect.Min.Y)) := by
  have hs := Size_nonneg img.Rect hw
  have hin : (Rect 0 0 img.Rect.Size.X img.Rect.Size.Y).Contains x y :=
    (Rect_origin_contains _ _ x y hs.1 hs.2).mpr ⟨hx0, hx1, hy0, hy1⟩
  unfold Gray.GrayAt
  have hin2 : (thresholdImage img transform).Rect.Contains x y := hin
  rw [if_pos hin2]
  show (if _ then _ else _) = _
  rw [if_pos ⟨hx0, hx1, hy0, hy1, hin⟩]
  rfl

/-- C17 (evaluation at the failing input): on the 3x1 image [99, 100, 101] with t = 100,
Threshold with ThreshBinary yields [0, 255, 255]; the documented value for the pixel equal
to the threshold is 0, since 100 > 100 is false. -/
theorem C17_binary_at_threshold :
    (Threshold (Gray.ofRows 3 [[99, 100, 101]]) 100 ThreshBinary).toOption.map Gray.rows
      = some [[0, 255, 255]] ∧
    (if (Gray.ofRows 3 [[99, 100, 101]]).GrayAt 1 0 > 100 then MaxUint8 else 0) = 0 := by
  refine ⟨by decide!, by decide⟩

/-- C18: for every well-formed Gray image, every threshold t and every pixel,
Threshold(img, t, ThreshTrunc) returns an image at origin (0,0) of the size of img whose
pixel is t if src(x, y) > t and src(x, y) otherwise, that is min(src(x, y), t). -/
theorem C18_trunc (img : Gray) (t : Nat) (hw : img.Bounds.WellFormed) :
    ∃ res, Threshold img t ThreshTrunc = .ok res ∧
      res.Bounds = ⟨⟨0, 0⟩, img.Bounds.Size⟩ ∧
      ∀ x y, 0 ≤ x → x < img.Bounds.Size.X → 0 ≤ y → y < img.Bounds.Size.Y →
        res.GrayAt x y
            = (if img.GrayAt (x + img.Bounds.Min.X) (y + img.Bounds.Min.Y) > t then t
                else img.GrayAt (x + img.Bounds.Min.X) (y + img.Bounds.Min.Y)) ∧
          res.GrayAt x y = min (img.GrayAt (x + img.Bounds.Min.X) (y + img.Bounds.Min.Y)) t := by
  refine ⟨thresholdImage img (fun pixel => if pixel < t then pixel else t), ?_, ?_, ?_⟩
  · unfold Threshold
    rw [if_neg (by decide), if_neg (by decide), if_pos rfl, threshold_eq]
  · exact thresholdImage_Rect img _ hw
  · intro x y hx0 hx1 hy0 hy1
    rw [thresholdImage_GrayAt img _ hw x y hx0 hx1 hy0 hy1]
    simp only [Gray.Bounds]
    constructor
    · split_ifs <;> omega
    · split_ifs with h
      · exact (min_eq_left (le_of_lt h)).symm
      · exact (min_eq_right (not_lt.mp h)).symm

/-- Witness of C18: the example view at origin (5,7) with t = 20. -/
theorem C18_trunc_witness :
    exampleGray.Bounds.WellFormed ∧
    ∃ res, Threshold exampleGray 20 ThreshTrunc = .ok res ∧
      res.Bounds = ⟨⟨0, 0⟩, exampleGray.Bounds.Size⟩ ∧
      ∀ x y, 0 ≤ x → x < exampleGray.Bounds.Size.X → 0 ≤ y → y < exampleGray.Bounds.Size.Y →
        res.GrayAt x y
            = (if exampleGray.GrayAt (x + exampleGray.Bounds.Min.X)
                  (y + exampleGray.Bounds.Min.Y) > 20 then 20
                else exampleGray.GrayAt (x + exampleGray.Bounds.Min.X)
                  (y + exampleGray.Bounds.Min.Y)) ∧
          res.GrayAt x y = min (exampleGray.GrayAt (x + exampleGray.Bounds.Min.X)
            (y + exampleGray.Bounds.Min.Y)) 20 :=
  ⟨by decide, C18_trunc exampleGray 20 (by decide)⟩

/-- C19 (evaluation at the failing input): on the 3x1 image [99, 100, 101] with t = 100,
Threshold with ThreshToZero yields [0, 100, 101]; the documented value for the pixel equal
to the threshold is 0, since 100 > 100 is false. -/
theorem C19_tozero_at_threshold :
    (Threshold (Gray.ofRows 3 [[99, 100, 101]]) 100 ThreshToZero).toOption.map Gray.rows
      = some [[0, 100, 101]] ∧
    (if (Gray.ofRows 3 [[99, 100, 101]]).GrayAt 1 0 > 100
      then (Gray.ofRows 3 [[99, 100, 101]]).GrayAt 1 0 else 0) = 0 := by
  refine ⟨by decide!, by decide⟩

/-! ## Claim C20: replicated border -/

/-- C20 (evaluation at the failing input): on the 3x3 image with rows [1,2,3], [4,5,6],
[7,8,9], kernel size (5,5) and anchor (1,1) (paddings left = top = 1, right = bottom = 3),
PaddingGray with BorderReplicate fills the top padding row with [4, 4, 5, 6, 6, 6, 6],
the values of row 1 of the original, where row 0 is [1, 2, 3]. -/
theorem C20_replicate_top_row :
    calculatePaddings ⟨5, 5⟩ ⟨1, 1⟩ = .ok ⟨1, 3, 1, 3⟩ ∧
    (PaddingGray (Gray.ofRows 3 [[1, 2, 3], [4, 5, 6], [7, 8, 9]]) ⟨5, 5⟩ ⟨1, 1⟩
        BorderReplicate).toOption.map Gray.rows
      = some [[4, 4, 5, 6, 6, 6, 6], [1, 1, 2, 3, 3, 3, 3], [4, 4, 5, 6, 6, 6, 6],
          [7, 7, 8, 9, 9, 9, 9], [7, 7, 8, 9, 9, 9, 9], [7, 7, 8, 9, 9, 9, 9],
          [7, 7, 8, 9, 9, 9, 9]] ∧
    (Gray.ofRows 3 [[1, 2, 3], [4, 5, 6], [7, 8, 9]]).GrayAt
      (max 0 (min (1 - 1) (3 - 1))) (max 0 (min (0 - 1) (3 - 1))) = 1 := by
  refine ⟨rfl, by decide!, by decide⟩

/-! ## Claim C22: padding sizes -/

/-- C22: for every kernel size (kx, ky) and anchor (ax, ay) that calculatePaddings accepts,
the paddings are left = ax, right = kx - ax - 1, top = ay, bottom = ky - ay - 1. -/
theorem C22_padding_sizes (kernelSize anchor : Point) (p : Paddings)
    (h : calculatePaddings kernelSize anchor = .ok p) :
    p.PaddingLeft = anchor.X ∧ p.PaddingRight = kernelSize.X - anchor.X - 1 ∧
    p.PaddingTop = anchor.Y ∧ p.PaddingBottom = kernelSize.Y - anchor.Y - 1 := by
  unfold calculatePaddings at h
  split_ifs at h
  injection h with h
  subst h
  exact ⟨rfl, rfl, rfl, rfl⟩

/-- Witness of C22: kernel (5,5) with anchor (1,1) gives 1px left and top and 3px right
and bottom. -/
theorem C22_padding_sizes_witness :
    calculatePaddings ⟨5, 5⟩ ⟨1, 1⟩ = .ok ⟨1, 3, 1, 3⟩ ∧
    ((⟨1, 3, 1, 3⟩ : Paddings).PaddingLeft = (⟨1, 1⟩ : Point).X ∧
      (⟨1, 3, 1, 3⟩ : Paddings).PaddingRight = (⟨5, 5⟩ : Point).X - (⟨1, 1⟩ : Point).X - 1 ∧
      (⟨1, 3, 1, 3⟩ : Paddings).PaddingTop = (⟨1, 1⟩ : Point).Y ∧
      (⟨1, 3, 1, 3⟩ : Paddings).PaddingBottom = (⟨5, 5⟩ : Point).Y - (⟨1, 1⟩ : Point).Y - 1) :=
  ⟨rfl, C22_padding_sizes ⟨5, 5⟩ ⟨1, 1⟩ ⟨1, 3, 1, 3⟩ rfl⟩

/-! ## Claims C25 to C27: blend -/

theorem gridImage_Rect (w h : Int) (v : Int → Int → Nat) (hw : 0 ≤ w) (hh : 0 ≤ h) :
    (gridImage w h v).Rect = ⟨⟨0, 0⟩, ⟨w, h⟩⟩ := Rect_origin w h hw hh

theorem gridImage_GrayAt (w h : Int) (v : Int → Int → Nat) (hw : 0 ≤ w) (hh : 0 ≤ h)
    (x y : Int) (hx0 : 0 ≤ x) (hx1 : x < w) (hy0 : 0 ≤ y) (hy1 : y < h) :
    (gridImage w h v).GrayAt x y = v x y := by
  have hin : (Rect 0 0 w h).Contains x y :=
    (Rect_origin_contains _ _ x y hw hh).mpr ⟨hx0, hx1, hy0, hy1⟩
  unfold Gray.GrayAt
  have hin2 : (gridImage w h v).Rect.Contains x y := hin
  rw [if_pos hin2]
  show (if _ then _ else _) = _
  rw [if_pos ⟨hx0, hx1, hy0, hy1, hin⟩]

theorem AddScalarToGray_eq (img : Gray) (value : Int) :
    AddScalarToGray img value
      = gridImage img.Rect.Size.X img.Rect.Size.Y (fun x y =>
          intToUint8 (ClampInt
            (wrapInt ((img.GrayAt (x + img.Rect.Min.X) (y + img.Rect.Min.Y) : Int) + value))
            MinUint8 (MaxUint8 : Int))) := by
  unfold AddScalarToGray ForEachGrayPixel IteratePixels gridImage
  simp only []
  rw [forRange_rows_setGray]
  rfl

theorem AddGray_eq (img1 img2 : Gray)
    (h : ¬ (img1.Rect.Size.X ≠ img2.Rect.Size.X ∨ img1.Rect.Size.Y ≠ img2.Rect.Size.Y)) :
    AddGray img1 img2
      = .ok (gridImage img1.Rect.Size.X img1.Rect.Size.Y (fun x y =>
          intToUint8 (ClampInt
            (wrapInt ((img1.GrayAt (x + img1.Rect.Min.X) (y + img1.Rect.Min.Y) : Int)
              + (img2.GrayAt (x + img2.Rect.Min.X) (y + img2.Rect.Min.Y) : Int)))
            MinUint8 (MaxUint8 : Int)))) := by
  unfold AddGray IteratePixels gridImage
  simp only [Gray.Bounds]
  rw [if_neg h, forRange_rows_setGray]
  rfl

theorem AddGrayWeighted_eq (img1 img2 : Gray) (w1 w2 : ℚ)
    (h : ¬ (img1.Rect.Size.X ≠ img2.Rect.Size.X ∨ img1.Rect.Size.Y ≠ img2.Rect.Size.Y)) :
    AddGrayWeighted img1 w1 img2 w2
      = .ok (gridImage img1.Rect.Size.X img1.Rect.Size.Y (fun x y =>
          toUint8 (ClampF64 (F64.fadd
            (F64.fmul (F64.ofInt (img1.GrayAt (x + img1.Rect.Min.X) (y + img1.Rect.Min.Y) : Int))
              (.fin w1))
            (F64.fmul (F64.ofInt (img2.GrayAt (x + img2.Rect.Min.X) (y + img2.Rect.Min.Y) : Int))
              (.fin w2)))
            (MinUint8 : ℚ) (MaxUint8 : ℚ)))) := by
  unfold AddGrayWeighted IteratePixels gridImage
  simp only [Gray.Bounds]
  rw [if_neg h, forRange_rows_setGray]
  rfl

theorem wrapInt_of_IsInt (a : Int) (h : IsInt a) : wrapInt a = a := by
  unfold IsInt at h
  unfold wrapInt
  have h1 : (0 : Int) ≤ a + 2 ^ 63 := by omega
  have h2 : a + 2 ^ 63 < 2 ^ 64 := by omega
  rw [Int.emod_eq_of_lt h1 h2]
  omega

theorem intToUint8_ClampInt (a : Int) :
    intToUint8 (ClampInt a MinUint8 (MaxUint8 : Int)) = (min 255 (max 0 a)).toNat := by
  unfold intToUint8 ClampInt MinUint8 MaxUint8
  simp only [Nat.cast_zero, Nat.cast_ofNat]
  split_ifs with h1 h2
  · rw [max_eq_left (by omega), min_eq_right (by omega)]
    rfl
  · rw [max_eq_right (by omega), min_eq_left (by omega)]
    rfl
  · rw [max_eq_right (by omega), min_eq_right (by omega), Int.emod_eq_of_lt (by omega) (by omega)]

/-- C25 (evaluation at the failing input): on the 1x1 image [1], AddScalarToGray with the
int value 2^63 - 1 stores 0: the sum int(pixel.Y) + value wraps around to -2^63, which
ClampInt sends to 0, whereas min(255, max(0, 1 + (2^63 - 1))) is 255, the value that the
doc comment of the function promises ("if the result overflows uint8, the result will be
clamped to max uint8 (255)"). -/
theorem C25_add_scalar_wraps :
    IsInt 9223372036854775807 ∧
    wrapInt ((1 : Int) + 9223372036854775807) = -9223372036854775808 ∧
    (AddScalarToGray (Gray.ofRows 1 [[1]]) 9223372036854775807).GrayAt 0 0 = 0 ∧
    (min 255 (max 0 ((((Gray.ofRows 1 [[1]]).GrayAt 0 0 : Nat) : Int)
      + 9223372036854775807))).toNat = 255 ∧
    (AddScalarToGray (Gray.ofRows 1 [[1]]) 9223372036854775807).GrayAt 0 0
      ≠ (min 255 (max 0 ((((Gray.ofRows 1 [[1]]).GrayAt 0 0 : Nat) : Int)
          + 9223372036854775807))).toNat := by
  refine ⟨by decide, by decide, by decide!, by decide, by decide!⟩

/-- When the sum int(pixel.Y) + value cannot overflow (-2^63 <= value <= 2^63 - 256 on a
64-bit platform), the result of AddScalarToGray has the size of the input at origin (0,0)
and each pixel equals min(255, max(0, src(x, y) + value)). -/
theorem AddScalarToGray_in_range (img : Gray) (value : Int) (hw : img.Bounds.WellFormed)
    (hv : img.Valid) (h0 : -(2 ^ 63) ≤ value) (h1 : value ≤ 2 ^ 63 - 256) :
    (AddScalarToGray img value).Bounds = ⟨⟨0, 0⟩, img.Bounds.Size⟩ ∧
    ∀ x y, 0 ≤ x → x < img.Bounds.Size.X → 0 ≤ y → y < img.Bounds.Size.Y →
      (AddScalarToGray img value).GrayAt x y
        = (min 255 (max 0
            ((img.GrayAt (x + img.Bounds.Min.X) (y + img.Bounds.Min.Y) : Int) + value))).toNat := by
  have hs := Size_nonneg img.Rect hw
  rw [AddScalarToGray_eq]
  constructor
  · exact gridImage_Rect _ _ _ hs.1 hs.2
  · intro x y hx0 hx1 hy0 hy1
    rw [gridImage_GrayAt _ _ _ hs.1 hs.2 x y hx0 hx1 hy0 hy1]
    simp only [Gray.Bounds]
    have hp := GrayAt_le img hv (x + img.Rect.Min.X) (y + img.Rect.Min.Y)
    rw [wrapInt_of_IsInt _ (by unfold IsInt; omega), intToUint8_ClampInt]

/-- The in-range behaviour of AddScalarToGray on the example view at origin (5,7) with
value -10. -/
theorem AddScalarToGray_in_range_example :
    exampleGray.Bounds.WellFormed ∧ exampleGray.Valid ∧ -(2 ^ 63) ≤ (-10 : Int) ∧
    (-10 : Int) ≤ 2 ^ 63 - 256 ∧
    ((AddScalarToGray exampleGray (-10)).Bounds = ⟨⟨0, 0⟩, exampleGray.Bounds.Size⟩ ∧
    ∀ x y, 0 ≤ x → x < exampleGray.Bounds.Size.X → 0 ≤ y → y < exampleGray.Bounds.Size.Y →
      (AddScalarToGray exampleGray (-10)).GrayAt x y
        = (min 255 (max 0
            ((exampleGray.GrayAt (x + exampleGray.Bounds.Min.X)
              (y + exampleGray.Bounds.Min.Y) : Int) + (-10)))).toNat) :=
  ⟨by decide, exampleGray_Valid, by decide, by decide,
    AddScalarToGray_in_range exampleGray (-10) (by decide) exampleGray_Valid (by decide)
      (by decide)⟩

/-- C26: for every pair of well-formed Gray images of 8-bit samples with equal width and
height (any origins), AddGray returns no error and a result at origin (0,0) of that size,
each pixel being min(255, img1(x, y) + img2(x, y)), each image read relative to its own
origin. -/
theorem C26_add_gray (img1 img2 : Gray) (hw : img1.Bounds.WellFormed)
    (hv1 : img1.Valid) (hv2 : img2.Valid)
    (hX : img1.Bounds.Size.X = img2.Bounds.Size.X)
    (hY : img1.Bounds.Size.Y = img2.Bounds.Size.Y) :
    ∃ res, AddGray img1 img2 = .ok res ∧
      res.Bounds = ⟨⟨0, 0⟩, img1.Bounds.Size⟩ ∧
      ∀ x y, 0 ≤ x → x < img1.Bounds.Size.X → 0 ≤ y → y < img1.Bounds.Size.Y →
        res.GrayAt x y
          = min 255 (img1.GrayAt (x + img1.Bounds.Min.X) (y + img1.Bounds.Min.Y)
              + img2.GrayAt (x + img2.Bounds.Min.X) (y + img2.Bounds.Min.Y)) := by
  have hs := Size_nonneg img1.Rect hw
  have hne : ¬ (img1.Rect.Size.X ≠ img2.Rect.Size.X ∨ img1.Rect.Size.Y ≠ img2.Rect.Size.Y) := by
    rintro (h | h)
    · exact h hX
    · exact h hY
  refine ⟨_, AddGray_eq img1 img2 hne, gridImage_Rect _ _ _ hs.1 hs.2, ?_⟩
  intro x y hx0 hx1 hy0 hy1
  rw [gridImage_GrayAt _ _ _ hs.1 hs.2 x y hx0 hx1 hy0 hy1]
  simp only [Gray.Bounds]
  have hp1 := GrayAt_le img1 hv1 (x + img1.Rect.Min.X) (y + img1.Rect.Min.Y)
  have hp2 := GrayAt_le img2 hv2 (x + img2.Rect.Min.X) (y + img2.Rect.Min.Y)
  rw [wrapInt_of_IsInt _ (by unfold IsInt; omega), intToUint8_ClampInt]
  omega

/-- Witness of C26: the example view at origin (5,7) added to its copy re-based at (0,0). -/
theorem C26_add_gray_witness :
    exampleGray.Bounds.WellFormed ∧ exampleGray.Valid ∧ exampleGray.rebase.Valid ∧
    exampleGray.Bounds.Size.X = exampleGray.rebase.Bounds.Size.X ∧
    exampleGray.Bounds.Size.Y = exampleGray.rebase.Bounds.Size.Y ∧
    ∃ res, AddGray exampleGray exampleGray.rebase = .ok res ∧
      res.Bounds = ⟨⟨0, 0⟩, exampleGray.Bounds.Size⟩ ∧
      ∀ x y, 0 ≤ x → x < exampleGray.Bounds.Size.X → 0 ≤ y → y < exampleGray.Bounds.Size.Y →
        res.GrayAt x y
          = min 255 (exampleGray.GrayAt (x + exampleGray.Bounds.Min.X)
                (y + exampleGray.Bounds.Min.Y)
              + exampleGray.rebase.GrayAt (x + exampleGray.rebase.Bounds.Min.X)
                (y + exampleGray.rebase.Bounds.Min.Y)) :=
  ⟨by decide, exampleGray_Valid, fun x y => exampleGray_Valid _ _, by decide, by decide,
    C26_add_gray exampleGray exampleGray.rebase (by decide) exampleGray_Valid
      (fun x y => exampleGray_Valid _ _) (by decide) (by decide)⟩

/-- C27: AddGray and AddGrayWeighted return an error (and so no image) if and only if the
two input images differ in width or in height, whatever their origins. -/
theorem C27_size_mismatch (img1 img2 : Gray) (w1 w2 : ℚ) :
    ((∃ e, AddGray img1 img2 = .error e) ↔
      (img1.Bounds.Size.X ≠ img2.Bounds.Size.X ∨ img1.Bounds.Size.Y ≠ img2.Bounds.Size.Y)) ∧
    ((∃ e, AddGrayWeighted img1 w1 img2 w2 = .error e) ↔
      (img1.Bounds.Size.X ≠ img2.Bounds.Size.X ∨ img1.Bounds.Size.Y ≠ img2.Bounds.Size.Y)) := by
  constructor
  · constructor
    · rintro ⟨e, he⟩
      by_contra hc
      rw [AddGray_eq img1 img2 hc] at he
      exact Except.noConfusion he
    · intro h
      refine ⟨"the size of the two image does not match", ?_⟩
      unfold AddGray
      simp only []
      rw [if_pos h]
  · constructor
    · rintro ⟨e, he⟩
      by_contra hc
      rw [AddGrayWeighted_eq img1 img2 w1 w2 hc] at he
      exact Except.noConfusion he
    · intro h
      refine ⟨"the size of the two image does not match", ?_⟩
      unfold AddGrayWeighted
      simp only []
      rw [if_pos h]

theorem ClampF64_fin (v : ℚ) :
    ClampF64 (.fin v) (MinUint8 : ℚ) (MaxUint8 : ℚ) = .fin (max 0 (min 255 v)) := by
  unfold ClampF64 F64.ltQ F64.gtQ MinUint8 MaxUint8
  simp only [Nat.cast_zero, Nat.cast_ofNat]
  by_cases h1 : v < 0
  · simp only [h1, decide_True, if_true]
    rw [min_eq_right (by linarith), max_eq_left h1.le]
  · simp only [h1, decide_False, Bool.false_eq_true, if_false]
    by_cases h2 : v > 255
    · simp only [h2, decide_True, if_true]
      rw [min_eq_left (le_of_lt h2), max_eq_right (by norm_num)]
    · simp only [h2, decide_False, Bool.false_eq_true, if_false]
      rw [min_eq_right (not_lt.mp h2), max_eq_right (not_lt.mp h1)]

/-! ## Claim C30: neighbours of a point -/

/-- C30 (evaluation at the failing input): in the all-white 3x2 image with bounds
(5,7)-(8,9), the neighbour 2 of the point (5,7), which is inside the image, is the position
(5,6), off the image; neighbor returns (Black, true), where the documented result is
(White, false): the tests `y > 0`, `x > 0`, `x < Dx-1`, `y < Dy-1` ignore the origin.
In images at origin (0,0) the documented results are returned: every neighbour of (1,1)
in the all-black 3x3 image is Black, and neighbour 2 of (1,0) in the all-white 3x3 image
is (White, false). -/
theorem C30_neighbor_ignores_origin :
    (⟨fun _ _ => White, ⟨⟨5, 7⟩, ⟨8, 9⟩⟩⟩ : Gray).Bounds.Contains 5 7 ∧
    neighborPos 5 7 2 = (5, 6) ∧
    ¬ (⟨fun _ _ => White, ⟨⟨5, 7⟩, ⟨8, 9⟩⟩⟩ : Gray).Bounds.Contains 5 6 ∧
    neighbor ⟨fun _ _ => White, ⟨⟨5, 7⟩, ⟨8, 9⟩⟩⟩ 5 7 2 = some (Black, true) ∧
    (∀ p ∈ [2, 3, 4, 5, 6, 7, 8, 9],
      neighbor ⟨fun _ _ => Black, ⟨⟨0, 0⟩, ⟨3, 3⟩⟩⟩ 1 1 p = some (Black, true)) ∧
    neighbor ⟨fun _ _ => White, ⟨⟨0, 0⟩, ⟨3, 3⟩⟩⟩ 1 0 2 = some (White, false) := by
  refine ⟨by decide, by decide, by decide, by decide, by decide, by decide⟩

theorem neighbor_origin (img : Gray) (x y p : Int) (hmin : img.Rect.Min = ⟨0, 0⟩)
    (hin : img.Rect.Contains x y) (hp : 2 ≤ p ∧ p ≤ 9) :
    neighbor img x y p
      = if img.Rect.Contains (neighborPos x y p).1 (neighborPos x y p).2
        then some (img.GrayAt (neighborPos x y p).1 (neighborPos x y p).2, true)
        else some (White, false) := by
  obtain ⟨h1, h2, h3, h4⟩ := hin
  have hx : img.Rect.Min.X = 0 := by rw [hmin]
  have hy : img.Rect.Min.Y = 0 := by rw [hmin]
  rw [hx] at h1
  rw [hy] at h3
  have hp' : p = 2 ∨ p = 3 ∨ p = 4 ∨ p = 5 ∨ p = 6 ∨ p = 7 ∨ p = 8 ∨ p = 9 := by omega
  rcases hp' with rfl | rfl | rfl | rfl | rfl | rfl | rfl | rfl <;>
    simp only [neighbor, neighborPos, Rectangle.Contains, Gray.Bounds, Rectangle.Dx,
      Rectangle.Dy, hx, hy, sub_zero] <;>
    norm_num <;>
    split_ifs <;>
    first
      | rfl
      | (exfalso; omega)

/-! ## Reasoning about pixel loops -/

theorem Gray_SameOutside_refl (U : Int → Int → Prop) (s : Gray) : Gray.SameOutside U s s :=
  ⟨rfl, fun _ _ _ => rfl⟩

theorem Gray_SameOutside_trans (U : Int → Int → Prop) (a b c : Gray)
    (h1 : Gray.SameOutside U a b) (h2 : Gray.SameOutside U b c) : Gray.SameOutside U a c :=
  ⟨h2.1.trans h1.1, fun x y h => (h2.2 x y h).trans (h1.2 x y h)⟩

theorem Gray_SameOutside_GrayAt (U : Int → Int → Prop) (s0 s : Gray)
    (h : Gray.SameOutside U s0 s) (x y : Int) (hU : ¬ U x y) :
    s.GrayAt x y = s0.GrayAt x y := by
  unfold Gray.GrayAt
  rw [h.1, h.2 x y hU]

theorem Gray_SetGray_SameOutside (U : Int → Int → Prop) (s : Gray) (x y : Int) (c : Nat)
    (hU : U x y) : Gray.SameOutside U s (s.SetGray x y c) := by
  unfold Gray.SetGray
  split_ifs with hc
  · refine ⟨rfl, ?_⟩
    intro a b hab
    have : ¬ (a = x ∧ b = y) := by
      rintro ⟨rfl, rfl⟩
      exact hab hU
    simp only [this, if_false]
  · exact Gray_SameOutside_refl U s

theorem Gray_foldl_SameOutside {ι : Type} (U : Int → Int → Prop) (F : ι → Gray → Gray)
    (L : List ι) (hF : ∀ i ∈ L, ∀ s, Gray.SameOutside U s (F i s)) (s : Gray) :
    Gray.SameOutside U s (L.foldl (fun s i => F i s) s) := by
  induction L generalizing s with
  | nil => exact Gray_SameOutside_refl U s
  | cons i L ih =>
    simp only [List.foldl_cons]
    exact Gray_SameOutside_trans U _ _ _ (hF i (List.mem_cons_self _ _) s)
      (ih (fun j hj => hF j (List.mem_cons_of_mem _ hj)) (F i s))

theorem Gray_forFromTo_SameOutside (U : Int → Int → Prop) (a b : Int)
    (body : Int → Gray → Gray)
    (hF : ∀ i, a ≤ i → i < b → ∀ s, Gray.SameOutside U s (body i s)) (s : Gray) :
    Gray.SameOutside U s (forFromTo a b body s) := by
  unfold forFromTo
  apply Gray_foldl_SameOutside U (fun (k : Nat) => body (a + (k : Int)))
  intro k hk s
  rw [List.mem_range] at hk
  exact hF _ (by omega) (by omega) s

theorem Gray_forRange_SameOutside (U : Int → Int → Prop) (n : Int)
    (body : Int → Gray → Gray)
    (hF : ∀ i, 0 ≤ i → i < n → ∀ s, Gray.SameOutside U s (body i s)) (s : Gray) :
    Gray.SameOutside U s (forRange n body s) := by
  unfold forRange
  apply Gray_foldl_SameOutside U (fun (k : Nat) => body (k : Int))
  intro k hk s
  rw [List.mem_range] at hk
  exact hF _ (by omega) (by omega) s

theorem Gray_SetGray_Filled (V : Int → Int → Nat) (s : Gray) (x y : Int) (c : Nat)
    (hc : c = V x y) : Gray.Filled (fun a b => a = x ∧ b = y) V s (s.SetGray x y c) := by
  unfold Gray.SetGray
  split_ifs with hin
  · refine ⟨rfl, ?_, ?_⟩
    · rintro a b ⟨rfl, rfl⟩ _
      simp only [and_self, if_true]
      exact hc
    · intro a b hab
      simp only [hab, if_false]
  · refine ⟨rfl, ?_, ?_⟩
    · rintro a b ⟨rfl, rfl⟩ h
      exact absurd h hin
    · intro a b _
      rfl

theorem Gray_Filled_SameOutside (R U : Int → Int → Prop) (V : Int → Int → Nat) (s0 s r : Gray)
    (h : Gray.Filled R V s r) (hRU : ∀ x y, R x y → U x y) (hs : Gray.SameOutside U s0 s) :
    Gray.SameOutside U s0 r :=
  ⟨h.1.trans hs.1, fun x y hU =>
    (h.2.2 x y (fun hR => hU (hRU x y hR))).trans (hs.2 x y hU)⟩

theorem Gray_Filled_congr (R R2 : Int → Int → Prop) (V : Int → Int → Nat) (s r : Gray)
    (h : Gray.Filled R V s r) (hR : ∀ x y, R x y ↔ R2 x y) : Gray.Filled R2 V s r :=
  ⟨h.1, fun x y h2 hc => h.2.1 x y ((hR x y).mpr h2) hc,
    fun x y h2 => h.2.2 x y (fun h3 => h2 ((hR x y).mp h3))⟩

theorem Gray_foldl_Filled {ι : Type} (s0 : Gray) (U : Int → Int → Prop)
    (R : ι → Int → Int → Prop) (V : Int → Int → Nat) (F : ι → Gray → Gray) (L : List ι)
    (hU : ∀ i ∈ L, ∀ x y, R i x y → U x y)
    (hF : ∀ i ∈ L, ∀ s, Gray.SameOutside U s0 s → Gray.Filled (R i) V s (F i s))
    (s : Gray) (hs : Gray.SameOutside U s0 s) :
    Gray.Filled (fun x y => ∃ i ∈ L, R i x y) V s (L.foldl (fun s i => F i s) s) := by
  induction L generalizing s with
  | nil =>
    refine ⟨rfl, ?_, fun _ _ _ => rfl⟩
    rintro x y ⟨i, hi, _⟩ _
    exact absurd hi (List.not_mem_nil i)
  | cons i L ih =>
    simp only [List.foldl_cons]
    have h1 := hF i (List.mem_cons_self _ _) s hs
    have hs1 : Gray.SameOutside U s0 (F i s) :=
      Gray_Filled_SameOutside (R i) U V s0 s (F i s) h1 (hU i (List.mem_cons_self _ _)) hs
    have h2 := ih (fun j hj => hU j (List.mem_cons_of_mem _ hj))
      (fun j hj => hF j (List.mem_cons_of_mem _ hj)) (F i s) hs1
    refine ⟨h2.1.trans h1.1, ?_, ?_⟩
    · rintro x y ⟨j, hj, hR⟩ hc
      by_cases hL : ∃ j ∈ L, R j x y
      · exact h2.2.1 x y hL (by rw [h1.1]; exact hc)
      · rw [h2.2.2 x y hL]
        rcases List.mem_cons.mp hj with e | e
        · subst e
          exact h1.2.1 x y hR hc
        · exact absurd ⟨j, e, hR⟩ hL
    · intro x y hn
      have hL : ¬ ∃ j ∈ L, R j x y := by
        rintro ⟨j, hj, hR⟩
        exact hn ⟨j, List.mem_cons_of_mem _ hj, hR⟩
      have hi : ¬ R i x y := fun hR => hn ⟨i, List.mem_cons_self _ _, hR⟩
      rw [h2.2.2 x y hL, h1.2.2 x y hi]

theorem Gray_forFromTo_Filled (s0 : Gray) (U : Int → Int → Prop)
    (R : Int → Int → Int → Prop) (V : Int → Int → Nat) (a b : Int)
    (body : Int → Gray → Gray)
    (hU : ∀ i, a ≤ i → i < b → ∀ x y, R i x y → U x y)
    (hF : ∀ i, a ≤ i → i < b → ∀ s, Gray.SameOutside U s0 s → Gray.Filled (R i) V s (body i s))
    (s : Gray) (hs : Gray.SameOutside U s0 s) :
    Gray.Filled (fun x y => ∃ i, a ≤ i ∧ i < b ∧ R i x y) V s (forFromTo a b body s) := by
  unfold forFromTo
  have h := Gray_foldl_Filled s0 U (fun (k : Nat) => R (a + (k : Int))) V
    (fun (k : Nat) => body (a + (k : Int))) (List.range (b - a).toNat)
    (fun k hk x y hR => hU _ (by rw [List.mem_range] at hk; omega)
      (by rw [List.mem_range] at hk; omega) x y hR)
    (fun k hk s hs => hF _ (by rw [List.mem_range] at hk; omega)
      (by rw [List.mem_range] at hk; omega) s hs) s hs
  apply Gray_Filled_congr _ _ V s _ h
  intro x y
  constructor
  · rintro ⟨k, hk, hR⟩
    rw [List.mem_range] at hk
    exact ⟨a + (k : Int), by omega, by omega, hR⟩
  · rintro ⟨i, h1, h2, hR⟩
    refine ⟨(i - a).toNat, by rw [List.mem_range]; omega, ?_⟩
    have e : a + (((i - a).toNat : Nat) : Int) = i := by omega
    show R (a + (((i - a).toNat : Nat) : Int)) x y
    rw [e]
    exact hR

theorem forRange_eq_forFromTo {σ : Type} (n : Int) (body : Int → σ → σ) (s : σ) :
    forRange n body s = forFromTo 0 n body s := by
  unfold forRange forFromTo
  simp only [sub_zero, zero_add]

theorem Gray_nest_Filled (s0 : Gray) (U : Int → Int → Prop) (a b c d : Int)
    (PX PY : Int → Int → Int) (val : Gray → Int → Int → Nat) (V : Int → Int → Nat)
    (hU : ∀ i j, a ≤ i → i < b → c ≤ j → j < d → U (PX i j) (PY i j))
    (hval : ∀ i j, a ≤ i → i < b → c ≤ j → j < d → ∀ s, Gray.SameOutside U s0 s →
      val s i j = V (PX i j) (PY i j)) :
    Gray.Filled
      (fun x y => ∃ i, a ≤ i ∧ i < b ∧ ∃ j, c ≤ j ∧ j < d ∧ x = PX i j ∧ y = PY i j) V s0
      (forFromTo a b (fun i s =>
        forFromTo c d (fun j s => s.SetGray (PX i j) (PY i j) (val s i j)) s) s0) := by
  apply Gray_forFromTo_Filled s0 U
    (fun i x y => ∃ j, c ≤ j ∧ j < d ∧ x = PX i j ∧ y = PY i j) V a b _ _ _ s0
    (Gray_SameOutside_refl U s0)
  · rintro i hi1 hi2 x y ⟨j, hj1, hj2, rfl, rfl⟩
    exact hU i j hi1 hi2 hj1 hj2
  · intro i hi1 hi2 s hs
    apply Gray_forFromTo_Filled s0 U (fun j x y => x = PX i j ∧ y = PY i j) V c d _ _ _ s hs
    · rintro j hj1 hj2 x y ⟨rfl, rfl⟩
      exact hU i j hi1 hi2 hj1 hj2
    · intro j hj1 hj2 s2 hs2
      exact Gray_SetGray_Filled V s2 (PX i j) (PY i j) _ (hval i j hi1 hi2 hj1 hj2 s2 hs2)

theorem Gray_nest_SameOutside (U : Int → Int → Prop) (a b c d : Int)
    (inner : Int → Gray → Int → Gray → Gray)
    (h : ∀ i j, a ≤ i → i < b → c ≤ j → j < d → ∀ s0 s, Gray.SameOutside U s (inner i s0 j s))
    (s : Gray) :
    Gray.SameOutside U s
      (forFromTo a b (fun i s0 => forFromTo c d (fun j s => inner i s0 j s) s0) s) := by
  apply Gray_forFromTo_SameOutside
  intro i hi1 hi2 s0
  apply Gray_forFromTo_SameOutside
  intro j hj1 hj2 s2
  exact h i j hi1 hi2 hj1 hj2 s0 s2

/-! ## The passes of PaddingGray write only outside the embedded original -/

theorem topPaddingReplicate_frame (img : Gray) (p : Paddings) (s : Gray) :
    Gray.SameOutside (padRegion img.Rect.Size.X img.Rect.Size.Y p) s
      (topPaddingReplicate img p (fun x y pixel padded => padded.Set x y pixel) s) := by
  unfold topPaddingReplicate
  simp only [Gray.Bounds, Gray.Set]
  apply Gray_nest_SameOutside
  intro i j hi1 hi2 hj1 hj2 s0 s2
  apply Gray_SetGray_SameOutside
  unfold padRegion
  omega

theorem bottomPaddingReplicate_frame (img : Gray) (p : Paddings) (s : Gray) :
    Gray.SameOutside (padRegion img.Rect.Size.X img.Rect.Size.Y p) s
      (bottomPaddingReplicate img p (fun x y pixel padded => padded.Set x y pixel) s) := by
  unfold bottomPaddingReplicate
  simp only [Gray.Bounds, Gray.Set]
  apply Gray_nest_SameOutside
  intro i j hi1 hi2 hj1 hj2 s0 s2
  apply Gray_SetGray_SameOutside
  unfold padRegion
  omega

theorem leftPaddingReplicate_frame (img : Gray) (p : Paddings) (s : Gray) :
    Gray.SameOutside (padRegion img.Rect.Size.X img.Rect.Size.Y p) s
      (leftPaddingReplicate img p (fun x y pixel padded => padded.Set x y pixel) s) := by
  unfold leftPaddingReplicate
  simp only [Gray.Bounds, Gray.Set]
  apply Gray_nest_SameOutside
  intro i j hi1 hi2 hj1 hj2 s0 s2
  apply Gray_SetGray_SameOutside
  unfold padRegion
  omega

theorem rightPaddingReplicate_frame (img : Gray) (p : Paddings) (s : Gray) :
    Gray.SameOutside (padRegion img.Rect.Size.X img.Rect.Size.Y p) s
      (rightPaddingReplicate img p (fun x y pixel padded => padded.Set x y pixel) s) := by
  unfold rightPaddingReplicate
  simp only [Gray.Bounds, Gray.Set]
  apply Gray_nest_SameOutside
  intro i j hi1 hi2 hj1 hj2 s0 s2
  apply Gray_SetGray_SameOutside
  unfold padRegion
  omega

theorem topPaddingReflect_frame (img : Gray) (p : Paddings) (s : Gray) :
    Gray.SameOutside (padRegion img.Rect.Size.X img.Rect.Size.Y p) s
      (topPaddingReflect img p (fun x y pixel padded => padded.Set x y pixel) s) := by
  unfold topPaddingReflect
  simp only [Gray.Bounds, Gray.Set]
  apply Gray_nest_SameOutside
  intro i j hi1 hi2 hj1 hj2 s0 s2
  apply Gray_SetGray_SameOutside
  unfold padRegion
  omega

theorem bottomPaddingReflect_frame (img : Gray) (p : Paddings) (s : Gray) :
    Gray.SameOutside (padRegion img.Rect.Size.X img.Rect.Size.Y p) s
      (bottomPaddingReflect img p (fun x y pixel padded => padded.Set x y pixel) s) := by
  unfold bottomPaddingReflect
  simp only [Gray.Bounds, Gray.Set]
  apply Gray_nest_SameOutside
  intro i j hi1 hi2 hj1 hj2 s0 s2
  apply Gray_SetGray_SameOutside
  unfold padRegion
  omega

theorem leftPaddingReflect_frame (img : Gray) (p : Paddings) (s : Gray) :
    Gray.SameOutside (padRegion img.Rect.Size.X img.Rect.Size.Y p) s
      (leftPaddingReflect img p (fun x y pixel padded => padded.Set x y pixel) s) := by
  unfold leftPaddingReflect
  simp only [Gray.Bounds, Gray.Set]
  apply Gray_nest_SameOutside
  intro i j hi1 hi2 hj1 hj2 s0 s2
  apply Gray_SetGray_SameOutside
  unfold padRegion
  omega

theorem rightPaddingReflect_frame (img : Gray) (p : Paddings) (s : Gray) :
    Gray.SameOutside (padRegion img.Rect.Size.X img.Rect.Size.Y p) s
      (rightPaddingReflect img p (fun x y pixel padded => padded.Set x y pixel) s) := by
  unfold rightPaddingReflect
  simp only [Gray.Bounds, Gray.Set]
  apply Gray_nest_SameOutside
  intro i j hi1 hi2 hj1 hj2 s0 s2
  apply Gray_SetGray_SameOutside
  unfold padRegion
  omega

theorem blankPaddingGray_Filled (img : Gray) (p : Paddings) :
    Gray.Filled
      (fun x y => p.PaddingLeft ≤ x ∧ x < img.Rect.Size.X + p.PaddingLeft ∧
        p.PaddingTop ≤ y ∧ y < p.PaddingTop + img.Rect.Size.Y)
      (fun x y => img.GrayAt (x - p.PaddingLeft + img.Rect.Min.X)
        (y - p.PaddingTop + img.Rect.Min.Y))
      (NewGray (Rect 0 0 (img.Rect.Size.X + p.PaddingLeft + p.PaddingRight)
        (img.Rect.Size.Y + p.PaddingTop + p.PaddingBottom)))
      (blankPaddingGray img p) := by
  unfold blankPaddingGray ForEachGrayPixel IteratePixels
  simp only [Gray.Bounds, Gray.Set, forRange_eq_forFromTo]
  apply Gray_Filled_congr _ _ _ _ _
    (Gray_nest_Filled _ (fun _ _ => True) 0 img.Rect.Size.Y 0 img.Rect.Size.X
      (fun _ j => j + p.PaddingLeft) (fun i _ => i + p.PaddingTop)
      (fun _ i j => img.GrayAt (j + img.Rect.Min.X) (i + img.Rect.Min.Y)) _
      (fun _ _ _ _ _ _ => trivial) ?_)
  · intro x y
    constructor
    · rintro ⟨i, hi1, hi2, j, hj1, hj2, hx, hy⟩
      simp only at hx hy
      omega
    · intro h
      exact ⟨y - p.PaddingTop, by omega, by omega, x - p.PaddingLeft, by omega, by omega,
        by simp only [sub_add_cancel], by simp only [sub_add_cancel]⟩
  · intro i j _ _ _ _ s _
    show img.GrayAt (j + img.Rect.Min.X) (i + img.Rect.Min.Y)
      = img.GrayAt (j + p.PaddingLeft - p.PaddingLeft + img.Rect.Min.X)
          (i + p.PaddingTop - p.PaddingTop + img.Rect.Min.Y)
    rw [add_sub_cancel_right, add_sub_cancel_right]

theorem calculatePaddings_ok (kernelSize anchor : Point)
    (h : 0 ≤ anchor.X ∧ anchor.X < kernelSize.X ∧ 0 ≤ anchor.Y ∧ anchor.Y < kernelSize.Y) :
    calculatePaddings kernelSize anchor
      = .ok ⟨anchor.X, kernelSize.X - anchor.X - 1, anchor.Y, kernelSize.Y - anchor.Y - 1⟩ := by
  unfold calculatePaddings
  rw [if_neg (by omega), if_neg (by omega), if_neg (by omega)]

theorem PaddingGray_constant (img : Gray) (kernelSize anchor : Point) (p : Paddings)
    (hp : calculatePaddings kernelSize anchor = .ok p) :
    PaddingGray img kernelSize anchor BorderConstant = .ok (blankPaddingGray img p) := by
  unfold PaddingGray
  rw [hp]
  rfl

theorem PaddingGray_replicate (img : Gray) (kernelSize anchor : Point) (p : Paddings)
    (hp : calculatePaddings kernelSize anchor = .ok p) :
    PaddingGray img kernelSize anchor BorderReplicate
      = .ok (rightPaddingReplicate img p (fun x y pixel padded => padded.Set x y pixel)
          (leftPaddingReplicate img p (fun x y pixel padded => padded.Set x y pixel)
            (bottomPaddingReplicate img p (fun x y pixel padded => padded.Set x y pixel)
              (topPaddingReplicate img p (fun x y pixel padded => padded.Set x y pixel)
                (blankPaddingGray img p))))) := by
  unfold PaddingGray
  rw [hp]
  rfl

theorem PaddingGray_reflect (img : Gray) (kernelSize anchor : Point) (p : Paddings)
    (hp : calculatePaddings kernelSize anchor = .ok p) :
    PaddingGray img kernelSize anchor BorderReflect
      = .ok (rightPaddingReflect img p (fun x y pixel padded => padded.Set x y pixel)
          (leftPaddingReflect img p (fun x y pixel padded => padded.Set x y pixel)
            (bottomPaddingReflect img p (fun x y pixel padded => padded.Set x y pixel)
              (topPaddingReflect img p (fun x y pixel padded => padded.Set x y pixel)
                (blankPaddingGray img p))))) := by
  unfold PaddingGray
  rw [hp]
  rfl

theorem PaddingGray_frame (img : Gray) (kernelSize anchor : Point) (p : Paddings)
    (border : Border) (hp : calculatePaddings kernelSize anchor = .ok p)
    (hb : border = BorderConstant ∨ border = BorderReplicate ∨ border = BorderReflect) :
    ∃ res, PaddingGray img kernelSize anchor border = .ok res ∧
      Gray.SameOutside (padRegion img.Rect.Size.X img.Rect.Size.Y p)
        (blankPaddingGray img p) res := by
  rcases hb with rfl | rfl | rfl
  · exact ⟨_, PaddingGray_constant img kernelSize anchor p hp, Gray_SameOutside_refl _ _⟩
  · refine ⟨_, PaddingGray_replicate img kernelSize anchor p hp, ?_⟩
    exact Gray_SameOutside_trans _ _ _ _
      (Gray_SameOutside_trans _ _ _ _
        (Gray_SameOutside_trans _ _ _ _ (topPaddingReplicate_frame img p _)
          (bottomPaddingReplicate_frame img p _))
        (leftPaddingReplicate_frame img p _))
      (rightPaddingReplicate_frame img p _)
  · refine ⟨_, PaddingGray_reflect img kernelSize anchor p hp, ?_⟩
    exact Gray_SameOutside_trans _ _ _ _
      (Gray_SameOutside_trans _ _ _ _
        (Gray_SameOutside_trans _ _ _ _ (topPaddingReflect_frame img p _)
          (bottomPaddingReflect_frame img p _))
        (leftPaddingReflect_frame img p _))
      (rightPaddingReflect_frame img p _)

theorem PaddingGray_keeps (img : Gray) (kernelSize anchor : Point) (border : Border)
    (hw : img.Rect.WellFormed)
    (h : 0 ≤ anchor.X ∧ anchor.X < kernelSize.X ∧ 0 ≤ anchor.Y ∧ anchor.Y < kernelSize.Y)
    (hb : border = BorderConstant ∨ border = BorderReplicate ∨ border = BorderReflect) :
    ∃ res, PaddingGray img kernelSize anchor border = .ok res ∧
      res.Rect = ⟨⟨0, 0⟩, ⟨img.Rect.Size.X + anchor.X + (kernelSize.X - anchor.X - 1),
        img.Rect.Size.Y + anchor.Y + (kernelSize.Y - anchor.Y - 1)⟩⟩ ∧
      ∀ x y, 0 ≤ x → x < img.Rect.Size.X → 0 ≤ y → y < img.Rect.Size.Y →
        res.GrayAt (x + anchor.X) (y + anchor.Y)
          = img.GrayAt (x + img.Rect.Min.X) (y + img.Rect.Min.Y) := by
  have hs := Size_nonneg img.Rect hw
  have hp := calculatePaddings_ok kernelSize anchor h
  obtain ⟨res, hres, hframe⟩ := PaddingGray_frame img kernelSize anchor _ border hp hb
  have hblank := blankPaddingGray_Filled img
    ⟨anchor.X, kernelSize.X - anchor.X - 1, anchor.Y, kernelSize.Y - anchor.Y - 1⟩
  simp only at hblank
  have hrect : res.Rect = ⟨⟨0, 0⟩, ⟨img.Rect.Size.X + anchor.X + (kernelSize.X - anchor.X - 1),
      img.Rect.Size.Y + anchor.Y + (kernelSize.Y - anchor.Y - 1)⟩⟩ := by
    rw [hframe.1, hblank.1]
    exact Rect_origin _ _ (by omega) (by omega)
  refine ⟨res, hres, hrect, ?_⟩
  intro x y hx0 hx1 hy0 hy1
  have hin : res.Rect.Contains (x + anchor.X) (y + anchor.Y) := by
    rw [hrect]
    unfold Rectangle.Contains
    simp only
    omega
  have hin0 : (NewGray (Rect 0 0
      (img.Rect.Size.X + anchor.X + (kernelSize.X - anchor.X - 1))
      (img.Rect.Size.Y + anchor.Y + (kernelSize.Y - anchor.Y - 1)))).Rect.Contains
        (x + anchor.X) (y + anchor.Y) := by
    rw [← hblank.1, ← hframe.1]
    exact hin
  unfold Gray.GrayAt
  rw [if_pos hin]
  have hnot : ¬ padRegion img.Rect.Size.X img.Rect.Size.Y
      ⟨anchor.X, kernelSize.X - anchor.X - 1, anchor.Y, kernelSize.Y - anchor.Y - 1⟩
      (x + anchor.X) (y + anchor.Y) := by
    unfold padRegion
    simp only
    omega
  rw [hframe.2 _ _ hnot, hblank.2.1 _ _ ⟨by omega, by omega, by omega, by omega⟩ hin0]
  simp only [add_sub_cancel_right]
  rfl

/-! ## The same reasoning for four-channel images -/

theorem RGBA_SameOutside_refl (U : Int → Int → Prop) (s : RGBA) : RGBA.SameOutside U s s :=
  ⟨rfl, fun _ _ _ => rfl⟩

theorem RGBA_SameOutside_trans (U : Int → Int → Prop) (a b c : RGBA)
    (h1 : RGBA.SameOutside U a b) (h2 : RGBA.SameOutside U b c) : RGBA.SameOutside U a c :=
  ⟨h2.1.trans h1.1, fun x y h => (h2.2 x y h).trans (h1.2 x y h)⟩

theorem RGBA_SameOutside_RGBAAt (U : Int → Int → Prop) (s0 s : RGBA)
    (h : RGBA.SameOutside U s0 s) (x y : Int) (hU : ¬ U x y) :
    s.RGBAAt x y = s0.RGBAAt x y := by
  unfold RGBA.RGBAAt
  rw [h.1, h.2 x y hU]

theorem RGBA_SetRGBA_SameOutside (U : Int → Int → Prop) (s : RGBA) (x y : Int) (c : ColorRGBA)
    (hU : U x y) : RGBA.SameOutside U s (s.SetRGBA x y c) := by
  unfold RGBA.SetRGBA
  split_ifs with hc
  · refine ⟨rfl, ?_⟩
    intro a b hab
    have : ¬ (a = x ∧ b = y) := by
      rintro ⟨rfl, rfl⟩
      exact hab hU
    simp only [this, if_false]
  · exact RGBA_SameOutside_refl U s

theorem RGBA_foldl_SameOutside {ι : Type} (U : Int → Int → Prop) (F : ι → RGBA → RGBA)
    (L : List ι) (hF : ∀ i ∈ L, ∀ s, RGBA.SameOutside U s (F i s)) (s : RGBA) :
    RGBA.SameOutside U s (L.foldl (fun s i => F i s) s) := by
  induction L generalizing s with
  | nil => exact RGBA_SameOutside_refl U s
  | cons i L ih =>
    simp only [List.foldl_cons]
    exact RGBA_SameOutside_trans U _ _ _ (hF i (List.mem_cons_self _ _) s)
      (ih (fun j hj => hF j (List.mem_cons_of_mem _ hj)) (F i s))

theorem RGBA_forFromTo_SameOutside (U : Int → Int → Prop) (a b : Int)
    (body : Int → RGBA → RGBA)
    (hF : ∀ i, a ≤ i → i < b → ∀ s, RGBA.SameOutside U s (body i s)) (s : RGBA) :
    RGBA.SameOutside U s (forFromTo a b body s) := by
  unfold forFromTo
  apply RGBA_foldl_SameOutside U (fun (k : Nat) => body (a + (k : Int)))
  intro k hk s
  rw [List.mem_range] at hk
  exact hF _ (by omega) (by omega) s

theorem RGBA_forRange_SameOutside (U : Int → Int → Prop) (n : Int)
    (body : Int → RGBA → RGBA)
    (hF : ∀ i, 0 ≤ i → i < n → ∀ s, RGBA.SameOutside U s (body i s)) (s : RGBA) :
    RGBA.SameOutside U s (forRange n body s) := by
  unfold forRange
  apply RGBA_foldl_SameOutside U (fun (k : Nat) => body (k : Int))
  intro k hk s
  rw [List.mem_range] at hk
  exact hF _ (by omega) (by omega) s

theorem RGBA_SetRGBA_Filled (V : Int → Int → ColorRGBA) (s : RGBA) (x y : Int) (c : ColorRGBA)
    (hc : c = V x y) : RGBA.Filled (fun a b => a = x ∧ b = y) V s (s.SetRGBA x y c) := by
  unfold RGBA.SetRGBA
  split_ifs with hin
  · refine ⟨rfl, ?_, ?_⟩
    · rintro a b ⟨rfl, rfl⟩ _
      simp only [and_self, if_true]
      exact hc
    · intro a b hab
      simp only [hab, if_false]
  · refine ⟨rfl, ?_, ?_⟩
    · rintro a b ⟨rfl, rfl⟩ h
      exact absurd h hin
    · intro a b _
      rfl

theorem RGBA_Filled_SameOutside (R U : Int → Int → Prop) (V : Int → Int → ColorRGBA) (s0 s r : RGBA)
    (h : RGBA.Filled R V s r) (hRU : ∀ x y, R x y → U x y) (hs : RGBA.SameOutside U s0 s) :
    RGBA.SameOutside U s0 r :=
  ⟨h.1.trans hs.1, fun x y hU =>
    (h.2.2 x y (fun hR => hU (hRU x y hR))).trans (hs.2 x y hU)⟩

theorem RGBA_Filled_congr (R R2 : Int → Int → Prop) (V : Int → Int → ColorRGBA) (s r : RGBA)
    (h : RGBA.Filled R V s r) (hR : ∀ x y, R x y ↔ R2 x y) : RGBA.Filled R2 V s r :=
  ⟨h.1, fun x y h2 hc => h.2.1 x y ((hR x y).mpr h2) hc,
    fun x y h2 => h.2.2 x y (fun h3 => h2 ((hR x y).mp h3))⟩

theorem RGBA_foldl_Filled {ι : Type} (s0 : RGBA) (U : Int → Int → Prop)
    (R : ι → Int → Int → Prop) (V : Int → Int → ColorRGBA) (F : ι → RGBA → RGBA) (L : List ι)
    (hU : ∀ i ∈ L, ∀ x y, R i x y → U x y)
    (hF : ∀ i ∈ L, ∀ s, RGBA.SameOutside U s0 s → RGBA.Filled (R i) V s (F i s))
    (s : RGBA) (hs : RGBA.SameOutside U s0 s) :
    RGBA.Filled (fun x y => ∃ i ∈ L, R i x y) V s (L.foldl (fun s i => F i s) s) := by
  induction L generalizing s with
  | nil =>
    refine ⟨rfl, ?_, fun _ _ _ => rfl⟩
    rintro x y ⟨i, hi, _⟩ _
    exact absurd hi (List.not_mem_nil i)
  | cons i L ih =>
    simp only [List.foldl_cons]
    have h1 := hF i (List.mem_cons_self _ _) s hs
    have hs1 : RGBA.SameOutside U s0 (F i s) :=
      RGBA_Filled_SameOutside (R i) U V s0 s (F i s) h1 (hU i (List.mem_cons_self _ _)) hs
    have h2 := ih (fun j hj => hU j (List.mem_cons_of_mem _ hj))
      (fun j hj => hF j (List.mem_cons_of_mem _ hj)) (F i s) hs1
    refine ⟨h2.1.trans h1.1, ?_, ?_⟩
    · rintro x y ⟨j, hj, hR⟩ hc
      by_cases hL : ∃ j ∈ L, R j x y
      · exact h2.2.1 x y hL (by rw [h1.1]; exact hc)
      · rw [h2.2.2 x y hL]
        rcases List.mem_cons.mp hj with e | e
        · subst e
          exact h1.2.1 x y hR hc
        · exact absurd ⟨j, e, hR⟩ hL
    · intro x y hn
      have hL : ¬ ∃ j ∈ L, R j x y := by
        rintro ⟨j, hj, hR⟩
        exact hn ⟨j, List.mem_cons_of_mem _ hj, hR⟩
      have hi : ¬ R i x y := fun hR => hn ⟨i, List.mem_cons_self _ _, hR⟩
      rw [h2.2.2 x y hL, h1.2.2 x y hi]

theorem RGBA_forFromTo_Filled (s0 : RGBA) (U : Int → Int → Prop)
    (R : Int → Int → Int → Prop) (V : Int → Int → ColorRGBA) (a b : Int)
    (body : Int → RGBA → RGBA)
    (hU : ∀ i, a ≤ i → i < b → ∀ x y, R i x y → U x y)
    (hF : ∀ i, a ≤ i → i < b → ∀ s, RGBA.SameOutside U s0 s → RGBA.Filled (R i) V s (body i s))
    (s : RGBA) (hs : RGBA.SameOutside U s0 s) :
    RGBA.Filled (fun x y => ∃ i, a ≤ i ∧ i < b ∧ R i x y) V s (forFromTo a b body s) := by
  unfold forFromTo
  have h := RGBA_foldl_Filled s0 U (fun (k : Nat) => R (a + (k : Int))) V
    (fun (k : Nat) => body (a + (k : Int))) (List.range (b - a).toNat)
    (fun k hk x y hR => hU _ (by rw [List.mem_range] at hk; omega)
      (by rw [List.mem_range] at hk; omega) x y hR)
    (fun k hk s hs => hF _ (by rw [List.mem_range] at hk; omega)
      (by rw [List.mem_range] at hk; omega) s hs) s hs
  apply RGBA_Filled_congr _ _ V s _ h
  intro x y
  constructor
  · rintro ⟨k, hk, hR⟩
    rw [List.mem_range] at hk
    exact ⟨a + (k : Int), by omega, by omega, hR⟩
  · rintro ⟨i, h1, h2, hR⟩
    refine ⟨(i - a).toNat, by rw [List.mem_range]; omega, ?_⟩
    have e : a + (((i - a).toNat : Nat) : Int) = i := by omega
    show R (a + (((i - a).toNat : Nat) : Int)) x y
    rw [e]
    exact hR

theorem RGBA_nest_Filled (s0 : RGBA) (U : Int → Int → Prop) (a b c d : Int)
    (PX PY : Int → Int → Int) (val : RGBA → Int → Int → ColorRGBA) (V : Int → Int → ColorRGBA)
    (hU : ∀ i j, a ≤ i → i < b → c ≤ j → j < d → U (PX i j) (PY i j))
    (hval : ∀ i j, a ≤ i → i < b → c ≤ j → j < d → ∀ s, RGBA.SameOutside U s0 s →
      val s i j = V (PX i j) (PY i j)) :
    RGBA.Filled
      (fun x y => ∃ i, a ≤ i ∧ i < b ∧ ∃ j, c ≤ j ∧ j < d ∧ x = PX i j ∧ y = PY i j) V s0
      (forFromTo a b (fun i s =>
        forFromTo c d (fun j s => s.SetRGBA (PX i j) (PY i j) (val s i j)) s) s0) := by
  apply RGBA_forFromTo_Filled s0 U
    (fun i x y => ∃ j, c ≤ j ∧ j < d ∧ x = PX i j ∧ y = PY i j) V a b _ _ _ s0
    (RGBA_SameOutside_refl U s0)
  · rintro i hi1 hi2 x y ⟨j, hj1, hj2, rfl, rfl⟩
    exact hU i j hi1 hi2 hj1 hj2
  · intro i hi1 hi2 s hs
    apply RGBA_forFromTo_Filled s0 U (fun j x y => x = PX i j ∧ y = PY i j) V c d _ _ _ s hs
    · rintro j hj1 hj2 x y ⟨rfl, rfl⟩
      exact hU i j hi1 hi2 hj1 hj2
    · intro j hj1 hj2 s2 hs2
      exact RGBA_SetRGBA_Filled V s2 (PX i j) (PY i j) _ (hval i j hi1 hi2 hj1 hj2 s2 hs2)

theorem RGBA_nest_SameOutside (U : Int → Int → Prop) (a b c d : Int)
    (inner : Int → RGBA → Int → RGBA → RGBA)
    (h : ∀ i j, a ≤ i → i < b → c ≤ j → j < d → ∀ s0 s, RGBA.SameOutside U s (inner i s0 j s))
    (s : RGBA) :
    RGBA.SameOutside U s
      (forFromTo a b (fun i s0 => forFromTo c d (fun j s => inner i s0 j s) s0) s) := by
  apply RGBA_forFromTo_SameOutside
  intro i hi1 hi2 s0
  apply RGBA_forFromTo_SameOutside
  intro j hj1 hj2 s2
  exact h i j hi1 hi2 hj1 hj2 s0 s2

theorem topPaddingReplicateRGBA_frame (img : RGBA) (p : Paddings) (s : RGBA) :
    RGBA.SameOutside (padRegion img.Rect.Size.X img.Rect.Size.Y p) s
      (topPaddingReplicateRGBA img p (fun x y pixel padded => padded.Set x y pixel) s) := by
  unfold topPaddingReplicateRGBA
  simp only [RGBA.Bounds, RGBA.Set]
  apply RGBA_nest_SameOutside
  intro i j hi1 hi2 hj1 hj2 s0 s2
  apply RGBA_SetRGBA_SameOutside
  unfold padRegion
  omega

theorem bottomPaddingReplicateRGBA_frame (img : RGBA) (p : Paddings) (s : RGBA) :
    RGBA.SameOutside (padRegion img.Rect.Size.X img.Rect.Size.Y p) s
      (bottomPaddingReplicateRGBA img p (fun x y pixel padded => padded.Set x y pixel) s) := by
  unfold bottomPaddingReplicateRGBA
  simp only [RGBA.Bounds, RGBA.Set]
  apply RGBA_nest_SameOutside
  intro i j hi1 hi2 hj1 hj2 s0 s2
  apply RGBA_SetRGBA_SameOutside
  unfold padRegion
  omega

theorem leftPaddingReplicateRGBA_frame (img : RGBA) (p : Paddings) (s : RGBA) :
    RGBA.SameOutside (padRegion img.Rect.Size.X img.Rect.Size.Y p) s
      (leftPaddingReplicateRGBA img p (fun x y pixel padded => padded.Set x y pixel) s) := by
  unfold leftPaddingReplicateRGBA
  simp only [RGBA.Bounds, RGBA.Set]
  apply RGBA_nest_SameOutside
  intro i j hi1 hi2 hj1 hj2 s0 s2
  apply RGBA_SetRGBA_SameOutside
  unfold padRegion
  omega

theorem rightPaddingReplicateRGBA_frame (img : RGBA) (p : Paddings) (s : RGBA) :
    RGBA.SameOutside (padRegion img.Rect.Size.X img.Rect.Size.Y p) s
      (rightPaddingReplicateRGBA img p (fun x y pixel padded => padded.Set x y pixel) s) := by
  unfold rightPaddingReplicateRGBA
  simp only [RGBA.Bounds, RGBA.Set]
  apply RGBA_nest_SameOutside
  intro i j hi1 hi2 hj1 hj2 s0 s2
  apply RGBA_SetRGBA_SameOutside
  unfold padRegion
  omega

theorem topPaddingReflectRGBA_frame (img : RGBA) (p : Paddings) (s : RGBA) :
    RGBA.SameOutside (padRegion img.Rect.Size.X img.Rect.Size.Y p) s
      (topPaddingReflectRGBA img p (fun x y pixel padded => padded.Set x y pixel) s) := by
  unfold topPaddingReflectRGBA
  simp only [RGBA.Bounds, RGBA.Set]
  apply RGBA_nest_SameOutside
  intro i j hi1 hi2 hj1 hj2 s0 s2
  apply RGBA_SetRGBA_SameOutside
  unfold padRegion
  omega

theorem bottomPaddingReflectRGBA_frame (img : RGBA) (p : Paddings) (s : RGBA) :
    RGBA.SameOutside (padRegion img.Rect.Size.X img.Rect.Size.Y p) s
      (bottomPaddingReflectRGBA img p (fun x y pixel padded => padded.Set x y pixel) s) := by
  unfold bottomPaddingReflectRGBA
  simp only [RGBA.Bounds, RGBA.Set]
  apply RGBA_nest_SameOutside
  intro i j hi1 hi2 hj1 hj2 s0 s2
  apply RGBA_SetRGBA_SameOutside
  unfold padRegion
  omega

theorem leftPaddingReflectRGBA_frame (img : RGBA) (p : Paddings) (s : RGBA) :
    RGBA.SameOutside (padRegion img.Rect.Size.X img.Rect.Size.Y p) s
      (leftPaddingReflectRGBA img p (fun x y pixel padded => padded.Set x y pixel) s) := by
  unfold leftPaddingReflectRGBA
  simp only [RGBA.Bounds, RGBA.Set]
  apply RGBA_nest_SameOutside
  intro i j hi1 hi2 hj1 hj2 s0 s2
  apply RGBA_SetRGBA_SameOutside
  unfold padRegion
  omega

theorem rightPaddingReflectRGBA_frame (img : RGBA) (p : Paddings) (s : RGBA) :
    RGBA.SameOutside (padRegion img.Rect.Size.X img.Rect.Size.Y p) s
      (rightPaddingReflectRGBA img p (fun x y pixel padded => padded.Set x y pixel) s) := by
  unfold rightPaddingReflectRGBA
  simp only [RGBA.Bounds, RGBA.Set]
  apply RGBA_nest_SameOutside
  intro i j hi1 hi2 hj1 hj2 s0 s2
  apply RGBA_SetRGBA_SameOutside
  unfold padRegion
  omega

theorem blankPaddingRGBA_Filled (img : RGBA) (p : Paddings) :
    RGBA.Filled
      (fun x y => p.PaddingLeft ≤ x ∧ x < img.Rect.Size.X + p.PaddingLeft ∧
        p.PaddingTop ≤ y ∧ y < p.PaddingTop + img.Rect.Size.Y)
      (fun x y => img.RGBAAt (x - p.PaddingLeft + img.Rect.Min.X)
        (y - p.PaddingTop + img.Rect.Min.Y))
      (NewRGBA (Rect 0 0 (img.Rect.Size.X + p.PaddingLeft + p.PaddingRight)
        (img.Rect.Size.Y + p.PaddingTop + p.PaddingBottom)))
      (blankPaddingRGBA img p) := by
  unfold blankPaddingRGBA ForEachRGBAPixel IteratePixels
  simp only [RGBA.Bounds, RGBA.Set, forRange_eq_forFromTo]
  apply RGBA_Filled_congr _ _ _ _ _
    (RGBA_nest_Filled _ (fun _ _ => True) 0 img.Rect.Size.Y 0 img.Rect.Size.X
      (fun _ j => j + p.PaddingLeft) (fun i _ => i + p.PaddingTop)
      (fun _ i j => img.RGBAAt (j + img.Rect.Min.X) (i + img.Rect.Min.Y)) _
      (fun _ _ _ _ _ _ => trivial) ?_)
  · intro x y
    constructor
    · rintro ⟨i, hi1, hi2, j, hj1, hj2, hx, hy⟩
      simp only at hx hy
      omega
    · intro h
      exact ⟨y - p.PaddingTop, by omega, by omega, x - p.PaddingLeft, by omega, by omega,
        by simp only [sub_add_cancel], by simp only [sub_add_cancel]⟩
  · intro i j _ _ _ _ s _
    show img.RGBAAt (j + img.Rect.Min.X) (i + img.Rect.Min.Y)
      = img.RGBAAt (j + p.PaddingLeft - p.PaddingLeft + img.Rect.Min.X)
          (i + p.PaddingTop - p.PaddingTop + img.Rect.Min.Y)
    rw [add_sub_cancel_right, add_sub_cancel_right]

theorem PaddingRGBA_constant (img : RGBA) (kernelSize anchor : Point) (p : Paddings)
    (hp : calculatePaddings kernelSize anchor = .ok p) :
    PaddingRGBA img kernelSize anchor BorderConstant = .ok (blankPaddingRGBA img p) := by
  unfold PaddingRGBA
  rw [hp]
  rfl

theorem PaddingRGBA_replicate (img : RGBA) (kernelSize anchor : Point) (p : Paddings)
    (hp : calculatePaddings kernelSize anchor = .ok p) :
    PaddingRGBA img kernelSize anchor BorderReplicate
      = .ok (rightPaddingReplicateRGBA img p (fun x y pixel padded => padded.Set x y pixel)
          (leftPaddingReplicateRGBA img p (fun x y pixel padded => padded.Set x y pixel)
            (bottomPaddingReplicateRGBA img p (fun x y pixel padded => padded.Set x y pixel)
              (topPaddingReplicateRGBA img p (fun x y pixel padded => padded.Set x y pixel)
                (blankPaddingRGBA img p))))) := by
  unfold PaddingRGBA
  rw [hp]
  rfl

theorem PaddingRGBA_reflect (img : RGBA) (kernelSize anchor : Point) (p : Paddings)
    (hp : calculatePaddings kernelSize anchor = .ok p) :
    PaddingRGBA img kernelSize anchor BorderReflect
      = .ok (rightPaddingReflectRGBA img p (fun x y pixel padded => padded.Set x y pixel)
          (leftPaddingReflectRGBA img p (fun x y pixel padded => padded.Set x y pixel)
            (bottomPaddingReflectRGBA img p (fun x y pixel padded => padded.Set x y pixel)
              (topPaddingReflectRGBA img p (fun x y pixel padded => padded.Set x y pixel)
                (blankPaddingRGBA img p))))) := by
  unfold PaddingRGBA
  rw [hp]
  rfl

theorem PaddingRGBA_frame (img : RGBA) (kernelSize anchor : Point) (p : Paddings)
    (border : Border) (hp : calculatePaddings kernelSize anchor = .ok p)
    (hb : border = BorderConstant ∨ border = BorderReplicate ∨ border = BorderReflect) :
    ∃ res, PaddingRGBA img kernelSize anchor border = .ok res ∧
      RGBA.SameOutside (padRegion img.Rect.Size.X img.Rect.Size.Y p)
        (blankPaddingRGBA img p) res := by
  rcases hb with rfl | rfl | rfl
  · exact ⟨_, PaddingRGBA_constant img kernelSize anchor p hp, RGBA_SameOutside_refl _ _⟩
  · refine ⟨_, PaddingRGBA_replicate img kernelSize anchor p hp, ?_⟩
    exact RGBA_SameOutside_trans _ _ _ _
      (RGBA_SameOutside_trans _ _ _ _
        (RGBA_SameOutside_trans _ _ _ _ (topPaddingReplicateRGBA_frame img p _)
          (bottomPaddingReplicateRGBA_frame img p _))
        (leftPaddingReplicateRGBA_frame img p _))
      (rightPaddingReplicateRGBA_frame img p _)
  · refine ⟨_, PaddingRGBA_reflect img kernelSize anchor p hp, ?_⟩
    exact RGBA_SameOutside_trans _ _ _ _
      (RGBA_SameOutside_trans _ _ _ _
        (RGBA_SameOutside_trans _ _ _ _ (topPaddingReflectRGBA_frame img p _)
          (bottomPaddingReflectRGBA_frame img p _))
        (leftPaddingReflectRGBA_frame img p _))
      (rightPaddingReflectRGBA_frame img p _)

theorem PaddingRGBA_keeps (img : RGBA) (kernelSize anchor : Point) (border : Border)
    (hw : img.Rect.WellFormed)
    (h : 0 ≤ anchor.X ∧ anchor.X < kernelSize.X ∧ 0 ≤ anchor.Y ∧ anchor.Y < kernelSize.Y)
    (hb : border = BorderConstant ∨ border = BorderReplicate ∨ border = BorderReflect) :
    ∃ res, PaddingRGBA img kernelSize anchor border = .ok res ∧
      res.Rect = ⟨⟨0, 0⟩, ⟨img.Rect.Size.X + anchor.X + (kernelSize.X - anchor.X - 1),
        img.Rect.Size.Y + anchor.Y + (kernelSize.Y - anchor.Y - 1)⟩⟩ ∧
      ∀ x y, 0 ≤ x → x < img.Rect.Size.X → 0 ≤ y → y < img.Rect.Size.Y →
        res.RGBAAt (x + anchor.X) (y + anchor.Y)
          = img.RGBAAt (x + img.Rect.Min.X) (y + img.Rect.Min.Y) := by
  have hs := Size_nonneg img.Rect hw
  have hp := calculatePaddings_ok kernelSize anchor h
  obtain ⟨res, hres, hframe⟩ := PaddingRGBA_frame img kernelSize anchor _ border hp hb
  have hblank := blankPaddingRGBA_Filled img
    ⟨anchor.X, kernelSize.X - anchor.X - 1, anchor.Y, kernelSize.Y - anchor.Y - 1⟩
  simp only at hblank
  have hrect : res.Rect = ⟨⟨0, 0⟩, ⟨img.Rect.Size.X + anchor.X + (kernelSize.X - anchor.X - 1),
      img.Rect.Size.Y + anchor.Y + (kernelSize.Y - anchor.Y - 1)⟩⟩ := by
    rw [hframe.1, hblank.1]
    exact Rect_origin _ _ (by omega) (by omega)
  refine ⟨res, hres, hrect, ?_⟩
  intro x y hx0 hx1 hy0 hy1
  have hin : res.Rect.Contains (x + anchor.X) (y + anchor.Y) := by
    rw [hrect]
    unfold Rectangle.Contains
    simp only
    omega
  have hin0 : (NewRGBA (Rect 0 0
      (img.Rect.Size.X + anchor.X + (kernelSize.X - anchor.X - 1))
      (img.Rect.Size.Y + anchor.Y + (kernelSize.Y - anchor.Y - 1)))).Rect.Contains
        (x + anchor.X) (y + anchor.Y) := by
    rw [← hblank.1, ← hframe.1]
    exact hin
  unfold RGBA.RGBAAt
  rw [if_pos hin]
  have hnot : ¬ padRegion img.Rect.Size.X img.Rect.Size.Y
      ⟨anchor.X, kernelSize.X - anchor.X - 1, anchor.Y, kernelSize.Y - anchor.Y - 1⟩
      (x + anchor.X) (y + anchor.Y) := by
    unfold padRegion
    simp only
    omega
  rw [hframe.2 _ _ hnot, hblank.2.1 _ _ ⟨by omega, by omega, by omega, by omega⟩ hin0]
  simp only [add_sub_cancel_right]
  rfl

/-! ## Claims C23 and C24: the original stays in place, the constant border is black -/

/-- C23: for every well-formed image of size W x H, each of the three border types and
every kernel size / anchor with 0 <= anchor < kernelSize, PaddingGray and PaddingRGBA
return an image with origin (0,0) and size (W + left + right) x (H + top + bottom) in
which padded(x + left, y + top) = img(x + originX, y + originY) for 0 <= x < W, 0 <= y < H. -/
theorem C23_original_in_place (g : Gray) (r : RGBA) (kernelSize anchor : Point)
    (border : Border) (hg : g.Bounds.WellFormed) (hr : r.Bounds.WellFormed)
    (h : 0 ≤ anchor.X ∧ anchor.X < kernelSize.X ∧ 0 ≤ anchor.Y ∧ anchor.Y < kernelSize.Y)
    (hb : border = BorderConstant ∨ border = BorderReplicate ∨ border = BorderReflect) :
    (∃ res, PaddingGray g kernelSize anchor border = .ok res ∧
      res.Bounds = ⟨⟨0, 0⟩, ⟨g.Bounds.Size.X + anchor.X + (kernelSize.X - anchor.X - 1),
        g.Bounds.Size.Y + anchor.Y + (kernelSize.Y - anchor.Y - 1)⟩⟩ ∧
      ∀ x y, 0 ≤ x → x < g.Bounds.Size.X → 0 ≤ y → y < g.Bounds.Size.Y →
        res.GrayAt (x + anchor.X) (y + anchor.Y)
          = g.GrayAt (x + g.Bounds.Min.X) (y + g.Bounds.Min.Y)) ∧
    (∃ res, PaddingRGBA r kernelSize anchor border = .ok res ∧
      res.Bounds = ⟨⟨0, 0⟩, ⟨r.Bounds.Size.X + anchor.X + (kernelSize.X - anchor.X - 1),
        r.Bounds.Size.Y + anchor.Y + (kernelSize.Y - anchor.Y - 1)⟩⟩ ∧
      ∀ x y, 0 ≤ x → x < r.Bounds.Size.X → 0 ≤ y → y < r.Bounds.Size.Y →
        res.RGBAAt (x + anchor.X) (y + anchor.Y)
          = r.RGBAAt (x + r.Bounds.Min.X) (y + r.Bounds.Min.Y)) :=
  ⟨PaddingGray_keeps g kernelSize anchor border hg h hb,
    PaddingRGBA_keeps r kernelSize anchor border hr h hb⟩

/-- Witness of C23: the example views with kernel (5,5), anchor (1,1) and BorderReplicate. -/
theorem C23_original_in_place_witness :
    exampleGray.Bounds.WellFormed ∧ exampleRGBA.Bounds.WellFormed ∧
    ((0 : Int) ≤ (⟨1, 1⟩ : Point).X ∧ (⟨1, 1⟩ : Point).X < (⟨5, 5⟩ : Point).X ∧
      (0 : Int) ≤ (⟨1, 1⟩ : Point).Y ∧ (⟨1, 1⟩ : Point).Y < (⟨5, 5⟩ : Point).Y) ∧
    (BorderReplicate = BorderConstant ∨ BorderReplicate = BorderReplicate ∨
      BorderReplicate = BorderReflect) ∧
    ((∃ res, PaddingGray exampleGray ⟨5, 5⟩ ⟨1, 1⟩ BorderReplicate = .ok res ∧
      res.Bounds = ⟨⟨0, 0⟩, ⟨exampleGray.Bounds.Size.X + (⟨1, 1⟩ : Point).X
          + ((⟨5, 5⟩ : Point).X - (⟨1, 1⟩ : Point).X - 1),
        exampleGray.Bounds.Size.Y + (⟨1, 1⟩ : Point).Y
          + ((⟨5, 5⟩ : Point).Y - (⟨1, 1⟩ : Point).Y - 1)⟩⟩ ∧
      ∀ x y, 0 ≤ x → x < exampleGray.Bounds.Size.X → 0 ≤ y → y < exampleGray.Bounds.Size.Y →
        res.GrayAt (x + (⟨1, 1⟩ : Point).X) (y + (⟨1, 1⟩ : Point).Y)
          = exampleGray.GrayAt (x + exampleGray.Bounds.Min.X) (y + exampleGray.Bounds.Min.Y)) ∧
    (∃ res, PaddingRGBA exampleRGBA ⟨5, 5⟩ ⟨1, 1⟩ BorderReplicate = .ok res ∧
      res.Bounds = ⟨⟨0, 0⟩, ⟨exampleRGBA.Bounds.Size.X + (⟨1, 1⟩ : Point).X
          + ((⟨5, 5⟩ : Point).X - (⟨1, 1⟩ : Point).X - 1),
        exampleRGBA.Bounds.Size.Y + (⟨1, 1⟩ : Point).Y
          + ((⟨5, 5⟩ : Point).Y - (⟨1, 1⟩ : Point).Y - 1)⟩⟩ ∧
      ∀ x y, 0 ≤ x → x < exampleRGBA.Bounds.Size.X → 0 ≤ y → y < exampleRGBA.Bounds.Size.Y →
        res.RGBAAt (x + (⟨1, 1⟩ : Point).X) (y + (⟨1, 1⟩ : Point).Y)
          = exampleRGBA.RGBAAt (x + exampleRGBA.Bounds.Min.X)
              (y + exampleRGBA.Bounds.Min.Y))) :=
  ⟨by decide, by decide, by decide, by decide,
    C23_original_in_place exampleGray exampleRGBA ⟨5, 5⟩ ⟨1, 1⟩ BorderReplicate (by decide)
      (by decide) (by decide) (by decide)⟩

/-- C24: for every image and every kernel size / anchor with 0 <= anchor < kernelSize,
every pixel of the PaddingGray result with BorderConstant that lies outside the embedded
original region [left, left+W) x [top, top+H) has value 0. -/
theorem C24_constant_black (img : Gray) (kernelSize anchor : Point)
    (h : 0 ≤ anchor.X ∧ anchor.X < kernelSize.X ∧ 0 ≤ anchor.Y ∧ anchor.Y < kernelSize.Y) :
    ∃ res, PaddingGray img kernelSize anchor BorderConstant = .ok res ∧
      ∀ x y, ¬ (anchor.X ≤ x ∧ x < anchor.X + img.Bounds.Size.X ∧
          anchor.Y ≤ y ∧ y < anchor.Y + img.Bounds.Size.Y) →
        res.GrayAt x y = 0 := by
  have hp := calculatePaddings_ok kernelSize anchor h
  refine ⟨_, PaddingGray_constant img kernelSize anchor _ hp, ?_⟩
  intro x y hout
  have hblank := blankPaddingGray_Filled img
    ⟨anchor.X, kernelSize.X - anchor.X - 1, anchor.Y, kernelSize.Y - anchor.Y - 1⟩
  simp only at hblank
  unfold Gray.GrayAt
  split_ifs
  · rw [hblank.2.2 x y (by
      intro hc
      apply hout
      simp only [Gray.Bounds]
      omega)]
    rfl
  · rfl

/-- Witness of C24: the example view at origin (5,7) with kernel (5,5) and anchor (1,1). -/
theorem C24_constant_black_witness :
    ((0 : Int) ≤ (⟨1, 1⟩ : Point).X ∧ (⟨1, 1⟩ : Point).X < (⟨5, 5⟩ : Point).X ∧
      (0 : Int) ≤ (⟨1, 1⟩ : Point).Y ∧ (⟨1, 1⟩ : Point).Y < (⟨5, 5⟩ : Point).Y) ∧
    ∃ res, PaddingGray exampleGray ⟨5, 5⟩ ⟨1, 1⟩ BorderConstant = .ok res ∧
      ∀ x y, ¬ ((⟨1, 1⟩ : Point).X ≤ x ∧ x < (⟨1, 1⟩ : Point).X + exampleGray.Bounds.Size.X ∧
          (⟨1, 1⟩ : Point).Y ≤ y ∧ y < (⟨1, 1⟩ : Point).Y + exampleGray.Bounds.Size.Y) →
        res.GrayAt x y = 0 :=
  ⟨by decide, C24_constant_black exampleGray ⟨5, 5⟩ ⟨1, 1⟩ (by decide)⟩

/-! ## Claim C21: the reflecting passes -/

theorem reflectIndex_neg (i n : Int) (h : i < 0) : reflectIndex i n = -i := by
  unfold reflectIndex
  rw [if_pos h]

theorem reflectIndex_mid (i n : Int) (h0 : 0 ≤ i) (h1 : i < n) : reflectIndex i n = i := by
  unfold reflectIndex
  rw [if_neg (by omega), if_pos h1]

theorem reflectIndex_high (i n : Int) (h0 : 0 ≤ i) (h1 : n ≤ i) :
    reflectIndex i n = 2 * (n - 1) - i := by
  unfold reflectIndex
  rw [if_neg (by omega), if_neg (by omega)]

/-- A nested loop of writes extends the region on which an image agrees with `V`. -/
theorem Gray_nest_extend (s0 : Gray) (U : Int → Int → Prop) (a b c d : Int)
    (PX PY : Int → Int → Int) (val : Gray → Int → Int → Nat) (V : Int → Int → Nat)
    (D D2 : Int → Int → Prop)
    (hU : ∀ i j, a ≤ i → i < b → c ≤ j → j < d → U (PX i j) (PY i j))
    (hval : ∀ i j, a ≤ i → i < b → c ≤ j → j < d → ∀ s, Gray.SameOutside U s0 s →
      val s i j = V (PX i j) (PY i j))
    (h0 : ∀ x y, D x y → s0.Pix x y = V x y)
    (hin : ∀ x y, D2 x y → s0.Rect.Contains x y)
    (hD : ∀ x y, D2 x y → D x y ∨
      ∃ i, a ≤ i ∧ i < b ∧ ∃ j, c ≤ j ∧ j < d ∧ x = PX i j ∧ y = PY i j) :
    (forFromTo a b (fun i s =>
        forFromTo c d (fun j s => s.SetGray (PX i j) (PY i j) (val s i j)) s) s0).Rect
      = s0.Rect ∧
    ∀ x y, D2 x y →
      (forFromTo a b (fun i s =>
        forFromTo c d (fun j s => s.SetGray (PX i j) (PY i j) (val s i j)) s) s0).Pix x y
        = V x y := by
  have hF := Gray_nest_Filled s0 U a b c d PX PY val V hU hval
  refine ⟨hF.1, fun x y h2 => ?_⟩
  by_cases hs : ∃ i, a ≤ i ∧ i < b ∧ ∃ j, c ≤ j ∧ j < d ∧ x = PX i j ∧ y = PY i j
  · exact hF.2.1 x y hs (hin x y h2)
  · rw [hF.2.2 x y hs]
    rcases hD x y h2 with h | h
    · exact h0 x y h
    · exact absurd h hs

theorem topPaddingReflect_values (img : Gray) (p : Paddings) (s : Gray)
    (hp : 0 ≤ p.PaddingLeft ∧ 0 ≤ p.PaddingRight ∧ 0 ≤ p.PaddingTop ∧ 0 ≤ p.PaddingBottom)
    (hrect : s.Rect = ⟨⟨0, 0⟩, ⟨img.Rect.Size.X + p.PaddingLeft + p.PaddingRight,
      img.Rect.Size.Y + p.PaddingTop + p.PaddingBottom⟩⟩)
    (h0 : ∀ x y, p.PaddingLeft ≤ x → x < img.Rect.Size.X + p.PaddingLeft →
      p.PaddingTop ≤ y → y < p.PaddingTop + img.Rect.Size.Y →
      s.Pix x y = reflectTarget img p x y) :
    (topPaddingReflect img p (fun x y pixel padded => padded.Set x y pixel) s).Rect = s.Rect ∧
    ∀ x y, p.PaddingLeft ≤ x ∧ x < img.Rect.Size.X + p.PaddingLeft ∧
      0 ≤ y ∧ y < p.PaddingTop + img.Rect.Size.Y →
      (topPaddingReflect img p (fun x y pixel padded => padded.Set x y pixel) s).Pix x y
        = reflectTarget img p x y := by
  unfold topPaddingReflect
  simp only [Gray.Bounds, Gray.Set]
  apply Gray_nest_extend s (fun _ _ => True) p.PaddingLeft (img.Rect.Size.X + p.PaddingLeft)
    0 p.PaddingTop (fun i _ => i) (fun _ j => j)
    (fun _ i j => img.GrayAt (i - p.PaddingLeft + img.Rect.Min.X)
      (p.PaddingTop - j + img.Rect.Min.Y))
    (reflectTarget img p)
    (fun x y => p.PaddingLeft ≤ x ∧ x < img.Rect.Size.X + p.PaddingLeft ∧
      p.PaddingTop ≤ y ∧ y < p.PaddingTop + img.Rect.Size.Y)
  · intro _ _ _ _ _ _
    trivial
  · intro i j hi1 hi2 hj1 hj2 _ _
    show img.GrayAt (i - p.PaddingLeft + img.Rect.Min.X) (p.PaddingTop - j + img.Rect.Min.Y)
      = reflectTarget img p i j
    unfold reflectTarget
    rw [reflectIndex_mid _ _ (by omega) (by omega), reflectIndex_neg _ _ (by omega)]
    congr 2
    omega
  · rintro x y ⟨h1, h2, h3, h4⟩
    exact h0 x y h1 h2 h3 h4
  · rintro x y ⟨h1, h2, h3, h4⟩
    rw [hrect]
    unfold Rectangle.Contains
    simp only
    omega
  · rintro x y ⟨h1, h2, h3, h4⟩
    by_cases hy : p.PaddingTop ≤ y
    · exact Or.inl ⟨h1, h2, hy, h4⟩
    · exact Or.inr ⟨x, h1, h2, y, h3, by omega, rfl, rfl⟩

theorem bottomPaddingReflect_values (img : Gray) (p : Paddings) (s : Gray)
    (hp : 0 ≤ p.PaddingLeft ∧ 0 ≤ p.PaddingRight ∧ 0 ≤ p.PaddingTop ∧ 0 ≤ p.PaddingBottom)
    (hb : p.PaddingBottom ≤ img.Rect.Size.Y - 1)
    (hrect : s.Rect = ⟨⟨0, 0⟩, ⟨img.Rect.Size.X + p.PaddingLeft + p.PaddingRight,
      img.Rect.Size.Y + p.PaddingTop + p.PaddingBottom⟩⟩)
    (h0 : ∀ x y, p.PaddingLeft ≤ x ∧ x < img.Rect.Size.X + p.PaddingLeft ∧
      0 ≤ y ∧ y < p.PaddingTop + img.Rect.Size.Y →
      s.Pix x y = reflectTarget img p x y) :
    (bottomPaddingReflect img p (fun x y pixel padded => padded.Set x y pixel) s).Rect
      = s.Rect ∧
    ∀ x y, p.PaddingLeft ≤ x ∧ x < img.Rect.Size.X + p.PaddingLeft ∧
      0 ≤ y ∧ y < img.Rect.Size.Y + p.PaddingTop + p.PaddingBottom →
      (bottomPaddingReflect img p (fun x y pixel padded => padded.Set x y pixel) s).Pix x y
        = reflectTarget img p x y := by
  unfold bottomPaddingReflect
  simp only [Gray.Bounds, Gray.Set]
  apply Gray_nest_extend s (fun _ _ => True) p.PaddingLeft (img.Rect.Size.X + p.PaddingLeft)
    (p.PaddingTop + img.Rect.Size.Y) (img.Rect.Size.Y + p.PaddingTop + p.PaddingBottom)
    (fun i _ => i) (fun _ j => j)
    (fun _ i j => img.GrayAt (i - p.PaddingLeft + img.Rect.Min.X)
      (img.Rect.Size.Y - (j - p.PaddingTop - img.Rect.Size.Y) - 2 + img.Rect.Min.Y))
    (reflectTarget img p)
    (fun x y => p.PaddingLeft ≤ x ∧ x < img.Rect.Size.X + p.PaddingLeft ∧
      0 ≤ y ∧ y < p.PaddingTop + img.Rect.Size.Y)
  · intro _ _ _ _ _ _
    trivial
  · intro i j hi1 hi2 hj1 hj2 _ _
    show img.GrayAt (i - p.PaddingLeft + img.Rect.Min.X)
        (img.Rect.Size.Y - (j - p.PaddingTop - img.Rect.Size.Y) - 2 + img.Rect.Min.Y)
      = reflectTarget img p i j
    unfold reflectTarget
    rw [reflectIndex_mid _ _ (by omega) (by omega),
      reflectIndex_high _ _ (by omega) (by omega)]
    congr 2
    omega
  · exact h0
  · rintro x y ⟨h1, h2, h3, h4⟩
    rw [hrect]
    unfold Rectangle.Contains
    simp only
    omega
  · rintro x y ⟨h1, h2, h3, h4⟩
    by_cases hy : y < p.PaddingTop + img.Rect.Size.Y
    · exact Or.inl ⟨h1, h2, h3, hy⟩
    · exact Or.inr ⟨x, h1, h2, y, by omega, h4, rfl, rfl⟩

theorem leftPaddingReflect_values (img : Gray) (p : Paddings) (s : Gray)
    (hp : 0 ≤ p.PaddingLeft ∧ 0 ≤ p.PaddingRight ∧ 0 ≤ p.PaddingTop ∧ 0 ≤ p.PaddingBottom)
    (hl : p.PaddingLeft ≤ img.Rect.Size.X - 1)
    (hrect : s.Rect = ⟨⟨0, 0⟩, ⟨img.Rect.Size.X + p.PaddingLeft + p.PaddingRight,
      img.Rect.Size.Y + p.PaddingTop + p.PaddingBottom⟩⟩)
    (h0 : ∀ x y, p.PaddingLeft ≤ x ∧ x < img.Rect.Size.X + p.PaddingLeft ∧
      0 ≤ y ∧ y < img.Rect.Size.Y + p.PaddingTop + p.PaddingBottom →
      s.Pix x y = reflectTarget img p x y) :
    (leftPaddingReflect img p (fun x y pixel padded => padded.Set x y pixel) s).Rect
      = s.Rect ∧
    ∀ x y, 0 ≤ x ∧ x < img.Rect.Size.X + p.PaddingLeft ∧
      0 ≤ y ∧ y < img.Rect.Size.Y + p.PaddingTop + p.PaddingBottom →
      (leftPaddingReflect img p (fun x y pixel padded => padded.Set x y pixel) s).Pix x y
        = reflectTarget img p x y := by
  unfold leftPaddingReflect
  simp only [Gray.Bounds, Gray.Set]
  apply Gray_nest_extend s (fun x _ => x < p.PaddingLeft)
    0 (img.Rect.Size.Y + p.PaddingBottom + p.PaddingTop) 0 p.PaddingLeft
    (fun _ j => j) (fun i _ => i)
    (fun s i j => s.GrayAt (2 * p.PaddingLeft - j) i)
    (reflectTarget img p)
    (fun x y => p.PaddingLeft ≤ x ∧ x < img.Rect.Size.X + p.PaddingLeft ∧
      0 ≤ y ∧ y < img.Rect.Size.Y + p.PaddingTop + p.PaddingBottom)
  · intro i j _ _ _ hj2
    exact hj2
  · intro i j hi1 hi2 hj1 hj2 s2 hs2
    show s2.GrayAt (2 * p.PaddingLeft - j) i = reflectTarget img p j i
    rw [Gray_SameOutside_GrayAt _ s s2 hs2 _ _ (by
      show ¬ (2 * p.PaddingLeft - j < p.PaddingLeft)
      omega)]
    have hc : s.Rect.Contains (2 * p.PaddingLeft - j) i := by
      rw [hrect]
      unfold Rectangle.Contains
      simp only
      omega
    unfold Gray.GrayAt
    rw [if_pos hc, h0 _ _ ⟨by omega, by omega, by omega, by omega⟩]
    unfold reflectTarget
    rw [reflectIndex_mid (2 * p.PaddingLeft - j - p.PaddingLeft) _ (by omega) (by omega),
      reflectIndex_neg (j - p.PaddingLeft) _ (by omega)]
    congr 2
    omega
  · exact h0
  · rintro x y ⟨h1, h2, h3, h4⟩
    rw [hrect]
    unfold Rectangle.Contains
    simp only
    omega
  · rintro x y ⟨h1, h2, h3, h4⟩
    by_cases hx : p.PaddingLeft ≤ x
    · exact Or.inl ⟨hx, h2, h3, h4⟩
    · exact Or.inr ⟨y, h3, by omega, x, h1, by omega, rfl, rfl⟩

theorem rightPaddingReflect_values (img : Gray) (p : Paddings) (s : Gray)
    (hp : 0 ≤ p.PaddingLeft ∧ 0 ≤ p.PaddingRight ∧ 0 ≤ p.PaddingTop ∧ 0 ≤ p.PaddingBottom)
    (hr : p.PaddingRight ≤ img.Rect.Size.X - 1)
    (hrect : s.Rect = ⟨⟨0, 0⟩, ⟨img.Rect.Size.X + p.PaddingLeft + p.PaddingRight,
      img.Rect.Size.Y + p.PaddingTop + p.PaddingBottom⟩⟩)
    (h0 : ∀ x y, 0 ≤ x ∧ x < img.Rect.Size.X + p.PaddingLeft ∧
      0 ≤ y ∧ y < img.Rect.Size.Y + p.PaddingTop + p.PaddingBottom →
      s.Pix x y = reflectTarget img p x y) :
    (rightPaddingReflect img p (fun x y pixel padded => padded.Set x y pixel) s).Rect
      = s.Rect ∧
    ∀ x y, 0 ≤ x ∧ x < img.Rect.Size.X + p.PaddingLeft + p.PaddingRight ∧
      0 ≤ y ∧ y < img.Rect.Size.Y + p.PaddingTop + p.PaddingBottom →
      (rightPaddingReflect img p (fun x y pixel padded => padded.Set x y pixel) s).Pix x y
        = reflectTarget img p x y := by
  unfold rightPaddingReflect
  simp only [Gray.Bounds, Gray.Set]
  apply Gray_nest_extend s (fun x _ => img.Rect.Size.X + p.PaddingLeft ≤ x)
    0 (img.Rect.Size.Y + p.PaddingBottom + p.PaddingTop)
    (img.Rect.Size.X + p.PaddingLeft) (img.Rect.Size.X + p.PaddingLeft + p.PaddingRight)
    (fun _ j => j) (fun i _ => i)
    (fun s i j => s.GrayAt
      (img.Rect.Size.X + p.PaddingLeft - (j - img.Rect.Size.X - p.PaddingLeft) - 2) i)
    (reflectTarget img p)
    (fun x y => 0 ≤ x ∧ x < img.Rect.Size.X + p.PaddingLeft ∧
      0 ≤ y ∧ y < img.Rect.Size.Y + p.PaddingTop + p.PaddingBottom)
  · intro i j _ _ hj1 _
    exact hj1
  · intro i j hi1 hi2 hj1 hj2 s2 hs2
    show s2.GrayAt
        (img.Rect.Size.X + p.PaddingLeft - (j - img.Rect.Size.X - p.PaddingLeft) - 2) i
      = reflectTarget img p j i
    rw [Gray_SameOutside_GrayAt _ s s2 hs2 _ _ (by
      show ¬ (img.Rect.Size.X + p.PaddingLeft
        ≤ img.Rect.Size.X + p.PaddingLeft - (j - img.Rect.Size.X - p.PaddingLeft) - 2)
      omega)]
    have hc : s.Rect.Contains
        (img.Rect.Size.X + p.PaddingLeft - (j - img.Rect.Size.X - p.PaddingLeft) - 2) i := by
      rw [hrect]
      unfold Rectangle.Contains
      simp only
      omega
    unfold Gray.GrayAt
    rw [if_pos hc, h0 _ _ ⟨by omega, by omega, by omega, by omega⟩]
    unfold reflectTarget
    rw [reflectIndex_mid (img.Rect.Size.X + p.PaddingLeft
        - (j - img.Rect.Size.X - p.PaddingLeft) - 2 - p.PaddingLeft) _ (by omega) (by omega),
      reflectIndex_high (j - p.PaddingLeft) _ (by omega) (by omega)]
    congr 2
    omega
  · exact h0
  · rintro x y ⟨h1, h2, h3, h4⟩
    rw [hrect]
    unfold Rectangle.Contains
    simp only
    omega
  · rintro x y ⟨h1, h2, h3, h4⟩
    by_cases hx : x < img.Rect.Size.X + p.PaddingLeft
    · exact Or.inl ⟨h1, hx, h3, h4⟩
    · exact Or.inr ⟨y, h3, by omega, x, by omega, h2, rfl, rfl⟩

/-- The four reflecting passes after `blankPaddingGray` give the reflected original at
every point of the padded image, for non-negative paddings below the size of the original. -/
theorem reflectPasses_values (img : Gray) (p : Paddings)
    (hp : 0 ≤ p.PaddingLeft ∧ 0 ≤ p.PaddingRight ∧ 0 ≤ p.PaddingTop ∧ 0 ≤ p.PaddingBottom)
    (hx : p.PaddingLeft ≤ img.Rect.Size.X - 1 ∧ p.PaddingRight ≤ img.Rect.Size.X - 1)
    (hy : p.PaddingTop ≤ img.Rect.Size.Y - 1 ∧ p.PaddingBottom ≤ img.Rect.Size.Y - 1) :
    (rightPaddingReflect img p (fun x y pixel padded => padded.Set x y pixel)
      (leftPaddingReflect img p (fun x y pixel padded => padded.Set x y pixel)
        (bottomPaddingReflect img p (fun x y pixel padded => padded.Set x y pixel)
          (topPaddingReflect img p (fun x y pixel padded => padded.Set x y pixel)
            (blankPaddingGray img p))))).Rect
      = ⟨⟨0, 0⟩, ⟨img.Rect.Size.X + p.PaddingLeft + p.PaddingRight,
          img.Rect.Size.Y + p.PaddingTop + p.PaddingBottom⟩⟩ ∧
    ∀ x y, 0 ≤ x ∧ x < img.Rect.Size.X + p.PaddingLeft + p.PaddingRight ∧
      0 ≤ y ∧ y < img.Rect.Size.Y + p.PaddingTop + p.PaddingBottom →
      (rightPaddingReflect img p (fun x y pixel padded => padded.Set x y pixel)
        (leftPaddingReflect img p (fun x y pixel padded => padded.Set x y pixel)
          (bottomPaddingReflect img p (fun x y pixel padded => padded.Set x y pixel)
            (topPaddingReflect img p (fun x y pixel padded => padded.Set x y pixel)
              (blankPaddingGray img p))))).Pix x y
        = reflectTarget img p x y := by
  have hblank := blankPaddingGray_Filled img p
  have hnew : (NewGray (Rect 0 0 (img.Rect.Size.X + p.PaddingLeft + p.PaddingRight)
      (img.Rect.Size.Y + p.PaddingTop + p.PaddingBottom))).Rect
      = ⟨⟨0, 0⟩, ⟨img.Rect.Size.X + p.PaddingLeft + p.PaddingRight,
          img.Rect.Size.Y + p.PaddingTop + p.PaddingBottom⟩⟩ :=
    Rect_origin _ _ (by omega) (by omega)
  have r0 : (blankPaddingGray img p).Rect
      = ⟨⟨0, 0⟩, ⟨img.Rect.Size.X + p.PaddingLeft + p.PaddingRight,
          img.Rect.Size.Y + p.PaddingTop + p.PaddingBottom⟩⟩ := hblank.1.trans hnew
  have v0 : ∀ x y, p.PaddingLeft ≤ x → x < img.Rect.Size.X + p.PaddingLeft →
      p.PaddingTop ≤ y → y < p.PaddingTop + img.Rect.Size.Y →
      (blankPaddingGray img p).Pix x y = reflectTarget img p x y := by
    intro x y h1 h2 h3 h4
    rw [hblank.2.1 x y ⟨h1, h2, h3, h4⟩ (by
      rw [hnew]
      unfold Rectangle.Contains
      simp only
      omega)]
    unfold reflectTarget
    rw [reflectIndex_mid _ _ (by omega) (by omega), reflectIndex_mid _ _ (by omega) (by omega)]
  obtain ⟨r1, v1⟩ := topPaddingReflect_values img p _ hp r0 v0
  obtain ⟨r2, v2⟩ := bottomPaddingReflect_values img p _ hp hy.2 (r1.trans r0) v1
  obtain ⟨r3, v3⟩ := leftPaddingReflect_values img p _ hp hx.1 (r2.trans (r1.trans r0)) v2
  obtain ⟨r4, v4⟩ := rightPaddingReflect_values img p _ hp hx.2
    (r3.trans (r2.trans (r1.trans r0))) v3
  exact ⟨r4.trans (r3.trans (r2.trans (r1.trans r0))), v4⟩

/-! ## Claim C21: reflected border -/

/-- C21 (evaluation at the failing input): on the 2x1 image [5, 9] with kernel size (1,1)
and anchor (1,0), which calculatePaddings accepts with left = 1, right = -1, top = 0,
bottom = 0 (so left, right <= W-1 and top, bottom <= H-1), PaddingGray with BorderReflect
returns the row [0, 5]; the pixel (0,0) is 0 where img(m(0 - 1, 2), m(0 - 0, 1)) = 9. -/
theorem C21_negative_right_padding :
    calculatePaddings ⟨1, 1⟩ ⟨1, 0⟩ = .ok ⟨1, -1, 0, 0⟩ ∧
    ((1 : Int) ≤ (Gray.ofRows 2 [[5, 9]]).Bounds.Size.X - 1 ∧
      (-1 : Int) ≤ (Gray.ofRows 2 [[5, 9]]).Bounds.Size.X - 1 ∧
      (0 : Int) ≤ (Gray.ofRows 2 [[5, 9]]).Bounds.Size.Y - 1) ∧
    (PaddingGray (Gray.ofRows 2 [[5, 9]]) ⟨1, 1⟩ ⟨1, 0⟩ BorderReflect).toOption.map Gray.rows
      = some [[0, 5]] ∧
    (Gray.ofRows 2 [[5, 9]]).GrayAt (reflectIndex (0 - 1) 2) (reflectIndex (0 - 0) 1) = 9 := by
  refine ⟨rfl, by decide, by decide!, by decide⟩

/-- C21 (amended): for every image of size W x H and every kernel size / anchor with
0 <= anchor < kernelSize (all four paddings non-negative) and left, right <= W-1,
top, bottom <= H-1, PaddingGray with BorderReflect returns an image with origin (0,0) and
size (W + left + right) x (H + top + bottom) in which every pixel satisfies
padded(x, y) = img(m(x - left, W), m(y - top, H)), read at the origin offset of img. -/
theorem C21_reflect_values (img : Gray) (kernelSize anchor : Point)
    (h : 0 ≤ anchor.X ∧ anchor.X < kernelSize.X ∧ 0 ≤ anchor.Y ∧ anchor.Y < kernelSize.Y)
    (hx : anchor.X ≤ img.Bounds.Size.X - 1 ∧
      kernelSize.X - anchor.X - 1 ≤ img.Bounds.Size.X - 1)
    (hy : anchor.Y ≤ img.Bounds.Size.Y - 1 ∧
      kernelSize.Y - anchor.Y - 1 ≤ img.Bounds.Size.Y - 1) :
    ∃ res, PaddingGray img kernelSize anchor BorderReflect = .ok res ∧
      res.Bounds = ⟨⟨0, 0⟩, ⟨img.Bounds.Size.X + anchor.X + (kernelSize.X - anchor.X - 1),
        img.Bounds.Size.Y + anchor.Y + (kernelSize.Y - anchor.Y - 1)⟩⟩ ∧
      ∀ x y, 0 ≤ x → x < img.Bounds.Size.X + anchor.X + (kernelSize.X - anchor.X - 1) →
        0 ≤ y → y < img.Bounds.Size.Y + anchor.Y + (kernelSize.Y - anchor.Y - 1) →
        res.GrayAt x y
          = img.GrayAt (reflectIndex (x - anchor.X) img.Bounds.Size.X + img.Bounds.Min.X)
              (reflectIndex (y - anchor.Y) img.Bounds.Size.Y + img.Bounds.Min.Y) := by
  have hp := calculatePaddings_ok kernelSize anchor h
  simp only [Gray.Bounds] at hx hy ⊢
  obtain ⟨hrect, hval⟩ := reflectPasses_values img
    ⟨anchor.X, kernelSize.X - anchor.X - 1, anchor.Y, kernelSize.Y - anchor.Y - 1⟩
    ⟨h.1, by simp only; omega, h.2.2.1, by simp only; omega⟩ hx hy
  simp only at hrect hval
  refine ⟨_, PaddingGray_reflect img kernelSize anchor _ hp, hrect, ?_⟩
  intro x y h1 h2 h3 h4
  unfold Gray.GrayAt
  rw [if_pos (by
    rw [hrect]
    unfold Rectangle.Contains
    simp only
    omega)]
  exact hval x y ⟨h1, h2, h3, h4⟩

/-- Witness of C21: the 3x3 image with rows [1,2,3], [4,5,6], [7,8,9], kernel size (4,4)
and anchor (1,2), i.e. paddings left = 1, right = 2, top = 2, bottom = 1. -/
theorem C21_reflect_values_witness :
    ((0 : Int) ≤ (⟨1, 2⟩ : Point).X ∧ (⟨1, 2⟩ : Point).X < (⟨4, 4⟩ : Point).X ∧
      (0 : Int) ≤ (⟨1, 2⟩ : Point).Y ∧ (⟨1, 2⟩ : Point).Y < (⟨4, 4⟩ : Point).Y) ∧
    ∃ res, PaddingGray (Gray.ofRows 3 [[1, 2, 3], [4, 5, 6], [7, 8, 9]]) ⟨4, 4⟩ ⟨1, 2⟩
        BorderReflect = .ok res ∧
      res.Bounds = ⟨⟨0, 0⟩,
        ⟨(Gray.ofRows 3 [[1, 2, 3], [4, 5, 6], [7, 8, 9]]).Bounds.Size.X + (⟨1, 2⟩ : Point).X
            + ((⟨4, 4⟩ : Point).X - (⟨1, 2⟩ : Point).X - 1),
          (Gray.ofRows 3 [[1, 2, 3], [4, 5, 6], [7, 8, 9]]).Bounds.Size.Y + (⟨1, 2⟩ : Point).Y
            + ((⟨4, 4⟩ : Point).Y - (⟨1, 2⟩ : Point).Y - 1)⟩⟩ ∧
      ∀ x y, 0 ≤ x →
        x < (Gray.ofRows 3 [[1, 2, 3], [4, 5, 6], [7, 8, 9]]).Bounds.Size.X
            + (⟨1, 2⟩ : Point).X + ((⟨4, 4⟩ : Point).X - (⟨1, 2⟩ : Point).X - 1) →
        0 ≤ y →
        y < (Gray.ofRows 3 [[1, 2, 3], [4, 5, 6], [7, 8, 9]]).Bounds.Size.Y
            + (⟨1, 2⟩ : Point).Y + ((⟨4, 4⟩ : Point).Y - (⟨1, 2⟩ : Point).Y - 1) →
        res.GrayAt x y
          = (Gray.ofRows 3 [[1, 2, 3], [4, 5, 6], [7, 8, 9]]).GrayAt
              (reflectIndex (x - (⟨1, 2⟩ : Point).X)
                  (Gray.ofRows 3 [[1, 2, 3], [4, 5, 6], [7, 8, 9]]).Bounds.Size.X
                + (Gray.ofRows 3 [[1, 2, 3], [4, 5, 6], [7, 8, 9]]).Bounds.Min.X)
              (reflectIndex (y - (⟨1, 2⟩ : Point).Y)
                  (Gray.ofRows 3 [[1, 2, 3], [4, 5, 6], [7, 8, 9]]).Bounds.Size.Y
                + (Gray.ofRows 3 [[1, 2, 3], [4, 5, 6], [7, 8, 9]]).Bounds.Min.Y) :=
  ⟨by decide, C21_reflect_values (Gray.ofRows 3 [[1, 2, 3], [4, 5, 6], [7, 8, 9]])
    ⟨4, 4⟩ ⟨1, 2⟩ (by decide) (by decide) (by decide)⟩

/-! ## Claims C31 and C32: counting neighbours -/

/-- The loop of `countNeighbors` over results `g` of `neighbor` counts the Black colours
and the existence flags. -/
theorem countNeighbors_fold (f : Int → Option (Nat × Bool)) (g : Int → Nat × Bool)
    (L : List Nat) (a : Int) (h : ∀ k ∈ L, f (a + (k : Int)) = some (g (a + (k : Int))))
    (s : Int × Int) :
    L.foldl (fun st (k : Nat) =>
        st.bind fun counts =>
          (f (a + (k : Int))).map fun r =>
            (if r.1 = Black then counts.1 + 1 else counts.1,
              if r.2 = true then counts.2 + 1 else counts.2)) (some s)
      = some (s.1 + ((L.countP fun (k : Nat) => (g (a + (k : Int))).1 = Black : Nat) : Int),
          s.2 + ((L.countP fun (k : Nat) => (g (a + (k : Int))).2 : Nat) : Int)) := by
  induction L generalizing s with
  | nil => simp
  | cons k L ih =>
    simp only [List.foldl_cons, Option.some_bind, h k (List.mem_cons_self _ _),
      Option.map_some']
    rw [ih (fun j hj => h j (List.mem_cons_of_mem _ hj))]
    simp only [List.countP_cons]
    by_cases h1 : (g (a + (k : Int))).1 = Black <;>
      by_cases h2 : (g (a + (k : Int))).2 = true <;>
      simp [h1, h2] <;> omega

/-- In an image at origin (0,0), `neighbor` returns the spec colour of the neighbour and
whether its position is inside the image. -/
theorem neighbor_origin_some (img : Gray) (x y p : Int) (hmin : img.Rect.Min = ⟨0, 0⟩)
    (hin : img.Rect.Contains x y) (hp : 2 ≤ p ∧ p ≤ 9) :
    neighbor img x y p
      = some (neighborColor img x y p,
          decide (img.Rect.Contains (neighborPos x y p).1 (neighborPos x y p).2)) := by
  rw [neighbor_origin img x y p hmin hin hp]
  unfold neighborColor
  simp only [Gray.Bounds]
  split_ifs with h
  · simp only [h, decide_True]
  · simp only [h, decide_False]

theorem adjacentPositions_eq (x y : Int) :
    adjacentPositions x y
      = (List.range 8).map fun (k : Nat) => neighborPos x y (2 + (k : Int)) := by
  rfl

theorem neighborColor_black (img : Gray) (x y p : Int) :
    neighborColor img x y p = Black ↔
      img.Rect.Contains (neighborPos x y p).1 (neighborPos x y p).2 ∧
        img.GrayAt (neighborPos x y p).1 (neighborPos x y p).2 = Black := by
  unfold neighborColor
  simp only [Gray.Bounds]
  split_ifs with h
  · simp only [h, true_and]
  · simp only [h, false_and, iff_false]
    decide

/-- The result of `countNeighbors` in an image at origin (0,0). -/
theorem countNeighbors_eq (img : Gray) (x y : Int) (hmin : img.Rect.Min = ⟨0, 0⟩)
    (hin : img.Rect.Contains x y) :
    countNeighbors img x y
      = some
        ((((adjacentPositions x y).countP fun q =>
            img.Rect.Contains q.1 q.2 ∧ img.GrayAt q.1 q.2 = Black : Nat) : Int),
          (((adjacentPositions x y).countP fun q => img.Rect.Contains q.1 q.2 : Nat) : Int)) := by
  unfold countNeighbors forFromTo
  have h8 : ((10 : Int) - 2).toNat = 8 := by decide
  rw [h8, countNeighbors_fold (neighbor img x y)
    (fun p => (neighborColor img x y p,
      decide (img.Rect.Contains (neighborPos x y p).1 (neighborPos x y p).2)))
    (List.range 8) 2 (fun k hk => neighbor_origin_some img x y _ hmin hin (by
      rw [List.mem_range] at hk
      omega)) (0, 0)]
  rw [adjacentPositions_eq, List.countP_map, List.countP_map]
  simp only [zero_add, Option.some.injEq, Prod.mk.injEq, Nat.cast_inj]
  constructor
  · apply List.countP_congr
    intro k _
    simp only [Function.comp, decide_eq_true_eq]
    exact neighborColor_black img x y _
  · apply List.countP_congr
    intro k _
    simp only [Function.comp, decide_eq_true_eq]

/-- C31: for every Gray image with origin (0,0) (binary or not) and every point (x, y)
inside it, countNeighbors returns (numFilled, numOverall) where numOverall is the number of
the 8 adjacent positions that are inside the image and numFilled the number of those whose
pixel is Black; numFilled <= numOverall <= 8, and numOverall = 8 exactly when (x, y) is not
on the image border. -/
theorem C31_count_neighbors (img : Gray) (x y : Int) (hmin : img.Bounds.Min = ⟨0, 0⟩)
    (hin : img.Bounds.Contains x y) :
    ∃ numFilled numOverall : Int, countNeighbors img x y = some (numFilled, numOverall) ∧
      numOverall
        = (((adjacentPositions x y).countP fun q => img.Bounds.Contains q.1 q.2 : Nat) : Int) ∧
      numFilled
        = (((adjacentPositions x y).countP fun q =>
            img.Bounds.Contains q.1 q.2 ∧ img.GrayAt q.1 q.2 = Black : Nat) : Int) ∧
      numFilled ≤ numOverall ∧ numOverall ≤ 8 ∧
      (numOverall = 8 ↔ ¬ img.Bounds.OnBorder x y) := by
  simp only [Gray.Bounds] at hmin hin ⊢
  refine ⟨_, _, countNeighbors_eq img x y hmin hin, rfl, rfl, ?_, ?_, ?_⟩
  · apply Nat.cast_le.mpr
    apply List.countP_mono_left
    intro q _ hq
    simp only [decide_eq_true_eq] at hq ⊢
    exact hq.1
  · have h := List.countP_le_length (fun q : Int × Int => decide (img.Rect.Contains q.1 q.2))
      (l := adjacentPositions x y)
    have hl : (adjacentPositions x y).length = 8 := rfl
    omega
  · have hl : (adjacentPositions x y).length = 8 := rfl
    have hx : img.Rect.Min.X = 0 := by rw [hmin]
    have hy : img.Rect.Min.Y = 0 := by rw [hmin]
    obtain ⟨h1, h2, h3, h4⟩ := hin
    rw [show ((8 : Int) = ((adjacentPositions x y).length : Nat)) by rw [hl]; rfl,
      Nat.cast_inj, List.countP_eq_length]
    simp only [adjacentPositions, neighborPos, Rectangle.Contains, Rectangle.OnBorder,
      decide_eq_true_eq, List.map_cons, List.map_nil, List.mem_cons, List.mem_singleton,
      List.not_mem_nil, or_false, forall_eq_or_imp, forall_eq, hx, hy]
    norm_num
    omega

/-- Witness of C31: the point (1,2) of the 3x3 image with rows @-@, @--, --- of the tests
(0 is Black, 255 is White), where countNeighbors returns (1, 5). -/
theorem C31_count_neighbors_witness :
    (Gray.ofRows 3 [[0, 255, 0], [0, 255, 255], [255, 255, 255]]).Bounds.Min = ⟨0, 0⟩ ∧
    (Gray.ofRows 3 [[0, 255, 0], [0, 255, 255], [255, 255, 255]]).Bounds.Contains 1 2 ∧
    countNeighbors (Gray.ofRows 3 [[0, 255, 0], [0, 255, 255], [255, 255, 255]]) 1 2
      = some (1, 5) ∧
    ∃ numFilled numOverall : Int,
      countNeighbors (Gray.ofRows 3 [[0, 255, 0], [0, 255, 255], [255, 255, 255]]) 1 2
        = some (numFilled, numOverall) ∧
      numOverall
        = (((adjacentPositions 1 2).countP fun q =>
            (Gray.ofRows 3 [[0, 255, 0], [0, 255, 255], [255, 255, 255]]).Bounds.Contains
              q.1 q.2 : Nat) : Int) ∧
      numFilled
        = (((adjacentPositions 1 2).countP fun q =>
            (Gray.ofRows 3 [[0, 255, 0], [0, 255, 255], [255, 255, 255]]).Bounds.Contains
              q.1 q.2 ∧
            (Gray.ofRows 3 [[0, 255, 0], [0, 255, 255], [255, 255, 255]]).GrayAt q.1 q.2
              = Black : Nat) : Int) ∧
      numFilled ≤ numOverall ∧ numOverall ≤ 8 ∧
      (numOverall = 8 ↔
        ¬ (Gray.ofRows 3 [[0, 255, 0], [0, 255, 255], [255, 255, 255]]).Bounds.OnBorder 1 2) :=
  ⟨by decide, by decide, by decide,
    C31_count_neighbors (Gray.ofRows 3 [[0, 255, 0], [0, 255, 255], [255, 255, 255]]) 1 2
      (by decide) (by decide)⟩

/-- The first loop of `countZeroOnePatterns` stores the colours of the neighbours. -/
theorem fillSet_fold (f : Int → Option (Nat × Bool)) (g : Int → Nat × Bool) (L : List Nat)
    (h : ∀ k ∈ L, f (2 + (k : Int)) = some (g (2 + (k : Int)))) (set0 : List (Option Nat)) :
    L.foldl (fun st (k : Nat) =>
        st.bind fun set =>
          (f (2 + (k : Int))).map fun r => set.set (2 + (k : Int) - 2).toNat (some r.1))
        (some set0)
      = some (L.foldl (fun set (k : Nat) => set.set k (some (g (2 + (k : Int))).1)) set0) := by
  induction L generalizing set0 with
  | nil => rfl
  | cons k L ih =>
    have e : (2 + (k : Int) - 2).toNat = k := by omega
    simp only [List.foldl_cons, Option.some_bind, h k (List.mem_cons_self _ _),
      Option.map_some', e]
    exact ih (fun j hj => h j (List.mem_cons_of_mem _ hj)) _

/-- The second loop of `countZeroOnePatterns` counts the indices that satisfy its test. -/
theorem countPatterns_fold (n : Nat) (A B : Nat → Prop) [DecidablePred A] [DecidablePred B]
    (L : List Nat) (r : Int) :
    L.foldl (fun (res : Int) (i : Nat) =>
        if i + 1 < n then (if A i then res + 1 else res)
        else (if B i then res + 1 else res)) r
      = r + ((L.countP fun (i : Nat) => (i + 1 < n ∧ A i) ∨ (¬ i + 1 < n ∧ B i) : Nat) : Int) := by
  induction L generalizing r with
  | nil => simp
  | cons i L ih =>
    simp only [List.foldl_cons, List.countP_cons]
    rw [ih]
    by_cases h : i + 1 < n <;> by_cases ha : A i <;> by_cases hb : B i <;>
      simp [h, ha, hb] <;> omega

theorem zeroOne_pair_le (a b c : Nat) :
    (if a = White ∧ b = Black then 1 else 0) + (if b = White ∧ c = Black then 1 else 0)
      ≤ 1 := by
  unfold White Black
  split_ifs <;> omega

/-- A cyclic sequence of 8 colours has at most 4 White-to-Black transitions. -/
theorem cyclicZeroOne_le (a b c d e f g h : Nat) :
    cyclicZeroOne [a, b, c, d, e, f, g, h] ≤ 4 := by
  have h1 := zeroOne_pair_le a b c
  have h2 := zeroOne_pair_le c d e
  have h3 := zeroOne_pair_le e f g
  have h4 := zeroOne_pair_le g h a
  unfold cyclicZeroOne
  have hr : List.range [a, b, c, d, e, f, g, h].length = [0, 1, 2, 3, 4, 5, 6, 7] := rfl
  rw [hr]
  simp only [List.countP_cons, List.countP_nil, List.length_cons, List.length_nil,
    decide_eq_true_eq]
  norm_num
  omega

/-- The result of `countZeroOnePatterns` in an image at origin (0,0). -/
theorem countZeroOnePatterns_eq (img : Gray) (x y : Int) (hmin : img.Rect.Min = ⟨0, 0⟩)
    (hin : img.Rect.Contains x y) :
    countZeroOnePatterns img x y
      = some ((cyclicZeroOne ([2, 3, 4, 5, 6, 7, 8, 9].map (neighborColor img x y)) : Nat) :
          Int) := by
  unfold countZeroOnePatterns forFromTo
  have h8 : ((10 : Int) - 2).toNat = 8 := by decide
  simp only []
  rw [h8, fillSet_fold (neighbor img x y)
    (fun p => (neighborColor img x y p,
      decide (img.Rect.Contains (neighborPos x y p).1 (neighborPos x y p).2)))
    (List.range 8) (fun k hk => neighbor_origin_some img x y _ hmin hin (by
      rw [List.mem_range] at hk
      omega))]
  have hset : (List.range 8).foldl (fun (set : List (Option Nat)) (k : Nat) =>
      set.set k (some (neighborColor img x y (2 + (k : Int))))) (List.replicate 8 none)
      = ([2, 3, 4, 5, 6, 7, 8, 9].map (neighborColor img x y)).map some := rfl
  simp only [hset, Option.map_some', Option.some.injEq]
  rw [countPatterns_fold]
  unfold cyclicZeroOne
  simp only [zero_add, Nat.cast_inj, List.length_map, List.length_cons, List.length_nil]
  apply List.countP_congr
  intro i hi
  rw [List.mem_range] at hi
  simp only [decide_eq_true_eq]
  interval_cases i <;> simp

/-- C32: for every Gray image with origin (0,0) (binary or not) and every point (x, y)
inside it, countZeroOnePatterns returns the number of positions k of the cyclic sequence
P2, P3, ..., P9 (back to P2) at which P_k is White and its successor is Black, off-image
neighbours counting as White; the result is between 0 and 4. -/
theorem C32_zero_one_patterns (img : Gray) (x y : Int) (hmin : img.Bounds.Min = ⟨0, 0⟩)
    (hin : img.Bounds.Contains x y) :
    ∃ n : Int, countZeroOnePatterns img x y = some n ∧
      n = ((cyclicZeroOne ([2, 3, 4, 5, 6, 7, 8, 9].map (neighborColor img x y)) : Nat) : Int) ∧
      0 ≤ n ∧ n ≤ 4 := by
  simp only [Gray.Bounds] at hmin hin
  refine ⟨_, countZeroOnePatterns_eq img x y hmin hin, rfl, Int.natCast_nonneg _, ?_⟩
  have h := cyclicZeroOne_le (neighborColor img x y 2) (neighborColor img x y 3)
    (neighborColor img x y 4) (neighborColor img x y 5) (neighborColor img x y 6)
    (neighborColor img x y 7) (neighborColor img x y 8) (neighborColor img x y 9)
  simp only [List.map_cons, List.map_nil]
  omega

/-- Witness of C32: the centre of the 3x3 image with rows -@-, @-@, -@- of the tests
(0 is Black, 255 is White), where countZeroOnePatterns returns 4. -/
theorem C32_zero_one_patterns_witness :
    (Gray.ofRows 3 [[255, 0, 255], [0, 255, 0], [255, 0, 255]]).Bounds.Min = ⟨0, 0⟩ ∧
    (Gray.ofRows 3 [[255, 0, 255], [0, 255, 0], [255, 0, 255]]).Bounds.Contains 1 1 ∧
    countZeroOnePatterns (Gray.ofRows 3 [[255, 0, 255], [0, 255, 0], [255, 0, 255]]) 1 1
      = some 4 ∧
    ∃ n : Int,
      countZeroOnePatterns (Gray.ofRows 3 [[255, 0, 255], [0, 255, 0], [255, 0, 255]]) 1 1
        = some n ∧
      n = ((cyclicZeroOne ([2, 3, 4, 5, 6, 7, 8, 9].map
          (neighborColor (Gray.ofRows 3 [[255, 0, 255], [0, 255, 0], [255, 0, 255]]) 1 1)) :
            Nat) : Int) ∧
      0 ≤ n ∧ n ≤ 4 :=
  ⟨by decide, by decide, by decide,
    C32_zero_one_patterns (Gray.ofRows 3 [[255, 0, 255], [0, 255, 0], [255, 0, 255]]) 1 1
      (by decide) (by decide)⟩

/-! ## The passes with rounded arithmetic, sample by sample -/

theorem Machine_resizeNearestGray_eq (img : Gray) (fx fy : F64) :
    Machine.resizeNearestGray img fx fy
      = (Machine.NewGray (Rect 0 0 (Machine.newLength img.Rect.Size.X fx)
          (Machine.newLength img.Rect.Size.Y fy))).map
        (fun _ => Except.ok (Machine.nearestGray img fx fy)) := by
  unfold Machine.resizeNearestGray Machine.NewGray Machine.nearestGray IteratePixels
  simp only [Gray.Bounds, Machine.newLength]
  cases pixelBufferLength 1 (Rect 0 0 (F64.toInt (F64.fmul (F64.ofInt img.Rect.Size.X) fx))
      (F64.toInt (F64.fmul (F64.ofInt img.Rect.Size.Y) fy))) with
  | none => rfl
  | some n =>
    simp only [Option.map_some']
    rw [forRange_rows_setGray]
    rfl

theorem Machine_resizeHorizontalGray_eq (img : Gray) (fx : F64) (filter : Machine.Filter) :
    Machine.resizeHorizontalGray img fx filter
      = (Machine.NewGray (Rect 0 0 (Machine.newLength img.Rect.Size.X fx)
          img.Rect.Size.Y)).map
        (fun _ => Except.ok (Machine.horizontalGray img fx filter)) := by
  unfold Machine.resizeHorizontalGray Machine.NewGray Machine.horizontalGray
  simp only [Gray.Bounds, Machine.newLength]
  cases pixelBufferLength 1 (Rect 0 0 (F64.toInt (F64.fmul (F64.ofInt img.Rect.Size.X) fx))
      img.Rect.Size.Y) with
  | none => rfl
  | some n =>
    simp only [Option.map_some']
    rw [forRange_rows_setGray]
    rfl

theorem Machine_resizeVerticalGray_eq (img : Gray) (fy : F64) (filter : Machine.Filter) :
    Machine.resizeVerticalGray img fy filter
      = (Machine.NewGray (Rect 0 0 img.Rect.Size.X
          (Machine.newLength img.Rect.Size.Y fy))).map
        (fun _ => Except.ok (Machine.verticalGray img fy filter)) := by
  unfold Machine.resizeVerticalGray Machine.NewGray Machine.verticalGray
  simp only [Gray.Bounds, Machine.newLength]
  cases pixelBufferLength 1 (Rect 0 0 img.Rect.Size.X
      (F64.toInt (F64.fmul (F64.ofInt img.Rect.Size.Y) fy))) with
  | none => rfl
  | some n =>
    simp only [Option.map_some']
    rw [forRange_rows_setGray]
    rfl

theorem Machine_resizeNearestRGBA_eq (img : RGBA) (fx fy : F64) :
    Machine.resizeNearestRGBA img fx fy
      = (Machine.NewRGBA (Rect 0 0 (Machine.newLength img.Rect.Size.X fx)
          (Machine.newLength img.Rect.Size.Y fy))).map
        (fun _ => Except.ok (Machine.nearestRGBA img fx fy)) := by
  unfold Machine.resizeNearestRGBA Machine.NewRGBA Machine.nearestRGBA IteratePixels
  simp only [RGBA.Bounds, Machine.newLength]
  cases pixelBufferLength 4 (Rect 0 0 (F64.toInt (F64.fmul (F64.ofInt img.Rect.Size.X) fx))
      (F64.toInt (F64.fmul (F64.ofInt img.Rect.Size.Y) fy))) with
  | none => rfl
  | some n =>
    simp only [Option.map_some']
    rw [forRange_rows_setRGBA]
    rfl

theorem Machine_resizeHorizontalRGBA_eq (img : RGBA) (fx : F64) (filter : Machine.Filter) :
    Machine.resizeHorizontalRGBA img fx filter
      = (Machine.NewRGBA (Rect 0 0 (Machine.newLength img.Rect.Size.X fx)
          img.Rect.Size.Y)).map
        (fun _ => Except.ok (Machine.horizontalRGBA img fx filter)) := by
  unfold Machine.resizeHorizontalRGBA Machine.NewRGBA Machine.horizontalRGBA
  simp only [RGBA.Bounds, Machine.newLength]
  cases pixelBufferLength 4 (Rect 0 0 (F64.toInt (F64.fmul (F64.ofInt img.Rect.Size.X) fx))
      img.Rect.Size.Y) with
  | none => rfl
  | some n =>
    simp only [Option.map_some']
    rw [forRange_rows_setRGBA]
    rfl

theorem Machine_resizeVerticalRGBA_eq (img : RGBA) (fy : F64) (filter : Machine.Filter) :
    Machine.resizeVerticalRGBA img fy filter
      = (Machine.NewRGBA (Rect 0 0 img.Rect.Size.X
          (Machine.newLength img.Rect.Size.Y fy))).map
        (fun _ => Except.ok (Machine.verticalRGBA img fy filter)) := by
  unfold Machine.resizeVerticalRGBA Machine.NewRGBA Machine.verticalRGBA
  simp only [RGBA.Bounds, Machine.newLength]
  cases pixelBufferLength 4 (Rect 0 0 img.Rect.Size.X
      (F64.toInt (F64.fmul (F64.ofInt img.Rect.Size.Y) fy))) with
  | none => rfl
  | some n =>
    simp only [Option.map_some']
    rw [forRange_rows_setRGBA]
    rfl

/-! ## Allocation and output sizes with rounded arithmetic -/

theorem pow2_pos (e : Int) : 0 < pow2 e := by
  unfold pow2
  split_ifs
  · positivity
  · positivity

theorem roundHalfEven_nonneg (m : ℚ) (h : 0 ≤ m) : 0 ≤ roundHalfEven m := by
  have hf : 0 ≤ ⌊m⌋ := Int.floor_nonneg.mpr h
  unfold roundHalfEven
  simp only
  split_ifs <;> omega

theorem ulp_pos (q : ℚ) : 0 < ulp q := pow2_pos _

theorem F64_round_nonneg (q : ℚ) (h : 0 ≤ q) :
    (∃ r, 0 ≤ r ∧ F64.round q = .fin r) ∨ F64.round q = .posInf := by
  unfold F64.round
  by_cases h0 : q = 0
  · left
    exact ⟨0, le_rfl, by rw [if_pos h0]⟩
  · rw [if_neg h0]
    simp only
    have hr : (0 : ℚ) ≤ (roundHalfEven (q / ulp q) : ℚ) * ulp q := by
      have h1 : 0 ≤ roundHalfEven (q / ulp q) :=
        roundHalfEven_nonneg _ (div_nonneg h (ulp_pos q).le)
      have h2 : (0 : ℚ) ≤ (roundHalfEven (q / ulp q) : ℚ) := by exact_mod_cast h1
      exact mul_nonneg h2 (ulp_pos q).le
    by_cases hbig : pow2 1024 ≤ (roundHalfEven (q / ulp q) : ℚ) * ulp q
    · right
      rw [if_pos hbig]
    · left
      refine ⟨_, hr, ?_⟩
      rw [if_neg hbig, if_neg]
      have := pow2_pos 1024
      linarith

theorem F64_fmul_ofInt_nonneg (n : Int) (f : ℚ) (hn : 0 ≤ n) (hf : 0 < f) :
    (∃ a, 0 ≤ a ∧ F64.fmul (F64.ofInt n) (.fin f) = .fin a) ∨
      F64.fmul (F64.ofInt n) (.fin f) = .posInf := by
  have hq : (0 : ℚ) ≤ (n : ℚ) := by exact_mod_cast hn
  unfold F64.ofInt
  rcases F64_round_nonneg (n : ℚ) hq with ⟨w, hw0, hw⟩ | hw
  · rw [hw]
    show (∃ a, 0 ≤ a ∧ F64.round (w * f) = .fin a) ∨ F64.round (w * f) = .posInf
    exact F64_round_nonneg _ (mul_nonneg hw0 hf.le)
  · right
    rw [hw]
    show F64.signedInf f true = .posInf
    unfold F64.signedInf
    rw [if_neg hf.ne']
    simp [hf]

/-- The computed length of an axis is the floor of the rounded product, or the value
`-2^63` that the conversion gives for a product outside the range of `int`. -/
theorem Machine_newLength_cases (n : Int) (f : ℚ) (hn : 0 ≤ n) (hf : 0 < f) :
    (∃ a, 0 ≤ a ∧ F64.fmul (F64.ofInt n) (.fin f) = .fin a ∧
        Machine.newLength n (.fin f) = ⌊a⌋ ∧ 0 ≤ Machine.newLength n (.fin f)) ∨
      Machine.newLength n (.fin f) = -(2 ^ 63) := by
  unfold Machine.newLength
  rcases F64_fmul_ofInt_nonneg n f hn hf with ⟨a, ha0, ha⟩ | ha
  · rw [ha]
    unfold F64.toInt
    simp only
    by_cases hr : -(2 : ℚ) ^ 63 ≤ a ∧ a < (2 : ℚ) ^ 63
    · left
      refine ⟨a, ha0, rfl, ?_, ?_⟩
      · rw [if_pos hr, toInt_of_nonneg a ha0]
      · rw [if_pos hr]
        exact toInt_nonneg a ha0
    · right
      rw [if_neg hr]
  · right
    rw [ha]
    rfl

theorem pixelBufferLength_min (bytesPerPixel h : Int) :
    pixelBufferLength bytesPerPixel (Rect 0 0 (-(2 ^ 63)) h) = none := by
  unfold pixelBufferLength mul3NonNeg
  have hx : wrapInt (Rect 0 0 (-(2 ^ 63)) h).Dx = -(2 ^ 63) := by
    unfold Rect Rectangle.Dx
    simp only
    have : (0 : Int) > -(2 ^ 63) := by decide
    rw [if_pos this]
    decide
  simp only [hx]
  have h1 : (bytesPerPixel < 0 ∨ -(2 ^ 63 : Int) < 0 ∨ wrapInt (Rect 0 0 (-(2 ^ 63)) h).Dy < 0) :=
    Or.inr (Or.inl (by decide))
  rw [if_pos h1]
  rfl

theorem pixelBufferLength_min_right (bytesPerPixel w : Int) :
    pixelBufferLength bytesPerPixel (Rect 0 0 w (-(2 ^ 63))) = none := by
  unfold pixelBufferLength mul3NonNeg
  have hy : wrapInt (Rect 0 0 w (-(2 ^ 63))).Dy = -(2 ^ 63) := by
    unfold Rect Rectangle.Dy
    simp only
    have : (0 : Int) > -(2 ^ 63) := by decide
    rw [if_pos this]
    decide
  simp only [hy]
  have h1 : (bytesPerPixel < 0 ∨ wrapInt (Rect 0 0 w (-(2 ^ 63))).Dx < 0 ∨ -(2 ^ 63 : Int) < 0) :=
    Or.inr (Or.inr (by decide))
  rw [if_pos h1]
  rfl

theorem Machine_NewGray_some (r : Rectangle) (h : (Machine.NewGray r).isSome = true) :
    Machine.NewGray r = some (NewGray r) := by
  unfold Machine.NewGray at h ⊢
  cases hp : pixelBufferLength 1 r with
  | none => rw [hp] at h; exact absurd h (by simp)
  | some n => rfl

theorem Machine_NewRGBA_some (r : Rectangle) (h : (Machine.NewRGBA r).isSome = true) :
    Machine.NewRGBA r = some (NewRGBA r) := by
  unfold Machine.NewRGBA at h ⊢
  cases hp : pixelBufferLength 4 r with
  | none => rw [hp] at h; exact absurd h (by simp)
  | some n => rfl

theorem Machine_NewGray_width (w h : Int) (hs : (Machine.NewGray (Rect 0 0 w h)).isSome = true) :
    w ≠ -(2 ^ 63) ∧ h ≠ -(2 ^ 63) := by
  constructor
  · rintro rfl
    unfold Machine.NewGray at hs
    rw [pixelBufferLength_min] at hs
    exact absurd hs (by simp)
  · rintro rfl
    unfold Machine.NewGray at hs
    rw [pixelBufferLength_min_right] at hs
    exact absurd hs (by simp)

theorem Machine_NewRGBA_width (w h : Int) (hs : (Machine.NewRGBA (Rect 0 0 w h)).isSome = true) :
    w ≠ -(2 ^ 63) ∧ h ≠ -(2 ^ 63) := by
  constructor
  · rintro rfl
    unfold Machine.NewRGBA at hs
    rw [pixelBufferLength_min] at hs
    exact absurd hs (by simp)
  · rintro rfl
    unfold Machine.NewRGBA at hs
    rw [pixelBufferLength_min_right] at hs
    exact absurd hs (by simp)

theorem Machine_guard (fx fy : ℚ) (hx : 0 ≤ fx) (hy : 0 ≤ fy) :
    ¬ (F64.lt (.fin fx) (.fin 0) = true ∨ F64.lt (.fin fy) (.fin 0) = true) := by
  unfold F64.lt
  simp only [decide_eq_true_eq]
  rintro (h | h)
  · exact absurd h (not_lt.mpr hx)
  · exact absurd h (not_lt.mpr hy)

theorem Machine_horizontalGray_Rect (img : Gray) (fx : F64) (filter : Machine.Filter)
    (hw : img.Rect.WellFormed) (hW : 0 ≤ Machine.newLength img.Rect.Size.X fx) :
    (Machine.horizontalGray img fx filter).Rect
      = ⟨⟨0, 0⟩, ⟨Machine.newLength img.Rect.Size.X fx, img.Rect.Size.Y⟩⟩ :=
  Rect_origin _ _ hW (Size_nonneg img.Rect hw).2

theorem Machine_horizontalRGBA_Rect (img : RGBA) (fx : F64) (filter : Machine.Filter)
    (hw : img.Rect.WellFormed) (hW : 0 ≤ Machine.newLength img.Rect.Size.X fx) :
    (Machine.horizontalRGBA img fx filter).Rect
      = ⟨⟨0, 0⟩, ⟨Machine.newLength img.Rect.Size.X fx, img.Rect.Size.Y⟩⟩ :=
  Rect_origin _ _ hW (Size_nonneg img.Rect hw).2

/-- The two passes of a separable kernel succeed when both buffers are allocated. -/
theorem Machine_twoPassGray (img : Gray) (fx fy : F64) (f : Machine.Filter)
    (hw : img.Rect.WellFormed) (hW : 0 ≤ Machine.newLength img.Rect.Size.X fx)
    (hmid : (Machine.NewGray (Rect 0 0 (Machine.newLength img.Rect.Size.X fx)
      img.Rect.Size.Y)).isSome = true)
    (hres : (Machine.NewGray (Rect 0 0 (Machine.newLength img.Rect.Size.X fx)
      (Machine.newLength img.Rect.Size.Y fy))).isSome = true) :
    (match Machine.resizeHorizontalGray img fx f with
      | none => none
      | some (Except.error err) => some (Except.error err)
      | some (Except.ok res) =>
        match Machine.resizeVerticalGray res fy f with
        | none => none
        | some (Except.error err) => some (Except.error err)
        | some (Except.ok res) => some (Except.ok res) : Option (Except String Gray))
      = some (Except.ok (Machine.verticalGray (Machine.horizontalGray img fx f) fy f)) := by
  rw [Machine_resizeHorizontalGray_eq, Machine_NewGray_some _ hmid]
  simp only [Option.map_some']
  rw [Machine_resizeVerticalGray_eq, Machine_horizontalGray_Rect img fx f hw hW]
  have e : (⟨⟨0, 0⟩, ⟨Machine.newLength img.Rect.Size.X fx, img.Rect.Size.Y⟩⟩ : Rectangle).Size
      = ⟨Machine.newLength img.Rect.Size.X fx, img.Rect.Size.Y⟩ := by
    simp [Rectangle.Size]
  rw [e]
  simp only []
  rw [Machine_NewGray_some _ hres]
  rfl

/-- The two passes of a separable kernel succeed when both buffers are allocated. -/
theorem Machine_twoPassRGBA (img : RGBA) (fx fy : F64) (f : Machine.Filter)
    (hw : img.Rect.WellFormed) (hW : 0 ≤ Machine.newLength img.Rect.Size.X fx)
    (hmid : (Machine.NewRGBA (Rect 0 0 (Machine.newLength img.Rect.Size.X fx)
      img.Rect.Size.Y)).isSome = true)
    (hres : (Machine.NewRGBA (Rect 0 0 (Machine.newLength img.Rect.Size.X fx)
      (Machine.newLength img.Rect.Size.Y fy))).isSome = true) :
    (match Machine.resizeHorizontalRGBA img fx f with
      | none => none
      | some (Except.error err) => some (Except.error err)
      | some (Except.ok res) =>
        match Machine.resizeVerticalRGBA res fy f with
        | none => none
        | some (Except.error err) => some (Except.error err)
        | some (Except.ok res) => some (Except.ok res) : Option (Except String RGBA))
      = some (Except.ok (Machine.verticalRGBA (Machine.horizontalRGBA img fx f) fy f)) := by
  rw [Machine_resizeHorizontalRGBA_eq, Machine_NewRGBA_some _ hmid]
  simp only [Option.map_some']
  rw [Machine_resizeVerticalRGBA_eq, Machine_horizontalRGBA_Rect img fx f hw hW]
  have e : (⟨⟨0, 0⟩, ⟨Machine.newLength img.Rect.Size.X fx, img.Rect.Size.Y⟩⟩ : Rectangle).Size
      = ⟨Machine.newLength img.Rect.Size.X fx, img.Rect.Size.Y⟩ := by
    simp [Rectangle.Size]
  rw [e]
  simp only []
  rw [Machine_NewRGBA_some _ hres]
  rfl

theorem Machine_ResizeGray_nearest (c l : Machine.Filter) (img : Gray) (fx fy : ℚ)
    (hx : 0 ≤ fx) (hy : 0 ≤ fy)
    (hres : (Machine.NewGray (Rect 0 0 (Machine.newLength img.Rect.Size.X (.fin fx))
      (Machine.newLength img.Rect.Size.Y (.fin fy)))).isSome = true) :
    Machine.ResizeGray c l img (.fin fx) (.fin fy) InterNearest
      = some (.ok (Machine.nearestGray img (.fin fx) (.fin fy))) := by
  unfold Machine.ResizeGray
  rw [if_neg (Machine_guard fx fy hx hy), if_pos rfl, Machine_resizeNearestGray_eq,
    Machine_NewGray_some _ hres]
  rfl

theorem Machine_ResizeGray_separable (c l : Machine.Filter) (img : Gray) (fx fy : ℚ)
    (k : Interpolation) (hx : 0 ≤ fx) (hy : 0 ≤ fy) (hk : SeparableKernel k)
    (hw : img.Rect.WellFormed) (hW : 0 ≤ Machine.newLength img.Rect.Size.X (.fin fx))
    (hmid : (Machine.NewGray (Rect 0 0 (Machine.newLength img.Rect.Size.X (.fin fx))
      img.Rect.Size.Y)).isSome = true)
    (hres : (Machine.NewGray (Rect 0 0 (Machine.newLength img.Rect.Size.X (.fin fx))
      (Machine.newLength img.Rect.Size.Y (.fin fy)))).isSome = true) :
    Machine.ResizeGray c l img (.fin fx) (.fin fy) k
      = some (.ok (Machine.verticalGray
          (Machine.horizontalGray img (.fin fx) (Machine.kernelFilter c l k)) (.fin fy)
          (Machine.kernelFilter c l k))) := by
  unfold Machine.ResizeGray
  rw [if_neg (Machine_guard fx fy hx hy)]
  rcases hk with rfl | rfl | rfl
  · rw [if_neg (by decide), if_pos rfl]
    unfold Machine.resizeLinearGray
    exact Machine_twoPassGray img _ _ _ hw hW hmid hres
  · rw [if_neg (by decide), if_neg (by decide), if_pos rfl]
    unfold Machine.resizeCatmullRomGray
    exact Machine_twoPassGray img _ _ _ hw hW hmid hres
  · rw [if_neg (by decide), if_neg (by decide), if_neg (by decide), if_pos rfl]
    unfold Machine.resizeLanczosGray
    exact Machine_twoPassGray img _ _ _ hw hW hmid hres

theorem Machine_ResizeRGBA_nearest (c l : Machine.Filter) (img : RGBA) (fx fy : ℚ)
    (hx : 0 ≤ fx) (hy : 0 ≤ fy)
    (hres : (Machine.NewRGBA (Rect 0 0 (Machine.newLength img.Rect.Size.X (.fin fx))
      (Machine.newLength img.Rect.Size.Y (.fin fy)))).isSome = true) :
    Machine.ResizeRGBA c l img (.fin fx) (.fin fy) InterNearest
      = some (.ok (Machine.nearestRGBA img (.fin fx) (.fin fy))) := by
  unfold Machine.ResizeRGBA
  rw [if_neg (Machine_guard fx fy hx hy), if_pos rfl, Machine_resizeNearestRGBA_eq,
    Machine_NewRGBA_some _ hres]
  rfl

theorem Machine_ResizeRGBA_separable (c l : Machine.Filter) (img : RGBA) (fx fy : ℚ)
    (k : Interpolation) (hx : 0 ≤ fx) (hy : 0 ≤ fy) (hk : SeparableKernel k)
    (hw : img.Rect.WellFormed) (hW : 0 ≤ Machine.newLength img.Rect.Size.X (.fin fx))
    (hmid : (Machine.NewRGBA (Rect 0 0 (Machine.newLength img.Rect.Size.X (.fin fx))
      img.Rect.Size.Y)).isSome = true)
    (hres : (Machine.NewRGBA (Rect 0 0 (Machine.newLength img.Rect.Size.X (.fin fx))
      (Machine.newLength img.Rect.Size.Y (.fin fy)))).isSome = true) :
    Machine.ResizeRGBA c l img (.fin fx) (.fin fy) k
      = some (.ok (Machine.verticalRGBA
          (Machine.horizontalRGBA img (.fin fx) (Machine.kernelFilter c l k)) (.fin fy)
          (Machine.kernelFilter c l k))) := by
  unfold Machine.ResizeRGBA
  rw [if_neg (Machine_guard fx fy hx hy)]
  rcases hk with rfl | rfl | rfl
  · rw [if_neg (by decide), if_pos rfl]
    unfold Machine.resizeLinearRGBA
    exact Machine_twoPassRGBA img _ _ _ hw hW hmid hres
  · rw [if_neg (by decide), if_neg (by decide), if_pos rfl]
    unfold Machine.resizeCatmullRomRGBA
    exact Machine_twoPassRGBA img _ _ _ hw hW hmid hres
  · rw [if_neg (by decide), if_neg (by decide), if_neg (by decide), if_pos rfl]
    unfold Machine.resizeLanczosRGBA
    exact Machine_twoPassRGBA img _ _ _ hw hW hmid hres

theorem Machine_twoPassGray_Rect (img : Gray) (fx fy : F64) (f g : Machine.Filter)
    (hw : img.Rect.WellFormed) (hW : 0 ≤ Machine.newLength img.Rect.Size.X fx)
    (hH : 0 ≤ Machine.newLength img.Rect.Size.Y fy) :
    (Machine.verticalGray (Machine.horizontalGray img fx f) fy g).Rect
      = ⟨⟨0, 0⟩, ⟨Machine.newLength img.Rect.Size.X fx,
          Machine.newLength img.Rect.Size.Y fy⟩⟩ := by
  have hr := Machine_horizontalGray_Rect img fx f hw hW
  show Rect 0 0 (Machine.horizontalGray img fx f).Rect.Size.X
    (Machine.newLength (Machine.horizontalGray img fx f).Rect.Size.Y fy) = _
  rw [hr]
  simp only [Rectangle.Size, sub_zero]
  exact Rect_origin _ _ hW hH

theorem Machine_twoPassRGBA_Rect (img : RGBA) (fx fy : F64) (f g : Machine.Filter)
    (hw : img.Rect.WellFormed) (hW : 0 ≤ Machine.newLength img.Rect.Size.X fx)
    (hH : 0 ≤ Machine.newLength img.Rect.Size.Y fy) :
    (Machine.verticalRGBA (Machine.horizontalRGBA img fx f) fy g).Rect
      = ⟨⟨0, 0⟩, ⟨Machine.newLength img.Rect.Size.X fx,
          Machine.newLength img.Rect.Size.Y fy⟩⟩ := by
  have hr := Machine_horizontalRGBA_Rect img fx f hw hW
  show Rect 0 0 (Machine.horizontalRGBA img fx f).Rect.Size.X
    (Machine.newLength (Machine.horizontalRGBA img fx f).Rect.Size.Y fy) = _
  rw [hr]
  simp only [Rectangle.Size, sub_zero]
  exact Rect_origin _ _ hW hH

theorem separable_ne_nearest (k : Interpolation) (hk : SeparableKernel k) : k ≠ InterNearest := by
  rcases hk with rfl | rfl | rfl <;> decide

/-- With positive scale factors, a known selector and buffers that the standard library
allocates, `ResizeGray` returns an image at origin (0,0) whose sizes are the floors of the
rounded products. -/
theorem Machine_ResizeGray_ok (c l : Machine.Filter) (g : Gray) (fx fy : ℚ)
    (k : Interpolation) (hg : g.Rect.WellFormed) (hfx : 0 < fx) (hfy : 0 < fy)
    (hk : KnownKernel k)
    (hmid : k ≠ InterNearest →
      (Machine.NewGray (Rect 0 0 (Machine.newLength g.Rect.Size.X (.fin fx))
        g.Rect.Size.Y)).isSome = true)
    (hres : (Machine.NewGray (Rect 0 0 (Machine.newLength g.Rect.Size.X (.fin fx))
      (Machine.newLength g.Rect.Size.Y (.fin fy)))).isSome = true) :
    ∃ res a b, Machine.ResizeGray c l g (.fin fx) (.fin fy) k = some (.ok res) ∧
      F64.fmul (F64.ofInt g.Rect.Size.X) (.fin fx) = .fin a ∧
      F64.fmul (F64.ofInt g.Rect.Size.Y) (.fin fy) = .fin b ∧
      Machine.newLength g.Rect.Size.X (.fin fx) = ⌊a⌋ ∧
      Machine.newLength g.Rect.Size.Y (.fin fy) = ⌊b⌋ ∧
      res.Rect = ⟨⟨0, 0⟩, ⟨⌊a⌋, ⌊b⌋⟩⟩ := by
  have sg := Size_nonneg g.Rect hg
  have hne := Machine_NewGray_width _ _ hres
  rcases Machine_newLength_cases g.Rect.Size.X fx sg.1 hfx with ⟨a, _, hae, hWa, hW0⟩ | hbad
  swap
  · exact absurd hbad hne.1
  rcases Machine_newLength_cases g.Rect.Size.Y fy sg.2 hfy with ⟨b, _, hbe, hHb, hH0⟩ | hbad
  swap
  · exact absurd hbad hne.2
  rcases KnownKernel_cases k hk with h | h
  · subst h
    refine ⟨_, a, b, Machine_ResizeGray_nearest c l g fx fy hfx.le hfy.le hres, hae, hbe,
      hWa, hHb, ?_⟩
    rw [← hWa, ← hHb]
    exact Rect_origin _ _ hW0 hH0
  · refine ⟨_, a, b, Machine_ResizeGray_separable c l g fx fy k hfx.le hfy.le h hg hW0
      (hmid (separable_ne_nearest k h)) hres, hae, hbe, hWa, hHb, ?_⟩
    rw [← hWa, ← hHb]
    exact Machine_twoPassGray_Rect g _ _ _ _ hg hW0 hH0

/-- With positive scale factors, a known selector and buffers that the standard library
allocates, `ResizeRGBA` returns an image at origin (0,0) whose sizes are the floors of the
rounded products. -/
theorem Machine_ResizeRGBA_ok (c l : Machine.Filter) (g : RGBA) (fx fy : ℚ)
    (k : Interpolation) (hg : g.Rect.WellFormed) (hfx : 0 < fx) (hfy : 0 < fy)
    (hk : KnownKernel k)
    (hmid : k ≠ InterNearest →
      (Machine.NewRGBA (Rect 0 0 (Machine.newLength g.Rect.Size.X (.fin fx))
        g.Rect.Size.Y)).isSome = true)
    (hres : (Machine.NewRGBA (Rect 0 0 (Machine.newLength g.Rect.Size.X (.fin fx))
      (Machine.newLength g.Rect.Size.Y (.fin fy)))).isSome = true) :
    ∃ res a b, Machine.ResizeRGBA c l g (.fin fx) (.fin fy) k = some (.ok res) ∧
      F64.fmul (F64.ofInt g.Rect.Size.X) (.fin fx) = .fin a ∧
      F64.fmul (F64.ofInt g.Rect.Size.Y) (.fin fy) = .fin b ∧
      Machine.newLength g.Rect.Size.X (.fin fx) = ⌊a⌋ ∧
      Machine.newLength g.Rect.Size.Y (.fin fy) = ⌊b⌋ ∧
      res.Rect = ⟨⟨0, 0⟩, ⟨⌊a⌋, ⌊b⌋⟩⟩ := by
  have sg := Size_nonneg g.Rect hg
  have hne := Machine_NewRGBA_width _ _ hres
  rcases Machine_newLength_cases g.Rect.Size.X fx sg.1 hfx with ⟨a, _, hae, hWa, hW0⟩ | hbad
  swap
  · exact absurd hbad hne.1
  rcases Machine_newLength_cases g.Rect.Size.Y fy sg.2 hfy with ⟨b, _, hbe, hHb, hH0⟩ | hbad
  swap
  · exact absurd hbad hne.2
  rcases KnownKernel_cases k hk with h | h
  · subst h
    refine ⟨_, a, b, Machine_ResizeRGBA_nearest c l g fx fy hfx.le hfy.le hres, hae, hbe,
      hWa, hHb, ?_⟩
    rw [← hWa, ← hHb]
    exact Rect_origin _ _ hW0 hH0
  · refine ⟨_, a, b, Machine_ResizeRGBA_separable c l g fx fy k hfx.le hfy.le h hg hW0
      (hmid (separable_ne_nearest k h)) hres, hae, hbe, hWa, hHb, ?_⟩
    rw [← hWa, ← hHb]
    exact Machine_twoPassRGBA_Rect g _ _ _ _ hg hW0 hH0

/-! ## Claims C1 and C4: output sizes and success, with rounded arithmetic -/

/-- C1 (evaluation at the failing input): the `float64` nearest to 0.7 is
3152519739159347 / 2^52, slightly below 0.7.  For the 10x1 image [1, ..., 10] and this fx
(fy = 1, InterNearest) floor(W*fx) is 6, but the product float64(10)*fx rounds to 7.0 and
ResizeGray returns a buffer of width 7. -/
theorem C1_rounded_product_counterexample :
    F64.round (7 / 10) = .fin (3152519739159347 / 4503599627370496) ∧
    (0 : ℚ) < 3152519739159347 / 4503599627370496 ∧
    ⌊(((Gray.ofRows 10 [[1, 2, 3, 4, 5, 6, 7, 8, 9, 10]]).Bounds.Size.X : Int) : ℚ)
      * (3152519739159347 / 4503599627370496)⌋ = 6 ∧
    F64.fmul (F64.ofInt 10) (.fin (3152519739159347 / 4503599627370496)) = .fin 7 ∧
    (Machine.ResizeGray Machine.NewLinear Machine.NewLinear
        (Gray.ofRows 10 [[1, 2, 3, 4, 5, 6, 7, 8, 9, 10]])
        (.fin (3152519739159347 / 4503599627370496)) (.fin 1) InterNearest).map
        (fun r => r.toOption.map (fun g => (g.Bounds, g.rows)))
      = some (some (⟨⟨0, 0⟩, ⟨7, 1⟩⟩, [[1, 2, 4, 5, 7, 8, 10]])) := by
  refine ⟨by decide!, by norm_num, by decide!, by decide!, by decide!⟩

/-- C1 (amended): for a well-formed Gray or RGBA image of size W x H (any origin), scale
factors fx > 0 and fy > 0, each of the four known kernels, and sizes for which the
standard library allocates the buffers (the result, and the intermediate buffer of the
two-pass kernels), ResizeGray and ResizeRGBA return a buffer whose bounds start at (0,0),
of width floor(a) and height floor(b), where a and b are the products float64(W)*fx and
float64(H)*fy as rounded to float64. -/
theorem C1_rounded_dimensions (c l : Machine.Filter) (g : Gray) (r : RGBA) (fx fy : ℚ)
    (k : Interpolation) (hg : g.Bounds.WellFormed) (hr : r.Bounds.WellFormed)
    (hfx : 0 < fx) (hfy : 0 < fy) (hk : KnownKernel k)
    (hgmid : k ≠ InterNearest →
      (Machine.NewGray (Rect 0 0 (Machine.newLength g.Bounds.Size.X (.fin fx))
        g.Bounds.Size.Y)).isSome = true)
    (hgres : (Machine.NewGray (Rect 0 0 (Machine.newLength g.Bounds.Size.X (.fin fx))
      (Machine.newLength g.Bounds.Size.Y (.fin fy)))).isSome = true)
    (hrmid : k ≠ InterNearest →
      (Machine.NewRGBA (Rect 0 0 (Machine.newLength r.Bounds.Size.X (.fin fx))
        r.Bounds.Size.Y)).isSome = true)
    (hrres : (Machine.NewRGBA (Rect 0 0 (Machine.newLength r.Bounds.Size.X (.fin fx))
      (Machine.newLength r.Bounds.Size.Y (.fin fy)))).isSome = true) :
    (∃ res a b, Machine.ResizeGray c l g (.fin fx) (.fin fy) k = some (.ok res) ∧
      F64.fmul (F64.ofInt g.Bounds.Size.X) (.fin fx) = .fin a ∧
      F64.fmul (F64.ofInt g.Bounds.Size.Y) (.fin fy) = .fin b ∧
      res.Bounds.Min = ⟨0, 0⟩ ∧ res.Bounds.Size = ⟨⌊a⌋, ⌊b⌋⟩) ∧
    (∃ res a b, Machine.ResizeRGBA c l r (.fin fx) (.fin fy) k = some (.ok res) ∧
      F64.fmul (F64.ofInt r.Bounds.Size.X) (.fin fx) = .fin a ∧
      F64.fmul (F64.ofInt r.Bounds.Size.Y) (.fin fy) = .fin b ∧
      res.Bounds.Min = ⟨0, 0⟩ ∧ res.Bounds.Size = ⟨⌊a⌋, ⌊b⌋⟩) := by
  constructor
  · obtain ⟨res, a, b, h1, ha, hb, _, _, h2⟩ :=
      Machine_ResizeGray_ok c l g fx fy k hg hfx hfy hk hgmid hgres
    refine ⟨res, a, b, h1, ha, hb, ?_, ?_⟩
    · show res.Rect.Min = _
      rw [h2]
    · show res.Rect.Size = _
      rw [h2]
      simp only [Rectangle.Size, sub_zero]
  · obtain ⟨res, a, b, h1, ha, hb, _, _, h2⟩ :=
      Machine_ResizeRGBA_ok c l r fx fy k hr hfx hfy hk hrmid hrres
    refine ⟨res, a, b, h1, ha, hb, ?_, ?_⟩
    · show res.Rect.Min = _
      rw [h2]
    · show res.Rect.Size = _
      rw [h2]
      simp only [Rectangle.Size, sub_zero]

/-- Witness of the amended C1: the 10x1 image [1, ..., 10] and the 3x2 RGBA view at origin
(-1,2), fx the float64 nearest to 0.7, fy = 2, Linear selector. -/
theorem C1_rounded_dimensions_witness :
    (Gray.ofRows 10 [[1, 2, 3, 4, 5, 6, 7, 8, 9, 10]]).Bounds.WellFormed ∧
    exampleRGBA.Bounds.WellFormed ∧
    (0 : ℚ) < 3152519739159347 / 4503599627370496 ∧ (0 : ℚ) < 2 ∧ KnownKernel InterLinear ∧
    ((∃ res a b, Machine.ResizeGray Machine.NewLinear Machine.NewLinear
        (Gray.ofRows 10 [[1, 2, 3, 4, 5, 6, 7, 8, 9, 10]])
        (.fin (3152519739159347 / 4503599627370496)) (.fin 2) InterLinear = some (.ok res) ∧
      F64.fmul (F64.ofInt (Gray.ofRows 10 [[1, 2, 3, 4, 5, 6, 7, 8, 9, 10]]).Bounds.Size.X)
        (.fin (3152519739159347 / 4503599627370496)) = .fin a ∧
      F64.fmul (F64.ofInt (Gray.ofRows 10 [[1, 2, 3, 4, 5, 6, 7, 8, 9, 10]]).Bounds.Size.Y)
        (.fin 2) = .fin b ∧
      res.Bounds.Min = ⟨0, 0⟩ ∧ res.Bounds.Size = ⟨⌊a⌋, ⌊b⌋⟩) ∧
    (∃ res a b, Machine.ResizeRGBA Machine.NewLinear Machine.NewLinear exampleRGBA
        (.fin (3152519739159347 / 4503599627370496)) (.fin 2) InterLinear = some (.ok res) ∧
      F64.fmul (F64.ofInt exampleRGBA.Bounds.Size.X)
        (.fin (3152519739159347 / 4503599627370496)) = .fin a ∧
      F64.fmul (F64.ofInt exampleRGBA.Bounds.Size.Y) (.fin 2) = .fin b ∧
      res.Bounds.Min = ⟨0, 0⟩ ∧ res.Bounds.Size = ⟨⌊a⌋, ⌊b⌋⟩)) :=
  ⟨by decide, by decide, by norm_num, by norm_num, by decide,
    C1_rounded_dimensions Machine.NewLinear Machine.NewLinear
      (Gray.ofRows 10 [[1, 2, 3, 4, 5, 6, 7, 8, 9, 10]]) exampleRGBA
      (3152519739159347 / 4503599627370496) 2 InterLinear (by decide) (by decide)
      (by norm_num) (by norm_num) (by decide) (fun _ => by decide!) (by decide!)
      (fun _ => by decide!) (by decide!)⟩

/-- C4 (evaluation at the failing inputs): the `float64` nearest to 1/3 is
6004799503160661 / 2^54, slightly below 1/3.  For the 3x1 image [1, 2, 3] and this fx
floor(W*fx) is 0, but float64(3)*fx rounds to 1.0 and ResizeGray returns the 1x1 buffer
[1], which is not empty.  For the 1x1 image [7] and fx = fy = 4e9 the requested buffer of
1.6e19 bytes does not fit an `int`: image.NewGray panics and nothing is returned. -/
theorem C4_rounded_product_counterexample :
    F64.round (1 / 3) = .fin (6004799503160661 / 18014398509481984) ∧
    (0 : ℚ) < 6004799503160661 / 18014398509481984 ∧
    ⌊(((Gray.ofRows 3 [[1, 2, 3]]).Bounds.Size.X : Int) : ℚ)
      * (6004799503160661 / 18014398509481984)⌋ = 0 ∧
    (Machine.ResizeGray Machine.NewLinear Machine.NewLinear (Gray.ofRows 3 [[1, 2, 3]])
        (.fin (6004799503160661 / 18014398509481984)) (.fin 1) InterNearest).map
        (fun r => r.toOption.map (fun g => (g.Bounds, g.rows)))
      = some (some (⟨⟨0, 0⟩, ⟨1, 1⟩⟩, [[1]])) ∧
    (⟨⟨0, 0⟩, ⟨1, 1⟩⟩ : Rectangle).Contains 0 0 ∧
    Machine.ResizeGray Machine.NewLinear Machine.NewLinear (Gray.ofRows 1 [[7]])
        (.fin 4000000000) (.fin 4000000000) InterNearest = none := by
  refine ⟨by decide!, by norm_num, by decide!, by decide!, by decide, ?_⟩
  have h : (Machine.ResizeGray Machine.NewLinear Machine.NewLinear (Gray.ofRows 1 [[7]])
      (.fin 4000000000) (.fin 4000000000) InterNearest).isNone = true := by decide!
  exact Option.isNone_iff_eq_none.mp h

/-- C4 (amended): for every well-formed image, every fx > 0 and fy > 0, each of the four
known kernel selectors, and sizes for which the standard library allocates the buffers
(the result, and the intermediate buffer of the two-pass kernels), ResizeGray and
ResizeRGBA return a buffer and no error; when the computed width floor(a) or height
floor(b) is 0, a and b being the products as rounded to float64, the returned buffer is
empty (it contains no point). -/
theorem C4_succeeds_when_allocated (c l : Machine.Filter) (g : Gray) (r : RGBA) (fx fy : ℚ)
    (k : Interpolation) (hg : g.Bounds.WellFormed) (hr : r.Bounds.WellFormed)
    (hfx : 0 < fx) (hfy : 0 < fy) (hk : KnownKernel k)
    (hgmid : k ≠ InterNearest →
      (Machine.NewGray (Rect 0 0 (Machine.newLength g.Bounds.Size.X (.fin fx))
        g.Bounds.Size.Y)).isSome = true)
    (hgres : (Machine.NewGray (Rect 0 0 (Machine.newLength g.Bounds.Size.X (.fin fx))
      (Machine.newLength g.Bounds.Size.Y (.fin fy)))).isSome = true)
    (hrmid : k ≠ InterNearest →
      (Machine.NewRGBA (Rect 0 0 (Machine.newLength r.Bounds.Size.X (.fin fx))
        r.Bounds.Size.Y)).isSome = true)
    (hrres : (Machine.NewRGBA (Rect 0 0 (Machine.newLength r.Bounds.Size.X (.fin fx))
      (Machine.newLength r.Bounds.Size.Y (.fin fy)))).isSome = true) :
    (∃ res a b, Machine.ResizeGray c l g (.fin fx) (.fin fy) k = some (.ok res) ∧
      F64.fmul (F64.ofInt g.Bounds.Size.X) (.fin fx) = .fin a ∧
      F64.fmul (F64.ofInt g.Bounds.Size.Y) (.fin fy) = .fin b ∧
      ((⌊a⌋ = 0 ∨ ⌊b⌋ = 0) → ∀ x y, ¬ res.Bounds.Contains x y)) ∧
    (∃ res a b, Machine.ResizeRGBA c l r (.fin fx) (.fin fy) k = some (.ok res) ∧
      F64.fmul (F64.ofInt r.Bounds.Size.X) (.fin fx) = .fin a ∧
      F64.fmul (F64.ofInt r.Bounds.Size.Y) (.fin fy) = .fin b ∧
      ((⌊a⌋ = 0 ∨ ⌊b⌋ = 0) → ∀ x y, ¬ res.Bounds.Contains x y)) := by
  constructor
  · obtain ⟨res, a, b, h1, ha, hb, _, _, h2⟩ :=
      Machine_ResizeGray_ok c l g fx fy k hg hfx hfy hk hgmid hgres
    refine ⟨res, a, b, h1, ha, hb, ?_⟩
    intro h0 x y hc
    have hc2 : res.Rect.Contains x y := hc
    rw [h2] at hc2
    unfold Rectangle.Contains at hc2
    simp only at hc2
    rcases h0 with h0 | h0
    · rw [h0] at hc2; omega
    · rw [h0] at hc2; omega
  · obtain ⟨res, a, b, h1, ha, hb, _, _, h2⟩ :=
      Machine_ResizeRGBA_ok c l r fx fy k hr hfx hfy hk hrmid hrres
    refine ⟨res, a, b, h1, ha, hb, ?_⟩
    intro h0 x y hc
    have hc2 : res.Rect.Contains x y := hc
    rw [h2] at hc2
    unfold Rectangle.Contains at hc2
    simp only at hc2
    rcases h0 with h0 | h0
    · rw [h0] at hc2; omega
    · rw [h0] at hc2; omega

/-- Witness of the amended C4: a 1x1 image scaled by fx = 1/2 (computed width 0),
CatmullRom selector. -/
theorem C4_succeeds_when_allocated_witness :
    (Gray.ofRows 1 [[7]]).Bounds.WellFormed ∧ (NewRGBA (Rect 0 0 1 1)).Bounds.WellFormed ∧
    (0 : ℚ) < 1 / 2 ∧ (0 : ℚ) < 1 ∧ KnownKernel InterCatmullRom ∧
    ((∃ res a b, Machine.ResizeGray Machine.NewLinear Machine.NewLinear (Gray.ofRows 1 [[7]])
        (.fin (1 / 2)) (.fin 1) InterCatmullRom = some (.ok res) ∧
      F64.fmul (F64.ofInt (Gray.ofRows 1 [[7]]).Bounds.Size.X) (.fin (1 / 2)) = .fin a ∧
      F64.fmul (F64.ofInt (Gray.ofRows 1 [[7]]).Bounds.Size.Y) (.fin 1) = .fin b ∧
      ((⌊a⌋ = 0 ∨ ⌊b⌋ = 0) → ∀ x y, ¬ res.Bounds.Contains x y)) ∧
    (∃ res a b, Machine.ResizeRGBA Machine.NewLinear Machine.NewLinear
        (NewRGBA (Rect 0 0 1 1)) (.fin (1 / 2)) (.fin 1) InterCatmullRom = some (.ok res) ∧
      F64.fmul (F64.ofInt (NewRGBA (Rect 0 0 1 1)).Bounds.Size.X) (.fin (1 / 2)) = .fin a ∧
      F64.fmul (F64.ofInt (NewRGBA (Rect 0 0 1 1)).Bounds.Size.Y) (.fin 1) = .fin b ∧
      ((⌊a⌋ = 0 ∨ ⌊b⌋ = 0) → ∀ x y, ¬ res.Bounds.Contains x y))) :=
  ⟨by decide, by decide, by norm_num, by norm_num, by decide,
    C4_succeeds_when_allocated Machine.NewLinear Machine.NewLinear (Gray.ofRows 1 [[7]])
      (NewRGBA (Rect 0 0 1 1)) (1 / 2) 1 InterCatmullRom (by decide) (by decide)
      (by norm_num) (by norm_num) (by decide) (fun _ => by decide!) (by decide!)
      (fun _ => by decide!) (by decide!)⟩

/-! ## Claims C11, C12 and C29: the window of an output sample, with rounded arithmetic -/

theorem ClampInt_min_int (n : Int) : ClampInt (-(2 ^ 63)) 0 n = 0 := by
  unfold ClampInt
  rw [if_pos (by decide)]

/-- The first index of the window is the floor of the rounded value `ix-radius+0.5`,
clamped into `[0, n]`, when that value is finite and below `2^63`. -/
theorem Machine_windowStart_floor (filter : Machine.Filter) (f : F64) (n x : Int) (v : ℚ)
    (hn : 0 ≤ n) (hv : Machine.startValue filter f x = .fin v) (hlt : v < 2 ^ 63) :
    Machine.windowStart filter f n x = max 0 (min ⌊v⌋ n) := by
  unfold Machine.windowStart
  rw [hv]
  unfold F64.toInt
  simp only
  by_cases hlo : -(2 : ℚ) ^ 63 ≤ v
  · rw [if_pos ⟨hlo, hlt⟩]
    exact ClampInt_toInt v n hn
  · rw [if_neg (fun h => hlo h.1), ClampInt_min_int n]
    have hneg : v < 0 := lt_of_lt_of_le (not_le.mp hlo) (by norm_num)
    have h2 : ⌊v⌋ ≤ 0 := Int.floor_nonpos hneg.le
    rw [max_eq_left (le_trans (min_le_left _ _) h2)]

/-- C11 (evaluation at the failing input): the `float64` nearest to 0.1 is
3602879701896397 / 2^55, slightly above 0.1.  For the Linear kernel, W = 16, this fx and
output index 0 (the only index, the computed width being 1): the code computes
1/fx = 10.0, ix = 4.5, r = 1 and the start value 4.0, so the window starts at 4, whereas
ix - r + 0.5 in real arithmetic is just below 4 and clamp(floor(ix - r + 0.5), 0, W) = 3. -/
theorem C11_rounded_start_counterexample :
    F64.round (1 / 10) = .fin (3602879701896397 / 36028797018963968) ∧
    ((0 : Int) ≤ 16 ∧ (0 : ℚ) < 3602879701896397 / 36028797018963968 ∧ (0 : Int) ≤ 0 ∧
      (0 : Int) < ⌊((16 : Int) : ℚ) * (3602879701896397 / 36028797018963968)⌋ ∧
      (0 : Int) < Machine.newLength 16 (.fin (3602879701896397 / 36028797018963968))) ∧
    Machine.startValue Machine.NewLinear (.fin (3602879701896397 / 36028797018963968)) 0
      = .fin 4 ∧
    Machine.windowStart Machine.NewLinear (.fin (3602879701896397 / 36028797018963968)) 16 0
      = 4 ∧
    max 0 (min ⌊((((0 : Int) : ℚ) + 1 / 2) / (3602879701896397 / 36028797018963968) - 1 / 2)
        - ((⌈(3602879701896397 / 36028797018963968 : ℚ) * 1⌉ : Int) : ℚ) + 1 / 2⌋ 16) = 3 := by
  refine ⟨by decide!, ⟨by decide, by norm_num, by decide, by decide!, by decide!⟩, by decide!,
    by decide!, by decide!⟩

/-- C11 (amended): in the horizontal pass (and symmetrically the vertical pass), for every
W >= 0, scale fx and output index x, let v be the `float64` value that the code computes
for ix - r + 0.5 (the quotient 1/fx, the product (x + 0.5)*(1/fx), the differences and the
sum each rounded to nearest).  When v is finite and below 2^63, the first source index
accumulated equals clamp(floor(v), 0, W), although the code converts with truncation
toward zero rather than floor. -/
theorem C11_rounded_window_start (filter : Machine.Filter) (f : F64) (n x : Int) (v : ℚ)
    (hn : 0 ≤ n)
    (hv : F64.fadd (F64.fsub
        (F64.fsub (F64.fmul (F64.fadd (F64.ofInt x) (.fin (1 / 2))) (F64.fdiv (.fin 1) f))
          (.fin (1 / 2)))
        (F64.ceil (F64.fmul f filter.GetS))) (.fin (1 / 2)) = .fin v)
    (hlt : v < 2 ^ 63) :
    Machine.windowStart filter f n x = max 0 (min ⌊v⌋ n) :=
  Machine_windowStart_floor filter f n x v hn hv hlt

/-- Witness of the amended C11: Linear kernel, W = 4, fx = 3/2, output index 0: the rounded
start value is -3752999689475413 / 2^51 (about -1.67), which truncates to -1 and whose
floor is -2: the window starts at 0. -/
theorem C11_rounded_window_start_witness :
    (0 : Int) ≤ 4 ∧
    F64.fadd (F64.fsub
        (F64.fsub (F64.fmul (F64.fadd (F64.ofInt 0) (.fin (1 / 2)))
          (F64.fdiv (.fin 1) (.fin (3 / 2)))) (.fin (1 / 2)))
        (F64.ceil (F64.fmul (.fin (3 / 2)) Machine.NewLinear.GetS))) (.fin (1 / 2))
      = .fin (-3752999689475413 / 2251799813685248) ∧
    (-3752999689475413 / 2251799813685248 : ℚ) < 2 ^ 63 ∧
    Machine.windowStart Machine.NewLinear (.fin (3 / 2)) 4 0
      = max 0 (min ⌊(-3752999689475413 / 2251799813685248 : ℚ)⌋ 4) ∧
    toInt (-3752999689475413 / 2251799813685248) = -1 ∧
    ⌊(-3752999689475413 / 2251799813685248 : ℚ)⌋ = -2 :=
  ⟨by decide, by decide!, by norm_num,
    C11_rounded_window_start Machine.NewLinear (.fin (3 / 2)) 4 0
      (-3752999689475413 / 2251799813685248) (by decide) (by decide!) (by norm_num),
    by decide!, by decide!⟩

/-- C12 (evaluation at the failing input): Linear kernel, W = 4, fx = 1/2, output index 0
(the computed width is 2): every operation is exact, ix = 1/2, r = 1 and ix + r = 3/2.
The code ends the window at int(3/2) = 1, where clamp(ceil(ix + r), 0, W) is 2: the window
[0, 1) holds one pixel, not the two pixels between which ix lies.  On the row
[0, 255, 0, 255] ResizeGray with InterLinear returns [0, 0]. -/
theorem C12_window_stop_truncates :
    ((0 : Int) ≤ 4 ∧ (0 : ℚ) < 1 / 2 ∧ (0 : Int) ≤ 0 ∧
      (0 : Int) < ⌊((4 : Int) : ℚ) * (1 / 2)⌋ ∧
      Machine.newLength 4 (.fin (1 / 2)) = 2) ∧
    Machine.sourceCoord (.fin (1 / 2)) 0 = .fin (1 / 2) ∧
    Machine.radius Machine.NewLinear (.fin (1 / 2)) = .fin 1 ∧
    Machine.stopValue Machine.NewLinear (.fin (1 / 2)) 0 = .fin (3 / 2) ∧
    Machine.windowStart Machine.NewLinear (.fin (1 / 2)) 4 0 = 0 ∧
    Machine.windowStop Machine.NewLinear (.fin (1 / 2)) 4 0 = 1 ∧
    max 0 (min ⌈((((0 : Int) : ℚ) + 1 / 2) / (1 / 2) - 1 / 2)
        + ((⌈(1 / 2 : ℚ) * 1⌉ : Int) : ℚ)⌉ 4) = 2 ∧
    (Machine.ResizeGray Machine.NewLinear Machine.NewLinear (Gray.ofRows 4 [[0, 255, 0, 255]])
        (.fin (1 / 2)) (.fin 1) InterLinear).map
        (fun r => r.toOption.map (fun g => (g.Bounds, g.rows)))
      = some (some (⟨⟨0, 0⟩, ⟨2, 1⟩⟩, [[0, 0]])) := by
  refine ⟨⟨by decide, by norm_num, by decide, by decide!, by decide!⟩, by decide!, by decide!,
    by decide!, by decide!, by decide!, by decide!, by decide!⟩

/-- C29 (evaluation at the failing input): Linear kernel (support radius 1), W = 4,
fx = 3/4, output index 2 (the computed width is 3): the code computes
ix = 3190049736054101 / 2^50 (about 2.83; 17/6 in real arithmetic), so the source index
nearest to ix is round(ix) = 3, already in [0, W-1].  The window of the pass is [2, 3): it
does not contain index 3, whose weight 1 - |3 - ix| is about 0.83, and holds only index 2,
of weight about 0.17.  On the row [0, 0, 0, 255] ResizeGray with InterLinear returns
[0, 0, 0]. -/
theorem C29_window_misses_nearest :
    ((1 : Int) ≤ 4 ∧ (0 : ℚ) < 3 / 4 ∧ (0 : Int) ≤ 2 ∧ (2 : Int) < ⌊((4 : Int) : ℚ) * (3 / 4)⌋ ∧
      Machine.newLength 4 (.fin (3 / 4)) = 3 ∧ Machine.NewLinear.GetS = .fin 1) ∧
    Machine.sourceCoord (.fin (3 / 4)) 2 = .fin (3190049736054101 / 1125899906842624) ∧
    (((2 : Int) : ℚ) + 1 / 2) / (3 / 4) - 1 / 2 = (17 / 6 : ℚ) ∧
    max 0 (min (toInt (mathRound (3190049736054101 / 1125899906842624))) (4 - 1)) = 3 ∧
    max 0 (min (toInt (mathRound (17 / 6))) (4 - 1)) = 3 ∧
    Machine.windowStart Machine.NewLinear (.fin (3 / 4)) 4 2 = 2 ∧
    Machine.windowStop Machine.NewLinear (.fin (3 / 4)) 4 2 = 3 ∧
    Machine.NewLinear.Interpolate
        (F64.fsub (F64.ofInt 3) (Machine.sourceCoord (.fin (3 / 4)) 2))
      = .fin (938249922368853 / 1125899906842624) ∧
    Machine.NewLinear.Interpolate
        (F64.fsub (F64.ofInt 2) (Machine.sourceCoord (.fin (3 / 4)) 2))
      = .fin (187649984473771 / 1125899906842624) ∧
    (Machine.ResizeGray Machine.NewLinear Machine.NewLinear (Gray.ofRows 4 [[0, 0, 0, 255]])
        (.fin (3 / 4)) (.fin 1) InterLinear).map
        (fun r => r.toOption.map (fun g => (g.Bounds, g.rows)))
      = some (some (⟨⟨0, 0⟩, ⟨3, 1⟩⟩, [[0, 0, 0]])) := by
  refine ⟨⟨by decide, by norm_num, by decide, by decide!, by decide!, rfl⟩, by decide!,
    by norm_num, by decide!, by decide!, by decide!, by decide!, by decide!, by decide!,
    by decide!⟩

/-! ## Claim C28: the weighted sum, with rounded arithmetic -/

theorem toUint8_ClampF64_posInf : toUint8 (ClampF64 .posInf (MinUint8 : ℚ) (MaxUint8 : ℚ)) = 255 := by
  decide!

theorem toUint8_ClampF64_negInf : toUint8 (ClampF64 .negInf (MinUint8 : ℚ) (MaxUint8 : ℚ)) = 0 := by
  decide!

/-- C28 (evaluation at the failing input): the `float64` nearest to 0.7 is
3152519739159347 / 2^52, slightly below 0.7.  For the 1x1 images [10] and [0] with this w1
and w2 = 0, the real value 10*w1 + 0*w2 is just below 7 and truncates to 6, but the product
float64(10)*w1 rounds to 7.0 and AddGrayWeighted stores 7. -/
theorem C28_rounded_sum_counterexample :
    F64.round (7 / 10) = .fin (3152519739159347 / 4503599627370496) ∧
    F64.round 0 = .fin 0 ∧
    ((Gray.ofRows 1 [[10]]).Bounds.Size = (Gray.ofRows 1 [[0]]).Bounds.Size) ∧
    (AddGrayWeighted (Gray.ofRows 1 [[10]]) (3152519739159347 / 4503599627370496)
        (Gray.ofRows 1 [[0]]) 0).toOption.map (fun g => (g.Bounds, g.rows))
      = some (⟨⟨0, 0⟩, ⟨1, 1⟩⟩, [[7]]) ∧
    ⌊max 0 (min 255
        ((((Gray.ofRows 1 [[10]]).GrayAt 0 0 : Nat) : ℚ) * (3152519739159347 / 4503599627370496)
          + (((Gray.ofRows 1 [[0]]).GrayAt 0 0 : Nat) : ℚ) * 0))⌋.toNat = 6 := by
  refine ⟨by decide!, by decide!, by decide, by decide!, by decide!⟩

/-- C28 (amended): for every pair of equal-sized well-formed Gray images and every pair of
finite `float64` weights w1, w2, AddGrayWeighted returns an image of the common size at
origin (0,0); each result pixel is obtained from the `float64` value s of
float64(img1(x, y))*w1 + float64(img2(x, y))*w2, the two products and the sum being each
rounded to nearest: when s is finite the pixel is s clamped to [0, 255] and then truncated
to an integer, when s is +Inf it is 255 and when s is -Inf it is 0. -/
theorem C28_rounded_add_weighted (img1 img2 : Gray) (w1 w2 : ℚ) (hw : img1.Bounds.WellFormed)
    (hX : img1.Bounds.Size.X = img2.Bounds.Size.X)
    (hY : img1.Bounds.Size.Y = img2.Bounds.Size.Y) :
    ∃ res, AddGrayWeighted img1 w1 img2 w2 = .ok res ∧
      res.Bounds = ⟨⟨0, 0⟩, img1.Bounds.Size⟩ ∧
      ∀ x y, 0 ≤ x → x < img1.Bounds.Size.X → 0 ≤ y → y < img1.Bounds.Size.Y →
        (∀ s, F64.fadd
            (F64.fmul (F64.ofInt (img1.GrayAt (x + img1.Bounds.Min.X) (y + img1.Bounds.Min.Y) : Int))
              (.fin w1))
            (F64.fmul (F64.ofInt (img2.GrayAt (x + img2.Bounds.Min.X) (y + img2.Bounds.Min.Y) : Int))
              (.fin w2)) = .fin s →
          res.GrayAt x y = ⌊max 0 (min 255 s)⌋.toNat) ∧
        (F64.fadd
            (F64.fmul (F64.ofInt (img1.GrayAt (x + img1.Bounds.Min.X) (y + img1.Bounds.Min.Y) : Int))
              (.fin w1))
            (F64.fmul (F64.ofInt (img2.GrayAt (x + img2.Bounds.Min.X) (y + img2.Bounds.Min.Y) : Int))
              (.fin w2)) = .posInf →
          res.GrayAt x y = 255) ∧
        (F64.fadd
            (F64.fmul (F64.ofInt (img1.GrayAt (x + img1.Bounds.Min.X) (y + img1.Bounds.Min.Y) : Int))
              (.fin w1))
            (F64.fmul (F64.ofInt (img2.GrayAt (x + img2.Bounds.Min.X) (y + img2.Bounds.Min.Y) : Int))
              (.fin w2)) = .negInf →
          res.GrayAt x y = 0) := by
  have hs := Size_nonneg img1.Rect hw
  have hne : ¬ (img1.Rect.Size.X ≠ img2.Rect.Size.X ∨ img1.Rect.Size.Y ≠ img2.Rect.Size.Y) := by
    rintro (h | h)
    · exact h hX
    · exact h hY
  refine ⟨_, AddGrayWeighted_eq img1 img2 w1 w2 hne, gridImage_Rect _ _ _ hs.1 hs.2, ?_⟩
  intro x y hx0 hx1 hy0 hy1
  rw [gridImage_GrayAt _ _ _ hs.1 hs.2 x y hx0 hx1 hy0 hy1]
  simp only [Gray.Bounds]
  refine ⟨?_, ?_, ?_⟩
  · intro s hsum
    rw [hsum, ClampF64_fin, toUint8_fin_of_range _ (le_max_left _ _)
      (max_le (by norm_num) (min_le_left _ _))]
  · intro hsum
    rw [hsum]
    exact toUint8_ClampF64_posInf
  · intro hsum
    rw [hsum]
    exact toUint8_ClampF64_negInf

/-- Witness of the amended C28: the example view (samples 19 to 23) and its re-based copy
with weights 1/2 and 1/4; the result is [[14, 15, 15], [15, 16, 17]], the truncations of
14.25, 15, 15.75, 15.75, 16.5, 17.25. -/
theorem C28_rounded_add_weighted_witness :
    exampleGray.Bounds.WellFormed ∧
    exampleGray.Bounds.Size.X = exampleGray.rebase.Bounds.Size.X ∧
    exampleGray.Bounds.Size.Y = exampleGray.rebase.Bounds.Size.Y ∧
    (∃ res, AddGrayWeighted exampleGray (1 / 2) exampleGray.rebase (1 / 4) = .ok res ∧
      res.Bounds = ⟨⟨0, 0⟩, exampleGray.Bounds.Size⟩ ∧
      ∀ x y, 0 ≤ x → x < exampleGray.Bounds.Size.X → 0 ≤ y → y < exampleGray.Bounds.Size.Y →
        (∀ s, F64.fadd
            (F64.fmul (F64.ofInt (exampleGray.GrayAt (x + exampleGray.Bounds.Min.X)
              (y + exampleGray.Bounds.Min.Y) : Int)) (.fin (1 / 2)))
            (F64.fmul (F64.ofInt (exampleGray.rebase.GrayAt (x + exampleGray.rebase.Bounds.Min.X)
              (y + exampleGray.rebase.Bounds.Min.Y) : Int)) (.fin (1 / 4))) = .fin s →
          res.GrayAt x y = ⌊max 0 (min 255 s)⌋.toNat) ∧
        (F64.fadd
            (F64.fmul (F64.ofInt (exampleGray.GrayAt (x + exampleGray.Bounds.Min.X)
              (y + exampleGray.Bounds.Min.Y) : Int)) (.fin (1 / 2)))
            (F64.fmul (F64.ofInt (exampleGray.rebase.GrayAt (x + exampleGray.rebase.Bounds.Min.X)
              (y + exampleGray.rebase.Bounds.Min.Y) : Int)) (.fin (1 / 4))) = .posInf →
          res.GrayAt x y = 255) ∧
        (F64.fadd
            (F64.fmul (F64.ofInt (exampleGray.GrayAt (x + exampleGray.Bounds.Min.X)
              (y + exampleGray.Bounds.Min.Y) : Int)) (.fin (1 / 2)))
            (F64.fmul (F64.ofInt (exampleGray.rebase.GrayAt (x + exampleGray.rebase.Bounds.Min.X)
              (y + exampleGray.rebase.Bounds.Min.Y) : Int)) (.fin (1 / 4))) = .negInf →
          res.GrayAt x y = 0)) ∧
    (AddGrayWeighted exampleGray (1 / 2) exampleGray.rebase (1 / 4)).toOption.map Gray.rows
      = some [[14, 15, 15], [15, 16, 17]] ∧
    F64.fadd (F64.fmul (F64.ofInt 19) (.fin (1 / 2))) (F64.fmul (F64.ofInt 19) (.fin (1 / 4)))
      = .fin (57 / 4) :=
  ⟨by decide, by decide, by decide,
    C28_rounded_add_weighted exampleGray exampleGray.rebase (1 / 2) (1 / 4) (by decide)
      (by decide) (by decide),
    by decide!, by decide!⟩

/-! ## Properties of the rounding to `float64` -/

theorem pow2_eq_zpow (e : Int) : pow2 e = (2 : ℚ) ^ e := by
  unfold pow2
  split_ifs with h
  · have he : e = ((e.toNat : Nat) : Int) := (Int.toNat_of_nonneg h).symm
    conv_rhs => rw [he]
    rw [zpow_natCast]
    push_cast
    rfl
  · have h2 : 0 ≤ -e := by omega
    have he : e = -(((-e).toNat : Nat) : Int) := by
      rw [Int.toNat_of_nonneg h2]; ring
    conv_rhs => rw [he]
    rw [zpow_neg, zpow_natCast]
    push_cast
    rw [one_div]

theorem two_zpow_pos (e : Int) : (0 : ℚ) < (2 : ℚ) ^ e := by
  rw [← pow2_eq_zpow]
  unfold pow2
  split_ifs
  · positivity
  · positivity

theorem two_zpow_succ (e : Int) : (2 : ℚ) ^ (e + 1) = 2 * (2 : ℚ) ^ e := by
  rw [zpow_add₀ (by norm_num : (2 : ℚ) ≠ 0), zpow_one, mul_comm]

theorem two_zpow_le (a b : Int) (h : a ≤ b) : (2 : ℚ) ^ a ≤ (2 : ℚ) ^ b :=
  zpow_le_zpow_right₀ (by norm_num) h

theorem two_zpow_lt_iff (a b : Int) : (2 : ℚ) ^ a < (2 : ℚ) ^ b ↔ a < b :=
  zpow_lt_zpow_iff_right₀ (by norm_num)

/-- A non-negative power of two is an integer. -/
theorem two_zpow_int (d : Int) (hd : 0 ≤ d) : (2 : ℚ) ^ d = (((2 : Int) ^ d.toNat : Int) : ℚ) := by
  have he : d = ((d.toNat : Nat) : Int) := (Int.toNat_of_nonneg hd).symm
  conv_lhs => rw [he]
  rw [zpow_natCast]
  push_cast
  rfl

theorem log2Aux_spec (fuel n : Nat) (h1 : 1 ≤ n) (hf : n ≤ fuel) :
    2 ^ log2Aux fuel n ≤ n ∧ n < 2 ^ (log2Aux fuel n + 1) := by
  induction fuel generalizing n with
  | zero => omega
  | succ fuel ih =>
    unfold log2Aux
    by_cases h2 : n < 2
    · rw [if_pos h2]
      constructor
      · simpa using h1
      · simpa using h2
    · rw [if_neg h2]
      have hn2 : 1 ≤ n / 2 := by omega
      have hle : n / 2 ≤ fuel := by omega
      obtain ⟨a, b⟩ := ih (n / 2) hn2 hle
      constructor
      · rw [pow_succ]
        omega
      · rw [pow_succ]
        omega

theorem ilog2_spec (n : Nat) (h1 : 1 ≤ n) : 2 ^ ilog2 n ≤ n ∧ n < 2 ^ (ilog2 n + 1) :=
  log2Aux_spec n n h1 le_rfl

/-- The binary exponent brackets the magnitude of a non-zero rational. -/
theorem binExp_spec (q : ℚ) (hq : q ≠ 0) :
    (2 : ℚ) ^ binExp q ≤ |q| ∧ |q| < (2 : ℚ) ^ (binExp q + 1) := by
  have hnum : q.num ≠ 0 := Rat.num_ne_zero.mpr hq
  have hN1 : 1 ≤ q.num.natAbs := Nat.one_le_iff_ne_zero.mpr (Int.natAbs_ne_zero.mpr hnum)
  have hD1 : 1 ≤ q.den := q.den_pos
  obtain ⟨a1, a2⟩ := ilog2_spec q.num.natAbs hN1
  obtain ⟨b1, b2⟩ := ilog2_spec q.den hD1
  have habs : |q| = (q.num.natAbs : ℚ) / (q.den : ℚ) := by
    conv_lhs => rw [← Rat.num_div_den q]
    rw [abs_div, Nat.abs_cast]
    congr 1
    rw [Nat.cast_natAbs, Int.cast_abs]
  have hDpos : (0 : ℚ) < (q.den : ℚ) := by exact_mod_cast q.den_pos
  have A1 : ((2 : ℚ) ^ (ilog2 q.num.natAbs : Int)) ≤ (q.num.natAbs : ℚ) := by
    rw [zpow_natCast]; exact_mod_cast a1
  have A2 : (q.num.natAbs : ℚ) < ((2 : ℚ) ^ ((ilog2 q.num.natAbs : Int) + 1)) := by
    have : (q.num.natAbs : ℚ) < (2 : ℚ) ^ (ilog2 q.num.natAbs + 1) := by exact_mod_cast a2
    rw [show ((ilog2 q.num.natAbs : Int) + 1) = ((ilog2 q.num.natAbs + 1 : Nat) : Int) by
      push_cast; ring, zpow_natCast]
    exact this
  have B1 : ((2 : ℚ) ^ (ilog2 q.den : Int)) ≤ (q.den : ℚ) := by
    rw [zpow_natCast]; exact_mod_cast b1
  have B2 : (q.den : ℚ) < ((2 : ℚ) ^ ((ilog2 q.den : Int) + 1)) := by
    have : (q.den : ℚ) < (2 : ℚ) ^ (ilog2 q.den + 1) := by exact_mod_cast b2
    rw [show ((ilog2 q.den : Int) + 1) = ((ilog2 q.den + 1 : Nat) : Int) by
      push_cast; ring, zpow_natCast]
    exact this
  set a : Int := (ilog2 q.num.natAbs : Int) with ha
  set b : Int := (ilog2 q.den : Int) with hb
  have pa := two_zpow_pos a
  have pb := two_zpow_pos b
  -- upper bound: |q| < 2^(a-b+1)
  have U : |q| < (2 : ℚ) ^ (a - b + 1) := by
    rw [habs, div_lt_iff₀ hDpos]
    have e : (2 : ℚ) ^ (a - b + 1) * (2 : ℚ) ^ b = (2 : ℚ) ^ (a + 1) := by
      rw [← zpow_add₀ (by norm_num : (2 : ℚ) ≠ 0)]
      congr 1; ring
    calc (q.num.natAbs : ℚ) < (2 : ℚ) ^ (a + 1) := A2
      _ = (2 : ℚ) ^ (a - b + 1) * (2 : ℚ) ^ b := e.symm
      _ ≤ (2 : ℚ) ^ (a - b + 1) * (q.den : ℚ) :=
        mul_le_mul_of_nonneg_left B1 (two_zpow_pos _).le
  -- lower bound: 2^(a-b-1) ≤ |q|
  have L : (2 : ℚ) ^ (a - b - 1) ≤ |q| := by
    rw [habs, le_div_iff₀ hDpos]
    have e : (2 : ℚ) ^ (a - b - 1) * (2 : ℚ) ^ (b + 1) = (2 : ℚ) ^ a := by
      rw [← zpow_add₀ (by norm_num : (2 : ℚ) ≠ 0)]
      congr 1; ring
    calc (2 : ℚ) ^ (a - b - 1) * (q.den : ℚ)
        ≤ (2 : ℚ) ^ (a - b - 1) * (2 : ℚ) ^ (b + 1) :=
          mul_le_mul_of_nonneg_left B2.le (two_zpow_pos _).le
      _ = (2 : ℚ) ^ a := e
      _ ≤ (q.num.natAbs : ℚ) := A1
  unfold binExp
  simp only
  rw [← ha, ← hb, pow2_eq_zpow]
  split_ifs with h
  · exact ⟨h, U⟩
  · refine ⟨L, ?_⟩
    rw [show a - b - 1 + 1 = a - b by ring]
    exact not_le.mp h

theorem binExp_unique (q : ℚ) (e : Int) (h1 : (2 : ℚ) ^ e ≤ |q|) (h2 : |q| < (2 : ℚ) ^ (e + 1)) :
    binExp q = e := by
  have hq : q ≠ 0 := by
    rintro rfl
    rw [abs_zero] at h1
    exact absurd h1 (not_le.mpr (two_zpow_pos e))
  obtain ⟨s1, s2⟩ := binExp_spec q hq
  have a : binExp q < e + 1 := (two_zpow_lt_iff _ _).mp (lt_of_le_of_lt s1 h2)
  have b : e < binExp q + 1 := (two_zpow_lt_iff _ _).mp (lt_of_le_of_lt h1 s2)
  omega

theorem binExp_mono (x y : ℚ) (hx : x ≠ 0) (h : |x| ≤ |y|) : binExp x ≤ binExp y := by
  have hy : y ≠ 0 := by
    rintro rfl
    rw [abs_zero] at h
    exact hx (abs_eq_zero.mp (le_antisymm h (abs_nonneg x)))
  obtain ⟨s1, _⟩ := binExp_spec x hx
  obtain ⟨_, t2⟩ := binExp_spec y hy
  have : binExp x < binExp y + 1 :=
    (two_zpow_lt_iff _ _).mp (lt_of_le_of_lt s1 (lt_of_le_of_lt h t2))
  omega

theorem ulp_eq_zpow (q : ℚ) : ulp q = (2 : ℚ) ^ (max (binExp q) (-1022) - 52) := by
  unfold ulp
  exact pow2_eq_zpow _

theorem roundHalfEven_intCast (k : Int) : roundHalfEven (k : ℚ) = k := by
  unfold roundHalfEven
  simp only [Int.floor_intCast, sub_self]
  rw [if_pos (by norm_num)]

theorem roundHalfEven_bounds (m : ℚ) : ⌊m⌋ ≤ roundHalfEven m ∧ roundHalfEven m ≤ ⌊m⌋ + 1 := by
  unfold roundHalfEven
  simp only
  split_ifs <;> omega

theorem roundHalfEven_mono (a b : ℚ) (h : a ≤ b) : roundHalfEven a ≤ roundHalfEven b := by
  have hf : ⌊a⌋ ≤ ⌊b⌋ := Int.floor_le_floor h
  rcases lt_or_eq_of_le hf with hlt | heq
  · have := (roundHalfEven_bounds a).2
    have := (roundHalfEven_bounds b).1
    omega
  · unfold roundHalfEven
    simp only
    rw [heq]
    have hab : a - ⌊b⌋ ≤ b - ⌊b⌋ := by linarith
    split_ifs <;> first | omega | (exfalso; linarith)

/-- The rounding to an integer is within one half of its argument. -/
theorem roundHalfEven_near (m : ℚ) :
    (roundHalfEven m : ℚ) - m ≤ 1 / 2 ∧ m - (roundHalfEven m : ℚ) ≤ 1 / 2 := by
  have h1 := Int.floor_le m
  have h2 := Int.lt_floor_add_one m
  unfold roundHalfEven
  simp only
  split_ifs with a b c
  · constructor <;> linarith
  · push_cast
    constructor <;> linarith
  · have : m - ⌊m⌋ = 1 / 2 := le_antisymm (not_lt.mp b) (not_lt.mp a)
    constructor <;> linarith
  · have : m - ⌊m⌋ = 1 / 2 := le_antisymm (not_lt.mp b) (not_lt.mp a)
    push_cast
    constructor <;> linarith

theorem nearest_zero : nearest 0 = 0 := by
  unfold nearest
  rw [zero_div]
  have : roundHalfEven (0 : ℚ) = 0 := by
    have := roundHalfEven_intCast 0
    simpa using this
  rw [this]
  simp

theorem nearest_nonneg (q : ℚ) (h : 0 ≤ q) : 0 ≤ nearest q := by
  unfold nearest
  have h1 : 0 ≤ roundHalfEven (q / ulp q) :=
    roundHalfEven_nonneg _ (div_nonneg h (ulp_pos q).le)
  have h2 : (0 : ℚ) ≤ (roundHalfEven (q / ulp q) : ℚ) := by exact_mod_cast h1
  exact mul_nonneg h2 (ulp_pos q).le

theorem nearest_nonpos (q : ℚ) (h : q ≤ 0) : nearest q ≤ 0 := by
  unfold nearest
  have h0 : q / ulp q ≤ ((0 : Int) : ℚ) := by
    rw [Int.cast_zero]
    exact div_nonpos_of_nonpos_of_nonneg h (ulp_pos q).le
  have h1 : roundHalfEven (q / ulp q) ≤ 0 := by
    have := roundHalfEven_mono _ _ h0
    rwa [roundHalfEven_intCast] at this
  have h2 : (roundHalfEven (q / ulp q) : ℚ) ≤ 0 := by exact_mod_cast h1
  exact mul_nonpos_of_nonpos_of_nonneg h2 (ulp_pos q).le

/-- The rounding of a value in terms of `nearest`. -/
theorem F64_round_eq (q : ℚ) :
    F64.round q = if pow2 1024 ≤ nearest q then .posInf
      else if nearest q ≤ -pow2 1024 then .negInf else .fin (nearest q) := by
  unfold F64.round
  by_cases h0 : q = 0
  · rw [if_pos h0, h0, nearest_zero]
    have := pow2_pos 1024
    rw [if_neg (by linarith), if_neg (by linarith)]
  · rw [if_neg h0]
    rfl

/-- A value on the grid of its own binade is its own rounding. -/
theorem nearest_of_grid (q : ℚ) (k : Int) (h : q = (k : ℚ) * ulp q) : nearest q = q := by
  unfold nearest
  have hu := ulp_pos q
  have : q / ulp q = (k : ℚ) := by
    rw [div_eq_iff hu.ne']
    exact h
  rw [this, roundHalfEven_intCast]
  exact h.symm

/-- A multiple `k * 2^j` of a power of two with `|k| < 2^53` and `j ≥ -1074` is its own
rounding. -/
theorem nearest_of_rep (k j : Int) (hk : |k| < 2 ^ 53) (hj : -1074 ≤ j) :
    nearest ((k : ℚ) * (2 : ℚ) ^ j) = (k : ℚ) * (2 : ℚ) ^ j := by
  by_cases hk0 : k = 0
  · rw [hk0]
    simp only [Int.cast_zero, zero_mul]
    exact nearest_zero
  set q : ℚ := (k : ℚ) * (2 : ℚ) ^ j with hq
  have hpj := two_zpow_pos j
  have hkq : (k : ℚ) ≠ 0 := by exact_mod_cast hk0
  have hq0 : q ≠ 0 := mul_ne_zero hkq hpj.ne'
  obtain ⟨s1, _⟩ := binExp_spec q hq0
  have habs : |q| = |(k : ℚ)| * (2 : ℚ) ^ j := by
    rw [hq, abs_mul, abs_of_pos hpj]
  have hkq2 : |(k : ℚ)| < (2 : ℚ) ^ (53 : Int) := by
    have : ((|k| : Int) : ℚ) < (((2 : Int) ^ 53 : Int) : ℚ) := by exact_mod_cast hk
    rw [Int.cast_abs] at this
    rw [show ((53 : Int)) = ((53 : Nat) : Int) by rfl, zpow_natCast]
    exact_mod_cast this
  have hlt : |q| < (2 : ℚ) ^ (53 + j) := by
    rw [habs, zpow_add₀ (by norm_num : (2 : ℚ) ≠ 0)]
    exact mul_lt_mul_of_pos_right hkq2 hpj
  have he : binExp q < 53 + j := (two_zpow_lt_iff _ _).mp (lt_of_le_of_lt s1 hlt)
  have hd : 0 ≤ j - (max (binExp q) (-1022) - 52) := by
    have := max_le (a := binExp q) (b := -1022) (c := j + 52) (by omega) (by omega)
    omega
  have hu : ulp q = (2 : ℚ) ^ (max (binExp q) (-1022) - 52) := ulp_eq_zpow q
  have hsplit : (2 : ℚ) ^ j
      = (2 : ℚ) ^ (j - (max (binExp q) (-1022) - 52)) * ulp q := by
    rw [hu, ← zpow_add₀ (by norm_num : (2 : ℚ) ≠ 0)]
    congr 1; ring
  apply nearest_of_grid q (k * (2 : Int) ^ (j - (max (binExp q) (-1022) - 52)).toNat)
  rw [Int.cast_mul, ← two_zpow_int _ hd, mul_assoc, ← hsplit]

theorem nearest_intCast (n : Int) (h : |n| < 2 ^ 53) : nearest (n : ℚ) = (n : ℚ) := by
  have := nearest_of_rep n 0 h (by norm_num)
  simpa using this

theorem abs_div_ulp_lt (z : ℚ) (hz : z ≠ 0) : |z| < (2 : ℚ) ^ (53 : Int) * ulp z := by
  obtain ⟨_, s2⟩ := binExp_spec z hz
  rw [ulp_eq_zpow, ← zpow_add₀ (by norm_num : (2 : ℚ) ≠ 0)]
  refine lt_of_lt_of_le s2 (two_zpow_le _ _ ?_)
  have := le_max_left (binExp z) (-1022)
  omega

theorem two_zpow_53 : (2 : ℚ) ^ (53 : Int) = (((2 : Int) ^ 53 : Int) : ℚ) := by
  rw [two_zpow_int 53 (by norm_num)]
  rfl

theorem two_zpow_52 : (2 : ℚ) ^ (52 : Int) = (((2 : Int) ^ 52 : Int) : ℚ) := by
  rw [two_zpow_int 52 (by norm_num)]
  rfl

/-- The integer significand chosen by the rounding is at most `2^53` in magnitude. -/
theorem roundHalfEven_div_ulp (z : ℚ) :
    -(2 ^ 53) ≤ roundHalfEven (z / ulp z) ∧ roundHalfEven (z / ulp z) ≤ 2 ^ 53 := by
  have hu := ulp_pos z
  by_cases hz : z = 0
  · rw [hz, zero_div]
    have : roundHalfEven (0 : ℚ) = 0 := by
      have := roundHalfEven_intCast 0
      simpa using this
    rw [this]
    constructor <;> norm_num
  have h := abs_div_ulp_lt z hz
  rw [abs_lt] at h
  constructor
  · have h1 : (((-(2 : Int) ^ 53 : Int)) : ℚ) ≤ z / ulp z := by
      rw [le_div_iff₀ hu]
      have e : (((-(2 : Int) ^ 53 : Int)) : ℚ) = -((2 : ℚ) ^ (53 : Int)) := by
        rw [two_zpow_53]
        push_cast
        ring
      rw [e]
      linarith [h.1]
    have := roundHalfEven_mono _ _ h1
    rw [roundHalfEven_intCast] at this
    omega
  · have h1 : z / ulp z ≤ ((((2 : Int) ^ 53 : Int)) : ℚ) := by
      rw [div_le_iff₀ hu, ← two_zpow_53]
      exact h.2.le
    have := roundHalfEven_mono _ _ h1
    rw [roundHalfEven_intCast] at this
    omega

/-- Rounding is idempotent: a rounded value is its own rounding. -/
theorem nearest_idem (z : ℚ) : nearest (nearest z) = nearest z := by
  obtain ⟨b1, b2⟩ := roundHalfEven_div_ulp z
  have hj : (-1074 : Int) ≤ max (binExp z) (-1022) - 52 := by
    have := le_max_right (binExp z) (-1022)
    omega
  have hform : nearest z
      = (roundHalfEven (z / ulp z) : ℚ) * (2 : ℚ) ^ (max (binExp z) (-1022) - 52) := by
    unfold nearest
    rw [ulp_eq_zpow]
  rcases lt_or_eq_of_le b2 with hlt | heq
  · rcases lt_or_eq_of_le b1 with hgt | heq2
    · rw [hform]
      apply nearest_of_rep _ _ _ hj
      rw [abs_lt]
      constructor <;> omega
    · -- significand -2^53 = (-2^52) * 2
      have e : nearest z = (((-(2 : Int) ^ 52 : Int)) : ℚ)
          * (2 : ℚ) ^ (max (binExp z) (-1022) - 52 + 1) := by
        rw [hform, ← heq2, two_zpow_succ]
        push_cast
        ring
      rw [e]
      apply nearest_of_rep _ _ _ (by omega)
      norm_num
  · have e : nearest z = ((((2 : Int) ^ 52 : Int)) : ℚ)
        * (2 : ℚ) ^ (max (binExp z) (-1022) - 52 + 1) := by
      rw [hform, heq, two_zpow_succ]
      push_cast
      ring
    rw [e]
    apply nearest_of_rep _ _ _ (by omega)
    norm_num

/-- A finite result of a rounding is a `float64` value: it is its own rounding. -/
theorem nearest_of_round (z q : ℚ) (h : F64.round z = .fin q) : nearest q = q := by
  rw [F64_round_eq] at h
  split_ifs at h with h1 h2
  have e : nearest z = q := by
    injection h
  rw [← e]
  exact nearest_idem z

theorem nearest_le_pow (x : ℚ) :
    nearest x ≤ (2 : ℚ) ^ (max (binExp x) (-1022) + 1) := by
  have hu := ulp_pos x
  have b := (roundHalfEven_div_ulp x).2
  have bq : (roundHalfEven (x / ulp x) : ℚ) ≤ (2 : ℚ) ^ (53 : Int) := by
    rw [two_zpow_53]
    exact_mod_cast b
  unfold nearest
  calc (roundHalfEven (x / ulp x) : ℚ) * ulp x ≤ (2 : ℚ) ^ (53 : Int) * ulp x :=
        mul_le_mul_of_nonneg_right bq hu.le
    _ = (2 : ℚ) ^ (max (binExp x) (-1022) + 1) := by
        rw [ulp_eq_zpow, ← zpow_add₀ (by norm_num : (2 : ℚ) ≠ 0)]
        congr 1; ring

theorem pow_le_nearest (y : ℚ) (hy : 0 < y) (hn : -1022 ≤ binExp y) :
    (2 : ℚ) ^ binExp y ≤ nearest y := by
  have hu := ulp_pos y
  obtain ⟨s1, _⟩ := binExp_spec y hy.ne'
  rw [abs_of_pos hy] at s1
  have hue : ulp y = (2 : ℚ) ^ (binExp y - 52) := by
    rw [ulp_eq_zpow, max_eq_left hn]
  have hsplit : (2 : ℚ) ^ binExp y = (2 : ℚ) ^ (52 : Int) * ulp y := by
    rw [hue, ← zpow_add₀ (by norm_num : (2 : ℚ) ≠ 0)]
    congr 1; ring
  have h1 : ((((2 : Int) ^ 52 : Int)) : ℚ) ≤ y / ulp y := by
    rw [le_div_iff₀ hu, ← two_zpow_52, ← hsplit]
    exact s1
  have h2 := roundHalfEven_mono _ _ h1
  rw [roundHalfEven_intCast] at h2
  have h3 : (2 : ℚ) ^ (52 : Int) ≤ (roundHalfEven (y / ulp y) : ℚ) := by
    rw [two_zpow_52]
    exact_mod_cast h2
  unfold nearest
  rw [hsplit]
  exact mul_le_mul_of_nonneg_right h3 hu.le

/-- Rounding is monotone on the non-negative values. -/
theorem nearest_mono (x y : ℚ) (hx : 0 ≤ x) (h : x ≤ y) : nearest x ≤ nearest y := by
  rcases eq_or_lt_of_le hx with h0 | hpos
  · rw [← h0, nearest_zero]
    exact nearest_nonneg y (le_trans hx h)
  have hy : 0 < y := lt_of_lt_of_le hpos h
  have he : binExp x ≤ binExp y :=
    binExp_mono x y hpos.ne' (by rw [abs_of_pos hpos, abs_of_pos hy]; exact h)
  have hE : max (binExp x) (-1022) ≤ max (binExp y) (-1022) := max_le_max he le_rfl
  rcases eq_or_lt_of_le hE with heq | hlt
  · have hu : ulp x = ulp y := by
      rw [ulp_eq_zpow, ulp_eq_zpow, heq]
    unfold nearest
    rw [hu]
    have hpos2 := ulp_pos y
    have hdiv : x / ulp y ≤ y / ulp y := div_le_div_of_nonneg_right h hpos2.le
    have := roundHalfEven_mono _ _ hdiv
    have hc : (roundHalfEven (x / ulp y) : ℚ) ≤ (roundHalfEven (y / ulp y) : ℚ) := by
      exact_mod_cast this
    exact mul_le_mul_of_nonneg_right hc hpos2.le
  · have hn : -1022 ≤ binExp y := by
      by_contra hc
      have : max (binExp y) (-1022) = -1022 := max_eq_right (by omega)
      have := le_max_right (binExp x) (-1022)
      omega
    have hEy : max (binExp y) (-1022) = binExp y := max_eq_left hn
    calc nearest x ≤ (2 : ℚ) ^ (max (binExp x) (-1022) + 1) := nearest_le_pow x
      _ ≤ (2 : ℚ) ^ binExp y := two_zpow_le _ _ (by omega)
      _ ≤ nearest y := pow_le_nearest y hy hn

/-- A value below a non-negative `float64` value rounds to at most that value. -/
theorem nearest_le_of_le (x d : ℚ) (hd : nearest d = d) (h0 : 0 ≤ d) (h : x ≤ d) :
    nearest x ≤ d := by
  rcases le_or_lt x 0 with hx | hx
  · exact le_trans (nearest_nonpos x hx) h0
  · rw [← hd]
    exact nearest_mono x d hx.le h

/-- A value above a non-negative `float64` value rounds to at least that value. -/
theorem le_nearest_of_le (x d : ℚ) (hd : nearest d = d) (h0 : 0 ≤ d) (h : d ≤ x) :
    d ≤ nearest x := by
  rw [← hd]
  exact nearest_mono d x h0 h

theorem nearest_rep_eq (d : ℚ) (k j : Int) (hk : |k| < 2 ^ 53) (hj : -1074 ≤ j)
    (he : d = (k : ℚ) * (2 : ℚ) ^ j) : nearest d = d := by
  rw [he]
  exact nearest_of_rep k j hk hj

theorem pow2_1024_ge : (256 : ℚ) ≤ pow2 1024 := by
  rw [pow2_eq_zpow]
  have h := two_zpow_le 8 1024 (by norm_num)
  have e : (2 : ℚ) ^ (8 : Int) = 256 := by norm_num
  linarith

theorem ClampF64_fin_literal (v : ℚ) : ClampF64 (.fin v) 0 255 = .fin (max 0 (min 255 v)) := by
  have h := ClampF64_fin v
  simp only [MinUint8, MaxUint8, Nat.cast_zero, Nat.cast_ofNat] at h
  exact h

theorem floor_255 : ⌊(255 : ℚ)⌋ = 255 := by
  rw [Int.floor_eq_iff]; constructor <;> norm_num

/-- The sample stored for a rounded sum, in terms of the rounding `nearest`. -/
theorem store_round (y : ℚ) :
    toUint8 (ClampF64 (F64.round y) 0 255) = ⌊max 0 (min 255 (nearest y))⌋.toNat := by
  rw [F64_round_eq]
  have hp := pow2_1024_ge
  split_ifs with h1 h2
  · have e : ClampF64 .posInf 0 255 = .fin 255 := by decide!
    rw [e, toUint8_fin_of_range 255 (by norm_num) le_rfl, min_eq_left (by linarith),
      max_eq_right (by norm_num)]
  · have e : ClampF64 .negInf 0 255 = .fin 0 := by decide!
    rw [e, toUint8_fin_of_range 0 le_rfl (by norm_num), min_eq_right (by linarith),
      max_eq_left (by linarith)]
  · rw [ClampF64_fin_literal, toUint8_fin_of_range _ (le_max_left _ _)
      (max_le (by norm_num) (min_le_left _ _))]

/-- A `float64` value in [1/4, 1/2) other than the predecessor of 1/2 is at most
1/2 - 2^-53. -/
theorem double_below_half (q : ℚ) (hd : nearest q = q) (h1 : 1 / 4 ≤ q) (h2 : q < 1 / 2)
    (hne : q ≠ 1 / 2 - 1 / 2 ^ 54) : q ≤ 1 / 2 - 1 / 2 ^ 53 := by
  have hq0 : 0 < q := by linarith
  have he : binExp q = -2 := by
    apply binExp_unique
    · rw [abs_of_pos hq0]
      have : (2 : ℚ) ^ (-2 : Int) = 1 / 4 := by norm_num
      rw [this]; exact h1
    · rw [abs_of_pos hq0]
      have : (2 : ℚ) ^ ((-2 : Int) + 1) = 1 / 2 := by norm_num
      rw [this]; exact h2
  have hu : ulp q = 1 / 2 ^ 54 := by
    rw [ulp_eq_zpow, he]
    norm_num
  unfold nearest at hd
  rw [hu] at hd
  set k : Int := roundHalfEven (q / (1 / 2 ^ 54)) with hk
  have hk1 : (k : ℚ) < ((2 ^ 53 : Int) : ℚ) := by
    push_cast
    have : (k : ℚ) * (1 / 2 ^ 54) < 1 / 2 := by rw [hd]; exact h2
    have h3 : (k : ℚ) = (k : ℚ) * (1 / 2 ^ 54) * 2 ^ 54 := by field_simp
    rw [h3]
    have : (k : ℚ) * (1 / 2 ^ 54) * 2 ^ 54 < 1 / 2 * 2 ^ 54 :=
      mul_lt_mul_of_pos_right this (by positivity)
    linarith
  have hk2 : k < 2 ^ 53 := by exact_mod_cast hk1
  have hk3 : k ≠ 2 ^ 53 - 1 := by
    intro hc
    apply hne
    rw [← hd, hc]
    push_cast
    norm_num
  have hk4 : k ≤ 2 ^ 53 - 2 := by omega
  have hk5 : (k : ℚ) ≤ ((2 ^ 53 - 2 : Int) : ℚ) := by exact_mod_cast hk4
  rw [← hd]
  have : (k : ℚ) * (1 / 2 ^ 54) ≤ ((2 ^ 53 - 2 : Int) : ℚ) * (1 / 2 ^ 54) :=
    mul_le_mul_of_nonneg_right hk5 (by positivity)
  refine le_trans this ?_
  push_cast
  norm_num

/-- For a `float64` value `q` in [1, 255) whose sum `q + 1/2` lies in the upper half of a
unit interval, the sum is a `float64` value. -/
theorem double_add_half (q : ℚ) (n : Int) (hd : nearest q = q) (hn1 : 1 ≤ n)
    (hn2 : n ≤ 254) (hq : (n : ℚ) ≤ q) (hy : q + 1 / 2 < (n : ℚ) + 1) :
    nearest (q + 1 / 2) = q + 1 / 2 := by
  have hnq : (1 : ℚ) ≤ (n : ℚ) := by exact_mod_cast hn1
  have hnq2 : (n : ℚ) ≤ 254 := by exact_mod_cast hn2
  have hq0 : 0 < q := by linarith
  obtain ⟨s1, s2⟩ := binExp_spec q hq0.ne'
  rw [abs_of_pos hq0] at s1 s2
  have he0 : 0 ≤ binExp q := by
    have : (2 : ℚ) ^ (0 : Int) < (2 : ℚ) ^ (binExp q + 1) := by
      rw [zpow_zero]; linarith
    have := (two_zpow_lt_iff _ _).mp this
    omega
  have he7 : binExp q ≤ 7 := by
    have : (2 : ℚ) ^ binExp q < (2 : ℚ) ^ (8 : Int) := by
      have e : (2 : ℚ) ^ (8 : Int) = 256 := by norm_num
      rw [e]; linarith
    have := (two_zpow_lt_iff _ _).mp this
    omega
  set e : Int := binExp q with hedef
  have hu : ulp q = (2 : ℚ) ^ (e - 52) := by
    rw [ulp_eq_zpow, max_eq_left (by omega)]
  have hp := two_zpow_pos (e - 52)
  -- q is a multiple of 2^(e-52)
  have hgrid : q = (roundHalfEven (q / ulp q) : ℚ) * (2 : ℚ) ^ (e - 52) := by
    have := hd
    unfold nearest at this
    rw [hu] at this ⊢
    exact this.symm
  set k : Int := roundHalfEven (q / ulp q) with hk
  -- 1/2 is a multiple of 2^(e-52)
  have hhalf : (1 / 2 : ℚ) = (((2 : Int) ^ (51 - e).toNat : Int) : ℚ) * (2 : ℚ) ^ (e - 52) := by
    rw [← two_zpow_int (51 - e) (by omega), ← zpow_add₀ (by norm_num : (2 : ℚ) ≠ 0)]
    rw [show 51 - e + (e - 52) = -1 by ring]
    norm_num
  have hsum : q + 1 / 2 = ((k + (2 : Int) ^ (51 - e).toNat : Int) : ℚ) * (2 : ℚ) ^ (e - 52) := by
    rw [Int.cast_add, add_mul, ← hhalf, ← hgrid]
  -- the sum stays below 2^(e+1)
  have hP : q + 1 / 2 < (2 : ℚ) ^ (e + 1) := by
    have hpi : (2 : ℚ) ^ (e + 1) = (((2 : Int) ^ (e + 1).toNat : Int) : ℚ) :=
      two_zpow_int (e + 1) (by omega)
    rw [hpi] at s2 ⊢
    have h1 : (n : ℚ) < (((2 : Int) ^ (e + 1).toNat : Int) : ℚ) := lt_of_le_of_lt hq s2
    have h2 : n < (2 : Int) ^ (e + 1).toNat := by exact_mod_cast h1
    have h3 : n + 1 ≤ (2 : Int) ^ (e + 1).toNat := by omega
    have h4 : ((n + 1 : Int) : ℚ) ≤ (((2 : Int) ^ (e + 1).toNat : Int) : ℚ) := by
      exact_mod_cast h3
    push_cast at h4 ⊢
    linarith
  have hsplit : (2 : ℚ) ^ (e + 1) = (2 : ℚ) ^ (53 : Int) * (2 : ℚ) ^ (e - 52) := by
    rw [← zpow_add₀ (by norm_num : (2 : ℚ) ≠ 0)]
    congr 1; ring
  have hk1 : ((k + (2 : Int) ^ (51 - e).toNat : Int) : ℚ) < (2 : ℚ) ^ (53 : Int) := by
    rw [hsum, hsplit] at hP
    exact lt_of_mul_lt_mul_right hP hp.le
  have hk0 : (0 : ℚ) < ((k + (2 : Int) ^ (51 - e).toNat : Int) : ℚ) := by
    have : 0 < q + 1 / 2 := by linarith
    rw [hsum] at this
    by_contra hc
    have := mul_nonpos_of_nonpos_of_nonneg (not_lt.mp hc) hp.le
    linarith
  rw [two_zpow_53] at hk1
  have a : k + (2 : Int) ^ (51 - e).toNat < 2 ^ 53 := by exact_mod_cast hk1
  have b : 0 < k + (2 : Int) ^ (51 - e).toNat := by exact_mod_cast hk0
  apply nearest_rep_eq _ _ (e - 52) _ (by omega) hsum
  rw [abs_lt]
  constructor <;> omega

/-- The stored sample `uint8(ClampF64(q + 0.5, 0, 255))` of a `float64` quotient `q` other
than the predecessor of 1/2 is `round(q)` saturated to [0, 255]. -/
theorem quantize_double (q : ℚ) (hd : nearest q = q) (hne : q ≠ 1 / 2 - 1 / 2 ^ 54) :
    toUint8 (ClampF64 (F64.round (q + 1 / 2)) 0 255)
      = (min 255 (max 0 (toInt (mathRound q)))).toNat := by
  rw [store_round]
  have half_rep : nearest (1 / 2 : ℚ) = 1 / 2 :=
    nearest_rep_eq _ 1 (-1) (by norm_num) (by norm_num) (by norm_num)
  by_cases hq : q < 0
  · have hr : nearest (q + 1 / 2) ≤ 1 / 2 :=
      nearest_le_of_le _ _ half_rep (by norm_num) (by linarith)
    have hm : mathRound q = ((⌈q - 1 / 2⌉ : Int) : ℚ) := by
      unfold mathRound; rw [if_neg (not_le.mpr hq)]
    have hc : ⌈q - 1 / 2⌉ ≤ 0 := by
      rw [Int.ceil_le]; push_cast; linarith
    rw [hm, toInt_intCast]
    have hfl : ⌊max 0 (min 255 (nearest (q + 1 / 2)))⌋ = 0 := by
      rw [Int.floor_eq_iff]
      constructor
      · push_cast; exact le_max_left _ _
      · push_cast
        have : min 255 (nearest (q + 1 / 2)) ≤ 1 / 2 := le_trans (min_le_right _ _) hr
        have : max 0 (min 255 (nearest (q + 1 / 2))) ≤ 1 / 2 := max_le (by norm_num) this
        linarith
    rw [hfl]
    omega
  have hq0 : 0 ≤ q := not_lt.mp hq
  have hm : mathRound q = ((⌊q + 1 / 2⌋ : Int) : ℚ) := by
    unfold mathRound; rw [if_pos hq0]
  rw [hm, toInt_intCast]
  have hfl1 := Int.floor_le (q + 1 / 2)
  have hfl2 := Int.lt_floor_add_one (q + 1 / 2)
  set n : Int := ⌊q + 1 / 2⌋ with hn
  have hn0 : 0 ≤ n := Int.floor_nonneg.mpr (by linarith)
  have hnq0 : (0 : ℚ) ≤ (n : ℚ) := by exact_mod_cast hn0
  by_cases hbig : 255 ≤ n
  · have h255 : nearest (255 : ℚ) = 255 :=
      nearest_rep_eq _ 255 0 (by norm_num) (by norm_num) (by norm_num)
    have hnq : (255 : ℚ) ≤ (n : ℚ) := by exact_mod_cast hbig
    have hr : 255 ≤ nearest (q + 1 / 2) :=
      le_nearest_of_le _ _ h255 (by norm_num) (by linarith)
    rw [min_eq_left hr, max_eq_right (by norm_num), floor_255]
    omega
  have hn254 : n ≤ 254 := by omega
  have hnq254 : (n : ℚ) ≤ 254 := by exact_mod_cast hn254
  have hnrep : nearest (n : ℚ) = (n : ℚ) :=
    nearest_intCast n (by rw [abs_lt]; constructor <;> omega)
  have hlow : (n : ℚ) ≤ nearest (q + 1 / 2) := le_nearest_of_le _ _ hnrep hnq0 hfl1
  have hup : nearest (q + 1 / 2) < (n : ℚ) + 1 := by
    by_cases hfrac : q + 1 / 2 < (n : ℚ) + 1 / 2
    · have hrep : nearest ((n : ℚ) + 1 / 2) = (n : ℚ) + 1 / 2 := by
        apply nearest_rep_eq _ (2 * n + 1) (-1) _ (by norm_num)
        · push_cast
          rw [show (2 : ℚ) ^ (-1 : Int) = 1 / 2 by norm_num]
          ring
        · rw [abs_lt]; constructor <;> omega
      have := nearest_le_of_le _ _ hrep (by linarith) hfrac.le
      linarith
    · have hge : (n : ℚ) + 1 / 2 ≤ q + 1 / 2 := not_lt.mp hfrac
      by_cases hz : n = 0
      · rw [hz] at hfl2 hge ⊢
        simp only [Int.cast_zero, zero_add] at hfl2 hge ⊢
        have hq2 : q < 1 / 2 := by linarith
        have hq3 : q ≤ 1 / 2 - 1 / 2 ^ 53 := by
          by_cases h4 : q < 1 / 4
          · have : (1 / 4 : ℚ) ≤ 1 / 2 - 1 / 2 ^ 53 := by norm_num
            linarith
          · exact double_below_half q hd (not_lt.mp h4) hq2 hne
        have hrep : nearest (1 - 1 / 2 ^ 53 : ℚ) = 1 - 1 / 2 ^ 53 := by
          apply nearest_rep_eq _ (2 ^ 53 - 1) (-53) _ (by norm_num)
          · push_cast
            norm_num
          · norm_num
        have := nearest_le_of_le (q + 1 / 2) _ hrep (by norm_num) (by linarith)
        have h5 : (1 - 1 / 2 ^ 53 : ℚ) < 1 := by norm_num
        linarith
      · have hn1 : 1 ≤ n := by omega
        have hrep := double_add_half q n hd hn1 hn254 (by linarith) hfl2
        rw [hrep]
        exact hfl2
  have hnn : (0 : ℚ) ≤ nearest (q + 1 / 2) := le_trans hnq0 hlow
  have hlt : nearest (q + 1 / 2) ≤ 255 := by linarith
  rw [min_eq_right hlt, max_eq_right hnn]
  have : ⌊nearest (q + 1 / 2)⌋ = n := by
    rw [Int.floor_eq_iff]
    exact ⟨hlow, hup⟩
  rw [this]
  omega

/-! ## Claim C9: rounding and saturation of a stored sample, with rounded arithmetic -/

/-- C9 (evaluation at the failing input): q = 9007199254740991 / 2^54 = 0.5 - 2^-54 is the
largest `float64` below 0.5, so round(q) = 0; the sum q + 0.5 = 1 - 2^-54 lies half-way
between the neighbouring `float64` values 1 - 2^-53 and 1 and is rounded to 1.0, so the
code stores 1.  The quotient occurs in a pass: for the row [0, 1] with
fx = 5.5 + 2^-50 (the `float64` 5.500000000000001), fy = 1 and InterLinear, output index 5
has fPix/sum = q and ResizeGray stores 1 there. -/
theorem C9_rounded_half_counterexample :
    F64.round (9007199254740991 / 18014398509481984)
      = .fin (9007199254740991 / 18014398509481984) ∧
    (9007199254740991 / 18014398509481984 : ℚ) = 1 / 2 - 1 / 2 ^ 54 ∧
    F64.fdiv (.fin (9007199254740991 / 18014398509481984)) (.fin 1)
      = .fin (9007199254740991 / 18014398509481984) ∧
    Machine.quantize (.fin (9007199254740991 / 18014398509481984)) (.fin 1) = 1 ∧
    (min 255 (max 0 (toInt (mathRound (9007199254740991 / 18014398509481984))))).toNat = 0 ∧
    F64.round (6192449487634433 / 1125899906842624)
      = .fin (6192449487634433 / 1125899906842624) ∧
    F64.fdiv
      (Machine.accumulate Machine.NewLinear (.fin (6192449487634433 / 1125899906842624))
        (Machine.sourceCoord (.fin (6192449487634433 / 1125899906842624)) 5)
        (Machine.windowStart Machine.NewLinear (.fin (6192449487634433 / 1125899906842624)) 2 5)
        (Machine.windowStop Machine.NewLinear (.fin (6192449487634433 / 1125899906842624)) 2 5)
        (fun i => (Gray.ofRows 2 [[0, 1]]).GrayAt i 0)).1
      (Machine.accumulate Machine.NewLinear (.fin (6192449487634433 / 1125899906842624))
        (Machine.sourceCoord (.fin (6192449487634433 / 1125899906842624)) 5)
        (Machine.windowStart Machine.NewLinear (.fin (6192449487634433 / 1125899906842624)) 2 5)
        (Machine.windowStop Machine.NewLinear (.fin (6192449487634433 / 1125899906842624)) 2 5)
        (fun i => (Gray.ofRows 2 [[0, 1]]).GrayAt i 0)).2
      = .fin (9007199254740991 / 18014398509481984) ∧
    (Machine.ResizeGray Machine.NewLinear Machine.NewLinear (Gray.ofRows 2 [[0, 1]])
        (.fin (6192449487634433 / 1125899906842624)) (.fin 1) InterLinear).map
        (fun r => r.toOption.map Gray.rows)
      = some (some [[0, 0, 0, 0, 0, 1, 1, 1, 1, 1, 1]]) := by
  refine ⟨by decide!, by norm_num, by decide!, by decide!, by decide!, by decide!, by decide!,
    by decide!⟩

/-- C9 (amended): in the horizontal and vertical passes the stored value is
uint8(ClampF64(q + 0.5, 0, 255)), where q is the `float64` quotient fPix/sum and the sum
q + 0.5 is rounded to `float64`.  For every finite q other than 0.5 - 2^-54 (the largest
`float64` below 0.5) the stored value equals round(q) saturated to [0, 255], that is
min(255, max(0, round(q))), including negative q and q >= 254.5; when the quotient is
+Inf the stored value is 255 and when it is -Inf the stored value is 0. -/
theorem C9_rounded_quantize (fPix sum : F64) :
    (∀ q : ℚ, F64.fdiv fPix sum = .fin q → q ≠ 1 / 2 - 1 / 2 ^ 54 →
      Machine.quantize fPix sum = (min 255 (max 0 (toInt (mathRound q)))).toNat) ∧
    (F64.fdiv fPix sum = .posInf → Machine.quantize fPix sum = 255) ∧
    (F64.fdiv fPix sum = .negInf → Machine.quantize fPix sum = 0) := by
  refine ⟨?_, ?_, ?_⟩
  · intro q hq hne
    have hd : nearest q = q := by
      cases fPix with
      | fin x =>
        cases sum with
        | fin y =>
          unfold F64.fdiv at hq
          simp only at hq
          split_ifs at hq with h1 h2 h3
          exact nearest_of_round _ _ hq
        | posInf =>
          have e : q = 0 := by
            have : F64.fin 0 = F64.fin q := hq
            injection this with h
            exact h.symm
          rw [e]; exact nearest_zero
        | negInf =>
          have e : q = 0 := by
            have : F64.fin 0 = F64.fin q := hq
            injection this with h
            exact h.symm
          rw [e]; exact nearest_zero
        | nan => exact absurd hq (by simp [F64.fdiv])
      | posInf =>
        cases sum with
        | fin y =>
          unfold F64.fdiv at hq
          simp only at hq
          split_ifs at hq
        | posInf => exact absurd hq (by simp [F64.fdiv])
        | negInf => exact absurd hq (by simp [F64.fdiv])
        | nan => exact absurd hq (by simp [F64.fdiv])
      | negInf =>
        cases sum with
        | fin y =>
          unfold F64.fdiv at hq
          simp only at hq
          split_ifs at hq
        | posInf => exact absurd hq (by simp [F64.fdiv])
        | negInf => exact absurd hq (by simp [F64.fdiv])
        | nan => exact absurd hq (by simp [F64.fdiv])
      | nan => exact absurd hq (by simp [F64.fdiv])
    unfold Machine.quantize
    rw [hq]
    exact quantize_double q hd hne
  · intro hq
    unfold Machine.quantize
    rw [hq]
    decide!
  · intro hq
    unfold Machine.quantize
    rw [hq]
    decide!

/-- Witness of the amended C9: accumulators 509 and 2 (quotient 254.5, stored 255),
accumulators 1 and 3 (the quotient is the `float64` nearest to 1/3, stored 0), and
accumulators -7 and 2 (quotient -3.5, stored 0). -/
theorem C9_rounded_quantize_witness :
    (F64.fdiv (.fin 509) (.fin 2) = .fin (509 / 2) ∧ (509 / 2 : ℚ) ≠ 1 / 2 - 1 / 2 ^ 54 ∧
      Machine.quantize (.fin 509) (.fin 2)
        = (min 255 (max 0 (toInt (mathRound (509 / 2))))).toNat ∧
      Machine.quantize (.fin 509) (.fin 2) = 255) ∧
    (F64.fdiv (.fin 1) (.fin 3) = .fin (6004799503160661 / 18014398509481984) ∧
      (6004799503160661 / 18014398509481984 : ℚ) ≠ 1 / 2 - 1 / 2 ^ 54 ∧
      Machine.quantize (.fin 1) (.fin 3)
        = (min 255 (max 0 (toInt (mathRound (6004799503160661 / 18014398509481984))))).toNat ∧
      Machine.quantize (.fin 1) (.fin 3) = 0) ∧
    (F64.fdiv (.fin (-7)) (.fin 2) = .fin (-7 / 2) ∧ (-7 / 2 : ℚ) ≠ 1 / 2 - 1 / 2 ^ 54 ∧
      Machine.quantize (.fin (-7)) (.fin 2)
        = (min 255 (max 0 (toInt (mathRound (-7 / 2))))).toNat ∧
      Machine.quantize (.fin (-7)) (.fin 2) = 0) :=
  ⟨⟨by decide!, by norm_num,
      (C9_rounded_quantize (.fin 509) (.fin 2)).1 (509 / 2) (by decide!) (by norm_num),
      by decide!⟩,
    ⟨by decide!, by norm_num,
      (C9_rounded_quantize (.fin 1) (.fin 3)).1 (6004799503160661 / 18014398509481984)
        (by decide!) (by norm_num),
      by decide!⟩,
    ⟨by decide!, by norm_num,
      (C9_rounded_quantize (.fin (-7)) (.fin 2)).1 (-7 / 2) (by decide!) (by norm_num),
      by decide!⟩⟩

/-! ## Further properties of the rounding: symmetry, monotonicity, relative error -/

theorem roundHalfEven_neg (m : ℚ) : roundHalfEven (-m) = -roundHalfEven m := by
  by_cases hint : ((⌊m⌋ : Int) : ℚ) = m
  · rw [← hint, ← Int.cast_neg, roundHalfEven_intCast, roundHalfEven_intCast]
  · have h1 := Int.floor_le m
    have h2 := Int.lt_floor_add_one m
    have hlt : ((⌊m⌋ : Int) : ℚ) < m := lt_of_le_of_ne h1 hint
    have hfl : ⌊-m⌋ = -⌊m⌋ - 1 := by
      rw [Int.floor_eq_iff]
      push_cast
      constructor <;> linarith
    unfold roundHalfEven
    simp only
    rw [hfl]
    push_cast
    split_ifs <;> first | omega | (exfalso; linarith)

theorem binExp_neg (q : ℚ) : binExp (-q) = binExp q := by
  by_cases hq : q = 0
  · rw [hq, neg_zero]
  · obtain ⟨s1, s2⟩ := binExp_spec q hq
    apply binExp_unique
    · rw [abs_neg]; exact s1
    · rw [abs_neg]; exact s2

theorem ulp_neg (q : ℚ) : ulp (-q) = ulp q := by
  unfold ulp
  rw [binExp_neg]

theorem nearest_neg (q : ℚ) : nearest (-q) = -nearest q := by
  unfold nearest
  rw [ulp_neg, neg_div, roundHalfEven_neg]
  push_cast
  ring

/-- Rounding is monotone. -/
theorem nearest_mono_all (x y : ℚ) (h : x ≤ y) : nearest x ≤ nearest y := by
  rcases le_or_lt 0 x with hx | hx
  · exact nearest_mono x y hx h
  · rcases le_or_lt 0 y with hy | hy
    · exact le_trans (nearest_nonpos x hx.le) (nearest_nonneg y hy)
    · have := nearest_mono (-y) (-x) (by linarith) (by linarith)
      rw [nearest_neg, nearest_neg] at this
      linarith

/-- A value below a `float64` value rounds to at most that value. -/
theorem nearest_le_anchor (x d : ℚ) (hd : nearest d = d) (h : x ≤ d) : nearest x ≤ d := by
  rw [← hd]
  exact nearest_mono_all x d h

/-- A value above a `float64` value rounds to at least that value. -/
theorem anchor_le_nearest (x d : ℚ) (hd : nearest d = d) (h : d ≤ x) : d ≤ nearest x := by
  rw [← hd]
  exact nearest_mono_all d x h

theorem nearest_err (z : ℚ) : |nearest z - z| ≤ ulp z / 2 := by
  have hu := ulp_pos z
  obtain ⟨a, b⟩ := roundHalfEven_near (z / ulp z)
  have e : z = z / ulp z * ulp z := by field_simp
  unfold nearest
  rw [abs_le]
  constructor
  · have : ((roundHalfEven (z / ulp z) : ℚ) - z / ulp z) * ulp z ≥ -(1 / 2) * ulp z :=
      mul_le_mul_of_nonneg_right (by linarith) hu.le
    nlinarith [e]
  · have : ((roundHalfEven (z / ulp z) : ℚ) - z / ulp z) * ulp z ≤ (1 / 2) * ulp z :=
      mul_le_mul_of_nonneg_right (by linarith) hu.le
    nlinarith [e]

theorem ulp_le_of_normal (z : ℚ) (hz : (2 : ℚ) ^ (-1022 : Int) ≤ |z|) :
    ulp z ≤ |z| / 2 ^ 52 := by
  have hz0 : z ≠ 0 := by
    rintro rfl
    rw [abs_zero] at hz
    exact absurd hz (not_le.mpr (two_zpow_pos _))
  obtain ⟨s1, s2⟩ := binExp_spec z hz0
  have he : -1022 ≤ binExp z := by
    have := (two_zpow_lt_iff _ _).mp (lt_of_le_of_lt hz s2)
    omega
  rw [ulp_eq_zpow, max_eq_left he, le_div_iff₀ (by positivity)]
  have e : (2 : ℚ) ^ (binExp z - 52) * 2 ^ 52 = (2 : ℚ) ^ binExp z := by
    have : (2 : ℚ) ^ (52 : Nat) = (2 : ℚ) ^ (52 : Int) := by norm_num
    rw [this, ← zpow_add₀ (by norm_num : (2 : ℚ) ≠ 0)]
    congr 1
    ring
  rw [e]
  exact s1

/-- The relative error of a rounding in the normal range is at most 2^-53. -/
theorem nearest_rel (z : ℚ) (hz : (2 : ℚ) ^ (-1022 : Int) ≤ z) :
    z * (1 - 1 / 2 ^ 53) ≤ nearest z ∧ nearest z ≤ z * (1 + 1 / 2 ^ 53) := by
  have hz0 : 0 < z := lt_of_lt_of_le (two_zpow_pos _) hz
  have h1 := nearest_err z
  have h2 := ulp_le_of_normal z (by rw [abs_of_pos hz0]; exact hz)
  rw [abs_of_pos hz0] at h2
  rw [abs_le] at h1
  have e : z / 2 ^ 52 / 2 = z * (1 / 2 ^ 53) := by ring
  constructor
  · have := h1.1
    linarith
  · have := h1.2
    linarith

/-- A rounding of moderate size does not overflow. -/
theorem F64_round_fin (z : ℚ) (h1 : -(2 : ℚ) ^ 200 ≤ z) (h2 : z ≤ (2 : ℚ) ^ 200) :
    F64.round z = .fin (nearest z) ∧ -(2 : ℚ) ^ 200 ≤ nearest z ∧ nearest z ≤ (2 : ℚ) ^ 200 := by
  have hcast : (2 : ℚ) ^ (200 : Nat) = (2 : ℚ) ^ (200 : Int) := by norm_cast
  have hrep : nearest ((2 : ℚ) ^ 200) = (2 : ℚ) ^ 200 := by
    apply nearest_rep_eq _ 1 200 (by norm_num) (by norm_num)
    rw [Int.cast_one, one_mul, hcast]
  have hrepn : nearest (-(2 : ℚ) ^ 200) = -(2 : ℚ) ^ 200 := by
    rw [nearest_neg, hrep]
  have a := anchor_le_nearest z _ hrepn h1
  have b := nearest_le_anchor z _ hrep h2
  refine ⟨?_, a, b⟩
  rw [F64_round_eq]
  have hp : (2 : ℚ) ^ 200 < pow2 1024 := by
    rw [pow2_eq_zpow, hcast]
    exact (two_zpow_lt_iff _ _).mpr (by norm_num)
  rw [if_neg (by linarith), if_neg (by linarith)]

/-- A `float64` value of at least 1/2 is a multiple of 2^-53. -/
theorem double_grid (d : ℚ) (hd : nearest d = d) (h : 1 / 2 ≤ d) :
    ∃ k : Int, d = (k : ℚ) / 2 ^ 53 := by
  have hd0 : 0 < d := by linarith
  obtain ⟨s1, s2⟩ := binExp_spec d hd0.ne'
  rw [abs_of_pos hd0] at s1 s2
  have he : -1 ≤ binExp d := by
    have : (2 : ℚ) ^ (-1 : Int) < (2 : ℚ) ^ (binExp d + 1) := by
      have e : (2 : ℚ) ^ (-1 : Int) = 1 / 2 := by norm_num
      rw [e]; linarith
    have := (two_zpow_lt_iff _ _).mp this
    omega
  have hu : ulp d = (2 : ℚ) ^ (binExp d - 52) := by
    rw [ulp_eq_zpow, max_eq_left (by omega)]
  have hsplit : (2 : ℚ) ^ (binExp d - 52) = (2 : ℚ) ^ (binExp d + 1) / 2 ^ 53 := by
    rw [eq_div_iff (by positivity)]
    have : (2 : ℚ) ^ (53 : Nat) = (2 : ℚ) ^ (53 : Int) := by norm_cast
    rw [this, ← zpow_add₀ (by norm_num : (2 : ℚ) ≠ 0)]
    congr 1
    ring
  set k : Int := roundHalfEven (d / ulp d) with hk
  have hform : d = (k : ℚ) * ulp d := by
    have := hd
    unfold nearest at this
    exact this.symm
  refine ⟨k * (2 : Int) ^ (binExp d + 1).toNat, ?_⟩
  rw [Int.cast_mul, ← two_zpow_int _ (by omega : 0 ≤ binExp d + 1), mul_div_assoc, ← hsplit,
    ← hu]
  exact hform

/-- A non-negative `float64` value below an integer `m ≥ 1` is at most `m - 2^-53`. -/
theorem double_lt_int (d : ℚ) (m : Int) (hd : nearest d = d) (hm : 1 ≤ m)
    (h : d < (m : ℚ)) : d ≤ (m : ℚ) - 1 / 2 ^ 53 := by
  have hmq : (1 : ℚ) ≤ (m : ℚ) := by exact_mod_cast hm
  rcases lt_or_le d (1 / 2) with hlt | hge
  · have : (1 / 2 : ℚ) ≤ 1 - 1 / 2 ^ 53 := by norm_num
    linarith
  · obtain ⟨k, hk⟩ := double_grid d hd hge
    have h1 : (k : ℚ) < ((m * 2 ^ 53 : Int) : ℚ) := by
      push_cast
      rw [hk, div_lt_iff₀ (by positivity)] at h
      exact h
    have h2 : k < m * 2 ^ 53 := by exact_mod_cast h1
    have h3 : k ≤ m * 2 ^ 53 - 1 := by omega
    have h4 : (k : ℚ) ≤ ((m * 2 ^ 53 - 1 : Int) : ℚ) := by exact_mod_cast h3
    rw [hk, div_le_iff₀ (by positivity)]
    push_cast at h4
    have : ((m : ℚ) - 1 / 2 ^ 53) * 2 ^ 53 = (m : ℚ) * 2 ^ 53 - 1 := by
      field_simp
    rw [this]
    exact h4

/-! ## The operations on finite operands of moderate size -/

theorem F64_fadd_fin (a b : ℚ) (h1 : -(2 : ℚ) ^ 200 ≤ a + b) (h2 : a + b ≤ (2 : ℚ) ^ 200) :
    F64.fadd (.fin a) (.fin b) = .fin (nearest (a + b)) :=
  (F64_round_fin (a + b) h1 h2).1

theorem F64_fsub_fin (a b : ℚ) (h1 : -(2 : ℚ) ^ 200 ≤ a - b) (h2 : a - b ≤ (2 : ℚ) ^ 200) :
    F64.fsub (.fin a) (.fin b) = .fin (nearest (a - b)) := by
  have h := (F64_round_fin (a + -b) (by linarith) (by linarith)).1
  have e : F64.fsub (.fin a) (.fin b) = F64.round (a + -b) := rfl
  rw [e, h, sub_eq_add_neg]

theorem F64_fmul_fin (a b : ℚ) (h1 : -(2 : ℚ) ^ 200 ≤ a * b) (h2 : a * b ≤ (2 : ℚ) ^ 200) :
    F64.fmul (.fin a) (.fin b) = .fin (nearest (a * b)) :=
  (F64_round_fin (a * b) h1 h2).1

theorem F64_fdiv_fin (a b : ℚ) (hb : b ≠ 0) (h1 : -(2 : ℚ) ^ 200 ≤ a / b)
    (h2 : a / b ≤ (2 : ℚ) ^ 200) :
    F64.fdiv (.fin a) (.fin b) = .fin (nearest (a / b)) := by
  unfold F64.fdiv
  simp only
  rw [if_neg hb]
  exact (F64_round_fin (a / b) h1 h2).1

theorem F64_ofInt_fin (n : Int) (h : |n| < 2 ^ 53) : F64.ofInt n = .fin (n : ℚ) := by
  unfold F64.ofInt
  have hq : |(n : ℚ)| < 2 ^ 53 := by
    have : ((|n| : Int) : ℚ) < ((2 ^ 53 : Int) : ℚ) := by exact_mod_cast h
    rw [Int.cast_abs] at this
    push_cast at this
    exact this
  rw [abs_lt] at hq
  have := (F64_round_fin (n : ℚ) (by have : (2 : ℚ) ^ 53 ≤ 2 ^ 200 := by norm_num
                                     linarith)
    (by have : (2 : ℚ) ^ 53 ≤ 2 ^ 200 := by norm_num
        linarith)).1
  rw [this, nearest_intCast n h]

/-- The conversion to `int` of the rounding of a value of at least 2^63 is `-2^63`. -/
theorem toInt_round_big (z : ℚ) (h : (2 : ℚ) ^ 63 ≤ z) :
    F64.toInt (F64.round z) = -(2 ^ 63) := by
  have hrep : nearest ((2 : ℚ) ^ 63) = (2 : ℚ) ^ 63 := by
    apply nearest_rep_eq _ 1 63 (by norm_num) (by norm_num)
    norm_num
  have hb := anchor_le_nearest z _ hrep h
  rw [F64_round_eq]
  split_ifs with h1 h2
  · rfl
  · rfl
  · unfold F64.toInt
    simp only
    rw [if_neg]
    intro hc
    linarith [hc.2]

/-- The stored sample of accumulators whose quotient is within 1/8 of the integer `v`. -/
theorem Machine_quantize_near (A S : ℚ) (v : Nat) (hv : v ≤ 255) (hS : 0 < S)
    (h1 : (v : ℚ) - 1 / 8 ≤ A / S) (h2 : A / S ≤ (v : ℚ) + 1 / 8) :
    Machine.quantize (.fin A) (.fin S) = v := by
  have hvq : (v : ℚ) ≤ 255 := by exact_mod_cast hv
  have hv0 : (0 : ℚ) ≤ (v : ℚ) := Nat.cast_nonneg v
  have big : (256 : ℚ) ≤ 2 ^ 200 := by norm_num
  unfold Machine.quantize
  rw [F64_fdiv_fin A S hS.ne' (by linarith) (by linarith)]
  have r1 : nearest ((v : ℚ) - 1 / 8) = (v : ℚ) - 1 / 8 := by
    apply nearest_rep_eq _ (8 * (v : Int) - 1) (-3) _ (by norm_num)
    · push_cast
      rw [show (2 : ℚ) ^ (-3 : Int) = 1 / 8 by norm_num]
      ring
    · rw [abs_lt]; constructor <;> omega
  have r2 : nearest ((v : ℚ) + 1 / 8) = (v : ℚ) + 1 / 8 := by
    apply nearest_rep_eq _ (8 * (v : Int) + 1) (-3) _ (by norm_num)
    · push_cast
      rw [show (2 : ℚ) ^ (-3 : Int) = 1 / 8 by norm_num]
      ring
    · rw [abs_lt]; constructor <;> omega
  have q1 := anchor_le_nearest _ _ r1 h1
  have q2 := nearest_le_anchor _ _ r2 h2
  set Q := nearest (A / S) with hQ
  have e : F64.fadd (.fin Q) (.fin (1 / 2)) = F64.round (Q + 1 / 2) := rfl
  rw [e, store_round]
  have r3 : nearest ((v : ℚ) + 3 / 8) = (v : ℚ) + 3 / 8 := by
    apply nearest_rep_eq _ (8 * (v : Int) + 3) (-3) _ (by norm_num)
    · push_cast
      rw [show (2 : ℚ) ^ (-3 : Int) = 1 / 8 by norm_num]
      ring
    · rw [abs_lt]; constructor <;> omega
  have r4 : nearest ((v : ℚ) + 5 / 8) = (v : ℚ) + 5 / 8 := by
    apply nearest_rep_eq _ (8 * (v : Int) + 5) (-3) _ (by norm_num)
    · push_cast
      rw [show (2 : ℚ) ^ (-3 : Int) = 1 / 8 by norm_num]
      ring
    · rw [abs_lt]; constructor <;> omega
  have p1 := anchor_le_nearest (Q + 1 / 2) _ r3 (by linarith)
  have p2 := nearest_le_anchor (Q + 1 / 2) _ r4 (by linarith)
  set r := nearest (Q + 1 / 2) with hr
  have hfl : ⌊max 0 (min 255 r)⌋ = (v : Int) := by
    rw [Int.floor_eq_iff]
    push_cast
    rcases le_total r 255 with hle | hge
    · rw [min_eq_right hle, max_eq_right (by linarith)]
      constructor <;> linarith
    · rw [min_eq_left hge, max_eq_right (by norm_num)]
      have hv2 : (254 : ℚ) < (v : ℚ) := by linarith
      have hv3 : 254 < v := by exact_mod_cast hv2
      have hv4 : v = 255 := by omega
      rw [hv4]
      constructor <;> norm_num
  rw [hfl]
  simp

/-! ## Geometry of a Linear pass with rounded arithmetic -/

theorem one_add_u_cube : ((1 : ℚ) + 1 / 2 ^ 53) ^ 3 ≤ 1 + 1 / 2 ^ 51 := by norm_num

/-- The computed length `L` of an axis: when `1 ≤ L ≤ 2^31`, the axis is not empty and the
product `n * f` is within a relative error `2^-53` of its rounding. -/
theorem Machine_newLength_facts (f : ℚ) (n : Int) (hf : 0 < f) (hn0 : 0 ≤ n) (hn : n ≤ 2 ^ 31)
    (hL1 : 1 ≤ Machine.newLength n (.fin f)) (hL2 : Machine.newLength n (.fin f) ≤ 2 ^ 31) :
    1 ≤ n ∧ 1 / 2 ≤ (n : ℚ) * f ∧ (n : ℚ) * f < 2 ^ 31 + 1 ∧
      ((Machine.newLength n (.fin f) : Int) : ℚ) ≤ (n : ℚ) * f * (1 + 1 / 2 ^ 53) := by
  have hnq0 : (0 : ℚ) ≤ (n : ℚ) := by exact_mod_cast hn0
  have hprod0 : 0 ≤ (n : ℚ) * f := mul_nonneg hnq0 hf.le
  have hof : F64.ofInt n = .fin (n : ℚ) := F64_ofInt_fin n (by rw [abs_lt]; constructor <;> omega)
  have hdef : Machine.newLength n (.fin f) = F64.toInt (F64.round ((n : ℚ) * f)) := by
    unfold Machine.newLength
    rw [hof]
    rfl
  rw [hdef] at hL1 hL2 ⊢
  have hsmall : (n : ℚ) * f < 2 ^ 63 := by
    by_contra hc
    rw [toInt_round_big _ (not_lt.mp hc)] at hL1
    omega
  have h200 : (2 : ℚ) ^ 63 ≤ 2 ^ 200 := by norm_num
  obtain ⟨hr, _, _⟩ := F64_round_fin ((n : ℚ) * f) (by linarith) (by linarith)
  rw [hr] at hL1 hL2 ⊢
  have hP0 : 0 ≤ nearest ((n : ℚ) * f) := nearest_nonneg _ hprod0
  set P := nearest ((n : ℚ) * f) with hP
  have hti : F64.toInt (.fin P) = ⌊P⌋ := by
    unfold F64.toInt
    simp only
    split_ifs with hc
    · exact toInt_of_nonneg P hP0
    · exfalso
      unfold F64.toInt at hL1
      simp only at hL1
      rw [if_neg hc] at hL1
      omega
  rw [hti] at hL1 hL2 ⊢
  have hP1 : (1 : ℚ) ≤ P := by
    have : ((1 : Int) : ℚ) ≤ P := Int.le_floor.mp hL1
    simpa using this
  have hhalf : 1 / 2 ≤ (n : ℚ) * f := by
    by_contra hc
    have hrep : nearest (1 / 2 : ℚ) = 1 / 2 :=
      nearest_rep_eq _ 1 (-1) (by norm_num) (by norm_num) (by norm_num)
    have := nearest_le_anchor _ _ hrep (not_le.mp hc).le
    linarith
  have hn1 : 1 ≤ n := by
    by_contra hc
    have : n = 0 := by omega
    rw [this] at hhalf
    norm_num at hhalf
  have hup : (n : ℚ) * f < 2 ^ 31 + 1 := by
    by_contra hc
    have hrep : nearest ((2 : ℚ) ^ 31 + 1) = 2 ^ 31 + 1 := by
      apply nearest_rep_eq _ (2 ^ 31 + 1) 0 (by norm_num) (by norm_num)
      norm_num
    have h1 := anchor_le_nearest _ _ hrep (not_lt.mp hc)
    have h2 : ((2 ^ 31 + 1 : Int) : ℚ) ≤ P := by
      have e : ((2 ^ 31 + 1 : Int) : ℚ) = 2 ^ 31 + 1 := by norm_num
      rw [e]
      exact h1
    have := Int.le_floor.mpr h2
    omega
  refine ⟨hn1, hhalf, hup, ?_⟩
  have hnorm : (2 : ℚ) ^ (-1022 : Int) ≤ (n : ℚ) * f := by
    have : (2 : ℚ) ^ (-1022 : Int) ≤ (2 : ℚ) ^ (-1 : Int) := two_zpow_le _ _ (by norm_num)
    have e : (2 : ℚ) ^ (-1 : Int) = 1 / 2 := by norm_num
    rw [e] at this
    exact le_trans this hhalf
  have := (nearest_rel _ hnorm).2
  have hfl := Int.floor_le P
  linarith

/-- The radius of a Linear pass is `⌈f⌉`. -/
theorem Machine_radius_linear (f : ℚ) (hfd : nearest f = f) (hf : 0 < f) (hf2 : f ≤ 2 ^ 32) :
    Machine.radius Machine.NewLinear (.fin f) = .fin ((⌈f⌉ : Int) : ℚ) := by
  unfold Machine.radius
  have h200 : (2 : ℚ) ^ 32 ≤ 2 ^ 200 := by norm_num
  have e : F64.fmul (.fin f) Machine.NewLinear.GetS = F64.round (f * 1) := rfl
  rw [e, mul_one, (F64_round_fin f (by linarith) (by linarith)).1, hfd]
  rfl

theorem nearest_half : nearest (1 / 2 : ℚ) = 1 / 2 :=
  nearest_rep_eq _ 1 (-1) (by norm_num) (by norm_num) (by norm_num)

theorem nearest_one : nearest (1 : ℚ) = 1 :=
  nearest_rep_eq _ 1 0 (by norm_num) (by norm_num) (by norm_num)

theorem nearest_two_pow_32 : nearest ((2 : ℚ) ^ 32) = 2 ^ 32 :=
  nearest_rep_eq _ 1 32 (by norm_num) (by norm_num) (by norm_num)

theorem nearest_two_pow_neg_32 : nearest ((1 : ℚ) / 2 ^ 32) = 1 / 2 ^ 32 :=
  nearest_rep_eq _ 1 (-32) (by norm_num) (by norm_num) (by norm_num)

theorem nearest_two_pow_70 : nearest ((2 : ℚ) ^ 70) = 2 ^ 70 :=
  nearest_rep_eq _ 1 70 (by norm_num) (by norm_num) (by norm_num)

theorem two_pow_70_le : (2 : ℚ) ^ 70 ≤ 2 ^ 200 := by norm_num

theorem normal_of_ge (z : ℚ) (h : 1 / 2 ^ 100 ≤ z) : (2 : ℚ) ^ (-1022 : Int) ≤ z := by
  have h1 : (2 : ℚ) ^ (-1022 : Int) ≤ (2 : ℚ) ^ (-100 : Int) := two_zpow_le _ _ (by norm_num)
  have e : (2 : ℚ) ^ (-100 : Int) = 1 / 2 ^ 100 := by norm_num
  rw [e] at h1
  exact le_trans h1 h

/-- The quotient `1/f` of a pass, as computed. -/
theorem Machine_inverse_facts (f : ℚ) (hflow : 1 / 2 ^ 32 ≤ f) (hfup : f ≤ 2 ^ 32) :
    ∃ D : ℚ, F64.fdiv (.fin 1) (.fin f) = .fin D ∧ 1 / 2 ^ 32 ≤ D ∧ D ≤ 2 ^ 32 ∧
      D * f ≤ 1 + 1 / 2 ^ 53 ∧ (f ≤ 1 → 1 ≤ D) := by
  have hf : 0 < f := lt_of_lt_of_le (by norm_num) hflow
  have h70 := two_pow_70_le
  have hinvup : 1 / f ≤ 2 ^ 32 := by
    rw [div_le_iff₀ hf]
    have : (2 : ℚ) ^ 32 * (1 / 2 ^ 32) ≤ 2 ^ 32 * f := mul_le_mul_of_nonneg_left hflow (by norm_num)
    have e : (2 : ℚ) ^ 32 * (1 / 2 ^ 32) = 1 := by norm_num
    linarith
  have hinvlow : 1 / 2 ^ 32 ≤ 1 / f := one_div_le_one_div_of_le hf hfup
  have h32 : (2 : ℚ) ^ 32 ≤ 2 ^ 70 := by norm_num
  have hpos : (0 : ℚ) < 1 / 2 ^ 32 := by norm_num
  have hdiv : F64.fdiv (.fin 1) (.fin f) = .fin (nearest (1 / f)) :=
    F64_fdiv_fin 1 f hf.ne' (by linarith) (by linarith)
  have hnorm1 : (2 : ℚ) ^ (-1022 : Int) ≤ 1 / f :=
    normal_of_ge _ (le_trans (by norm_num) hinvlow)
  have hDrel := (nearest_rel _ hnorm1).2
  refine ⟨nearest (1 / f), hdiv, anchor_le_nearest _ _ nearest_two_pow_neg_32 hinvlow,
    nearest_le_anchor _ _ nearest_two_pow_32 hinvup, ?_, ?_⟩
  · have := mul_le_mul_of_nonneg_right hDrel hf.le
    have e : 1 / f * (1 + 1 / 2 ^ 53) * f = 1 + 1 / 2 ^ 53 := by
      have : 1 / f * (1 + 1 / 2 ^ 53) * f = (1 + 1 / 2 ^ 53) * (1 / f * f) := by ring
      rw [this, one_div_mul_cancel hf.ne', mul_one]
    linarith
  · intro hf1
    have h1 : 1 ≤ 1 / f := by
      rw [le_div_iff₀ hf]
      linarith
    exact anchor_le_nearest _ _ nearest_one h1

/-- The product `(x + 0.5) * (1/f)` of a pass, as computed. -/
theorem Machine_product_facts (a D : ℚ) (ha0 : 1 / 2 ≤ a) (haup : a ≤ 2 ^ 32)
    (hDlow : 1 / 2 ^ 32 ≤ D) (hDup : D ≤ 2 ^ 32) :
    ∃ Pp : ℚ, F64.fmul (.fin a) (.fin D) = .fin Pp ∧ 0 ≤ Pp ∧ Pp ≤ 2 ^ 70 ∧
      Pp ≤ a * D * (1 + 1 / 2 ^ 53) ∧ (1 ≤ D → 1 / 2 ≤ Pp) := by
  have hD0 : 0 < D := lt_of_lt_of_le (by norm_num) hDlow
  have h70 := two_pow_70_le
  have hprod0 : 0 ≤ a * D := mul_nonneg (by linarith) hD0.le
  have hprodup : a * D ≤ 2 ^ 70 := by
    have : a * D ≤ 2 ^ 32 * 2 ^ 32 := mul_le_mul haup hDup hD0.le (by norm_num)
    have e : (2 : ℚ) ^ 32 * 2 ^ 32 ≤ 2 ^ 70 := by norm_num
    linarith
  have hmul : F64.fmul (.fin a) (.fin D) = .fin (nearest (a * D)) :=
    F64_fmul_fin _ _ (by linarith) (by linarith)
  have hlow : (1 : ℚ) / 2 * (1 / 2 ^ 32) ≤ a * D :=
    mul_le_mul ha0 hDlow (by norm_num) (by linarith)
  have hnorm2 : (2 : ℚ) ^ (-1022 : Int) ≤ a * D :=
    normal_of_ge _ (le_trans (by norm_num) hlow)
  refine ⟨nearest (a * D), hmul, nearest_nonneg _ hprod0,
    nearest_le_anchor _ _ nearest_two_pow_70 hprodup, (nearest_rel _ hnorm2).2, ?_⟩
  intro hD1
  have hprod : 1 / 2 ≤ a * D := by
    have : (1 : ℚ) / 2 * 1 ≤ a * D := mul_le_mul ha0 hD1 (by norm_num) (by linarith)
    linarith
  exact anchor_le_nearest _ _ nearest_half hprod

/-- The ideal source coordinate of an output index of a pass, as computed: a `float64`
value in [-1/2, n - 1/4], non-negative when the scale is at most 1. -/
theorem Machine_sourceCoord_facts (f : ℚ) (n x : Int) (hf : 0 < f) (hn1 : 1 ≤ n)
    (hn : n ≤ 2 ^ 31) (hhalf : 1 / 2 ≤ (n : ℚ) * f) (hup : (n : ℚ) * f < 2 ^ 31 + 1)
    (hx0 : 0 ≤ x) (hx1 : ((x + 1 : Int) : ℚ) ≤ (n : ℚ) * f * (1 + 1 / 2 ^ 53)) :
    ∃ T : ℚ, Machine.sourceCoord (.fin f) x = .fin T ∧ nearest T = T ∧ -(1 / 2) ≤ T ∧
      T ≤ (n : ℚ) - 1 / 4 ∧ (f ≤ 1 → 0 ≤ T) := by
  have hnq1 : (1 : ℚ) ≤ (n : ℚ) := by exact_mod_cast hn1
  have hnq : (n : ℚ) ≤ 2 ^ 31 := by exact_mod_cast hn
  have hxq0 : (0 : ℚ) ≤ (x : ℚ) := by exact_mod_cast hx0
  push_cast at hx1
  have h70 := two_pow_70_le
  -- bounds on f
  have hfup : f ≤ 2 ^ 32 := by
    have : f ≤ (n : ℚ) * f := le_mul_of_one_le_left hf.le hnq1
    have e : (2 : ℚ) ^ 31 + 1 ≤ 2 ^ 32 := by norm_num
    linarith
  have hflow : 1 / 2 ^ 32 ≤ f := by
    have : (n : ℚ) * f ≤ 2 ^ 31 * f := mul_le_mul_of_nonneg_right hnq hf.le
    have h2 : (1 : ℚ) / 2 ≤ 2 ^ 31 * f := le_trans hhalf this
    have e : (1 : ℚ) / 2 ^ 32 = (1 / 2) / 2 ^ 31 := by norm_num
    rw [e, div_le_iff₀ (by positivity)]
    linarith
  -- bounds on x
  have hxup : (x : ℚ) ≤ 2 ^ 31 + 1 := by
    have : (n : ℚ) * f * (1 + 1 / 2 ^ 53) ≤ (2 ^ 31 + 1) * (1 + 1 / 2 ^ 53) :=
      mul_le_mul_of_nonneg_right hup.le (by norm_num)
    have e : ((2 : ℚ) ^ 31 + 1) * (1 + 1 / 2 ^ 53) ≤ 2 ^ 31 + 2 := by norm_num
    linarith
  have hxi : x ≤ 2 ^ 31 + 1 := by
    have e : ((2 ^ 31 + 1 : Int) : ℚ) = 2 ^ 31 + 1 := by norm_num
    have : (x : ℚ) ≤ ((2 ^ 31 + 1 : Int) : ℚ) := by rw [e]; exact hxup
    exact_mod_cast this
  -- float64(x) + 0.5
  have hofx : F64.ofInt x = .fin (x : ℚ) :=
    F64_ofInt_fin x (by rw [abs_lt]; constructor <;> omega)
  have hxh : nearest ((x : ℚ) + 1 / 2) = (x : ℚ) + 1 / 2 := by
    apply nearest_rep_eq _ (2 * x + 1) (-1) _ (by norm_num)
    · push_cast
      rw [show (2 : ℚ) ^ (-1 : Int) = 1 / 2 by norm_num]
      ring
    · rw [abs_lt]; constructor <;> omega
  have ha0 : (1 : ℚ) / 2 ≤ (x : ℚ) + 1 / 2 := by linarith
  have haup : (x : ℚ) + 1 / 2 ≤ 2 ^ 32 := by
    have : (2 : ℚ) ^ 31 + 1 + 1 / 2 ≤ 2 ^ 32 := by norm_num
    linarith
  have hadd : F64.fadd (F64.ofInt x) (.fin (1 / 2)) = .fin ((x : ℚ) + 1 / 2) := by
    have h32 : (2 : ℚ) ^ 32 ≤ 2 ^ 200 := by norm_num
    rw [hofx, F64_fadd_fin _ _ (by linarith) (by linarith), hxh]
  obtain ⟨D, hdiv, hDlow, hDup, hDf, hD1⟩ := Machine_inverse_facts f hflow hfup
  obtain ⟨Pp, hmul, hPp0, hPpup, hPprel, hPph⟩ :=
    Machine_product_facts ((x : ℚ) + 1 / 2) D ha0 haup hDlow hDup
  -- Pp ≤ n (1+u)^3
  have hPpn : Pp ≤ (n : ℚ) * (1 + 1 / 2 ^ 53) ^ 3 := by
    have hxa : (x : ℚ) + 1 / 2 ≤ (n : ℚ) * f * (1 + 1 / 2 ^ 53) := by linarith
    have h1 : Pp * f ≤ ((x : ℚ) + 1 / 2) * (D * f) * (1 + 1 / 2 ^ 53) := by
      have := mul_le_mul_of_nonneg_right hPprel hf.le
      have e : ((x : ℚ) + 1 / 2) * D * (1 + 1 / 2 ^ 53) * f
          = ((x : ℚ) + 1 / 2) * (D * f) * (1 + 1 / 2 ^ 53) := by ring
      linarith
    have h2 : ((x : ℚ) + 1 / 2) * (D * f) ≤ ((x : ℚ) + 1 / 2) * (1 + 1 / 2 ^ 53) :=
      mul_le_mul_of_nonneg_left hDf (by linarith)
    have h3 : ((x : ℚ) + 1 / 2) * (1 + 1 / 2 ^ 53)
        ≤ (n : ℚ) * f * (1 + 1 / 2 ^ 53) * (1 + 1 / 2 ^ 53) :=
      mul_le_mul_of_nonneg_right hxa (by norm_num)
    have h4 : Pp * f ≤ (n : ℚ) * f * (1 + 1 / 2 ^ 53) * (1 + 1 / 2 ^ 53) * (1 + 1 / 2 ^ 53) := by
      have := mul_le_mul_of_nonneg_right (le_trans h2 h3) (by norm_num : (0 : ℚ) ≤ 1 + 1 / 2 ^ 53)
      linarith
    have h5 : Pp * f ≤ (n : ℚ) * (1 + 1 / 2 ^ 53) ^ 3 * f := by
      have e : (n : ℚ) * f * (1 + 1 / 2 ^ 53) * (1 + 1 / 2 ^ 53) * (1 + 1 / 2 ^ 53)
          = (n : ℚ) * (1 + 1 / 2 ^ 53) ^ 3 * f := by ring
      linarith
    exact le_of_mul_le_mul_right h5 hf
  have hPpn2 : Pp ≤ (n : ℚ) + 1 / 4 := by
    have h1 : (n : ℚ) * (1 + 1 / 2 ^ 53) ^ 3 ≤ (n : ℚ) * (1 + 1 / 2 ^ 51) :=
      mul_le_mul_of_nonneg_left one_add_u_cube (by linarith)
    have h2 : (n : ℚ) * (1 / 2 ^ 51) ≤ 2 ^ 31 * (1 / 2 ^ 51) :=
      mul_le_mul_of_nonneg_right hnq (by norm_num)
    have e : (2 : ℚ) ^ 31 * (1 / 2 ^ 51) ≤ 1 / 4 := by norm_num
    have e2 : (n : ℚ) * (1 + 1 / 2 ^ 51) = (n : ℚ) + (n : ℚ) * (1 / 2 ^ 51) := by ring
    linarith
  -- the difference
  have hsub : F64.fsub (.fin Pp) (.fin (1 / 2)) = .fin (nearest (Pp - 1 / 2)) :=
    F64_fsub_fin _ _ (by linarith) (by linarith)
  refine ⟨nearest (Pp - 1 / 2), ?_, nearest_idem _, ?_, ?_, ?_⟩
  · unfold Machine.sourceCoord
    rw [hadd, hdiv, hmul, hsub]
  · have hrep : nearest (-(1 / 2 : ℚ)) = -(1 / 2) := by
      rw [nearest_neg, nearest_half]
    apply anchor_le_nearest _ _ hrep
    linarith
  · have hrep : nearest ((n : ℚ) - 1 / 4) = (n : ℚ) - 1 / 4 := by
      apply nearest_rep_eq _ (4 * n - 1) (-2) _ (by norm_num)
      · push_cast
        rw [show (2 : ℚ) ^ (-2 : Int) = 1 / 4 by norm_num]
        ring
      · rw [abs_lt]; constructor <;> omega
    apply nearest_le_anchor _ _ hrep
    linarith
  · intro hf1
    have hge : 0 ≤ Pp - 1 / 2 := by linarith [hPph (hD1 hf1)]
    exact nearest_nonneg (Pp - 1 / 2) hge

theorem F64_toInt_le (q : ℚ) (i : Int) (hi : 0 ≤ i) (h : q < (i : ℚ) + 1) :
    F64.toInt (.fin q) ≤ i := by
  unfold F64.toInt
  simp only
  split_ifs with hc
  · rcases le_or_lt 0 q with h0 | h0
    · rw [toInt_of_nonneg q h0]
      have : ⌊q⌋ < i + 1 := by
        rw [Int.floor_lt]
        push_cast
        exact h
      omega
    · have := toInt_nonpos q h0.le
      omega
  · omega

theorem F64_toInt_gt (q : ℚ) (i : Int) (hi : 0 ≤ i) (h1 : (i : ℚ) + 1 ≤ q)
    (h2 : q < 2 ^ 63) : i < F64.toInt (.fin q) := by
  have hiq : (0 : ℚ) ≤ (i : ℚ) := by exact_mod_cast hi
  have hq0 : 0 ≤ q := by linarith
  unfold F64.toInt
  simp only
  rw [if_pos ⟨by linarith, h2⟩, toInt_of_nonneg q hq0]
  have : i + 1 ≤ ⌊q⌋ := by
    rw [Int.le_floor]
    push_cast
    exact h1
  omega

/-- The window of a Linear pass contains the source index `max ⌊T⌋ 0`, where `T` is the
computed source coordinate. -/
theorem Machine_window_linear (f T : ℚ) (n x : Int) (hfd : nearest f = f) (hf : 0 < f)
    (hfup : f ≤ 2 ^ 32) (hn1 : 1 ≤ n) (hn : n ≤ 2 ^ 31)
    (hT : Machine.sourceCoord (.fin f) x = .fin T) (hT1 : -(1 / 2) ≤ T)
    (hT2 : T ≤ (n : ℚ) - 1 / 4) (hT3 : f ≤ 1 → 0 ≤ T) :
    0 ≤ max ⌊T⌋ 0 ∧ max ⌊T⌋ 0 < n ∧
      Machine.windowStart Machine.NewLinear (.fin f) n x ≤ max ⌊T⌋ 0 ∧
      max ⌊T⌋ 0 < Machine.windowStop Machine.NewLinear (.fin f) n x := by
  have hnq : (n : ℚ) ≤ 2 ^ 31 := by exact_mod_cast hn
  have h70 := two_pow_70_le
  have hfl1 := Int.floor_le T
  have hfl2 := Int.lt_floor_add_one T
  have hi0 : 0 ≤ max ⌊T⌋ 0 := le_max_right _ _
  have hjn : ⌊T⌋ < n := by
    rw [Int.floor_lt]
    linarith
  have hi0n : max ⌊T⌋ 0 < n := max_lt hjn (by omega)
  set i0 : Int := max ⌊T⌋ 0 with hi0def
  have hi0q : (0 : ℚ) ≤ (i0 : ℚ) := by exact_mod_cast hi0
  have hi0up : (i0 : ℚ) ≤ 2 ^ 31 := by
    have : (i0 : ℚ) < (n : ℚ) := by exact_mod_cast hi0n
    linarith
  have hTi : T < (i0 : ℚ) + 1 := by
    have : ((⌊T⌋ : Int) : ℚ) ≤ (i0 : ℚ) := by exact_mod_cast le_max_left ⌊T⌋ 0
    linarith
  -- the radius
  have hrad := Machine_radius_linear f hfd hf hfup
  have hR1 : (1 : ℚ) ≤ ((⌈f⌉ : Int) : ℚ) := by
    have : 0 < ⌈f⌉ := Int.ceil_pos.mpr hf
    exact_mod_cast (by omega : 1 ≤ ⌈f⌉)
  have hRup : ((⌈f⌉ : Int) : ℚ) ≤ 2 ^ 32 + 1 := by
    have := Int.ceil_lt_add_one f
    linarith
  set R : ℚ := ((⌈f⌉ : Int) : ℚ) with hR
  -- representable anchors
  have hi0lt : i0 < 2 ^ 31 + 1 := by omega
  have ri0 : nearest (i0 : ℚ) = (i0 : ℚ) :=
    nearest_intCast i0 (by rw [abs_lt]; constructor <;> omega)
  have ri0h : nearest ((i0 : ℚ) + 1 / 2) = (i0 : ℚ) + 1 / 2 := by
    apply nearest_rep_eq _ (2 * i0 + 1) (-1) _ (by norm_num)
    · push_cast
      rw [show (2 : ℚ) ^ (-1 : Int) = 1 / 2 by norm_num]
      ring
    · rw [abs_lt]; constructor <;> omega
  have ri01 : nearest ((i0 : ℚ) + 1) = (i0 : ℚ) + 1 := by
    have := nearest_intCast (i0 + 1) (by rw [abs_lt]; constructor <;> omega)
    push_cast at this
    exact this
  have h31 : (2 : ℚ) ^ 31 + (2 ^ 32 + 1) + 1 ≤ 2 ^ 70 := by norm_num
  refine ⟨hi0, hi0n, ?_, ?_⟩
  · -- the start
    have hsub : F64.fsub (.fin T) (.fin R) = .fin (nearest (T - R)) :=
      F64_fsub_fin _ _ (by linarith) (by linarith)
    have hle : nearest (T - R) ≤ (i0 : ℚ) := nearest_le_anchor _ _ ri0 (by linarith)
    have hrepn : nearest (-(2 : ℚ) ^ 70) = -(2 : ℚ) ^ 70 := by
      rw [nearest_neg, nearest_two_pow_70]
    have hge : -(2 : ℚ) ^ 70 ≤ nearest (T - R) :=
      anchor_le_nearest _ _ hrepn (by linarith)
    have hadd : F64.fadd (.fin (nearest (T - R))) (.fin (1 / 2))
        = .fin (nearest (nearest (T - R) + 1 / 2)) :=
      F64_fadd_fin _ _ (by
        have : (2 : ℚ) ^ 70 + 1 ≤ 2 ^ 200 := by norm_num
        linarith) (by linarith)
    have hsv : nearest (nearest (T - R) + 1 / 2) ≤ (i0 : ℚ) + 1 / 2 :=
      nearest_le_anchor _ _ ri0h (by linarith)
    have hstart : Machine.startValue Machine.NewLinear (.fin f) x
        = .fin (nearest (nearest (T - R) + 1 / 2)) := by
      unfold Machine.startValue
      rw [hT, hrad, hsub, hadd]
    unfold Machine.windowStart
    rw [hstart]
    apply ClampInt_le_of_le _ _ _ _ hi0
    apply F64_toInt_le _ _ hi0
    linarith
  · -- the stop
    have hsum : (i0 : ℚ) + 1 ≤ T + R := by
      rcases le_or_lt 0 T with h0 | h0
      · have : i0 = ⌊T⌋ := max_eq_left (Int.floor_nonneg.mpr h0)
        rw [this]
        linarith
      · have hf1 : 1 < f := by
          by_contra hc
          have := hT3 (not_lt.mp hc)
          linarith
        have hc2 : 1 < ⌈f⌉ := by
          rw [Int.lt_ceil]
          push_cast
          exact hf1
        have hR2 : (2 : ℚ) ≤ R := by
          rw [hR]
          exact_mod_cast (by omega : 2 ≤ ⌈f⌉)
        have hfl0 : ⌊T⌋ < 0 := by
          rw [Int.floor_lt]
          push_cast
          exact h0
        have : i0 = 0 := max_eq_right (by omega)
        rw [this]
        push_cast
        linarith
    have hadd : F64.fadd (.fin T) (.fin R) = .fin (nearest (T + R)) :=
      F64_fadd_fin _ _ (by linarith) (by linarith)
    have hev1 : (i0 : ℚ) + 1 ≤ nearest (T + R) := anchor_le_nearest _ _ ri01 hsum
    have r34 : nearest ((2 : ℚ) ^ 34) = 2 ^ 34 :=
      nearest_rep_eq _ 1 34 (by norm_num) (by norm_num) (by norm_num)
    have hev2 : nearest (T + R) ≤ 2 ^ 34 := by
      apply nearest_le_anchor _ _ r34
      have : (2 : ℚ) ^ 31 + (2 ^ 32 + 1) ≤ 2 ^ 34 := by norm_num
      linarith
    have hstop : Machine.stopValue Machine.NewLinear (.fin f) x = .fin (nearest (T + R)) := by
      unfold Machine.stopValue
      rw [hT, hrad, hadd]
    unfold Machine.windowStop
    rw [hstop]
    apply lt_ClampInt_of_lt _ _ _ _ hi0n hi0
    apply F64_toInt_gt _ _ hi0 hev1
    have : (2 : ℚ) ^ 34 < 2 ^ 63 := by norm_num
    linarith

theorem nearest_abs (d : ℚ) (hd : nearest d = d) : nearest |d| = |d| := by
  rcases abs_cases d with ⟨h, _⟩ | ⟨h, _⟩
  · rw [h, hd]
  · rw [h, nearest_neg, hd]

theorem nearest_one_sub_u : nearest ((1 : ℚ) - 1 / 2 ^ 53) = 1 - 1 / 2 ^ 53 := by
  apply nearest_rep_eq _ (2 ^ 53 - 1) (-53) _ (by norm_num)
  · push_cast
    norm_num
  · norm_num

theorem nearest_u : nearest ((1 : ℚ) / 2 ^ 53) = 1 / 2 ^ 53 :=
  nearest_rep_eq _ 1 (-53) (by norm_num) (by norm_num) (by norm_num)

theorem nearest_two_pow_neg_85 : nearest ((1 : ℚ) / 2 ^ 85) = 1 / 2 ^ 85 :=
  nearest_rep_eq _ 1 (-85) (by norm_num) (by norm_num) (by norm_num)

/-- The Linear weight `max(0, 1 - |d|)` of a `float64` distance, as computed: zero, or at
least 2^-53, and at most 1. -/
theorem Machine_linear_interp (d : ℚ) (hd : nearest d = d) (hb : |d| ≤ 2 ^ 34) :
    ∃ p : ℚ, Machine.NewLinear.Interpolate (.fin d) = .fin p ∧ (p = 0 ∨ 1 / 2 ^ 53 ≤ p) ∧
      p ≤ 1 ∧ (|d| < 1 → 1 / 2 ^ 53 ≤ p) := by
  have habs0 := abs_nonneg d
  have h200 : (2 : ℚ) ^ 34 + 1 ≤ 2 ^ 200 := by norm_num
  have hsub : F64.fsub (.fin 1) (.fin |d|) = .fin (nearest (1 - |d|)) :=
    F64_fsub_fin _ _ (by linarith) (by linarith)
  have hint : Machine.NewLinear.Interpolate (.fin d) = .fin (max 0 (nearest (1 - |d|))) := by
    show F64.max (.fin 0) (F64.fsub (.fin 1) (.fin |d|)) = _
    rw [hsub]
    rfl
  have hy1 : nearest (1 - |d|) ≤ 1 := nearest_le_anchor _ _ nearest_one (by linarith)
  have hpos : |d| < 1 → 1 / 2 ^ 53 ≤ max 0 (nearest (1 - |d|)) := by
    intro hlt
    have h1 := double_lt_int |d| 1 (nearest_abs d hd) le_rfl (by push_cast; exact hlt)
    push_cast at h1
    have h2 : 1 / 2 ^ 53 ≤ nearest (1 - |d|) :=
      anchor_le_nearest _ _ nearest_u (by linarith)
    exact le_trans h2 (le_max_right _ _)
  refine ⟨max 0 (nearest (1 - |d|)), hint, ?_, max_le (by norm_num) hy1, hpos⟩
  rcases lt_or_le |d| 1 with hlt | hge
  · right
    exact hpos hlt
  · left
    have : nearest (1 - |d|) ≤ 0 := nearest_nonpos _ (by linarith)
    exact max_eq_left this

/-- The weight of a source index in a Linear pass, as computed: a `float64` value that is
zero or at least 2^-85, at most 2^32, and positive for an index at distance at most
1 - 2^-53 from the source coordinate. -/
theorem Machine_linear_weight (T f : ℚ) (i : Int) (hT1 : -(2 : ℚ) ^ 32 ≤ T) (hT2 : T ≤ 2 ^ 32)
    (hi1 : -(2 ^ 32) ≤ i) (hi2 : i ≤ 2 ^ 32) (hflow : 1 / 2 ^ 32 ≤ f) (hfup : f ≤ 2 ^ 32) :
    ∃ w : ℚ, F64.fdiv (Machine.NewLinear.Interpolate (F64.fsub (F64.ofInt i) (.fin T)))
        (.fin f) = .fin w ∧
      nearest w = w ∧ (w = 0 ∨ 1 / 2 ^ 85 ≤ w) ∧ w ≤ 2 ^ 32 ∧
      (-(1 - 1 / 2 ^ 53) ≤ (i : ℚ) - T → (i : ℚ) - T ≤ 1 - 1 / 2 ^ 53 → 0 < w) := by
  have hf : 0 < f := lt_of_lt_of_le (by norm_num) hflow
  have hiq1 : -(2 : ℚ) ^ 32 ≤ (i : ℚ) := by exact_mod_cast hi1
  have hiq2 : (i : ℚ) ≤ 2 ^ 32 := by exact_mod_cast hi2
  have h200 : (2 : ℚ) ^ 34 ≤ 2 ^ 200 := by norm_num
  have h34 : (2 : ℚ) ^ 32 + 2 ^ 32 ≤ 2 ^ 34 := by norm_num
  have hof : F64.ofInt i = .fin (i : ℚ) :=
    F64_ofInt_fin i (by rw [abs_lt]; constructor <;> omega)
  have hsub : F64.fsub (.fin (i : ℚ)) (.fin T) = .fin (nearest ((i : ℚ) - T)) :=
    F64_fsub_fin _ _ (by linarith) (by linarith)
  have r34 : nearest ((2 : ℚ) ^ 34) = 2 ^ 34 :=
    nearest_rep_eq _ 1 34 (by norm_num) (by norm_num) (by norm_num)
  have r34n : nearest (-(2 : ℚ) ^ 34) = -(2 : ℚ) ^ 34 := by rw [nearest_neg, r34]
  have hd1 : -(2 : ℚ) ^ 34 ≤ nearest ((i : ℚ) - T) :=
    anchor_le_nearest _ _ r34n (by linarith)
  have hd2 : nearest ((i : ℚ) - T) ≤ 2 ^ 34 := nearest_le_anchor _ _ r34 (by linarith)
  obtain ⟨p, hint, hp, hp1, hppos⟩ :=
    Machine_linear_interp (nearest ((i : ℚ) - T)) (nearest_idem _) (abs_le.mpr ⟨hd1, hd2⟩)
  have hp0 : 0 ≤ p := by
    rcases hp with h | h
    · rw [h]
    · exact le_trans (by norm_num) h
  have hq0 : 0 ≤ p / f := div_nonneg hp0 hf.le
  have hqup : p / f ≤ 2 ^ 32 := by
    rw [div_le_iff₀ hf]
    have : (2 : ℚ) ^ 32 * (1 / 2 ^ 32) ≤ 2 ^ 32 * f := mul_le_mul_of_nonneg_left hflow (by norm_num)
    have e : (2 : ℚ) ^ 32 * (1 / 2 ^ 32) = 1 := by norm_num
    linarith
  have hdiv : F64.fdiv (.fin p) (.fin f) = .fin (nearest (p / f)) :=
    F64_fdiv_fin p f hf.ne' (by linarith) (by linarith)
  have hbig : 1 / 2 ^ 53 ≤ p → 1 / 2 ^ 85 ≤ nearest (p / f) := by
    intro h
    apply anchor_le_nearest _ _ nearest_two_pow_neg_85
    rw [le_div_iff₀ hf]
    have : (1 : ℚ) / 2 ^ 85 * f ≤ 1 / 2 ^ 85 * 2 ^ 32 := mul_le_mul_of_nonneg_left hfup (by norm_num)
    have e : (1 : ℚ) / 2 ^ 85 * 2 ^ 32 = 1 / 2 ^ 53 := by norm_num
    linarith
  refine ⟨nearest (p / f), ?_, nearest_idem _, ?_, nearest_le_anchor _ _ nearest_two_pow_32 hqup, ?_⟩
  · rw [hof, hsub, hint, hdiv]
  · rcases hp with h | h
    · left
      rw [h, zero_div, nearest_zero]
    · right
      exact hbig h
  · intro ha hb
    have rn : nearest (-((1 : ℚ) - 1 / 2 ^ 53)) = -(1 - 1 / 2 ^ 53) := by
      rw [nearest_neg, nearest_one_sub_u]
    have d1 := anchor_le_nearest _ _ rn ha
    have d2 := nearest_le_anchor _ _ nearest_one_sub_u hb
    have hlt : |nearest ((i : ℚ) - T)| < 1 := by
      rw [abs_lt]
      constructor
      · have : -(1 : ℚ) < -(1 - 1 / 2 ^ 53) := by norm_num
        linarith
      · have : (1 : ℚ) - 1 / 2 ^ 53 < 1 := by norm_num
        linarith
    have := hbig (hppos hlt)
    exact lt_of_lt_of_le (by norm_num) this

/-! ## Accumulation of a constant line with rounded arithmetic -/

/-- One step of the accumulation: if `A` is within the relative error `c` of `a`, and the
product `P`, the sum `A'` and the weight sum `Sv` are each within the relative error 2^-53
of their exact values, then `A'` is within the relative error `c + 4 * 2^-53` of `Sv`. -/
theorem accum_step (c a b A P A' Sv : ℚ) (hc0 : 0 ≤ c) (hc : c ≤ 1 / 4) (ha : 0 ≤ a)
    (hb : 0 ≤ b) (hA : |A - a| ≤ c * a) (hP : |P - b| ≤ 1 / 2 ^ 53 * b)
    (hA' : |A' - (A + P)| ≤ 1 / 2 ^ 53 * (A + P))
    (hS : |Sv - (a + b)| ≤ 1 / 2 ^ 53 * (a + b)) :
    |A' - Sv| ≤ (c + 4 * (1 / 2 ^ 53)) * Sv := by
  rw [abs_le] at hA hP hA' hS ⊢
  have hca0 : 0 ≤ c * a := mul_nonneg hc0 ha
  have hcb0 : 0 ≤ c * b := mul_nonneg hc0 hb
  have hca : c * a ≤ 1 / 4 * a := mul_le_mul_of_nonneg_right hc ha
  have hcb : c * b ≤ 1 / 4 * b := mul_le_mul_of_nonneg_right hc hb
  have hcs : c * ((a + b) * (1 - 1 / 2 ^ 53)) ≤ c * Sv :=
    mul_le_mul_of_nonneg_left (by linarith [hS.1]) hc0
  have e : c * ((a + b) * (1 - 1 / 2 ^ 53)) = (c * a + c * b) * (1 - 1 / 2 ^ 53) := by ring
  rw [e] at hcs
  have e2 : (c + 4 * (1 / 2 ^ 53)) * Sv = c * Sv + 4 * (1 / 2 ^ 53) * Sv := by ring
  rw [e2]
  obtain ⟨hA1, hA2⟩ := hA
  obtain ⟨hP1, hP2⟩ := hP
  obtain ⟨hA'1, hA'2⟩ := hA'
  obtain ⟨hS1, hS2⟩ := hS
  constructor
  · nlinarith
  · nlinarith

theorem nearest_rel_abs (z : ℚ) (h : z = 0 ∨ 1 / 2 ^ 100 ≤ z) :
    |nearest z - z| ≤ 1 / 2 ^ 53 * z := by
  rcases h with h | h
  · rw [h, nearest_zero]
    norm_num
  · obtain ⟨a, b⟩ := nearest_rel z (normal_of_ge z h)
    rw [abs_le]
    constructor <;> linarith

theorem two_pow_80_le : (2 : ℚ) ^ 80 ≤ 2 ^ 200 := by norm_num

/-- The product `float64(v) * w` of a sample and a weight, as computed. -/
theorem Machine_weighted_product (v : Nat) (w : ℚ) (hv : v ≤ 255)
    (hwz : w = 0 ∨ 1 / 2 ^ 85 ≤ w) (hwup : w ≤ 2 ^ 32) :
    ∃ P : ℚ, F64.fmul (F64.ofInt (v : Int)) (.fin w) = .fin P ∧
      |P - (v : ℚ) * w| ≤ 1 / 2 ^ 53 * ((v : ℚ) * w) ∧ 0 ≤ P ∧ P ≤ 2 ^ 41 := by
  have hvq : (v : ℚ) ≤ 255 := by exact_mod_cast hv
  have hv0 : (0 : ℚ) ≤ (v : ℚ) := Nat.cast_nonneg v
  have hw0 : 0 ≤ w := by
    rcases hwz with h | h
    · rw [h]
    · exact le_trans (by norm_num) h
  have hb0 : 0 ≤ (v : ℚ) * w := mul_nonneg hv0 hw0
  have hbup : (v : ℚ) * w ≤ 2 ^ 40 := by
    have : (v : ℚ) * w ≤ 255 * 2 ^ 32 := mul_le_mul hvq hwup hw0 (by norm_num)
    have e : (255 : ℚ) * 2 ^ 32 ≤ 2 ^ 40 := by norm_num
    linarith
  have hof : F64.ofInt (v : Int) = .fin (v : ℚ) := by
    have := F64_ofInt_fin (v : Int) (by rw [abs_lt]; constructor <;> omega)
    rw [this]
    norm_cast
  have h200 := two_pow_80_le
  have h40 : (2 : ℚ) ^ 40 ≤ 2 ^ 80 := by norm_num
  have hmul : F64.fmul (.fin (v : ℚ)) (.fin w) = .fin (nearest ((v : ℚ) * w)) :=
    F64_fmul_fin _ _ (by linarith) (by linarith)
  have hbz : (v : ℚ) * w = 0 ∨ 1 / 2 ^ 100 ≤ (v : ℚ) * w := by
    rcases Nat.eq_zero_or_pos v with h | h
    · left
      rw [h]
      simp
    · rcases hwz with h2 | h2
      · left
        rw [h2, mul_zero]
      · right
        have hv1 : (1 : ℚ) ≤ (v : ℚ) := by exact_mod_cast h
        have : (1 : ℚ) * (1 / 2 ^ 85) ≤ (v : ℚ) * w := mul_le_mul hv1 h2 (by norm_num) hv0
        have e : (1 : ℚ) / 2 ^ 100 ≤ 1 * (1 / 2 ^ 85) := by norm_num
        linarith
  have hP := nearest_rel_abs _ hbz
  refine ⟨nearest ((v : ℚ) * w), ?_, hP, nearest_nonneg _ hb0, ?_⟩
  · rw [hof, hmul]
  · have r41 : nearest ((2 : ℚ) ^ 41) = 2 ^ 41 :=
      nearest_rep_eq _ 1 41 (by norm_num) (by norm_num) (by norm_num)
    apply nearest_le_anchor _ _ r41
    have : (2 : ℚ) ^ 40 ≤ 2 ^ 41 := by norm_num
    linarith

/-- The sum `sum + w` of the weights, as computed. -/
theorem Machine_weight_sum (k : Nat) (S w : ℚ) (hk : k ≤ 2 ^ 31) (hSd : nearest S = S)
    (hS0 : 0 ≤ S) (hSup : S ≤ (k : ℚ) * 2 ^ 33) (hSz : S = 0 ∨ 1 / 2 ^ 85 ≤ S)
    (hwd : nearest w = w) (hwz : w = 0 ∨ 1 / 2 ^ 85 ≤ w) (hwup : w ≤ 2 ^ 32) :
    ∃ S' : ℚ, F64.fadd (.fin S) (.fin w) = .fin S' ∧ nearest S' = S' ∧ 0 ≤ S' ∧
      S' ≤ ((k : ℚ) + 1) * 2 ^ 33 ∧ (S' = 0 ∨ 1 / 2 ^ 85 ≤ S') ∧
      |S' - (S + w)| ≤ 1 / 2 ^ 53 * (S + w) ∧ S ≤ S' ∧ w ≤ S' := by
  have hkq : (k : ℚ) ≤ 2 ^ 31 := by exact_mod_cast hk
  have hw0 : 0 ≤ w := by
    rcases hwz with h | h
    · rw [h]
    · exact le_trans (by norm_num) h
  have hSup2 : S ≤ 2 ^ 64 := by
    have : (k : ℚ) * 2 ^ 33 ≤ 2 ^ 31 * 2 ^ 33 := mul_le_mul_of_nonneg_right hkq (by norm_num)
    have e : (2 : ℚ) ^ 31 * 2 ^ 33 = 2 ^ 64 := by norm_num
    linarith
  have h200 := two_pow_80_le
  have hs0 : 0 ≤ S + w := by linarith
  have hsup : S + w ≤ 2 ^ 80 := by
    have e : (2 : ℚ) ^ 64 + 2 ^ 32 ≤ 2 ^ 80 := by norm_num
    linarith
  have hadds : F64.fadd (.fin S) (.fin w) = .fin (nearest (S + w)) :=
    F64_fadd_fin _ _ (by linarith) (by linarith)
  have hsz : S + w = 0 ∨ 1 / 2 ^ 85 ≤ S + w := by
    rcases hSz with h1 | h1
    · rcases hwz with h2 | h2
      · left
        rw [h1, h2, add_zero]
      · right
        linarith
    · right
      linarith
  have hsz2 : S + w = 0 ∨ 1 / 2 ^ 100 ≤ S + w := by
    rcases hsz with h | h
    · left; exact h
    · right
      exact le_trans (by norm_num) h
  have hS'rep : nearest (((k : ℚ) + 1) * 2 ^ 33) = ((k : ℚ) + 1) * 2 ^ 33 := by
    apply nearest_rep_eq _ ((k : Int) + 1) 33 _ (by norm_num)
    · push_cast
      norm_num
    · rw [abs_lt]; constructor <;> omega
  refine ⟨nearest (S + w), hadds, nearest_idem _, nearest_nonneg _ hs0, ?_, ?_,
    nearest_rel_abs _ hsz2, ?_, ?_⟩
  · apply nearest_le_anchor _ _ hS'rep
    have e : ((k : ℚ) + 1) * 2 ^ 33 = (k : ℚ) * 2 ^ 33 + 2 ^ 33 := by ring
    have e2 : (2 : ℚ) ^ 32 ≤ 2 ^ 33 := by norm_num
    linarith
  · rcases hsz with h | h
    · left
      rw [h, nearest_zero]
    · right
      exact anchor_le_nearest _ _ nearest_two_pow_neg_85 h
  · have := nearest_mono_all S (S + w) (by linarith)
    rw [hSd] at this
    exact this
  · have := nearest_mono_all w (S + w) (by linarith)
    rw [hwd] at this
    exact this

/-- The sum `fPix + product` of the values, as computed. -/
theorem Machine_value_sum (v k : Nat) (A S w P : ℚ) (hv : v ≤ 255) (hk : k ≤ 2 ^ 31)
    (hS0 : 0 ≤ S) (hSup : S ≤ (k : ℚ) * 2 ^ 33) (hSz : S = 0 ∨ 1 / 2 ^ 85 ≤ S)
    (hA : |A - (v : ℚ) * S| ≤ 1 / 4 * ((v : ℚ) * S))
    (hwz : w = 0 ∨ 1 / 2 ^ 85 ≤ w) (hP : |P - (v : ℚ) * w| ≤ 1 / 2 ^ 53 * ((v : ℚ) * w))
    (hPup : P ≤ 2 ^ 41) :
    ∃ A' : ℚ, F64.fadd (.fin A) (.fin P) = .fin A' ∧
      |A' - (A + P)| ≤ 1 / 2 ^ 53 * (A + P) := by
  have hvq : (v : ℚ) ≤ 255 := by exact_mod_cast hv
  have hv0 : (0 : ℚ) ≤ (v : ℚ) := Nat.cast_nonneg v
  have hkq : (k : ℚ) ≤ 2 ^ 31 := by exact_mod_cast hk
  have hw0 : 0 ≤ w := by
    rcases hwz with h | h
    · rw [h]
    · exact le_trans (by norm_num) h
  have ha0 : 0 ≤ (v : ℚ) * S := mul_nonneg hv0 hS0
  have hb0 : 0 ≤ (v : ℚ) * w := mul_nonneg hv0 hw0
  have hSup2 : S ≤ 2 ^ 64 := by
    have : (k : ℚ) * 2 ^ 33 ≤ 2 ^ 31 * 2 ^ 33 := mul_le_mul_of_nonneg_right hkq (by norm_num)
    have e : (2 : ℚ) ^ 31 * 2 ^ 33 = 2 ^ 64 := by norm_num
    linarith
  have haup : (v : ℚ) * S ≤ 2 ^ 72 := by
    have : (v : ℚ) * S ≤ 255 * 2 ^ 64 := mul_le_mul hvq hSup2 hS0 (by norm_num)
    have e : (255 : ℚ) * 2 ^ 64 ≤ 2 ^ 72 := by norm_num
    linarith
  rw [abs_le] at hA hP
  have hAlow : 3 / 4 * ((v : ℚ) * S) ≤ A := by linarith [hA.1]
  have hAup : A ≤ 5 / 4 * ((v : ℚ) * S) := by linarith [hA.2]
  have hPlow : 1 / 2 * ((v : ℚ) * w) ≤ P := by
    have : (1 : ℚ) / 2 ^ 53 * ((v : ℚ) * w) ≤ 1 / 2 * ((v : ℚ) * w) :=
      mul_le_mul_of_nonneg_right (by norm_num) hb0
    linarith [hP.1]
  have hPup2 : P ≤ 2 * ((v : ℚ) * w) := by
    have : (1 : ℚ) / 2 ^ 53 * ((v : ℚ) * w) ≤ 1 * ((v : ℚ) * w) :=
      mul_le_mul_of_nonneg_right (by norm_num) hb0
    linarith [hP.2]
  have hAP0 : 0 ≤ A + P := by linarith
  have h200 := two_pow_80_le
  have hAPup : A + P ≤ 2 ^ 80 := by
    have e : (5 : ℚ) / 4 * 2 ^ 72 + 2 ^ 41 ≤ 2 ^ 80 := by norm_num
    linarith
  have hadd : F64.fadd (.fin A) (.fin P) = .fin (nearest (A + P)) :=
    F64_fadd_fin _ _ (by linarith) (by linarith)
  have hAPz : A + P = 0 ∨ 1 / 2 ^ 100 ≤ A + P := by
    rcases Nat.eq_zero_or_pos v with h | h
    · left
      have hvz : (v : ℚ) = 0 := by rw [h]; simp
      rw [hvz] at hAup hPup2
      linarith
    · have hv1 : (1 : ℚ) ≤ (v : ℚ) := by exact_mod_cast h
      rcases hSz with h1 | h1
      · rcases hwz with h2 | h2
        · left
          rw [h1, mul_zero] at hAup
          rw [h2, mul_zero] at hPup2
          linarith
        · right
          have : (1 : ℚ) * (1 / 2 ^ 85) ≤ (v : ℚ) * w := mul_le_mul hv1 h2 (by norm_num) hv0
          have e : (1 : ℚ) / 2 ^ 100 ≤ 1 / 2 * (1 * (1 / 2 ^ 85)) := by norm_num
          linarith
      · right
        have : (1 : ℚ) * (1 / 2 ^ 85) ≤ (v : ℚ) * S := mul_le_mul hv1 h1 (by norm_num) hv0
        have e : (1 : ℚ) / 2 ^ 100 ≤ 3 / 4 * (1 * (1 / 2 ^ 85)) := by norm_num
        linarith
  exact ⟨nearest (A + P), hadd, nearest_rel_abs _ hAPz⟩

theorem quarter_bound (k : Nat) (hk : k ≤ 2 ^ 31) :
    0 ≤ 4 * (k : ℚ) * (1 / 2 ^ 53) ∧ 4 * (k : ℚ) * (1 / 2 ^ 53) ≤ 1 / 2 ^ 20 := by
  have hkq : (k : ℚ) ≤ 2 ^ 31 := by exact_mod_cast hk
  have hk0 : (0 : ℚ) ≤ (k : ℚ) := Nat.cast_nonneg k
  constructor
  · have : (0 : ℚ) ≤ 4 * (k : ℚ) := by linarith
    exact mul_nonneg this (by norm_num)
  · have : 4 * (k : ℚ) * (1 / 2 ^ 53) ≤ 4 * 2 ^ 31 * (1 / 2 ^ 53) := by
      apply mul_le_mul_of_nonneg_right _ (by norm_num)
      linarith
    have e : (4 : ℚ) * 2 ^ 31 * (1 / 2 ^ 53) ≤ 1 / 2 ^ 20 := by norm_num
    linarith

/-- One iteration of the window loop over a line of constant value `v`: the invariant
`|fPix - v * sum| ≤ 4 k 2^-53 (v * sum)` passes from `k` to `k + 1` iterations. -/
theorem Machine_accum_step (v k : Nat) (A S w : ℚ) (hv : v ≤ 255) (hk : k ≤ 2 ^ 31)
    (hSd : nearest S = S) (hS0 : 0 ≤ S) (hSup : S ≤ (k : ℚ) * 2 ^ 33)
    (hSz : S = 0 ∨ 1 / 2 ^ 85 ≤ S)
    (hA : |A - (v : ℚ) * S| ≤ 4 * (k : ℚ) * (1 / 2 ^ 53) * ((v : ℚ) * S))
    (hwd : nearest w = w) (hwz : w = 0 ∨ 1 / 2 ^ 85 ≤ w) (hwup : w ≤ 2 ^ 32) :
    ∃ A' S' : ℚ, F64.fadd (.fin A) (F64.fmul (F64.ofInt (v : Int)) (.fin w)) = .fin A' ∧
      F64.fadd (.fin S) (.fin w) = .fin S' ∧ nearest S' = S' ∧ 0 ≤ S' ∧
      S' ≤ ((k : ℚ) + 1) * 2 ^ 33 ∧ (S' = 0 ∨ 1 / 2 ^ 85 ≤ S') ∧
      |A' - (v : ℚ) * S'| ≤ 4 * ((k : ℚ) + 1) * (1 / 2 ^ 53) * ((v : ℚ) * S') ∧
      S ≤ S' ∧ w ≤ S' := by
  have hv0 : (0 : ℚ) ≤ (v : ℚ) := Nat.cast_nonneg v
  have hw0 : 0 ≤ w := by
    rcases hwz with h | h
    · rw [h]
    · exact le_trans (by norm_num) h
  obtain ⟨hc0, hc20⟩ := quarter_bound k hk
  have hc : 4 * (k : ℚ) * (1 / 2 ^ 53) ≤ 1 / 4 := le_trans hc20 (by norm_num)
  have ha0 : 0 ≤ (v : ℚ) * S := mul_nonneg hv0 hS0
  have hb0 : 0 ≤ (v : ℚ) * w := mul_nonneg hv0 hw0
  have hA4 : |A - (v : ℚ) * S| ≤ 1 / 4 * ((v : ℚ) * S) :=
    le_trans hA (mul_le_mul_of_nonneg_right hc ha0)
  obtain ⟨P, hmul, hP, hP0, hPup⟩ := Machine_weighted_product v w hv hwz hwup
  obtain ⟨S', hadds, hS'd, hS'0, hS'up, hS'z, hSerr, hSS', hwS'⟩ :=
    Machine_weight_sum k S w hk hSd hS0 hSup hSz hwd hwz hwup
  obtain ⟨A', hadd, hAerr⟩ := Machine_value_sum v k A S w P hv hk hS0 hSup hSz hA4 hwz hP hPup
  have hSverr : |(v : ℚ) * S' - ((v : ℚ) * S + (v : ℚ) * w)|
      ≤ 1 / 2 ^ 53 * ((v : ℚ) * S + (v : ℚ) * w) := by
    have e1 : (v : ℚ) * S' - ((v : ℚ) * S + (v : ℚ) * w) = (v : ℚ) * (S' - (S + w)) := by ring
    have e2 : 1 / 2 ^ 53 * ((v : ℚ) * S + (v : ℚ) * w) = (v : ℚ) * (1 / 2 ^ 53 * (S + w)) := by
      ring
    rw [e1, e2, abs_mul, abs_of_nonneg hv0]
    exact mul_le_mul_of_nonneg_left hSerr hv0
  have hstep := accum_step _ _ _ A P A' ((v : ℚ) * S') hc0 hc ha0 hb0 hA hP hAerr hSverr
  refine ⟨A', S', ?_, hadds, hS'd, hS'0, hS'up, hS'z, ?_, hSS', hwS'⟩
  · rw [hmul, hadd]
  · have e : 4 * ((k : ℚ) + 1) * (1 / 2 ^ 53) * ((v : ℚ) * S')
        = (4 * (k : ℚ) * (1 / 2 ^ 53) + 4 * (1 / 2 ^ 53)) * ((v : ℚ) * S') := by
      ring
    rw [e]
    exact hstep

/-- The accumulators of the window loop of a Linear pass over a line of constant value `v`,
after `k` iterations: both are finite, the weight sum dominates every weight met, and
`fPix` is within the relative error `4 k 2^-53` of `v * sum`. -/
theorem Machine_accumulate_inv (T f : ℚ) (v : Nat) (pix : Int → Nat) (start : Int)
    (hv : v ≤ 255) (hT1 : -(2 : ℚ) ^ 32 ≤ T) (hT2 : T ≤ 2 ^ 32) (hflow : 1 / 2 ^ 32 ≤ f)
    (hfup : f ≤ 2 ^ 32) (hs0 : 0 ≤ start) :
    ∀ k : Nat, start + (k : Int) ≤ 2 ^ 31 →
      (∀ i, start ≤ i → i < start + (k : Int) → pix i = v) →
      ∃ A S : ℚ,
        (List.range k).foldl (fun (acc : F64 × F64) (j : Nat) =>
            (F64.fadd acc.1 (F64.fmul (F64.ofInt (pix (start + (j : Int)) : Int))
              (F64.fdiv (Machine.NewLinear.Interpolate
                (F64.fsub (F64.ofInt (start + (j : Int))) (.fin T))) (.fin f))),
             F64.fadd acc.2 (F64.fdiv (Machine.NewLinear.Interpolate
                (F64.fsub (F64.ofInt (start + (j : Int))) (.fin T))) (.fin f))))
          (.fin 0, .fin 0) = (.fin A, .fin S) ∧
        nearest S = S ∧ 0 ≤ S ∧ S ≤ (k : ℚ) * 2 ^ 33 ∧ (S = 0 ∨ 1 / 2 ^ 85 ≤ S) ∧
        |A - (v : ℚ) * S| ≤ 4 * (k : ℚ) * (1 / 2 ^ 53) * ((v : ℚ) * S) ∧
        ∀ j : Nat, j < k → ∀ w : ℚ,
          F64.fdiv (Machine.NewLinear.Interpolate
            (F64.fsub (F64.ofInt (start + (j : Int))) (.fin T))) (.fin f) = .fin w → w ≤ S := by
  intro k
  induction k with
  | zero =>
    intro _ _
    refine ⟨0, 0, rfl, nearest_zero, le_rfl, by simp, Or.inl rfl, by simp, ?_⟩
    intro j hj
    omega
  | succ k ih =>
    intro hk hpix
    have hk' : start + (k : Int) ≤ 2 ^ 31 := by push_cast at hk; omega
    obtain ⟨A, S, hfold, hSd, hS0, hSup, hSz, hA, hdom⟩ :=
      ih hk' (fun i h1 h2 => hpix i h1 (by push_cast; omega))
    have hkn : k ≤ 2 ^ 31 := by omega
    obtain ⟨w, hw, hwd, hwz, hwup, _⟩ :=
      Machine_linear_weight T f (start + (k : Int)) hT1 hT2 (by omega) (by omega) hflow hfup
    have hpk : pix (start + (k : Int)) = v := hpix _ (by omega) (by push_cast; omega)
    obtain ⟨A', S', hA', hS', hS'd, hS'0, hS'up, hS'z, hA'err, hSS', hwS'⟩ :=
      Machine_accum_step v k A S w hv hkn hSd hS0 hSup hSz hA hwd hwz hwup
    refine ⟨A', S', ?_, hS'd, hS'0, ?_, hS'z, ?_, ?_⟩
    · rw [List.range_succ, List.foldl_append, hfold]
      simp only [List.foldl_cons, List.foldl_nil]
      rw [hw, hpk, hA', hS']
    · push_cast
      exact hS'up
    · push_cast
      exact hA'err
    · intro j hj w' hw'
      rcases Nat.lt_succ_iff_lt_or_eq.mp hj with h | h
      · exact le_trans (hdom j h w' hw') hSS'
      · rw [h, hw] at hw'
        injection hw' with e
        rw [← e]
        exact hwS'

/-- The index `max ⌊T⌋ 0` is at distance at most `1 - 2^-53` from a `float64` source
coordinate `T ≥ -1/2`. -/
theorem Machine_index_near (T : ℚ) (hTd : nearest T = T) (hT1 : -(1 / 2) ≤ T) :
    -(1 - 1 / 2 ^ 53) ≤ ((max ⌊T⌋ 0 : Int) : ℚ) - T ∧
      ((max ⌊T⌋ 0 : Int) : ℚ) - T ≤ 1 - 1 / 2 ^ 53 := by
  have hfl1 := Int.floor_le T
  have hfl2 := Int.lt_floor_add_one T
  rcases le_or_lt 0 T with h0 | h0
  · have hj : 0 ≤ ⌊T⌋ := Int.floor_nonneg.mpr h0
    rw [max_eq_left hj]
    have hlt : T < ((⌊T⌋ + 1 : Int) : ℚ) := by push_cast; exact hfl2
    have := double_lt_int T (⌊T⌋ + 1) hTd (by omega) hlt
    push_cast at this
    have e : (0 : ℚ) ≤ 1 - 1 / 2 ^ 53 := by norm_num
    constructor <;> linarith
  · have hj : ⌊T⌋ < 0 := by
      rw [Int.floor_lt]
      push_cast
      exact h0
    rw [max_eq_right (by omega)]
    push_cast
    have e : (1 : ℚ) / 2 ≤ 1 - 1 / 2 ^ 53 := by norm_num
    constructor <;> linarith

/-- A Linear pass with rounded arithmetic over a line of `n ≤ 2^31` samples of constant
value `v` stores `v` at every output index, when the scale is a positive `float64` and the
computed length is at most `2^31`. -/
theorem Machine_resample_linear_const (f : ℚ) (n x : Int) (pix : Int → Nat) (v : Nat)
    (hfd : nearest f = f) (hf : 0 < f) (hn0 : 0 ≤ n) (hn : n ≤ 2 ^ 31)
    (hL : Machine.newLength n (.fin f) ≤ 2 ^ 31) (hx0 : 0 ≤ x)
    (hx1 : x < Machine.newLength n (.fin f)) (hv : v ≤ 255)
    (hpix : ∀ i, 0 ≤ i → i < n → pix i = v) :
    Machine.resample Machine.NewLinear (.fin f) n pix x = v := by
  obtain ⟨hn1, hhalf, hup, hLrel⟩ :=
    Machine_newLength_facts f n hf hn0 hn (by omega) hL
  have hnq1 : (1 : ℚ) ≤ (n : ℚ) := by exact_mod_cast hn1
  have hnq : (n : ℚ) ≤ 2 ^ 31 := by exact_mod_cast hn
  have hxL : ((x + 1 : Int) : ℚ) ≤ (n : ℚ) * f * (1 + 1 / 2 ^ 53) := by
    have : ((x + 1 : Int) : ℚ) ≤ ((Machine.newLength n (.fin f) : Int) : ℚ) := by
      exact_mod_cast (by omega : x + 1 ≤ Machine.newLength n (.fin f))
    exact le_trans this hLrel
  obtain ⟨T, hT, hTd, hT1, hT2, hT3⟩ :=
    Machine_sourceCoord_facts f n x hf hn1 hn hhalf hup hx0 hxL
  have hfup : f ≤ 2 ^ 32 := by
    have : f ≤ (n : ℚ) * f := le_mul_of_one_le_left hf.le hnq1
    have e : (2 : ℚ) ^ 31 + 1 ≤ 2 ^ 32 := by norm_num
    linarith
  have hflow : 1 / 2 ^ 32 ≤ f := by
    have : (n : ℚ) * f ≤ 2 ^ 31 * f := mul_le_mul_of_nonneg_right hnq hf.le
    have h2 : (1 : ℚ) / 2 ≤ 2 ^ 31 * f := le_trans hhalf this
    have e : (1 : ℚ) / 2 ^ 32 = (1 / 2) / 2 ^ 31 := by norm_num
    rw [e, div_le_iff₀ (by positivity)]
    linarith
  obtain ⟨hi0, hi0n, hstart, hstop⟩ :=
    Machine_window_linear f T n x hfd hf hfup hn1 hn hT hT1 hT2 hT3
  obtain ⟨hnear1, hnear2⟩ := Machine_index_near T hTd hT1
  have hsb := ClampInt_bounds (F64.toInt (Machine.startValue Machine.NewLinear (.fin f) x)) n hn0
  have heb := ClampInt_bounds (F64.toInt (Machine.stopValue Machine.NewLinear (.fin f) x)) n hn0
  have hTb1 : -(2 : ℚ) ^ 32 ≤ T := by
    have : -(2 : ℚ) ^ 32 ≤ -(1 / 2) := by norm_num
    linarith
  have hTb2 : T ≤ 2 ^ 32 := by
    have : (2 : ℚ) ^ 31 ≤ 2 ^ 32 := by norm_num
    linarith
  unfold Machine.resample
  simp only
  unfold Machine.accumulate forFromTo
  rw [hT]
  set start := Machine.windowStart Machine.NewLinear (.fin f) n x with hstartdef
  set stop := Machine.windowStop Machine.NewLinear (.fin f) n x with hstopdef
  set i0 : Int := max ⌊T⌋ 0 with hi0def
  have hs0 : 0 ≤ start := hsb.1
  have hen : stop ≤ n := heb.2
  have hk : start + (((stop - start).toNat : Nat) : Int) = stop := by
    rw [Int.toNat_of_nonneg (by omega)]
    ring
  obtain ⟨A, S, hfold, hSd, hS0, hSup, hSz, hA, hdom⟩ :=
    Machine_accumulate_inv T f v pix start hv hTb1 hTb2 hflow hfup hs0 (stop - start).toNat
      (by rw [hk]; omega) (fun i h1 h2 => hpix i (by omega) (by rw [hk] at h2; omega))
  have hacc : (List.range (stop - start).toNat).foldl (fun (s : F64 × F64) (k : Nat) =>
      (fun (i : Int) (acc : F64 × F64) =>
        let filterValue := F64.fdiv (Machine.NewLinear.Interpolate
          (F64.fsub (F64.ofInt i) (.fin T))) (.fin f)
        (F64.fadd acc.1 (F64.fmul (F64.ofInt (pix i : Int)) filterValue),
          F64.fadd acc.2 filterValue)) (start + (k : Int)) s) (.fin 0, .fin 0)
      = (.fin A, .fin S) := hfold
  rw [hacc]
  simp only
  -- the weight of the index i0
  obtain ⟨w0, hw0, _, _, _, hw0pos⟩ :=
    Machine_linear_weight T f i0 hTb1 hTb2 (by omega) (by omega) hflow hfup
  have hj0 : (i0 - start).toNat < (stop - start).toNat := by
    rw [← Int.ofNat_lt, Int.toNat_of_nonneg (by omega), Int.toNat_of_nonneg (by omega)]
    omega
  have hj0e : start + (((i0 - start).toNat : Nat) : Int) = i0 := by
    rw [Int.toNat_of_nonneg (by omega)]
    ring
  have hw0S : w0 ≤ S := by
    apply hdom (i0 - start).toNat hj0 w0
    rw [hj0e]
    exact hw0
  have hSpos : 0 < S := lt_of_lt_of_le (hw0pos hnear1 hnear2) hw0S
  -- the quotient is within 1/8 of v
  have hkn : (stop - start).toNat ≤ 2 ^ 31 := by
    have : (((stop - start).toNat : Nat) : Int) ≤ 2 ^ 31 := by omega
    exact_mod_cast this
  obtain ⟨hc0, hc20⟩ := quarter_bound (stop - start).toNat hkn
  have hvq : (v : ℚ) ≤ 255 := by exact_mod_cast hv
  have hv0 : (0 : ℚ) ≤ (v : ℚ) := Nat.cast_nonneg v
  have hcv : 4 * (((stop - start).toNat : Nat) : ℚ) * (1 / 2 ^ 53) * ((v : ℚ) * S)
      ≤ 1 / 8 * S := by
    have h1 : 4 * (((stop - start).toNat : Nat) : ℚ) * (1 / 2 ^ 53) * ((v : ℚ) * S)
        ≤ 1 / 2 ^ 20 * ((v : ℚ) * S) :=
      mul_le_mul_of_nonneg_right hc20 (mul_nonneg hv0 hS0)
    have h2 : (v : ℚ) * S ≤ 255 * S := mul_le_mul_of_nonneg_right hvq hS0
    have h3 : (1 : ℚ) / 2 ^ 20 * ((v : ℚ) * S) ≤ 1 / 2 ^ 20 * (255 * S) :=
      mul_le_mul_of_nonneg_left h2 (by norm_num)
    have e : (1 : ℚ) / 2 ^ 20 * (255 * S) ≤ 1 / 8 * S := by
      have : (1 : ℚ) / 2 ^ 20 * (255 * S) = (255 / 2 ^ 20) * S := by ring
      rw [this]
      exact mul_le_mul_of_nonneg_right (by norm_num) hS0
    linarith
  rw [abs_le] at hA
  apply Machine_quantize_near A S v hv hSpos
  · rw [le_div_iff₀ hSpos]
    linarith [hA.1]
  · rw [div_le_iff₀ hSpos]
    linarith [hA.2]

/-! ## Claim C7: a constant image, with rounded arithmetic -/

theorem Machine_NewGray_small (w h : Int) (hw0 : 0 ≤ w) (hw : w ≤ 2 ^ 31) (hh0 : 0 ≤ h)
    (hh : h ≤ 2 ^ 31) : (Machine.NewGray (Rect 0 0 w h)).isSome = true := by
  have hprod : w * h ≤ 2 ^ 31 * 2 ^ 31 := Int.mul_le_mul hw hh hh0 (by norm_num)
  have hprod0 : 0 ≤ w * h := Int.mul_nonneg hw0 hh0
  have hm : mul3NonNeg 1 w h = w * h := by
    unfold mul3NonNeg
    rw [if_neg (by omega), one_mul, if_neg (by omega), if_neg (by omega), if_neg (by omega)]
  unfold Machine.NewGray pixelBufferLength
  rw [Rect_origin w h hw0 hh0]
  simp only [Rectangle.Dx, Rectangle.Dy, sub_zero]
  rw [wrapInt_of_IsInt w (by unfold IsInt; omega), wrapInt_of_IsInt h (by unfold IsInt; omega),
    hm, if_neg (by omega)]
  rfl

theorem Machine_horizontalGray_GrayAt (img : Gray) (fx : F64) (filter : Machine.Filter)
    (hw : img.Rect.WellFormed) (hL : 0 ≤ Machine.newLength img.Rect.Size.X fx) (x y : Int)
    (hx0 : 0 ≤ x) (hx1 : x < Machine.newLength img.Rect.Size.X fx) (hy0 : 0 ≤ y)
    (hy1 : y < img.Rect.Size.Y) :
    (Machine.horizontalGray img fx filter).GrayAt x y
      = Machine.resample filter fx img.Rect.Size.X
          (fun i => img.GrayAt (i + img.Rect.Min.X) (y + img.Rect.Min.Y)) x := by
  have hs := Size_nonneg img.Rect hw
  have hin : (Rect 0 0 (Machine.newLength img.Rect.Size.X fx) img.Rect.Size.Y).Contains x y :=
    (Rect_origin_contains _ _ x y hL hs.2).mpr ⟨hx0, hx1, hy0, hy1⟩
  unfold Gray.GrayAt
  have hin2 : (Machine.horizontalGray img fx filter).Rect.Contains x y := hin
  rw [if_pos hin2]
  show (if _ then _ else _) = _
  rw [if_pos ⟨hx0, hx1, hy0, hy1, hin⟩]
  rfl

theorem Machine_verticalGray_GrayAt (img : Gray) (fy : F64) (filter : Machine.Filter)
    (hw : img.Rect.WellFormed) (hL : 0 ≤ Machine.newLength img.Rect.Size.Y fy) (x y : Int)
    (hx0 : 0 ≤ x) (hx1 : x < img.Rect.Size.X) (hy0 : 0 ≤ y)
    (hy1 : y < Machine.newLength img.Rect.Size.Y fy) :
    (Machine.verticalGray img fy filter).GrayAt x y
      = Machine.resample filter fy img.Rect.Size.Y
          (fun i => img.GrayAt (x + img.Rect.Min.X) (i + img.Rect.Min.Y)) y := by
  have hs := Size_nonneg img.Rect hw
  have hin : (Rect 0 0 img.Rect.Size.X (Machine.newLength img.Rect.Size.Y fy)).Contains x y :=
    (Rect_origin_contains _ _ x y hs.1 hL).mpr ⟨hx0, hx1, hy0, hy1⟩
  unfold Gray.GrayAt
  have hin2 : (Machine.verticalGray img fy filter).Rect.Contains x y := hin
  rw [if_pos hin2]
  show (if _ then _ else _) = _
  rw [if_pos ⟨hx0, hx1, hy0, hy1, hin⟩]
  rfl

/-- C7: for every well-formed single-channel image of at most 2^31 columns and rows all of
whose samples equal v (0 <= v <= 255), and all `float64` scale factors fx > 0, fy > 0 for
which the computed output sizes int(float64(W)*fx) and int(float64(H)*fy) lie in
[0, 2^31], ResizeGray with InterLinear (triangular weight max(0, 1 - |d|), support radius
1), every operation rounded to `float64`, returns a buffer of the computed sizes all of
whose samples equal v. -/
theorem C7_constant_linear (c l : Machine.Filter) (g : Gray) (v : Nat) (fx fy : ℚ)
    (hg : g.Bounds.WellFormed) (hv : v ≤ 255)
    (hconst : ∀ x y, g.Bounds.Contains x y → g.GrayAt x y = v)
    (hfx : 0 < fx) (hfy : 0 < fy)
    (hdx : F64.round fx = .fin fx) (hdy : F64.round fy = .fin fy)
    (hW : g.Bounds.Size.X ≤ 2 ^ 31) (hH : g.Bounds.Size.Y ≤ 2 ^ 31)
    (hLX0 : 0 ≤ Machine.newLength g.Bounds.Size.X (.fin fx))
    (hLX : Machine.newLength g.Bounds.Size.X (.fin fx) ≤ 2 ^ 31)
    (hLY0 : 0 ≤ Machine.newLength g.Bounds.Size.Y (.fin fy))
    (hLY : Machine.newLength g.Bounds.Size.Y (.fin fy) ≤ 2 ^ 31) :
    ∃ res, Machine.ResizeGray c l g (.fin fx) (.fin fy) InterLinear = some (.ok res) ∧
      res.Bounds = ⟨⟨0, 0⟩, ⟨Machine.newLength g.Bounds.Size.X (.fin fx),
        Machine.newLength g.Bounds.Size.Y (.fin fy)⟩⟩ ∧
      ∀ x y, res.Bounds.Contains x y → res.GrayAt x y = v := by
  have hgr : g.Rect.WellFormed := hg
  have hs := Size_nonneg g.Rect hgr
  have hWr : g.Rect.Size.X ≤ 2 ^ 31 := hW
  have hHr : g.Rect.Size.Y ≤ 2 ^ 31 := hH
  have hLX0r : 0 ≤ Machine.newLength g.Rect.Size.X (.fin fx) := hLX0
  have hLXr : Machine.newLength g.Rect.Size.X (.fin fx) ≤ 2 ^ 31 := hLX
  have hLY0r : 0 ≤ Machine.newLength g.Rect.Size.Y (.fin fy) := hLY0
  have hLYr : Machine.newLength g.Rect.Size.Y (.fin fy) ≤ 2 ^ 31 := hLY
  have hfxd : nearest fx = fx := nearest_of_round fx fx hdx
  have hfyd : nearest fy = fy := nearest_of_round fy fy hdy
  have hmid := Machine_NewGray_small _ _ hLX0r hLXr hs.2 hHr
  have hres := Machine_NewGray_small _ _ hLX0r hLXr hLY0r hLYr
  have hM := Machine_horizontalGray_Rect g (.fin fx) Machine.NewLinear hgr hLX0r
  have hMwf : (Machine.horizontalGray g (.fin fx) Machine.NewLinear).Rect.WellFormed := by
    rw [hM]
    exact ⟨hLX0r, hs.2⟩
  have hV := Machine_twoPassGray_Rect g (.fin fx) (.fin fy) Machine.NewLinear Machine.NewLinear
    hgr hLX0r hLY0r
  have hMX : (Machine.horizontalGray g (.fin fx) Machine.NewLinear).Rect.Size.X
      = Machine.newLength g.Rect.Size.X (.fin fx) := by
    rw [hM]; simp [Rectangle.Size]
  have hMY : (Machine.horizontalGray g (.fin fx) Machine.NewLinear).Rect.Size.Y
      = g.Rect.Size.Y := by
    rw [hM]; simp [Rectangle.Size]
  have hMmin : (Machine.horizontalGray g (.fin fx) Machine.NewLinear).Rect.Min = ⟨0, 0⟩ := by
    rw [hM]
  refine ⟨Machine.verticalGray (Machine.horizontalGray g (.fin fx) Machine.NewLinear) (.fin fy)
      Machine.NewLinear,
    Machine_ResizeGray_separable c l g fx fy InterLinear hfx.le hfy.le (Or.inl rfl) hgr hLX0r
      hmid hres, hV, ?_⟩
  intro x y hc
  have hc2 : (Machine.verticalGray (Machine.horizontalGray g (.fin fx) Machine.NewLinear)
      (.fin fy) Machine.NewLinear).Rect.Contains x y := hc
  rw [hV] at hc2
  obtain ⟨hx0, hx1, hy0, hy1⟩ := hc2
  simp only at hx0 hx1 hy0 hy1
  rw [Machine_verticalGray_GrayAt _ (.fin fy) Machine.NewLinear hMwf (by rw [hMY]; exact hLY0r)
    x y hx0 (by rw [hMX]; exact hx1) hy0 (by rw [hMY]; exact hy1)]
  rw [hMY]
  apply Machine_resample_linear_const fy _ y _ v hfyd hfy hs.2 hHr hLYr hy0 hy1 hv
  intro i hi0 hi1
  rw [hMmin]
  simp only [add_zero]
  rw [Machine_horizontalGray_GrayAt g (.fin fx) Machine.NewLinear hgr hLX0r x i hx0 hx1 hi0 hi1]
  apply Machine_resample_linear_const fx _ x _ v hfxd hfx hs.1 hWr hLXr hx0 hx1 hv
  intro j hj0 hj1
  apply hconst
  unfold Rectangle.Size at hj1 hi1
  simp only at hj1 hi1
  show g.Rect.Contains _ _
  unfold Rectangle.Contains
  omega

/-- Witness of C7: the 2x2 buffer of 100 with fx = fy = 2 gives the 4x4 buffer of 100. -/
theorem C7_constant_linear_witness :
    (Gray.ofRows 2 [[100, 100], [100, 100]]).Bounds.WellFormed ∧ 100 ≤ 255 ∧
    (∀ x y, (Gray.ofRows 2 [[100, 100], [100, 100]]).Bounds.Contains x y →
      (Gray.ofRows 2 [[100, 100], [100, 100]]).GrayAt x y = 100) ∧
    (0 : ℚ) < 2 ∧ F64.round 2 = .fin 2 ∧
    (Gray.ofRows 2 [[100, 100], [100, 100]]).Bounds.Size = ⟨2, 2⟩ ∧
    Machine.newLength 2 (.fin 2) = 4 ∧
    (∃ res, Machine.ResizeGray Machine.NewLinear Machine.NewLinear
        (Gray.ofRows 2 [[100, 100], [100, 100]]) (.fin 2) (.fin 2) InterLinear
          = some (.ok res) ∧
      res.Bounds = ⟨⟨0, 0⟩,
        ⟨Machine.newLength (Gray.ofRows 2 [[100, 100], [100, 100]]).Bounds.Size.X (.fin 2),
          Machine.newLength (Gray.ofRows 2 [[100, 100], [100, 100]]).Bounds.Size.Y (.fin 2)⟩⟩ ∧
      ∀ x y, res.Bounds.Contains x y → res.GrayAt x y = 100) ∧
    (Machine.ResizeGray Machine.NewLinear Machine.NewLinear
        (Gray.ofRows 2 [[100, 100], [100, 100]]) (.fin 2) (.fin 2) InterLinear).map
        (fun r => r.toOption.map (fun g => (g.Bounds, g.rows)))
      = some (some (⟨⟨0, 0⟩, ⟨4, 4⟩⟩, [[100, 100, 100, 100], [100, 100, 100, 100],
          [100, 100, 100, 100], [100, 100, 100, 100]])) :=
  ⟨by decide, by decide, ofRows_const_2x2, by norm_num, by decide!, by decide, by decide!,
    C7_constant_linear Machine.NewLinear Machine.NewLinear
      (Gray.ofRows 2 [[100, 100], [100, 100]]) 100 2 2 (by decide) (by decide)
      ofRows_const_2x2 (by norm_num) (by norm_num) (by decide!) (by decide!) (by decide)
      (by decide) (by decide!) (by decide!) (by decide!) (by decide!),
    by decide!⟩

end Imger
